import Mathlib

/-!
The zwm / mwc configuration engine: a shallow embedding of `src/config.c`.

The development follows the C source function by function.

* Intrusive `wl_list` lists are Lean lists in traversal order: the element
  right after the list head comes first, so `wl_list_insert(&head, x)` is
  `x :: l` and `wl_list_insert(head.prev, x)` is `l ++ [x]`.
* Heap strings are `String`, `int` is `Int` (wrapped to 32 bits where the
  source can overflow), counters are `Nat`.
* A function whose C execution can leave defined behaviour (a read or write
  outside an object, `realloc` of a pointer that was not allocated, a failed
  `assert`) returns `Option`; `none` stands for such an execution.
* Library routines and header constants that are not part of `config.c`
  are collected in the structure `Ext` and passed as a parameter.

Part I holds the definitions, Part II the theorems.
-/

namespace Zwm

/-! # Part I: definitions -/

/-! ## C arithmetic -/

/-- The constant `INT_MAX` of `<limits.h>` for a 32-bit `int`. -/
def INT_MAX : Int := 2147483647

/-- The constant `LONG_MAX` of `<limits.h>` for a 64-bit `long`. -/
def LONG_MAX : Int := 9223372036854775807

/-- The constant `LONG_MIN` of `<limits.h>` for a 64-bit `long`. -/
def LONG_MIN : Int := -9223372036854775808

/-- Conversion of an integer value to a 32-bit `int` (two's complement). -/
def to_int32 (x : Int) : Int := (x + 2147483648) % 4294967296 - 2147483648

/-- The `max(a, b)` macro on integers, `(a) > (b) ? (a) : (b)`.  The macro is
defined in a header that is not part of `config.c`; it is taken in its
conventional form. -/
def imax (a b : Int) : Int := if a > b then a else b

/-- The `min(a, b)` macro on integers, `(a) < (b) ? (a) : (b)`. -/
def imin (a b : Int) : Int := if a < b then a else b

/-- The macro `#define clamp(v, a, b) (max((a), min((v), (b))))` on integers. -/
def clamp (v a b : Int) : Int := imax a (imin v b)

/-- A C `double`, as far as the configuration code depends on it: a NaN, the
two infinities, or a finite value given by the rational number it denotes.
Comparisons are exact; arithmetic on finite values is exact rational
arithmetic, that is, IEEE rounding and overflow are not modelled; the one
exception is `color_channel`, where the division and the store into a
`float` are rounded. -/
inductive CDouble where
  | nan
  | ninf
  | fin (q : ℚ)
  | pinf
deriving DecidableEq

namespace CDouble

/-- The C comparison `a < b`; false as soon as one side is a NaN. -/
def lt : CDouble → CDouble → Bool
  | nan, _ => false
  | _, nan => false
  | ninf, ninf => false
  | ninf, _ => true
  | _, ninf => false
  | pinf, _ => false
  | _, pinf => true
  | fin a, fin b => decide (a < b)

/-- The C comparison `a == b`; false as soon as one side is a NaN. -/
def eq : CDouble → CDouble → Bool
  | nan, _ => false
  | _, nan => false
  | ninf, ninf => true
  | pinf, pinf => true
  | fin a, fin b => decide (a = b)
  | _, _ => false

/-- Conversion `(double)n` of an integer. -/
def ofInt (n : Int) : CDouble := fin n

/-- Unary minus. -/
def neg : CDouble → CDouble
  | nan => nan
  | ninf => pinf
  | pinf => ninf
  | fin a => fin (-a)

/-- Addition `a + b`. -/
def add : CDouble → CDouble → CDouble
  | nan, _ => nan
  | _, nan => nan
  | pinf, ninf => nan
  | ninf, pinf => nan
  | pinf, _ => pinf
  | _, pinf => pinf
  | ninf, _ => ninf
  | _, ninf => ninf
  | fin a, fin b => fin (a + b)

/-- Subtraction `a - b`. -/
def sub (a b : CDouble) : CDouble := add a (neg b)

/-- The product of an infinity of sign `pos` with the finite value `a`. -/
def mul_inf (pos : Bool) (a : ℚ) : CDouble :=
  if a = 0 then nan else if (decide (0 < a)) = pos then pinf else ninf

/-- Multiplication `a * b`. -/
def mul : CDouble → CDouble → CDouble
  | nan, _ => nan
  | _, nan => nan
  | pinf, pinf => pinf
  | ninf, ninf => pinf
  | pinf, ninf => ninf
  | ninf, pinf => ninf
  | pinf, fin a => mul_inf true a
  | fin a, pinf => mul_inf true a
  | ninf, fin a => mul_inf false a
  | fin a, ninf => mul_inf false a
  | fin a, fin b => fin (a * b)

/-- Division `a / b` by a finite non-zero value `b`, the only case the
configuration code uses (`/ 255.0`, `/ (BAKED_POINTS_COUNT - 1)`,
`/ (master_count + 1)`); a zero divisor gives an infinity or a NaN. -/
def div : CDouble → CDouble → CDouble
  | nan, _ => nan
  | _, nan => nan
  | fin a, fin b =>
    if b = 0 then (if a = 0 then nan else if 0 < a then pinf else ninf) else fin (a / b)
  | fin _, _ => fin 0
  | pinf, fin b => if 0 ≤ b then pinf else ninf
  | ninf, fin b => if 0 ≤ b then ninf else pinf
  | _, _ => nan

/-- The `max(a, b)` macro on doubles, `(a) > (b) ? (a) : (b)`. -/
def max (a b : CDouble) : CDouble := if lt b a then a else b

/-- The `min(a, b)` macro on doubles, `(a) < (b) ? (a) : (b)`. -/
def min (a b : CDouble) : CDouble := if lt a b then a else b

/-- The macro `#define clamp(v, a, b) (max((a), min((v), (b))))` on doubles. -/
def clamp (v a b : CDouble) : CDouble := max a (min v b)

/-- The value is a finite number between `lo` and `hi`. -/
def within (lo hi : ℚ) : CDouble → Prop
  | fin q => lo ≤ q ∧ q ≤ hi
  | _ => False

end CDouble

/-- The C function `isspace` in the C locale. -/
def isspace (ch : Char) : Bool :=
  ch = ' ' || ch = '\t' || ch = '\n' || ch = '\x0b' || ch = '\x0c' || ch = '\r'

/-- The C function `isdigit`. -/
def isdigit (ch : Char) : Bool := decide ('0'.toNat ≤ ch.toNat ∧ ch.toNat ≤ '9'.toNat)

/-- The value of a run of decimal digits, most significant first, starting
from the accumulator `acc`. -/
def digits_value (acc : Nat) : List Char → Nat
  | [] => acc
  | ch :: rest => digits_value (acc * 10 + (ch.toNat - '0'.toNat)) rest

/-- The C function `strtol(s, NULL, 10)`: white space is skipped, an optional sign is read,
then the longest run of digits; the value saturates at `LONG_MIN` and
`LONG_MAX`. -/
def strtol (s : List Char) : Int :=
  let p := s.dropWhile isspace
  match p with
  | '-' :: rest => imax (-(digits_value 0 (rest.takeWhile isdigit) : Int)) LONG_MIN
  | '+' :: rest => imin (digits_value 0 (rest.takeWhile isdigit) : Int) LONG_MAX
  | _ => imin (digits_value 0 (p.takeWhile isdigit) : Int) LONG_MAX

/-- The C function `atoi(s)`, as the C library computes it: `(int)strtol(s, NULL, 10)`.
For a value inside the `int` range this is the value the C standard
prescribes; outside it the long result is truncated to 32 bits. -/
def atoi (s : String) : Int := to_int32 (strtol s.data)

/-- The value denoted by a decimal literal made of digits only. -/
def literal_value (s : String) : Option Nat :=
  if s.data ≠ [] ∧ s.data.all isdigit then some (digits_value 0 s.data) else none

/-! ## External collaborators -/

/-- What `config.c` uses without defining it: constants of `config.h` and
routines of the C library, the regex library and xkbcommon. -/
structure Ext where
  /-- The constant `STRING_INITIAL_LENGTH` of `config.h`: initial capacity of a token buffer. -/
  STRING_INITIAL_LENGTH : Nat
  /-- The constant `BAKED_POINTS_COUNT` of `config.h`: length of the easing table. -/
  BAKED_POINTS_COUNT : Nat
  /-- The C function `atof`. -/
  atof : String → CDouble
  /-- Whether `regcomp(&compiled, pattern, REG_EXTENDED)` returns 0. -/
  regcomp_ok : String → Bool
  /-- Whether `regexec` of the compiled pattern on the subject returns 0. -/
  regexec_ok : String → String → Bool
  /-- The C function `xkb_keysym_from_name(name, 0)`; 0 (`XKB_KEY_NoSymbol`) when unknown. -/
  xkb_keysym_from_name : String → Nat


/-! ## Data model (`config.h`, `keybinds.h`, `workspace.h`) -/

/-- A compiled `regex_t`, represented by the pattern it was compiled from. -/
abbrev regex_t := String

/-- The C type `enum libinput_config_accel_profile`; `none` is the zero value a
`calloc`ed snapshot starts with. -/
inductive accel_profile where
  | none | flat | adaptive
deriving DecidableEq, Repr

/-- The C type `enum libinput_config_scroll_method`. -/
inductive scroll_method where
  | no_scroll | two_fingers | edge | on_button_down
deriving DecidableEq, Repr

/-- The C type `enum mwc_direction`. -/
inductive mwc_direction where
  | MWC_UP | MWC_RIGHT | MWC_DOWN | MWC_LEFT
deriving DecidableEq, Repr

/-- The C type `struct output_config`. -/
structure output_config where
  name : String
  x : Int
  y : Int
  width : Int
  height : Int
  refresh_rate : Int
  scale : CDouble
deriving DecidableEq

/-- The C type `struct workspace_config`. -/
structure workspace_config where
  index : Int
  output : String
deriving DecidableEq

/-- The C type `struct pointer_config`. -/
structure pointer_config where
  name : String
  acceleration : accel_profile
  sensitivity : CDouble
deriving DecidableEq

/-- The C type `struct window_rule_regex`: each `has_*` flag together with the regex it
guards is an optional regex. -/
structure window_rule_regex where
  app_id_regex : Option regex_t
  title_regex : Option regex_t
deriving DecidableEq

/-- The C type `struct window_rule_float`. -/
structure window_rule_float where
  condition : window_rule_regex
deriving DecidableEq

/-- The C type `struct window_rule_size`. -/
structure window_rule_size where
  condition : window_rule_regex
  relative_width : Bool
  width : Int
  relative_height : Bool
  height : Int
deriving DecidableEq

/-- The C type `struct window_rule_opacity`. -/
structure window_rule_opacity where
  condition : window_rule_regex
  active_value : CDouble
  inactive_value : CDouble
deriving DecidableEq

/-- The three window rule lists of `c->window_rules`. -/
structure window_rules where
  floating : List window_rule_float
  size : List window_rule_size
  opacity : List window_rule_opacity
deriving DecidableEq

/-- The C type `struct layer_rule_regex`. -/
structure layer_rule_regex where
  regex : Option regex_t
deriving DecidableEq

/-- The C type `struct layer_rule_blur`. -/
structure layer_rule_blur where
  condition : layer_rule_regex
deriving DecidableEq

/-- The layer rule lists of `c->layer_rules`. -/
structure layer_rules where
  blur : List layer_rule_blur
deriving DecidableEq

/-- The functions a keybind's `action` and `stop` pointers can hold. -/
inductive keybind_fn where
  | keybind_stop_server
  | keybind_run
  | keybind_close_keyboard_focused_toplevel
  | keybind_focused_toplevel_toggle_floating
  | keybind_resize_focused_toplevel
  | keybind_stop_resize_focused_toplevel
  | keybind_move_focused_toplevel
  | keybind_stop_move_focused_toplevel
  | keybind_move_focus
  | keybind_swap_focused_toplevel
  | keybind_change_workspace
  | keybind_move_focused_toplevel_to_workspace
  | keybind_next_workspace
  | keybind_prev_workspace
  | keybind_focused_toplevel_toggle_fullscreen
  | keybind_reload_config
deriving DecidableEq, Repr

/-- The `void *args` of a keybind, by what the code stored in it: nothing,
a duplicated string, a direction, the integer `atoi` returned, or the
address of a live workspace. -/
inductive keybind_args where
  | null
  | str (s : String)
  | direction (d : mwc_direction)
  | number (n : Int)
  | workspace (addr : Nat)
deriving DecidableEq

/-- The C type `struct keybind`. -/
structure keybind where
  modifiers : Nat
  key : Nat
  action : keybind_fn
  stop : Option keybind_fn
  args : keybind_args
  initialized : Bool
deriving DecidableEq

/-- The C type `struct vec2`. -/
structure vec2 where
  x : CDouble
  y : CDouble
deriving DecidableEq

/-- An array of four floating-point numbers (`float[4]` colour channels,
the four control scalars of `animation_curve`). -/
structure rgba where
  c0 : CDouble
  c1 : CDouble
  c2 : CDouble
  c3 : CDouble
deriving DecidableEq

/-- The C type `struct blur_data`, the fields the configuration sets. -/
structure blur_data where
  num_passes : Int
  radius : Int
  noise : CDouble
  brightness : CDouble
  contrast : CDouble
  saturation : CDouble
deriving DecidableEq

/-- The head of an intrusive list (`struct wl_list`) embedded in a snapshot,
as far as the ring of the list goes.  After `wl_list_init` and any number
of `wl_list_insert` calls the ring closes through the head itself (`own`):
the last entry points forward at the head and the first entry points back
at it.  A head assigned by value from the head of another list (`a = b` on
`struct wl_list`) holds the `next` and `prev` pointers of that head, while
the first and the last entry go on pointing at the head the value was
copied from: the ring closes through a head in another snapshot
(`copied`). -/
inductive list_head where
  | own
  | copied
deriving DecidableEq

/-- The C type `struct mwc_config`, the policy snapshot.  Fields assigned from `atoi`
keep the integer that was assigned.  An intrusive list is given by its
entries in order, starting at the `next` pointer of its head; for the
workspace list, the only one whose head is ever assigned by value,
`workspaces_head` records through which head the ring of the entries
closes. -/
structure mwc_config where
  dir : Option String
  min_toplevel_size : Int
  keyboard_rate : Int
  keyboard_delay : Int
  pointer_sensitivity : CDouble
  pointer_acceleration : accel_profile
  pointers : List pointer_config
  pointer_left_handed : Int
  trackpad_disable_while_typing : Int
  trackpad_natural_scroll : Int
  trackpad_tap_to_click : Int
  trackpad_scroll_method : scroll_method
  border_width : Int
  outer_gaps : Int
  inner_gaps : Int
  master_ratio : CDouble
  master_count : Int
  cursor_theme : Option String
  cursor_size : Int
  inactive_border_color : rgba
  active_border_color : rgba
  outputs : List output_config
  workspaces : List workspace_config
  workspaces_head : list_head
  run : List String
  run_count : Nat
  keybinds : List keybind
  pointer_keybinds : List keybind
  window_rules : window_rules
  animations : Int
  animation_duration : Int
  animation_curve : rgba
  baked_points : Option (List vec2)
  client_side_decorations : Int
  inactive_opacity : CDouble
  active_opacity : CDouble
  apply_opacity_when_fullscreen : Int
  keymap_layouts : Option String
  keymap_variants : Option String
  keymap_options : Option String
  border_radius : Int
  border_radius_location : Nat
  blur : Int
  blur_params : blur_data
  shadows : Int
  shadows_size : Int
  shadows_blur : CDouble
  shadows_position_x : Int
  shadows_position_y : Int
  shadows_color : rgba
  layer_rules : layer_rules
deriving DecidableEq

/-- The all-zero array. -/
def rgba_zero : rgba := ⟨CDouble.fin 0, CDouble.fin 0, CDouble.fin 0, CDouble.fin 0⟩

/-- The snapshot `calloc(1, sizeof(*c))` returns, after the `wl_list_init`
calls of `config_load`: every field zero, every list empty. -/
def config_calloc : mwc_config where
  dir := none
  min_toplevel_size := 0
  keyboard_rate := 0
  keyboard_delay := 0
  pointer_sensitivity := CDouble.fin 0
  pointer_acceleration := accel_profile.none
  pointers := []
  pointer_left_handed := 0
  trackpad_disable_while_typing := 0
  trackpad_natural_scroll := 0
  trackpad_tap_to_click := 0
  trackpad_scroll_method := scroll_method.no_scroll
  border_width := 0
  outer_gaps := 0
  inner_gaps := 0
  master_ratio := CDouble.fin 0
  master_count := 0
  cursor_theme := none
  cursor_size := 0
  inactive_border_color := rgba_zero
  active_border_color := rgba_zero
  outputs := []
  workspaces := []
  workspaces_head := list_head.own
  run := []
  run_count := 0
  keybinds := []
  pointer_keybinds := []
  window_rules := ⟨[], [], []⟩
  animations := 0
  animation_duration := 0
  animation_curve := rgba_zero
  baked_points := none
  client_side_decorations := 0
  inactive_opacity := CDouble.fin 0
  active_opacity := CDouble.fin 0
  apply_opacity_when_fullscreen := 0
  keymap_layouts := none
  keymap_variants := none
  keymap_options := none
  border_radius := 0
  border_radius_location := 0
  blur := 0
  blur_params := ⟨0, 0, CDouble.fin 0, CDouble.fin 0, CDouble.fin 0, CDouble.fin 0⟩
  shadows := 0
  shadows_size := 0
  shadows_blur := CDouble.fin 0
  shadows_position_x := 0
  shadows_position_y := 0
  shadows_color := rgba_zero
  layer_rules := ⟨[]⟩

/-- Process-wide state the parser touches besides the snapshot: the
environment (`setenv`, `getenv`) and the `static size_t count` of
`config_add_keymap`. -/
structure process_state where
  environ : List (String × String)
  count : Nat
deriving DecidableEq

/-- The C function `getenv(name)`. -/
def getenv (g : process_state) (name : String) : Option String :=
  (g.environ.find? (fun kv => kv.1 = name)).map (fun kv => kv.2)

/-- The C function `setenv(name, value, true)`. -/
def setenv (g : process_state) (name value : String) : process_state :=
  { g with environ := (name, value) :: g.environ.filter (fun kv => kv.1 ≠ name) }

/-! ### Constants of wlroots, xkbcommon and scenefx -/

def WLR_MODIFIER_SHIFT : Nat := 1
def WLR_MODIFIER_CTRL : Nat := 4
def WLR_MODIFIER_ALT : Nat := 8
def WLR_MODIFIER_LOGO : Nat := 64

def XKB_KEY_Return : Nat := 0xff0d
def XKB_KEY_BackSpace : Nat := 0xff08
def XKB_KEY_Delete : Nat := 0xffff
def XKB_KEY_Escape : Nat := 0xff1b
def XKB_KEY_Tab : Nat := 0xff09
def XKB_KEY_Up : Nat := 0xff52
def XKB_KEY_Down : Nat := 0xff54
def XKB_KEY_Left : Nat := 0xff51
def XKB_KEY_Right : Nat := 0xff53

def CORNER_LOCATION_TOP_LEFT : Nat := 1
def CORNER_LOCATION_TOP_RIGHT : Nat := 2
def CORNER_LOCATION_BOTTOM_RIGHT : Nat := 4
def CORNER_LOCATION_BOTTOM_LEFT : Nat := 8
def CORNER_LOCATION_ALL : Nat := 15
def CORNER_LOCATION_TOP : Nat := 3
def CORNER_LOCATION_BOTTOM : Nat := 12
def CORNER_LOCATION_LEFT : Nat := 9
def CORNER_LOCATION_RIGHT : Nat := 6

/-! ## Colours and the easing curve -/

/-- The C function `hex_to_unsigned_decimal(hex, len)`: the first `len` characters of `hex`
read as a base-16 number in a `uint32_t`; a character that is not a hex
digit adds nothing.  The callers pass `len` characters that exist. -/
def hex_to_unsigned_decimal (hex : List Char) (len : Nat) : Nat :=
  (hex.take len).foldl (fun result current =>
    let result := (result * 16) % 4294967296
    if '0'.toNat ≤ current.toNat ∧ current.toNat ≤ '9'.toNat then
      (result + (current.toNat - '0'.toNat)) % 4294967296
    else if 'a'.toNat ≤ current.toNat ∧ current.toNat ≤ 'f'.toNat then
      (result + (current.toNat - 'a'.toNat) + 10) % 4294967296
    else if 'A'.toNat ≤ current.toNat ∧ current.toNat ≤ 'F'.toNat then
      (result + (current.toNat - 'A'.toNat) + 10) % 4294967296
    else result) 0

/-- The scale of the binary floating-point number with `p` significant bits
nearest to the positive rational `n / d`: the least `s`, counted from the
given start and searched for `fuel` steps, with `2^(p-1) ≤ n * 2^s / d`. -/
def float_scale (p n d : Nat) : Nat → Nat → Nat
  | 0, s => s
  | fuel + 1, s => if 2 ^ (p - 1) * d ≤ n * 2 ^ s then s else float_scale p n d fuel (s + 1)

/-- Rounding to nearest, ties to even, of the rational `n / d` to a binary
floating-point number with `p` significant bits, as IEEE 754 division and
conversion do it: the pair `(m, s)` stands for the value `m / 2^s`.  The
definition covers `2^(p-1-2048) ≤ n / d < 2^p` and zero, which holds all the
quotients of a byte by 255 with room to spare. -/
def round_nearest_even (p n d : Nat) : Nat × Nat :=
  if n = 0 then (0, 0)
  else
    let s := float_scale p n d 2048 0
    let m := n * 2 ^ s / d
    let r := n * 2 ^ s % d
    if 2 * r > d ∨ (2 * r = d ∧ m % 2 = 1) then (m + 1, s) else (m, s)

/-- The value `dest[i] = b / 255.0` leaves in a `float`: the quotient is
computed in `double` (53 significant bits) and the store converts it to
`float` (24 significant bits). -/
def float_byte (b : Nat) : Nat × Nat :=
  let quotient := round_nearest_even 53 b 255
  round_nearest_even 24 quotient.1 (2 ^ quotient.2)

/-- One channel: `clamp(v, 0, 255) / 255.0`, stored through `float *dest`. -/
def color_channel (v : Int) : CDouble :=
  let stored := float_byte (clamp v 0 255).toNat
  CDouble.fin ((stored.1 : ℚ) / (2 ^ stored.2 : ℚ))

/-- The C function `parse_color_rgba_or_hex(args, arg_count, dest)`.  The result is `none`
when `args[0]` is read from an empty argument array, `some none` when the
function returns false (`dest` untouched) and `some (some d)` when it
returns true having written `d` to `dest`. -/
def parse_color_rgba_or_hex (args : List String) : Option (Option rgba) :=
  if args.length = 4 then do
    let a0 ← args[0]?
    let a1 ← args[1]?
    let a2 ← args[2]?
    let a3 ← args[3]?
    some (some ⟨color_channel (atoi a0), color_channel (atoi a1),
                color_channel (atoi a2), color_channel (atoi a3)⟩)
  else do
    let a0 ← args[0]?
    if a0.data.length = 8 then
      some (some ⟨color_channel (hex_to_unsigned_decimal (a0.data.drop 0) 2),
                  color_channel (hex_to_unsigned_decimal (a0.data.drop 2) 2),
                  color_channel (hex_to_unsigned_decimal (a0.data.drop 4) 2),
                  color_channel (hex_to_unsigned_decimal (a0.data.drop 6) 2)⟩)
    else some none

instance : Add CDouble := ⟨CDouble.add⟩
instance : Sub CDouble := ⟨CDouble.sub⟩
instance : Mul CDouble := ⟨CDouble.mul⟩
instance : Div CDouble := ⟨CDouble.div⟩

/-- The C function `calculate_animation_curve_at(c, t)`. -/
def calculate_animation_curve_at (c : mwc_config) (t : CDouble) : vec2 :=
  let one := CDouble.fin 1
  let three := CDouble.fin 3
  { x := three * t * (one - t) * (one - t) * c.animation_curve.c0
         + three * t * t * (one - t) * c.animation_curve.c2
         + t * t * t,
    y := three * t * (one - t) * (one - t) * c.animation_curve.c1
         + three * t * t * (one - t) * c.animation_curve.c3
         + t * t * t }

/-- The C function `bake_bezier_curve_points(c)`: a fresh table of `BAKED_POINTS_COUNT`
samples at `t = (double)i / (BAKED_POINTS_COUNT - 1)`. -/
def bake_bezier_curve_points (E : Ext) (c : mwc_config) : mwc_config :=
  { c with baked_points := some ((List.range E.BAKED_POINTS_COUNT).map (fun i =>
      calculate_animation_curve_at c
        (CDouble.ofInt (i : Int) / CDouble.ofInt ((E.BAKED_POINTS_COUNT : Int) - 1)))) }

/-! ## Rules -/

/-- The regex prologue shared by the rule constructors: `_` gives an
unconstrained condition (`some none`), a pattern that compiles gives
`some (some pattern)`, and a pattern `regcomp` rejects gives `none`, on
which the constructor returns false. -/
def compile_condition (E : Ext) (regex : String) : Option (Option regex_t) :=
  if regex = "_" then some none
  else if E.regcomp_ok regex then some (some regex)
  else none

/-- The C function `config_add_layer_rule(c, regex, predicate, args, arg_count)`: the
returned flag and the snapshot afterwards. -/
def config_add_layer_rule (E : Ext) (c : mwc_config) (regex predicate : String)
    (_args : List String) : Bool × mwc_config :=
  match compile_condition E regex with
  | none => (false, c)
  | some condition =>
    if predicate = "blur" then
      (true, { c with layer_rules := { blur := ⟨⟨condition⟩⟩ :: c.layer_rules.blur } })
    else (false, c)

/-- The `%` handling of a `size` argument: `args[i][strlen(args[i]) - 1]`
is read, and when it is `%` the character is cut off and the axis is
relative.  For an empty argument the read is at index `(size_t)-1`, outside
the string: `none`. -/
def size_argument (a : String) : Option (Bool × String) :=
  match a.data.getLast? with
  | none => none
  | some last =>
    if last = '%' then some (true, String.mk a.data.dropLast) else some (false, a)

/-- The C function `config_add_window_rule(c, app_id_regex, title_regex, predicate, args,
arg_count)`: `none` for an execution with an out-of-bounds read, otherwise
the returned flag and the snapshot afterwards. -/
def config_add_window_rule (E : Ext) (c : mwc_config) (app_id_regex title_regex predicate : String)
    (args : List String) : Option (Bool × mwc_config) :=
  let arg_count := args.length
  match compile_condition E app_id_regex with
  | none => some (false, c)
  | some app_id =>
    match compile_condition E title_regex with
    | none => some (false, c)
    | some title =>
      let condition : window_rule_regex := ⟨app_id, title⟩
      if predicate = "float" then
        some (true, { c with window_rules :=
          { c.window_rules with floating := ⟨condition⟩ :: c.window_rules.floating } })
      else if predicate = "size" then
        if arg_count < 2 then some (false, c) else do
          let a0 ← args[0]?
          let a1 ← args[1]?
          let w ← size_argument a0
          let h ← size_argument a1
          let window_rule : window_rule_size :=
            { condition := condition,
              relative_width := w.1, width := clamp (atoi w.2) 0 INT_MAX,
              relative_height := h.1, height := clamp (atoi h.2) 0 INT_MAX }
          some (true, { c with window_rules :=
            { c.window_rules with size := window_rule :: c.window_rules.size } })
      else if predicate = "opacity" then
        if arg_count < 1 then some (false, c) else do
          let a0 ← args[0]?
          let active_value := CDouble.clamp (E.atof a0) (CDouble.fin 0) (CDouble.fin 1)
          let inactive_value ←
            if arg_count > 1 then
              (args[1]?).map (fun a1 => CDouble.clamp (E.atof a1) (CDouble.fin 0) (CDouble.fin 1))
            else some active_value
          let window_rule : window_rule_opacity := ⟨condition, active_value, inactive_value⟩
          some (true, { c with window_rules :=
            { c.window_rules with opacity := window_rule :: c.window_rules.opacity } })
      else some (false, c)

/-! ## Keymap strings -/

/-- The C function `string_append_with_comma(a, b, cap, comma)`: the buffer is grown as
needed and `b` is appended to `a`, after a comma when `comma` is set. -/
def string_append_with_comma (a b : String) (comma : Bool) : String :=
  String.mk (a.data ++ (if comma then [','] else []) ++ b.data)

/-- The C function `config_add_keymap(c, layout, variant)`, with its static counter kept in
the process state. -/
def config_add_keymap (c : mwc_config) (g : process_state) (layout variant : String) :
    mwc_config × process_state :=
  let init : mwc_config × Nat :=
    match c.keymap_layouts with
    | none => ({ c with keymap_layouts := some "", keymap_variants := some "" }, 0)
    | some _ => (c, g.count)
  let c1 := init.1
  let count := init.2
  let c2 := { c1 with
    keymap_layouts :=
      some (string_append_with_comma (c1.keymap_layouts.getD "") layout (decide (count ≠ 0))),
    keymap_variants :=
      some (string_append_with_comma (c1.keymap_variants.getD "") variant (decide (count ≠ 0))) }
  (c2, { g with count := count + 1 })

/-! ## Keybinds -/

/-- The inner loop of the modifier parser: characters are copied into
`char mod[64]` up to the next `+` or the end of the string.  A token of 64
or more characters does not fit the buffer together with its terminator:
`none`.  Otherwise the token and the rest of the string (starting at the
`+`, or empty) are returned. -/
def read_modifier : List Char → List Char → Option (List Char × List Char)
  | mod, [] => if mod.length ≥ 64 then none else some (mod, [])
  | mod, ch :: rest =>
    if ch = '+' then (if mod.length ≥ 64 then none else some (mod, ch :: rest))
    else read_modifier (mod ++ [ch]) rest

/-- The flag a modifier token contributes. -/
def modifier_flag (mod : List Char) : Nat :=
  if mod = "alt".data then WLR_MODIFIER_ALT
  else if mod = "super".data then WLR_MODIFIER_LOGO
  else if mod = "ctrl".data then WLR_MODIFIER_CTRL
  else if mod = "shift".data then WLR_MODIFIER_SHIFT
  else 0

/-- The outer loop `while(*p != 0)` of the modifier parser.  Every round
consumes at least one character, so `fuel = strlen(modifiers)` rounds are
enough; running out of fuel with characters left is reported as `none`. -/
def parse_modifiers : Nat → List Char → Nat → Option Nat
  | _, [], modifiers_flag => some modifiers_flag
  | 0, _ :: _, _ => none
  | fuel + 1, ch :: rest, modifiers_flag =>
    match read_modifier [] (ch :: rest) with
    | none => none
    | some (mod, p) =>
      let modifiers_flag := modifiers_flag ||| modifier_flag mod
      match p with
      | '+' :: p1 => parse_modifiers fuel p1 modifiers_flag
      | p1 => parse_modifiers fuel p1 modifiers_flag

/-- The button code of a pointer key name (the text after `mouse_` or
`pointer_`); `atoi` is converted to `uint32_t`. -/
def pointer_key_sym (key : String) : Nat :=
  if key = "left_click" then 272
  else if key = "right_click" then 273
  else if key = "middle_click" then 274
  else ((atoi key) % 4294967296).toNat

/-- The key resolution of `config_add_keybind`: `none` when the function
returns false (keysym lookup failed), otherwise the `pointer` flag and the
key code. -/
def resolve_key (E : Ext) (key : String) : Option (Bool × Nat) :=
  if key.data.take 6 = "mouse_".data then
    some (true, pointer_key_sym (String.mk (key.data.drop 6)))
  else if key.data.take 8 = "pointer_".data then
    some (true, pointer_key_sym (String.mk (key.data.drop 8)))
  else if key = "return" ∨ key = "enter" then some (false, XKB_KEY_Return)
  else if key = "backspace" then some (false, XKB_KEY_BackSpace)
  else if key = "delete" then some (false, XKB_KEY_Delete)
  else if key = "escape" then some (false, XKB_KEY_Escape)
  else if key = "tab" then some (false, XKB_KEY_Tab)
  else if key = "up" then some (false, XKB_KEY_Up)
  else if key = "down" then some (false, XKB_KEY_Down)
  else if key = "left" then some (false, XKB_KEY_Left)
  else if key = "right" then some (false, XKB_KEY_Right)
  else
    let key_sym := E.xkb_keysym_from_name key
    if key_sym = 0 then none else some (false, key_sym)

/-- The direction named by an argument of `move_focus` and `swap`. -/
def parse_direction (a : String) : Option mwc_direction :=
  if a = "up" then some mwc_direction.MWC_UP
  else if a = "left" then some mwc_direction.MWC_LEFT
  else if a = "down" then some mwc_direction.MWC_DOWN
  else if a = "right" then some mwc_direction.MWC_RIGHT
  else none

/-- The action chain of `config_add_keybind`, applied to the keybind `k`
that holds the modifiers and the key and has `initialized = true`: `none`
for an execution that reads `args[0]` out of bounds, `some none` when the
function logs an error, frees `k` and returns false, `some (some k1)` for
the completed keybind. -/
def keybind_action (k : keybind) (action : String) (args : List String) :
    Option (Option keybind) :=
  let arg_count := args.length
  if action = "exit" then
    some (some { k with action := keybind_fn.keybind_stop_server })
  else if action = "run" then
    if arg_count < 1 then some none else do
      let a0 ← args[0]?
      some (some { k with action := keybind_fn.keybind_run, args := keybind_args.str a0 })
  else if action = "kill_active" then
    some (some { k with action := keybind_fn.keybind_close_keyboard_focused_toplevel })
  else if action = "switch_floating_state" ∨ action = "toggle_floating" then
    some (some { k with action := keybind_fn.keybind_focused_toplevel_toggle_floating })
  else if action = "resize" then
    some (some { k with action := keybind_fn.keybind_resize_focused_toplevel,
                        stop := some keybind_fn.keybind_stop_resize_focused_toplevel })
  else if action = "move" then
    some (some { k with action := keybind_fn.keybind_move_focused_toplevel,
                        stop := some keybind_fn.keybind_stop_move_focused_toplevel })
  else if action = "move_focus" then
    if arg_count < 1 then some none else do
      let a0 ← args[0]?
      match parse_direction a0 with
      | none => some none
      | some direction =>
        some (some { k with action := keybind_fn.keybind_move_focus,
                            args := keybind_args.direction direction })
  else if action = "swap" then
    if arg_count < 1 then some none else do
      let a0 ← args[0]?
      match parse_direction a0 with
      | none => some none
      | some direction =>
        some (some { k with action := keybind_fn.keybind_swap_focused_toplevel,
                            args := keybind_args.direction direction })
  else if action = "workspace" then
    if arg_count < 1 then some none else do
      let a0 ← args[0]?
      some (some { k with action := keybind_fn.keybind_change_workspace,
                          args := keybind_args.number (atoi a0), initialized := false })
  else if action = "move_to_workspace" then
    if arg_count < 1 then some none else do
      let a0 ← args[0]?
      some (some { k with action := keybind_fn.keybind_move_focused_toplevel_to_workspace,
                          args := keybind_args.number (atoi a0), initialized := false })
  else if action = "next_workspace" then
    some (some { k with action := keybind_fn.keybind_next_workspace })
  else if action = "prev_workspace" then
    some (some { k with action := keybind_fn.keybind_prev_workspace })
  else if action = "toggle_fullscreen" then
    some (some { k with action := keybind_fn.keybind_focused_toplevel_toggle_fullscreen })
  else if action = "reload_config" then
    some (some { k with action := keybind_fn.keybind_reload_config })
  else some none

/-- The C function `config_add_keybind(c, modifiers, key, action, args, arg_count)`: `none`
for an execution that leaves defined behaviour, otherwise the returned flag
and the snapshot afterwards.  The keybind is created zeroed (`calloc`), so
its action is a placeholder until the action chain sets it. -/
def config_add_keybind (E : Ext) (c : mwc_config) (modifiers key action : String)
    (args : List String) : Option (Bool × mwc_config) := do
  let modifiers_flag ← parse_modifiers modifiers.data.length modifiers.data 0
  match resolve_key E key with
  | none => some (false, c)
  | some (pointer, key_sym) =>
    let k : keybind :=
      { modifiers := modifiers_flag, key := key_sym, action := keybind_fn.keybind_stop_server,
        stop := none, args := keybind_args.null, initialized := true }
    match ← keybind_action k action args with
    | none => some (false, c)
    | some k1 =>
      if pointer then some (true, { c with pointer_keybinds := k1 :: c.pointer_keybinds })
      else some (true, { c with keybinds := k1 :: c.keybinds })

/-! ## The directive dispatcher -/

/-- What one call of `config_handle_value` leaves behind: the returned
flag, the snapshot and the process state. -/
structure handled where
  ok : Bool
  c : mwc_config
  g : process_state
deriving DecidableEq

/-- The corner bit a token of `border_radius_location` adds. -/
def corner_bit (a : String) : Nat :=
  if a = "top" then CORNER_LOCATION_TOP
  else if a = "bottom" then CORNER_LOCATION_BOTTOM
  else if a = "right" then CORNER_LOCATION_RIGHT
  else if a = "left" then CORNER_LOCATION_LEFT
  else if a = "top_right" then CORNER_LOCATION_TOP_RIGHT
  else if a = "bottom_right" then CORNER_LOCATION_BOTTOM_RIGHT
  else if a = "bottom_left" then CORNER_LOCATION_BOTTOM_LEFT
  else if a = "top_left" then CORNER_LOCATION_TOP_LEFT
  else 0

/-- The expression `atoi(a) ? LIBINPUT_CONFIG_ACCEL_PROFILE_ADAPTIVE : LIBINPUT_CONFIG_ACCEL_PROFILE_FLAT`. -/
def accel_of (a : String) : accel_profile :=
  if atoi a ≠ 0 then accel_profile.adaptive else accel_profile.flat

/-- The C function `config_handle_value(c, keyword, args, arg_count)`.  The result is
`none` for an execution that leaves defined behaviour; otherwise it holds
the returned flag, the snapshot and the process state afterwards.  The
`invalid` and `depricated` labels and the early `return false` statements
leave both untouched. -/
def config_handle_value (E : Ext) (c : mwc_config) (g : process_state) (keyword : String)
    (args : List String) : Option handled :=
  let arg_count := args.length
  let invalid : Option handled := some ⟨false, c, g⟩
  if keyword = "min_toplevel_size" then
    if arg_count < 1 then invalid else do
      let a0 ← args[0]?
      some ⟨true, { c with min_toplevel_size := clamp (atoi a0) 0 INT_MAX }, g⟩
  else if keyword = "keyboard_rate" then
    if arg_count < 1 then invalid else do
      let a0 ← args[0]?
      some ⟨true, { c with keyboard_rate := clamp (atoi a0) 0 INT_MAX }, g⟩
  else if keyword = "keyboard_delay" then
    if arg_count < 1 then invalid else do
      let a0 ← args[0]?
      some ⟨true, { c with keyboard_delay := clamp (atoi a0) 0 INT_MAX }, g⟩
  else if keyword = "pointer_sensitivity" then
    if arg_count < 1 then invalid else do
      let a0 ← args[0]?
      some ⟨true, { c with pointer_sensitivity := CDouble.clamp (E.atof a0) (CDouble.fin (-1)) (CDouble.fin 1) }, g⟩
  else if keyword = "pointer_acceleration" then
    if arg_count < 1 then invalid else do
      let a0 ← args[0]?
      some ⟨true, { c with pointer_acceleration := accel_of a0 }, g⟩
  else if keyword = "pointer" then
    if arg_count < 3 then invalid else do
      let a0 ← args[0]?
      let a1 ← args[1]?
      let a2 ← args[2]?
      let p : pointer_config :=
        { name := a0, acceleration := accel_of a1,
          sensitivity := CDouble.clamp (E.atof a2) (CDouble.fin (-1)) (CDouble.fin 1) }
      some ⟨true, { c with pointers := p :: c.pointers }, g⟩
  else if keyword = "pointer_left_handed" then
    if arg_count < 1 then invalid else do
      let a0 ← args[0]?
      some ⟨true, { c with pointer_left_handed := atoi a0 }, g⟩
  else if keyword = "trackpad_disable_while_typing" then
    if arg_count < 1 then invalid else do
      let a0 ← args[0]?
      some ⟨true, { c with trackpad_disable_while_typing := atoi a0 }, g⟩
  else if keyword = "natural_scroll" ∨ keyword = "trackpad_natural_scroll" then
    if arg_count < 1 then invalid else do
      let a0 ← args[0]?
      some ⟨true, { c with trackpad_natural_scroll := atoi a0 }, g⟩
  else if keyword = "tap_to_click" ∨ keyword = "trackpad_tap_to_click" then
    if arg_count < 1 then invalid else do
      let a0 ← args[0]?
      some ⟨true, { c with trackpad_tap_to_click := atoi a0 }, g⟩
  else if keyword = "trackpad_scroll_method" then
    if arg_count < 1 then invalid else do
      let a0 ← args[0]?
      if a0 = "no_scroll" then
        some ⟨true, { c with trackpad_scroll_method := scroll_method.no_scroll }, g⟩
      else if a0 = "two_fingers" then
        some ⟨true, { c with trackpad_scroll_method := scroll_method.two_fingers }, g⟩
      else if a0 = "edge" then
        some ⟨true, { c with trackpad_scroll_method := scroll_method.edge }, g⟩
      else if a0 = "on_button_down" then
        some ⟨true, { c with trackpad_scroll_method := scroll_method.on_button_down }, g⟩
      else invalid
  else if keyword = "border_width" then
    if arg_count < 1 then invalid else do
      let a0 ← args[0]?
      some ⟨true, { c with border_width := clamp (atoi a0) 0 INT_MAX }, g⟩
  else if keyword = "outer_gaps" then
    if arg_count < 1 then invalid else do
      let a0 ← args[0]?
      some ⟨true, { c with outer_gaps := clamp (atoi a0) 0 INT_MAX }, g⟩
  else if keyword = "inner_gaps" then
    if arg_count < 1 then invalid else do
      let a0 ← args[0]?
      some ⟨true, { c with inner_gaps := clamp (atoi a0) 0 INT_MAX }, g⟩
  else if keyword = "master_ratio" then
    if arg_count < 1 then invalid else do
      let a0 ← args[0]?
      some ⟨true, { c with master_ratio := CDouble.clamp (E.atof a0) (CDouble.ofInt 0) (CDouble.ofInt 1) }, g⟩
  else if keyword = "master_count" then
    if arg_count < 1 then invalid else do
      let a0 ← args[0]?
      some ⟨true, { c with master_count := clamp (atoi a0) 1 INT_MAX }, g⟩
  else if keyword = "cursor_theme" then
    if arg_count < 1 then invalid else do
      let a0 ← args[0]?
      some ⟨true, { c with cursor_theme := some a0 }, g⟩
  else if keyword = "cursor_size" then
    if arg_count < 1 then invalid else do
      let a0 ← args[0]?
      some ⟨true, { c with cursor_size := clamp (atoi a0) 0 INT_MAX }, g⟩
  else if keyword = "inactive_border_color" then do
    match ← parse_color_rgba_or_hex args with
    | none => invalid
    | some dest => some ⟨true, { c with inactive_border_color := dest }, g⟩
  else if keyword = "active_border_color" then do
    match ← parse_color_rgba_or_hex args with
    | none => invalid
    | some dest => some ⟨true, { c with active_border_color := dest }, g⟩
  else if keyword = "output" then
    if arg_count < 6 then invalid else do
      let a0 ← args[0]?
      let a1 ← args[1]?
      let a2 ← args[2]?
      let a3 ← args[3]?
      let a4 ← args[4]?
      let a5 ← args[5]?
      let scale ← if arg_count > 6 then (args[6]?).map E.atof else some (CDouble.ofInt 1)
      let m : output_config :=
        { name := a0, x := atoi a1, y := atoi a2, width := atoi a3, height := atoi a4,
          refresh_rate := to_int32 (atoi a5 * 1000), scale := scale }
      some ⟨true, { c with outputs := m :: c.outputs }, g⟩
  else if keyword = "workspace" then
    if arg_count < 2 then invalid else do
      let a0 ← args[0]?
      let a1 ← args[1]?
      let w : workspace_config := { index := atoi a0, output := a1 }
      some ⟨true, { c with workspaces := w :: c.workspaces }, g⟩
  else if keyword = "run" then
    if arg_count < 1 then invalid else do
      if c.run_count > 64 then invalid else do
        let a0 ← args[0]?
        some ⟨true, { c with run := c.run ++ [a0], run_count := c.run_count + 1 }, g⟩
  else if keyword = "keybind" then
    if arg_count < 3 then invalid else do
      let a0 ← args[0]?
      let a1 ← args[1]?
      let a2 ← args[2]?
      let r ← config_add_keybind E c a0 a1 a2 (args.drop 3)
      some ⟨true, r.2, g⟩
  else if keyword = "env" then
    if arg_count < 2 then invalid else do
      let a0 ← args[0]?
      let a1 ← args[1]?
      some ⟨true, c, setenv g a0 a1⟩
  else if keyword = "window_rule" then
    if arg_count < 3 then invalid else do
      let a0 ← args[0]?
      let a1 ← args[1]?
      let a2 ← args[2]?
      let r ← config_add_window_rule E c a0 a1 a2 (args.drop 3)
      some ⟨true, r.2, g⟩
  else if keyword = "animations" then
    if arg_count < 1 then invalid else do
      let a0 ← args[0]?
      some ⟨true, { c with animations := atoi a0 }, g⟩
  else if keyword = "animation_duration" then
    if arg_count < 1 then invalid else do
      let a0 ← args[0]?
      some ⟨true, { c with animation_duration := clamp (atoi a0) 0 INT_MAX }, g⟩
  else if keyword = "animation_curve" then
    if arg_count < 4 then invalid else do
      let a0 ← args[0]?
      let a1 ← args[1]?
      let a2 ← args[2]?
      let a3 ← args[3]?
      some ⟨true, bake_bezier_curve_points E { c with animation_curve := ⟨E.atof a0, E.atof a1, E.atof a2, E.atof a3⟩ }, g⟩
  else if keyword = "placeholder_color" then
    invalid
  else if keyword = "client_side_decorations" then
    if arg_count < 1 then invalid else do
      let a0 ← args[0]?
      some ⟨true, { c with client_side_decorations := atoi a0 }, g⟩
  else if keyword = "inactive_opacity" then
    if arg_count < 1 then invalid else do
      let a0 ← args[0]?
      some ⟨true, { c with inactive_opacity := CDouble.clamp (E.atof a0) (CDouble.fin 0) (CDouble.fin 1) }, g⟩
  else if keyword = "active_opacity" then
    if arg_count < 1 then invalid else do
      let a0 ← args[0]?
      some ⟨true, { c with active_opacity := CDouble.clamp (E.atof a0) (CDouble.fin 0) (CDouble.fin 1) }, g⟩
  else if keyword = "apply_opacity_when_fullscreen" then
    if arg_count < 1 then invalid else do
      let a0 ← args[0]?
      some ⟨true, { c with apply_opacity_when_fullscreen := atoi a0 }, g⟩
  else if keyword = "keymap" then
    if arg_count < 2 then invalid else do
      let a0 ← args[0]?
      let a1 ← args[1]?
      let r := config_add_keymap c g a0 a1
      some ⟨true, r.1, r.2⟩
  else if keyword = "keymap_options" then
    if arg_count < 1 then invalid else do
      let a0 ← args[0]?
      some ⟨true, { c with keymap_options := some a0 }, g⟩
  else if keyword = "border_radius" then
    if arg_count < 1 then invalid else do
      let a0 ← args[0]?
      some ⟨true, { c with border_radius := clamp (atoi a0) 1 INT_MAX }, g⟩
  else if keyword = "border_radius_location" then
    if arg_count < 1 then invalid else do
      let a0 ← args[0]?
      if a0 = "all" then
        some ⟨true, { c with border_radius_location := CORNER_LOCATION_ALL }, g⟩
      else
        some ⟨true, { c with border_radius_location := args.foldl (fun loc a => loc ||| corner_bit a) c.border_radius_location }, g⟩
  else if keyword = "blur" then
    if arg_count < 1 then invalid else do
      let a0 ← args[0]?
      some ⟨true, { c with blur := atoi a0 }, g⟩
  else if keyword = "blur_passes" then
    if arg_count < 1 then invalid else do
      let a0 ← args[0]?
      some ⟨true, { c with blur_params := { c.blur_params with num_passes := clamp (atoi a0) 1 INT_MAX } }, g⟩
  else if keyword = "blur_radius" then
    if arg_count < 1 then invalid else do
      let a0 ← args[0]?
      some ⟨true, { c with blur_params := { c.blur_params with radius := clamp (atoi a0) 0 INT_MAX } }, g⟩
  else if keyword = "blur_noise" then
    if arg_count < 1 then invalid else do
      let a0 ← args[0]?
      some ⟨true, { c with blur_params := { c.blur_params with noise := CDouble.max (E.atof a0) (CDouble.fin 0) } }, g⟩
  else if keyword = "blur_brightness" then
    if arg_count < 1 then invalid else do
      let a0 ← args[0]?
      some ⟨true, { c with blur_params := { c.blur_params with brightness := CDouble.max (E.atof a0) (CDouble.fin 0) } }, g⟩
  else if keyword = "blur_contrast" then
    if arg_count < 1 then invalid else do
      let a0 ← args[0]?
      some ⟨true, { c with blur_params := { c.blur_params with contrast := CDouble.max (E.atof a0) (CDouble.fin 0) } }, g⟩
  else if keyword = "blur_saturation" then
    if arg_count < 1 then invalid else do
      let a0 ← args[0]?
      some ⟨true, { c with blur_params := { c.blur_params with saturation := CDouble.max (E.atof a0) (CDouble.fin 0) } }, g⟩
  else if keyword = "shadows" then
    if arg_count < 1 then invalid else do
      let a0 ← args[0]?
      some ⟨true, { c with shadows := atoi a0 }, g⟩
  else if keyword = "shadows_size" then
    if arg_count < 1 then invalid else do
      let a0 ← args[0]?
      some ⟨true, { c with shadows_size := imax (atoi a0) 0 }, g⟩
  else if keyword = "shadows_blur" then
    if arg_count < 1 then invalid else do
      let a0 ← args[0]?
      some ⟨true, { c with shadows_blur := CDouble.max (E.atof a0) (CDouble.fin 0) }, g⟩
  else if keyword = "shadows_position" then
    if arg_count < 2 then invalid else do
      let a0 ← args[0]?
      let a1 ← args[1]?
      some ⟨true, { c with shadows_position_x := atoi a0, shadows_position_y := atoi a1 }, g⟩
  else if keyword = "shadows_color" then do
    match ← parse_color_rgba_or_hex args with
    | none => invalid
    | some dest => some ⟨true, { c with shadows_color := dest }, g⟩
  else if keyword = "layer_rule" then
    if arg_count < 2 then invalid else do
      let a0 ← args[0]?
      let a1 ← args[1]?
      some ⟨true, (config_add_layer_rule E c a0 a1 (args.drop 2)).2, g⟩
  else invalid

/-! ## The tokenizer -/

/-- What `config_handle_line` does with a line: it leaves defined behaviour
(`undefined`), returns false right away for a blank line or a comment
(`skip`), logs "no args provided" and returns false (`no_args`), or returns
true with a keyword and its arguments. -/
inductive line_result where
  | undefined
  | skip
  | no_args
  | directive (keyword : String) (args : List String)
deriving DecidableEq

/-- The C string held in a character buffer: the characters before the
first NUL. -/
def c_string (buffer : List Char) : String := String.mk (buffer.takeWhile (fun ch => ch ≠ '\x00'))

/-- The loop `while(*p == ' ' || *p == '\t') p++;` on the memory at `p`. -/
def skip_whitespace : List Char → List Char
  | [] => []
  | ch :: rest => if ch = ' ' ∨ ch = '\t' then skip_whitespace rest else ch :: rest

/-- The keyword loop of `config_handle_line` and the termination of the
keyword after it, with `cap = STRING_INITIAL_LENGTH`.  When `len >= cap` the
source executes `keyword = realloc(keyword, cap)`, in which `keyword` is the
caller's output parameter and not the buffer `kw`, and then writes to
`kw[len]`: `none`.  Reading past the end of the memory is `none` as well.
Otherwise the keyword buffer and the position after the keyword are
returned. -/
def read_keyword (cap : Nat) : List Char → List Char → Option (List Char × List Char)
  | _, [] => none
  | kw, ch :: rest =>
    if ch ≠ ' ' ∧ ch ≠ '\t' ∧ ch ≠ '\n' then
      if kw.length ≥ cap then none else read_keyword cap (kw ++ [ch]) rest
    else
      if kw.length ≥ cap then none else some (kw, ch :: rest)

/-- The token loop of `config_handle_line`:
`while((word && *p != '"' && *p != '\n') || (!word && *p != ' ' && *p != '\t' && *p != '\n'))`,
with the two escapes recognised inside quotes (`*(p + 1)` is the second
character of the memory).  The argument buffer is grown with `realloc` on
the buffer itself, so a token has no length limit.  Returns the token and
the position the loop stopped at; running past the end of the memory is
`none`. -/
def read_token (word : Bool) : List Char → List Char → Option (List Char × List Char)
  | _, [] => none
  | tok, [ch] =>
    if (word ∧ ch ≠ '"' ∧ ch ≠ '\n') ∨ (¬ word ∧ ch ≠ ' ' ∧ ch ≠ '\t' ∧ ch ≠ '\n') then none
    else some (tok, [ch])
  | tok, ch :: ch2 :: rest =>
    if (word ∧ ch ≠ '"' ∧ ch ≠ '\n') ∨ (¬ word ∧ ch ≠ ' ' ∧ ch ≠ '\t' ∧ ch ≠ '\n') then
      if word ∧ ch = '\\' ∧ ch2 = '"' then read_token word (tok ++ ['"']) rest
      else if word ∧ ch = '\\' ∧ ch2 = '\\' then read_token word (tok ++ ['\\']) rest
      else read_token word (tok ++ [ch]) (ch2 :: rest)
    else some (tok, ch :: ch2 :: rest)

/-- The argument loop `while(*p != '\n')` of `config_handle_line`.  Every
round consumes at least one character, so `fuel` equal to the length of the
memory is enough; running out of fuel is reported as `none`, as is reading
past the end of the memory. -/
def read_args : Nat → List Char → List (List Char) → Option (List (List Char))
  | _, [], _ => none
  | 0, _ :: _, _ => none
  | fuel + 1, ch :: rest, ars =>
    if ch = '\n' then some ars
    else
      let word : Bool := decide (ch = '"')
      match read_token word [] (if word then rest else ch :: rest) with
      | none => none
      | some (tok, p) =>
        read_args fuel (skip_whitespace (if word then p.drop 1 else p)) (ars ++ [tok])

/-- The C function `config_handle_line(line, line_number, &keyword, &args, &args_count)` on
the C string `line`, with `cap = STRING_INITIAL_LENGTH`.  The memory the
function may read is the string with its terminating NUL. -/
def config_handle_line (cap : Nat) (line : List Char) : line_result :=
  match skip_whitespace (line ++ ['\x00']) with
  | [] => line_result.undefined
  | ch :: rest =>
    if ch = '\n' ∨ ch = '#' then line_result.skip
    else
      match read_keyword cap [] (ch :: rest) with
      | none => line_result.undefined
      | some (kw, p) =>
        match skip_whitespace p with
        | [] => line_result.undefined
        | ch2 :: rest2 =>
          if ch2 = '\n' then line_result.no_args
          else
            match read_args (ch2 :: rest2).length (ch2 :: rest2) [] with
            | none => line_result.undefined
            | some ars => line_result.directive (c_string kw) (ars.map c_string)

/-! ## Defaults, path resolution and loading -/

/-- The C function `config_set_default_needed_params(c)`. -/
def config_set_default_needed_params (E : Ext) (c : mwc_config) : mwc_config :=
  let c := if c.keyboard_rate = 0 then { c with keyboard_rate := 150 } else c
  let c := if c.keyboard_delay = 0 then { c with keyboard_delay := 50 } else c
  let c := if c.cursor_size = 0 then { c with cursor_size := 24 } else c
  let c := if c.min_toplevel_size = 0 then { c with min_toplevel_size := 10 } else c
  let c := if c.master_count = 0 then { c with master_count := 1 } else c
  let c :=
    if CDouble.eq c.master_ratio (CDouble.fin 0) then
      { c with master_ratio := CDouble.ofInt c.master_count / CDouble.ofInt (c.master_count + 1) }
    else c
  let c :=
    if c.animations ≠ 0 ∧ c.animation_duration = 0 then { c with animation_duration := 500 } else c
  let c :=
    if c.animations ≠ 0 ∧ CDouble.eq c.animation_curve.c0 (CDouble.fin 0)
        ∧ CDouble.eq c.animation_curve.c1 (CDouble.fin 0)
        ∧ CDouble.eq c.animation_curve.c2 (CDouble.fin 0)
        ∧ CDouble.eq c.animation_curve.c3 (CDouble.fin 0) then
      bake_bezier_curve_points E c
    else c
  let c :=
    if CDouble.eq c.inactive_opacity (CDouble.fin 0) then
      { c with inactive_opacity := CDouble.fin 1 }
    else c
  let c :=
    if CDouble.eq c.active_opacity (CDouble.fin 0) then
      { c with active_opacity := CDouble.fin 1 }
    else c
  let c :=
    if c.border_radius_location = 0 then
      { c with border_radius_location := CORNER_LOCATION_ALL }
    else c
  c

/-- The C function `get_default_config_path(dest, size)`: `strncpy` leaves `dest` without a
terminator when the path has `size` or more characters, in which case the
caller does not get a string: `none`. -/
def get_default_config_path (g : process_state) (size : Nat) : Option String :=
  let default_config_path := (getenv g "MWC_DEFAULT_CONFIG_PATH").getD "/usr/share/mwc/default.conf"
  if default_config_path.data.length ≥ size then none else some default_config_path

/-- The C function `get_config_path(dest, size)`: `none` when the function returns false,
otherwise the string left in `dest`, cut to `size - 1` characters. -/
def get_config_path (g : process_state) (size : Nat) : Option String :=
  match getenv g "MWC_CONFIG_PATH" with
  | some env_conf => some (String.mk (env_conf.data.take (size - 1)))
  | none =>
    match getenv g "XDG_CONFIG_HOME" with
    | some config_home =>
      some (String.mk ((config_home.data ++ "/mwc/mwc.conf".data).take (size - 1)))
    | none =>
      match getenv g "HOME" with
      | some home => some (String.mk ((home.data ++ "/.config/mwc/mwc.conf".data).take (size - 1)))
      | none => none

/-- The files `fopen(path, "r")` can open, each given by the sequence of
strings the successive calls `fgets(line_buffer, 1024, config_file)` store
in the line buffer. -/
abbrev file_system := String → Option (List (List Char))

/-- The loop `while(fgets(...) != NULL)` of `config_load`, started from the
snapshot `c`: every line goes through `config_handle_line` and, when that
returns true, through `config_handle_value`. -/
def config_load_lines (E : Ext) : mwc_config → process_state → List (List Char) →
    Option (mwc_config × process_state)
  | c, g, [] => some (c, g)
  | c, g, line :: rest =>
    match config_handle_line E.STRING_INITIAL_LENGTH line with
    | line_result.undefined => none
    | line_result.directive keyword args =>
      match config_handle_value E c g keyword args with
      | none => none
      | some r => config_load_lines E r.c r.g rest
    | _ => config_load_lines E c g rest

/-- The directory part computed in `config_load`: the path up to its last
`/`; `none` when the path has no `/` and `assert(last_slash != NULL)` fails. -/
def path_dir (path : String) : Option String :=
  if '/' ∈ path.data then
    some (String.mk ((path.data.reverse.dropWhile (fun ch => ch ≠ '/')).drop 1).reverse)
  else none

/-- What `config_load` returns: `NULL` or a snapshot, and the process state
afterwards. -/
structure loaded where
  c : Option mwc_config
  g : process_state
deriving DecidableEq

/-- The first half of `config_load`: the path is resolved and the file
opened, with the fallback to the default path.  `none` when the assertion
fails or the default path does not fit its buffer, `some none` when no file
can be opened (`config_load` then returns `NULL`), otherwise the zeroed
snapshot with its `dir` and the opened file. -/
def config_open (fs : file_system) (g : process_state) :
    Option (Option (mwc_config × List (List Char))) :=
  let c := config_calloc
  match get_config_path g 1024 with
  | some path =>
    match fs path with
    | some config_file =>
      (path_dir path).map (fun dir => some ({ c with dir := some dir }, config_file))
    | none =>
      (get_default_config_path g 1024).map (fun path => (fs path).map (fun f => (c, f)))
  | none => (get_default_config_path g 1024).map (fun path => (fs path).map (fun f => (c, f)))

/-- The C function `config_load()`: `none` for an execution that leaves defined behaviour
or fails its assertion. -/
def config_load (E : Ext) (fs : file_system) (g : process_state) : Option loaded :=
  match config_open fs g with
  | none => none
  | some none => some ⟨none, g⟩
  | some (some (c, config_file)) =>
    match config_load_lines E c g config_file with
    | none => none
    | some r => some ⟨some (config_set_default_needed_params E r.1), r.2⟩

/-! ## Live session state (`mwc.h`, `output.h`, `workspace.h`, `toplevel.h`) -/

/-- A toplevel window: its identity and the two decoration scene nodes that
`toplevel_reapply_effects_etc` destroys. -/
structure mwc_toplevel where
  id : Nat
  shadow : Option Nat
  border : Option Nat
deriving DecidableEq

/-- A live workspace (`struct mwc_workspace`): its address, its index and
its three toplevel lists. -/
structure mwc_workspace where
  addr : Nat
  index : Nat
  floating_toplevels : List mwc_toplevel
  masters : List mwc_toplevel
  slaves : List mwc_toplevel
deriving DecidableEq

/-- A layer-shell surface: its namespace and whether blur is applied to its
scene buffers. -/
structure mwc_layer_surface where
  surface_namespace : String
  blur : Bool
deriving DecidableEq

/-- The C type `struct wlr_box`. -/
structure wlr_box where
  x : Int
  y : Int
  width : Int
  height : Int
deriving DecidableEq

/-- A live output: the name, refresh rate and scale of its `wlr_output`, its
box in the output layout, its optimized-blur scene node (the box it was
created with) if any, its workspaces, and its four layer lists from
`layers.background` on. -/
structure mwc_output where
  name : String
  box : wlr_box
  refresh : Int
  scale : CDouble
  blur : Option wlr_box
  workspaces : List mwc_workspace
  layers : List (List mwc_layer_surface)
deriving DecidableEq

/-- A heap object or library resource that is released. -/
inductive resource where
  | string (s : String)
  | regex (r : regex_t)
  | output_node (o : output_config)
  | workspace_node (w : workspace_config)
  | pointer_node (p : pointer_config)
  | keybind_node (k : keybind)
  | float_rule_node (r : window_rule_float)
  | size_rule_node (r : window_rule_size)
  | opacity_rule_node (r : window_rule_opacity)
  | blur_rule_node (r : layer_rule_blur)
  | baked_points (t : List vec2)
  | config_struct
deriving DecidableEq

/-- A call into a collaborator that is not part of `config.c`, recorded in
the order of execution. -/
inductive effect where
  | output_initialize (output : String) (o : output_config)
  | output_add_to_layout (output : String) (o : output_config)
  | layer_surfaces_commit (output : String)
  | blur_node_destroy (output : String)
  | blur_node_create (output : String) (box : wlr_box) (params : blur_data)
  | keyboard_configure (keyboard : Nat)
  | pointer_configure (pointer : Nat)
  | toplevel_recheck_opacity_rules (toplevel : Nat)
  | scene_node_destroy (node : Nat)
  | layout_set_pending_state (workspace : Nat)
  | decoration_manager_set_default_mode (client_side : Bool)
  | xcursor_manager_recreate (theme : Option String) (size : Int)
  | released (rs : List resource)
deriving DecidableEq

/-- The session (`struct mwc_server server`) as far as `config_reload`
reads or writes it, together with the process state and the record of the
collaborator calls made so far. -/
structure mwc_server where
  config : mwc_config
  outputs : List mwc_output
  keyboards : List Nat
  pointers : List Nat
  proc : process_state
  effects : List effect
deriving DecidableEq

/-! ## Teardown -/

/-- The regexes of a rule condition that are released (`regfree`). -/
def condition_resources (cond : window_rule_regex) : List resource :=
  (match cond.app_id_regex with | some r => [resource.regex r] | none => [])
  ++ (match cond.title_regex with | some r => [resource.regex r] | none => [])

/-- The C function `config_destroy(c)`: the resources it releases, in order.  Workspace
entries are not among them, and for the pointer keybinds only the nodes
are freed. -/
def config_destroy (c : mwc_config) : List resource :=
  (match c.dir with | some d => [resource.string d] | none => [])
  ++ c.outputs.flatMap (fun o => [resource.string o.name, resource.output_node o])
  ++ c.keybinds.flatMap (fun k =>
      (match k.action, k.args with
        | keybind_fn.keybind_run, keybind_args.str s => [resource.string s]
        | _, _ => [])
      ++ [resource.keybind_node k])
  ++ c.pointer_keybinds.map resource.keybind_node
  ++ c.window_rules.floating.flatMap (fun r =>
      condition_resources r.condition ++ [resource.float_rule_node r])
  ++ c.window_rules.size.flatMap (fun r =>
      condition_resources r.condition ++ [resource.size_rule_node r])
  ++ c.window_rules.opacity.flatMap (fun r =>
      condition_resources r.condition ++ [resource.opacity_rule_node r])
  ++ c.layer_rules.blur.flatMap (fun r =>
      (match r.condition.regex with | some x => [resource.regex x] | none => [])
      ++ [resource.blur_rule_node r])
  ++ (match c.keymap_layouts with | some s => [resource.string s] | none => [])
  ++ (match c.keymap_variants with | some s => [resource.string s] | none => [])
  ++ (match c.keymap_options with | some s => [resource.string s] | none => [])
  ++ c.pointers.flatMap (fun p => [resource.string p.name, resource.pointer_node p])
  ++ (match c.cursor_theme with | some s => [resource.string s] | none => [])
  ++ (match c.baked_points with | some t => [resource.baked_points t] | none => [])
  ++ (c.run.take c.run_count).map resource.string
  ++ [resource.config_struct]

/-- The C function `toplevel_reapply_effects_etc(toplevel)`: the toplevel afterwards and the
collaborator calls made. -/
def toplevel_reapply_effects_etc (toplevel : mwc_toplevel) : mwc_toplevel × List effect :=
  ({ toplevel with shadow := none, border := none },
   [effect.toplevel_recheck_opacity_rules toplevel.id]
   ++ (match toplevel.shadow with | some n => [effect.scene_node_destroy n] | none => [])
   ++ (match toplevel.border with | some n => [effect.scene_node_destroy n] | none => []))

/-! ## Layout engine -/

/-- The first loop of `layout_reorganize`:
`while(master_count > k) { last = masters.prev; wl_list_remove(last);
wl_list_insert(slaves.prev, last); master_count--; }`.
`masters.prev` is the tail of the master list and `wl_list_insert(slaves.prev, _)`
links the element after the current tail of the slave list.  The counter is
`wl_list_length(&masters)` on entry, so the list cannot run empty while the
counter is positive; that unreachable case leaves the lists alone. -/
def layout_reorganize_shrink {α : Type} (k : Nat) : Nat → List α → List α → List α × List α
  | 0, masters, slaves => (masters, slaves)
  | master_count + 1, masters, slaves =>
    if master_count + 1 > k then
      match masters.getLast? with
      | some last => layout_reorganize_shrink k master_count masters.dropLast (slaves ++ [last])
      | none => (masters, slaves)
    else (masters, slaves)

/-- The second loop of `layout_reorganize`:
`while(master_count < k && slave_count > 0) { last = slaves.prev;
wl_list_remove(last); wl_list_insert(masters.prev, last); master_count++;
slave_count--; }`. -/
def layout_reorganize_grow {α : Type} (k : Nat) : Nat → Nat → List α → List α → List α × List α
  | _, 0, masters, slaves => (masters, slaves)
  | master_count, slave_count + 1, masters, slaves =>
    if master_count < k then
      match slaves.getLast? with
      | some last =>
        layout_reorganize_grow k (master_count + 1) slave_count (masters ++ [last]) slaves.dropLast
      | none => (masters, slaves)
    else (masters, slaves)

/-- The list part of `layout_reorganize`, with `k = server.config->master_count`. -/
def layout_reorganize_lists {α : Type} (k : Nat) (masters slaves : List α) : List α × List α :=
  let master_count := masters.length
  if master_count > k then
    layout_reorganize_shrink k master_count masters slaves
  else
    let slave_count := slaves.length
    if master_count < k ∧ slave_count > 0 then
      layout_reorganize_grow k master_count slave_count masters slaves
    else (masters, slaves)

/-- The C function `layout_reorganize(workspace)`; the target count
`server.config->master_count` is passed as `k`. -/
def layout_reorganize (k : Nat) (workspace : mwc_workspace) : mwc_workspace :=
  let r := layout_reorganize_lists k workspace.masters workspace.slaves
  { workspace with masters := r.1, slaves := r.2 }

/-- In list `l`, window `a` stands before window `b`. -/
def appears_before {α : Type} (a b : α) (l : List α) : Prop := List.Sublist [a, b] l

/-! ## Hot reload -/

/-- The value of `(uint64_t)k->args` for the payloads a workspace keybind
can hold: the sign-extended integer, or the address of a workspace. -/
def keybind_args.as_uint64 : keybind_args → Option Nat
  | keybind_args.number n => some (n % 18446744073709551616).toNat
  | keybind_args.workspace addr => some addr
  | keybind_args.null => some 0
  | _ => none

/-- The body of the keybind loop of `config_reload` for one keybind `k` and
one live workspace `w`. -/
def rewire_keybind (w : mwc_workspace) (k : keybind) : keybind :=
  if k.action = keybind_fn.keybind_change_workspace ∧ k.args.as_uint64 = some w.index then
    { k with args := keybind_args.workspace w.addr, initialized := true }
  else if k.action = keybind_fn.keybind_move_focused_toplevel_to_workspace
      ∧ k.args.as_uint64 = some w.index then
    { k with args := keybind_args.workspace w.addr, initialized := true }
  else k

/-- The C function `toplevel_reapply_effects_etc` over one toplevel list. -/
def reapply_list (l : List mwc_toplevel) : List mwc_toplevel × List effect :=
  (l.map (fun t => (toplevel_reapply_effects_etc t).1),
   l.flatMap (fun t => (toplevel_reapply_effects_etc t).2))

/-- The body of the workspace loop of `config_reload` for the live
workspace `w`: the keybinds of the active snapshot are rewired,
the workspace is reorganized when the master count changed, the effects of
its toplevels are reapplied and a layout pass is queued.  Returns the
active snapshot, the workspace and the collaborator calls. -/
def reload_workspace (old_config : mwc_config) (config : mwc_config) (w : mwc_workspace) :
    mwc_config × mwc_workspace × List effect :=
  let config1 := { config with keybinds := config.keybinds.map (rewire_keybind w) }
  let w1 :=
    if config1.master_count ≠ old_config.master_count then
      layout_reorganize (config1.master_count % 4294967296).toNat w
    else w
  let f := reapply_list w1.floating_toplevels
  let m := reapply_list w1.masters
  let s := reapply_list w1.slaves
  (config1,
   { w1 with floating_toplevels := f.1, masters := m.1, slaves := s.1 },
   f.2 ++ m.2 ++ s.2 ++ [effect.layout_set_pending_state w1.addr])

/-- The workspace loop of `config_reload` over the workspaces of one output. -/
def reload_workspaces (old_config : mwc_config) :
    mwc_config → List mwc_workspace → mwc_config × List mwc_workspace × List effect
  | config, [] => (config, [], [])
  | config, w :: rest =>
    let r := reload_workspace old_config config w
    let rs := reload_workspaces old_config r.1 rest
    (rs.1, r.2.1 :: rs.2.1, r.2.2 ++ rs.2.2)

/-- The layer loop of `config_reload` for one surface: blur is applied when
some blur rule of the active snapshot is unconstrained or matches the
namespace, and removed otherwise. -/
def reload_layer (E : Ext) (config : mwc_config) (layer : mwc_layer_surface) : mwc_layer_surface :=
  { layer with blur := config.layer_rules.blur.any (fun b =>
      match b.condition.regex with
      | none => true
      | some r => E.regexec_ok r layer.surface_namespace) }

/-- The body of the last output loop of `config_reload` (workspaces, then
the four layer lists) for the output at position `i`. -/
def reload_output (E : Ext) (old_config : mwc_config) (s : mwc_server) (i : Nat) : mwc_server :=
  match s.outputs[i]? with
  | none => s
  | some out =>
    let r := reload_workspaces old_config s.config out.workspaces
    let out1 := { out with
      workspaces := r.2.1,
      layers := (out.layers.take 4).map (fun l => l.map (reload_layer E r.1)) ++ out.layers.drop 4 }
    { s with config := r.1, outputs := s.outputs.set i out1, effects := s.effects ++ r.2.2 }

/-- The traversal `wl_list_for_each(wc, &c->workspaces, link)` of the workspace list of
a snapshot.  It starts at `c->workspaces.next` and stops when it is back at
`&c->workspaces`.  When the ring closes through the snapshot's own head
these are the entries in order.  When the head is a by-value copy the last
entry points at the head the value was copied from, not at
`&c->workspaces`: the traversal does not stop there, it takes that head, a
field of the other snapshot, for an entry and goes round again, and once
the other snapshot is freed it reads freed memory: `none`. -/
def workspace_entries (c : mwc_config) : Option (List workspace_config) :=
  match c.workspaces_head with
  | list_head.own => some c.workspaces
  | list_head.copied => none

/-- The graft and the publication: the workspace entries parsed into `c`
are freed, `c->workspaces = server.config->workspaces`, and
`server.config = c`.  The assignment copies the `struct wl_list` head of the
old snapshot by value: the head of `c` then points at the first and the
last entry of the old list, while these entries go on pointing at the head
inside the old snapshot, which `config_destroy(old_config)` frees at the end
of `config_reload`. -/
def reload_publish (c : mwc_config) (s : mwc_server) : mwc_server :=
  { s with
    config := { c with workspaces := s.config.workspaces, workspaces_head := list_head.copied },
    effects := s.effects ++ [effect.released (c.workspaces.flatMap (fun wc =>
      [resource.string wc.output, resource.workspace_node wc]))] }

/-- The first output loop of `config_reload`: for every output config and
every live output of the same name the mode is renegotiated when size,
refresh rate or scale differ, the placement is updated when the position
differs, and the layer surfaces are committed. -/
def reload_output_modes (s : mwc_server) : mwc_server :=
  { s with effects := s.effects ++ s.config.outputs.flatMap (fun o =>
      s.outputs.flatMap (fun out =>
        if o.name = out.name then
          (if o.width ≠ out.box.width ∨ o.height ≠ out.box.height
              ∨ (to_int32 (o.refresh_rate - out.refresh)).natAbs > 1000
              ∨ ¬ CDouble.eq o.scale out.scale then
            [effect.output_initialize out.name o] else [])
          ++ (if o.x ≠ out.box.x ∨ o.y ≠ out.box.y then
            [effect.output_add_to_layout out.name o] else [])
          ++ [effect.layer_surfaces_commit out.name]
        else [])) }

/-- The blur toggle of `config_reload`.  When the new snapshot has no blur
and the old one had, `&output->blur->node` is destroyed for every output
without a check; an output without a blur node makes that `none`. -/
def reload_blur (old_config : mwc_config) (s : mwc_server) : Option mwc_server :=
  if s.config.blur ≠ 0 then
    some { s with
      outputs := s.outputs.map (fun output => { output with blur := some output.box }),
      effects := s.effects ++ s.outputs.flatMap (fun output =>
        (match output.blur with | some _ => [effect.blur_node_destroy output.name] | none => [])
        ++ [effect.blur_node_create output.name output.box s.config.blur_params]) }
  else if old_config.blur ≠ 0 then
    if s.outputs.all (fun output => output.blur.isSome) then
      some { s with
        outputs := s.outputs.map (fun output => { output with blur := none }),
        effects := s.effects ++ s.outputs.map (fun output => effect.blur_node_destroy output.name) }
    else none
  else some s

/-- The two input loops of `config_reload`. -/
def reload_inputs (s : mwc_server) : mwc_server :=
  { s with effects := s.effects ++ s.keyboards.map effect.keyboard_configure
      ++ s.pointers.map effect.pointer_configure }

/-- The tail of `config_reload`: decoration mode, cursor manager, the two
cursor environment variables, and the teardown of the old snapshot. -/
def reload_finish (old_config : mwc_config) (s : mwc_server) : mwc_server :=
  let proc1 :=
    match s.config.cursor_theme with
    | some theme => setenv s.proc "XCURSOR_THEME" theme
    | none => s.proc
  let cursor_size := String.mk ((Nat.repr (s.config.cursor_size % 4294967296).toNat).data.take 7)
  { s with
    proc := setenv proc1 "XCURSOR_SIZE" cursor_size,
    effects := s.effects ++
      [effect.decoration_manager_set_default_mode (decide (s.config.client_side_decorations ≠ 0)),
       effect.xcursor_manager_recreate s.config.cursor_theme s.config.cursor_size,
       effect.released (config_destroy old_config)] }

/-- The states the session goes through during `config_reload` once
`config_load` has returned the snapshot `c` and left the process state
`g`: the state on entry (with the process state `config_load` left), the
state after the publication, and the states after each later stage, the
last output loop contributing one state per output.  `none` when the blur
teardown leaves defined behaviour. -/
def config_reload_states (E : Ext) (c : mwc_config) (g : process_state) (s : mwc_server) :
    Option (List mwc_server) := do
  let s0 := { s with proc := g }
  let old_config := s0.config
  let s1 := reload_publish c s0
  let s2 := reload_output_modes s1
  let s3 ← reload_blur old_config s2
  let s4 := reload_inputs s3
  let loop := (List.range s4.outputs.length).scanl (reload_output E old_config) s4
  let s5 := (List.range s4.outputs.length).foldl (reload_output E old_config) s4
  some ([s0, s1, s2, s3] ++ loop ++ [reload_finish old_config s5])

/-- The C function `config_reload()`: `none` for an execution that leaves defined
behaviour; otherwise the session afterwards.  When `config_load` returns
`NULL` the function returns at once. -/
def config_reload (E : Ext) (fs : file_system) (s : mwc_server) : Option mwc_server := do
  let l ← config_load E fs s.proc
  match l.c with
  | none => some { s with proc := l.g }
  | some c =>
    let s0 := { s with proc := l.g }
    let old_config := s0.config
    let s1 := reload_publish c s0
    let s2 := reload_output_modes s1
    let s3 ← reload_blur old_config s2
    let s4 := reload_inputs s3
    let s5 := (List.range s4.outputs.length).foldl (reload_output E old_config) s4
    some (reload_finish old_config s5)

/-- The states the session goes through during `config_reload`, from the
state on entry to the state on return. -/
def config_reload_trace (E : Ext) (fs : file_system) (s : mwc_server) :
    Option (List mwc_server) := do
  let l ← config_load E fs s.proc
  match l.c with
  | none => some [s, { s with proc := l.g }]
  | some c => (config_reload_states E c l.g s).map (fun t => s :: t)

/-! ## Notions of the specification

The definitions of this section follow the wording of the specification,
not the source: they say which directives count as invalid. -/

/-- The directive names the dispatcher accepts. -/
def directive_names : List String :=
  ["min_toplevel_size", "keyboard_rate", "keyboard_delay", "pointer_sensitivity",
   "pointer_acceleration", "pointer", "pointer_left_handed", "trackpad_disable_while_typing",
   "natural_scroll", "trackpad_natural_scroll", "tap_to_click", "trackpad_tap_to_click",
   "trackpad_scroll_method", "border_width", "outer_gaps", "inner_gaps", "master_ratio",
   "master_count", "cursor_theme", "cursor_size", "inactive_border_color",
   "active_border_color", "output", "workspace", "run", "keybind", "env", "window_rule",
   "animations", "animation_duration", "animation_curve", "client_side_decorations",
   "inactive_opacity", "active_opacity", "apply_opacity_when_fullscreen", "keymap",
   "keymap_options", "border_radius", "border_radius_location", "blur", "blur_passes",
   "blur_radius", "blur_noise", "blur_brightness", "blur_contrast", "blur_saturation",
   "shadows", "shadows_size", "shadows_blur", "shadows_position", "shadows_color",
   "layer_rule"]

/-- The number of arguments a directive requires. -/
def required_args (keyword : String) : Nat :=
  if keyword = "output" then 6
  else if keyword = "animation_curve" then 4
  else if keyword ∈ ["pointer", "keybind", "window_rule"] then 3
  else if keyword ∈ ["workspace", "env", "keymap", "shadows_position", "layer_rule"] then 2
  else 1

/-- A regex field that is not the sentinel `_` and does not compile. -/
def regex_invalid (E : Ext) (regex : String) : Prop :=
  regex ≠ "_" ∧ E.regcomp_ok regex = false

/-- A `window_rule` line with an invalid regex, an unknown predicate, or too
few arguments for its predicate. -/
def window_rule_invalid (E : Ext) : List String → Prop
  | app_id :: title :: predicate :: rest =>
    regex_invalid E app_id ∨ regex_invalid E title
    ∨ predicate ∉ ["float", "size", "opacity"]
    ∨ (predicate = "size" ∧ rest.length < 2)
    ∨ (predicate = "opacity" ∧ rest.length < 1)
  | _ => False

/-- A `layer_rule` line with an invalid regex or an unknown predicate. -/
def layer_rule_invalid (E : Ext) : List String → Prop
  | regex :: predicate :: _ => regex_invalid E regex ∨ predicate ≠ "blur"
  | _ => False

/-- The key names `config_add_keybind` resolves by itself. -/
def named_keys : List String :=
  ["return", "enter", "backspace", "delete", "escape", "tab", "up", "down", "left", "right"]

/-- A key token that is neither a pointer button (`mouse_`, `pointer_`) nor
a named key nor a keysym name the lookup knows. -/
def key_unresolvable (E : Ext) (key : String) : Prop :=
  key.data.take 6 ≠ "mouse_".data ∧ key.data.take 8 ≠ "pointer_".data
  ∧ key ∉ named_keys ∧ E.xkb_keysym_from_name key = 0

/-- The action keywords of a keybind. -/
def action_names : List String :=
  ["exit", "run", "kill_active", "switch_floating_state", "toggle_floating", "resize", "move",
   "move_focus", "swap", "workspace", "move_to_workspace", "next_workspace", "prev_workspace",
   "toggle_fullscreen", "reload_config"]

/-- A `keybind` line with an unresolvable key, an unknown action, a missing
action argument, or a direction that is none of up, left, down, right. -/
def keybind_invalid (E : Ext) : List String → Prop
  | _ :: key :: action :: rest =>
    key_unresolvable E key ∨ action ∉ action_names
    ∨ (action ∈ ["run", "move_focus", "swap", "workspace", "move_to_workspace"] ∧ rest = [])
    ∨ (action ∈ ["move_focus", "swap"] ∧ ∃ a ∈ rest.head?, a ∉ ["up", "left", "down", "right"])
  | _ => False

/-- A colour line that is neither four channel arguments nor one string of
eight characters. -/
def color_invalid : List String → Prop
  | a0 :: rest => (a0 :: rest).length ≠ 4 ∧ a0.data.length ≠ 8
  | [] => False

/-- An invalid directive: an unknown name, fewer arguments than the
directive requires, or arguments the directive rejects. -/
def directive_invalid (E : Ext) (keyword : String) (args : List String) : Prop :=
  keyword ∉ directive_names
  ∨ args.length < required_args keyword
  ∨ (keyword = "window_rule" ∧ window_rule_invalid E args)
  ∨ (keyword = "layer_rule" ∧ layer_rule_invalid E args)
  ∨ (keyword = "keybind" ∧ keybind_invalid E args)
  ∨ (keyword ∈ ["inactive_border_color", "active_border_color", "shadows_color"]
      ∧ color_invalid args)
  ∨ (keyword = "trackpad_scroll_method"
      ∧ ∃ a ∈ args.head?, a ∉ ["no_scroll", "two_fingers", "edge", "on_button_down"])

instance (E : Ext) (regex : String) : Decidable (regex_invalid E regex) := by
  unfold regex_invalid; exact inferInstance

instance (E : Ext) (args : List String) : Decidable (window_rule_invalid E args) := by
  unfold window_rule_invalid; split <;> exact inferInstance

instance (E : Ext) (args : List String) : Decidable (layer_rule_invalid E args) := by
  unfold layer_rule_invalid; split <;> exact inferInstance

instance (E : Ext) (key : String) : Decidable (key_unresolvable E key) := by
  unfold key_unresolvable; exact inferInstance

instance (E : Ext) (args : List String) : Decidable (keybind_invalid E args) := by
  unfold keybind_invalid; split <;> exact inferInstance

instance (args : List String) : Decidable (color_invalid args) := by
  unfold color_invalid; split <;> exact inferInstance

instance (E : Ext) (keyword : String) (args : List String) :
    Decidable (directive_invalid E keyword args) := by
  unfold directive_invalid; exact inferInstance

/-- An invalid line: a line that holds a directive name without arguments,
or tokenizes to an invalid directive. -/
def line_invalid (E : Ext) (line : List Char) : Bool :=
  match config_handle_line E.STRING_INITIAL_LENGTH line with
  | line_result.no_args => true
  | line_result.directive keyword args => decide (directive_invalid E keyword args)
  | _ => false

/-- The file system in which every file has its invalid lines removed. -/
def remove_invalid_lines (E : Ext) (fs : file_system) : file_system :=
  fun path => (fs path).map (fun config_file => config_file.filter (fun line => !line_invalid E line))

/-- A simple decimal reading of a floating-point literal (sign, digits,
optional fraction), used to instantiate `atof` in examples. -/
def atof_decimal (s : String) : CDouble :=
  let p := s.data.dropWhile isspace
  let neg := p.head? = some '-'
  let q := match p with
    | '-' :: r => r
    | '+' :: r => r
    | r => r
  let int_part := q.takeWhile isdigit
  let frac := match q.dropWhile isdigit with
    | '.' :: r => r.takeWhile isdigit
    | _ => []
  let v : ℚ := (digits_value 0 int_part : ℚ) + (digits_value 0 frac : ℚ) / (10 ^ frac.length : ℚ)
  CDouble.fin (if neg then -v else v)

/-- A sample environment for the examples: buffers of 64 characters, a table
of 256 samples, every pattern without `(` compiles, a pattern matches the
subjects equal to it, and the keysym of a one-character name is its
character code. -/
def sample_ext : Ext where
  STRING_INITIAL_LENGTH := 64
  BAKED_POINTS_COUNT := 256
  atof := atof_decimal
  regcomp_ok := fun pattern => !pattern.data.contains '('
  regexec_ok := fun pattern subject => pattern = subject
  xkb_keysym_from_name := fun name =>
    match name.data with
    | [ch] => ch.toNat
    | _ => 0

/-- Every `+`-separated token of a modifier string is shorter than 64
characters: no stretch of the string without a `+` has 64 characters or
more. -/
def modifier_tokens_fit (modifiers : List Char) : Prop :=
  ∀ pre tok post : List Char, modifiers = pre ++ tok ++ post → '+' ∉ tok → tok.length < 64

/-- The directives that store a size clamped to `[0, INT_MAX]`. -/
def size_directives : List String :=
  ["min_toplevel_size", "keyboard_rate", "keyboard_delay", "border_width", "outer_gaps",
   "inner_gaps", "cursor_size", "animation_duration", "blur_radius"]

/-- The field of the snapshot a size directive stores to. -/
def stored_size (keyword : String) (c : mwc_config) : Int :=
  if keyword = "min_toplevel_size" then c.min_toplevel_size
  else if keyword = "keyboard_rate" then c.keyboard_rate
  else if keyword = "keyboard_delay" then c.keyboard_delay
  else if keyword = "border_width" then c.border_width
  else if keyword = "outer_gaps" then c.outer_gaps
  else if keyword = "inner_gaps" then c.inner_gaps
  else if keyword = "cursor_size" then c.cursor_size
  else if keyword = "animation_duration" then c.animation_duration
  else c.blur_params.radius

/-- The directives that store a ratio or opacity clamped to `[0, 1]`. -/
def ratio_directives : List String := ["master_ratio", "active_opacity", "inactive_opacity"]

/-- The field of the snapshot a ratio directive stores to. -/
def stored_ratio (keyword : String) (c : mwc_config) : CDouble :=
  if keyword = "master_ratio" then c.master_ratio
  else if keyword = "active_opacity" then c.active_opacity
  else c.inactive_opacity

/-- The keybinds after the rewiring passes of `config_reload` over the live
workspaces `ws`, in order. -/
def rewire_all (ws : List mwc_workspace) (ks : List keybind) : List keybind :=
  ws.foldl (fun ks w => ks.map (rewire_keybind w)) ks

/-- A sample file system for the examples: one configuration file at the
path `HOME` resolves to. -/
def sample_fs : file_system := fun path =>
  if path = "/home/u/.config/mwc/mwc.conf" then
    some ["# sample\n".data, "workspace 5 HDMI-A-1\n".data, "master_count 2\n".data,
          "nosuch 1\n".data, "keybind super 1 workspace 1\n".data]
  else none

/-- A sample session for the examples: one output with one workspace that
holds three masters and one slave, an active snapshot with one workspace
entry, one keyboard and one pointer. -/
def sample_server : mwc_server where
  config := { config_calloc with
    workspaces := [⟨1, "eDP-1"⟩], master_count := 1, keyboard_rate := 150 }
  outputs := [{ name := "eDP-1", box := ⟨0, 0, 1920, 1080⟩, refresh := 60000,
                scale := CDouble.fin 1, blur := none,
                workspaces := [⟨4096, 1, [], [⟨1, none, none⟩, ⟨2, some 11, none⟩], [⟨3, none, none⟩]⟩],
                layers := [[], [], [⟨"bar", false⟩], []] }]
  keyboards := [1]
  pointers := [2]
  proc := ⟨[("HOME", "/home/u")], 0⟩
  effects := []

/-- An argument as a configuration line writes it: bare, or between double
quotes with `"` and backslash escaped by a backslash. -/
inductive arg_form where
  | bare (a : List Char)
  | quoted (a : List Char)

/-- The escaping inside double quotes: `"` becomes backslash-quote and a
backslash becomes two backslashes. -/
def escape_arg : List Char → List Char
  | [] => []
  | ch :: rest =>
    if ch = '"' then '\\' :: '"' :: escape_arg rest
    else if ch = '\\' then '\\' :: '\\' :: escape_arg rest
    else ch :: escape_arg rest

/-- The argument string an argument form stands for. -/
def arg_form.value : arg_form → List Char
  | arg_form.bare a => a
  | arg_form.quoted a => a

/-- The characters an argument form puts on the line. -/
def arg_form.written : arg_form → List Char
  | arg_form.bare a => a
  | arg_form.quoted a => '"' :: escape_arg a ++ ['"']

/-- A bare argument is a non-empty run of characters other than space, tab
and newline that does not start with a double quote; a quoted argument is
any string without a newline. -/
def arg_form.well_formed : arg_form → Prop
  | arg_form.bare a =>
    a ≠ [] ∧ a.head? ≠ some '"' ∧ ∀ ch ∈ a, ch ≠ ' ' ∧ ch ≠ '\t' ∧ ch ≠ '\n'
  | arg_form.quoted a => '\n' ∉ a

/-- The line that holds a directive name and its arguments, separated by
single spaces and ended by a newline. -/
def write_line (name : List Char) (args : List arg_form) : List Char :=
  name ++ args.flatMap (fun a => ' ' :: a.written) ++ ['\n']

/-- The memory after a directive name: the arguments, each after a space,
the newline and the terminating NUL. -/
def args_memory (args : List arg_form) : List Char :=
  args.flatMap (fun a => ' ' :: a.written) ++ ['\n', '\x00']

/-- The memory at the head of the argument loop when `args` are still to
be read. -/
def loop_memory : List arg_form → List Char
  | [] => ['\n', '\x00']
  | a :: rest => a.written ++ args_memory rest

/-! ## Notions of the specification: keybinds -/

/-- The `+`-separated tokens of a modifier string: a string without `+` is
one token, and a `+` at the start, at the end or next to another `+`
delimits an empty token. -/
def modifier_tokens : List Char → List (List Char)
  | [] => [[]]
  | ch :: rest =>
    if ch = '+' then [] :: modifier_tokens rest
    else
      match modifier_tokens rest with
      | [] => [[ch]]
      | tok :: toks => (ch :: tok) :: toks

/-- The union of the flags of the tokens equal to `alt`, `super`, `ctrl` or
`shift`; it depends only on which of the four names occur among the
tokens. -/
def modifier_union (tokens : List (List Char)) : Nat :=
  (if "alt".data ∈ tokens then WLR_MODIFIER_ALT else 0)
  ||| (if "super".data ∈ tokens then WLR_MODIFIER_LOGO else 0)
  ||| (if "ctrl".data ∈ tokens then WLR_MODIFIER_CTRL else 0)
  ||| (if "shift".data ∈ tokens then WLR_MODIFIER_SHIFT else 0)

/-- The four direction names and the directions they stand for. -/
def direction_names : List (String × mwc_direction) :=
  [("up", mwc_direction.MWC_UP), ("left", mwc_direction.MWC_LEFT),
   ("down", mwc_direction.MWC_DOWN), ("right", mwc_direction.MWC_RIGHT)]

/-- A key token of the pointer class: it starts with `mouse_` or with
`pointer_`. -/
def pointer_class (key : String) : Bool :=
  decide (key.data.take 6 = "mouse_".data ∨ key.data.take 8 = "pointer_".data)

/-- The keybind `k` after the rewiring passes of `config_reload` over the
live workspaces `ws`, in order. -/
def rewire_passes (ws : List mwc_workspace) (k : keybind) : keybind :=
  ws.foldl (fun k w => rewire_keybind w k) k

/-- A well-formed live workspace set: every index is a 32-bit unsigned
value, and no workspace lies at an address that is also the index of a live
workspace (the payload of a keybind holds an index or an address, and the
rewiring loop compares it by value). -/
def live_workspaces (ws : List mwc_workspace) : Prop :=
  ∀ w ∈ ws, w.index < 4294967296 ∧ ∀ w1 ∈ ws, w.addr ≠ w1.index

/-- A sample file system whose configuration file binds the workspace of
index 1 both to a key and to a pointer button. -/
def sample_pointer_fs : file_system := fun path =>
  if path = "/home/u/.config/mwc/mwc.conf" then
    some ["keybind super 1 workspace 1\n".data,
          "keybind super mouse_left_click workspace 1\n".data]
  else none

/-! ## Notions of the specification: rules and colours -/

/-- The condition a regex argument of a rule stands for: the sentinel `_`
leaves the field unconstrained, any other argument constrains it by that
pattern. -/
def regex_condition (regex : String) : Option regex_t :=
  if regex = "_" then none else some regex

/-- The list directives. -/
def list_directives : List String :=
  ["output", "workspace", "pointer", "window_rule", "layer_rule", "keybind"]

/-- The body of the loop of `hex_to_unsigned_decimal` for the character
`current`: the result is multiplied by 16 and the value of a hex digit is
added; any other character adds nothing. -/
def hex_step (result : Nat) (current : Char) : Nat :=
  let result := (result * 16) % 4294967296
  if '0'.toNat ≤ current.toNat ∧ current.toNat ≤ '9'.toNat then
    (result + (current.toNat - '0'.toNat)) % 4294967296
  else if 'a'.toNat ≤ current.toNat ∧ current.toNat ≤ 'f'.toNat then
    (result + (current.toNat - 'a'.toNat) + 10) % 4294967296
  else if 'A'.toNat ≤ current.toNat ∧ current.toNat ≤ 'F'.toNat then
    (result + (current.toNat - 'A'.toNat) + 10) % 4294967296
  else result

/-- The hexadecimal digits, lower and upper case, with the values they
denote. -/
def hex_digits : List (Char × Nat) :=
  [('0', 0), ('1', 1), ('2', 2), ('3', 3), ('4', 4), ('5', 5), ('6', 6), ('7', 7), ('8', 8),
   ('9', 9), ('a', 10), ('b', 11), ('c', 12), ('d', 13), ('e', 14), ('f', 15),
   ('A', 10), ('B', 11), ('C', 12), ('D', 13), ('E', 14), ('F', 15)]

/-- The byte a colour channel is re-encoded to: `round(255 * channel)`, the
nearest integer with halves rounded up. -/
def reencode_channel : CDouble → Option Int
  | CDouble.fin q => some (Int.floor (255 * q + 1 / 2))
  | _ => none

/-- An integer literal: an optional sign followed by one or more decimal
digits. -/
def is_integer_literal (s : String) : Bool :=
  match s.data with
  | '-' :: r => !r.isEmpty && r.all isdigit
  | '+' :: r => !r.isEmpty && r.all isdigit
  | r => !r.isEmpty && r.all isdigit

/-- The argument lists the specification gives for a colour directive: four
integer channel arguments, or one string of eight hexadecimal digits. -/
def color_arguments_listed : List String → Prop
  | [s] => s.data.length = 8 ∧ ∀ ch ∈ s.data, ch ∈ hex_digits.map Prod.fst
  | [a0, a1, a2, a3] => ∀ a ∈ [a0, a1, a2, a3], is_integer_literal a = true
  | _ => False

instance (args : List String) : Decidable (color_arguments_listed args) := by
  unfold color_arguments_listed; split <;> exact inferInstance

/-- The colour directives. -/
def color_directives : List String :=
  ["inactive_border_color", "active_border_color", "shadows_color"]

/-- The field of the snapshot a colour directive stores to. -/
def stored_color (keyword : String) (c : mwc_config) : rgba :=
  if keyword = "inactive_border_color" then c.inactive_border_color
  else if keyword = "active_border_color" then c.active_border_color
  else c.shadows_color

/-- The last output loop of `config_reload` over the outputs `outs` in
order, starting from the active snapshot `config`: the snapshot afterwards,
the outputs afterwards and the collaborator calls. -/
def reload_outputs_list (E : Ext) (old_config : mwc_config) :
    mwc_config → List mwc_output → mwc_config × List mwc_output × List effect
  | config, [] => (config, [], [])
  | config, out :: rest =>
    let r := reload_workspaces old_config config out.workspaces
    let out1 := { out with
      workspaces := r.2.1,
      layers := (out.layers.take 4).map (fun l => l.map (reload_layer E r.1)) ++ out.layers.drop 4 }
    let rs := reload_outputs_list E old_config r.1 rest
    (rs.1, out1 :: rs.2.1, r.2.2 ++ rs.2.2)

/-- A sample file system whose configuration file enables blur for the layer
surfaces of namespace `bar`. -/
def sample_layer_fs : file_system := fun path =>
  if path = "/home/u/.config/mwc/mwc.conf" then some ["layer_rule bar blur\n".data]
  else none

/-! ## Notions of the specification: corners, the easing curve, paths -/

/-- The corner names `border_radius_location` recognises and the bits they
stand for. -/
def corner_names : List (String × Nat) :=
  [("top", CORNER_LOCATION_TOP), ("bottom", CORNER_LOCATION_BOTTOM),
   ("left", CORNER_LOCATION_LEFT), ("right", CORNER_LOCATION_RIGHT),
   ("top_left", CORNER_LOCATION_TOP_LEFT), ("top_right", CORNER_LOCATION_TOP_RIGHT),
   ("bottom_left", CORNER_LOCATION_BOTTOM_LEFT), ("bottom_right", CORNER_LOCATION_BOTTOM_RIGHT)]

/-- The union of the corner bits of the recognised tokens of an argument
list; a token that is no corner name adds nothing. -/
def corner_union (args : List String) : Nat :=
  (args.filterMap (fun a => corner_names.lookup a)).foldl (fun x y => x ||| y) 0

/-- The cubic bezier polynomial with the control values `p0`, `p1`, `p2`,
`p3` (one coordinate of the four control points) at the parameter `t`. -/
def cubic_bezier (p0 p1 p2 p3 t : ℚ) : ℚ :=
  (1 - t) ^ 3 * p0 + 3 * (1 - t) ^ 2 * t * p1 + 3 * (1 - t) * t ^ 2 * p2 + t ^ 3 * p3

/-- The default configuration path: the value of `MWC_DEFAULT_CONFIG_PATH`
if it is set, the compiled-in path otherwise. -/
def default_config_path (g : process_state) : String :=
  (getenv g "MWC_DEFAULT_CONFIG_PATH").getD "/usr/share/mwc/default.conf"

/-- The configured path cannot be used: no variable gives one, or the file
at the resolved path cannot be opened. -/
def config_path_unusable (fs : file_system) (g : process_state) : Prop :=
  get_config_path g 1024 = none ∨ ∃ p, get_config_path g 1024 = some p ∧ fs p = none

/-- A sample file system with a configuration file `mwc.conf` in the
working directory and the default configuration file. -/
def sample_relative_fs : file_system := fun path =>
  if path = "mwc.conf" then some ["master_count 2\n".data]
  else if path = "/usr/share/mwc/default.conf" then some ["master_count 3\n".data]
  else none

/-! ## Ownership of regexes and strings -/

/-- What a rule constructor does with regexes: the flag it returns, the
patterns `regcomp` compiled successfully during the call, and the compiled
regexes it passed to `regfree` before returning, both in order of
execution. -/
structure rule_trace where
  ok : Bool
  compiled : List regex_t
  released : List regex_t
deriving DecidableEq

/-- The C function `config_add_window_rule` as far as regexes go.  A failed `regcomp`
returns at once (`regfree` is called on the object that failed to compile,
not on an earlier one); an unknown predicate or too few predicate arguments
go through the label `invalid`, which releases the regexes the condition
has. -/
def config_add_window_rule_trace (E : Ext) (app_id_regex title_regex predicate : String)
    (args : List String) : rule_trace :=
  match compile_condition E app_id_regex with
  | none => ⟨false, [], []⟩
  | some app_id =>
    match compile_condition E title_regex with
    | none => ⟨false, app_id.toList, []⟩
    | some title =>
      let compiled := app_id.toList ++ title.toList
      if predicate = "float" then ⟨true, compiled, []⟩
      else if predicate = "size" then
        if args.length < 2 then ⟨false, compiled, compiled⟩ else ⟨true, compiled, []⟩
      else if predicate = "opacity" then
        if args.length < 1 then ⟨false, compiled, compiled⟩ else ⟨true, compiled, []⟩
      else ⟨false, compiled, compiled⟩

/-- The C function `config_add_layer_rule` as far as regexes go. -/
def config_add_layer_rule_trace (E : Ext) (regex predicate : String) : rule_trace :=
  match compile_condition E regex with
  | none => ⟨false, [], []⟩
  | some condition =>
    if predicate = "blur" then ⟨true, condition.toList, []⟩
    else ⟨false, condition.toList, condition.toList⟩

/-- The resources a keybind owns: the duplicated spawn string of a `run`
keybind, and its node. -/
def keybind_resources (k : keybind) : List resource :=
  (match k.action, k.args with
    | keybind_fn.keybind_run, keybind_args.str s => [resource.string s]
    | _, _ => [])
  ++ [resource.keybind_node k]

/-- The resources a snapshot owns, workspace entries left out: directory,
output names and nodes, the keybinds of both registries with their spawn
strings, the rules with their compiled regexes, keymap strings, pointer
names and nodes, cursor theme, baked table, start-up commands, and the
snapshot itself. -/
def owned_resources (c : mwc_config) : List resource :=
  (match c.dir with | some d => [resource.string d] | none => [])
  ++ c.outputs.flatMap (fun o => [resource.string o.name, resource.output_node o])
  ++ c.keybinds.flatMap keybind_resources
  ++ c.pointer_keybinds.flatMap keybind_resources
  ++ c.window_rules.floating.flatMap (fun r =>
      condition_resources r.condition ++ [resource.float_rule_node r])
  ++ c.window_rules.size.flatMap (fun r =>
      condition_resources r.condition ++ [resource.size_rule_node r])
  ++ c.window_rules.opacity.flatMap (fun r =>
      condition_resources r.condition ++ [resource.opacity_rule_node r])
  ++ c.layer_rules.blur.flatMap (fun r =>
      (match r.condition.regex with | some x => [resource.regex x] | none => [])
      ++ [resource.blur_rule_node r])
  ++ (match c.keymap_layouts with | some s => [resource.string s] | none => [])
  ++ (match c.keymap_variants with | some s => [resource.string s] | none => [])
  ++ (match c.keymap_options with | some s => [resource.string s] | none => [])
  ++ c.pointers.flatMap (fun p => [resource.string p.name, resource.pointer_node p])
  ++ (match c.cursor_theme with | some s => [resource.string s] | none => [])
  ++ (match c.baked_points with | some t => [resource.baked_points t] | none => [])
  ++ (c.run.take c.run_count).map resource.string
  ++ [resource.config_struct]

/-! ## Notions of the specification: dispatcher runs and finalization -/

/-- A run of the dispatcher: `config_handle_value` is called on a sequence of
tokenized directives, each call starting from the snapshot and the process
state the previous one left, as the loop of `config_load` does; `none` when
one of the calls leaves defined behaviour. -/
def dispatch (E : Ext) : mwc_config → process_state → List (String × List String) →
    Option (mwc_config × process_state)
  | c, g, [] => some (c, g)
  | c, g, (keyword, args) :: rest =>
    match config_handle_value E c g keyword args with
    | none => none
    | some r => dispatch E r.c r.g rest

/-- The directives of the lines of a file: the lines on which
`config_handle_line` returns true, tokenized. -/
def line_directives (cap : Nat) (lines : List (List Char)) : List (String × List String) :=
  lines.filterMap (fun line =>
    match config_handle_line cap line with
    | line_result.directive keyword args => some (keyword, args)
    | _ => none)

/-- The value is a finite number in the half-open interval `(0, 1]`. -/
def CDouble.in_unit : CDouble → Prop
  | CDouble.fin q => 0 < q ∧ q ≤ 1
  | _ => False

/-- What the dispatcher guarantees for the fields that finalization
completes: the integer fields are not negative and the ratio and the two
opacities are finite numbers in `[0, 1]`. -/
def dispatcher_bounds (c : mwc_config) : Prop :=
  0 ≤ c.keyboard_rate ∧ 0 ≤ c.keyboard_delay ∧ 0 ≤ c.cursor_size ∧ 0 ≤ c.min_toplevel_size
  ∧ 0 ≤ c.master_count ∧ CDouble.within 0 1 c.master_ratio
  ∧ CDouble.within 0 1 c.inactive_opacity ∧ CDouble.within 0 1 c.active_opacity

/-- The path `get_config_path` builds, before it is cut to the size of the
buffer. -/
def full_config_path (g : process_state) : Option String :=
  match getenv g "MWC_CONFIG_PATH" with
  | some env_conf => some env_conf
  | none =>
    match getenv g "XDG_CONFIG_HOME" with
    | some config_home => some (String.mk (config_home.data ++ "/mwc/mwc.conf".data))
    | none =>
      match getenv g "HOME" with
      | some home => some (String.mk (home.data ++ "/.config/mwc/mwc.conf".data))
      | none => none

/-- The sample environment with an `atof` that reads the string `nan` as a
NaN, as the C library does. -/
def sample_nan_ext : Ext :=
  { sample_ext with atof := fun s => if s = "nan" then CDouble.nan else atof_decimal s }

/-! # Part II: theorems -/

/-! ## Layout engine -/

theorem layout_reorganize_shrink_eq {α : Type} (k : Nat) :
    ∀ (n : Nat) (masters slaves : List α), n = masters.length →
      layout_reorganize_shrink k n masters slaves
        = (masters.take k, slaves ++ (masters.drop k).reverse) := by
  intro n
  induction n with
  | zero =>
    intro masters slaves h
    have : masters = [] := List.length_eq_zero.mp h.symm
    subst this
    simp [layout_reorganize_shrink]
  | succ n ih =>
    intro masters slaves h
    rcases List.eq_nil_or_concat masters with hnil | ⟨init, last, hcat⟩
    · subst hnil; simp at h
    · rw [List.concat_eq_append] at hcat
      subst hcat
      have hlen : n = init.length := by simpa using h
      unfold layout_reorganize_shrink
      by_cases hk : n + 1 > k
      · have hle : k ≤ init.length := by omega
        simp only [hk, if_true, List.getLast?_concat, List.dropLast_concat]
        rw [ih init (slaves ++ [last]) hlen]
        rw [List.take_append_of_le_length hle, List.drop_append_of_le_length hle]
        simp
      · have hge : (init ++ [last]).length ≤ k := by simp; omega
        simp only [hk, if_false]
        rw [List.take_of_length_le hge, List.drop_of_length_le hge]
        simp

theorem layout_reorganize_grow_eq {α : Type} (k : Nat) :
    ∀ (sc mc : Nat) (masters slaves : List α), sc = slaves.length →
      layout_reorganize_grow k mc sc masters slaves
        = (masters ++ (slaves.drop (sc - min (k - mc) sc)).reverse,
           slaves.take (sc - min (k - mc) sc)) := by
  intro sc
  induction sc with
  | zero =>
    intro mc masters slaves h
    have : slaves = [] := List.length_eq_zero.mp h.symm
    subst this
    simp [layout_reorganize_grow]
  | succ n ih =>
    intro mc masters slaves h
    rcases List.eq_nil_or_concat slaves with hnil | ⟨init, last, hcat⟩
    · subst hnil; simp at h
    · rw [List.concat_eq_append] at hcat
      subst hcat
      have hlen : n = init.length := by simpa using h
      unfold layout_reorganize_grow
      by_cases hk : mc < k
      · simp only [hk, if_true, List.getLast?_concat, List.dropLast_concat]
        rw [ih (mc + 1) (masters ++ [last]) init hlen]
        have e1 : n + 1 - min (k - mc) (n + 1) = n - min (k - (mc + 1)) n := by omega
        have hle : n - min (k - (mc + 1)) n ≤ init.length := by omega
        rw [e1, List.take_append_of_le_length hle, List.drop_append_of_le_length hle]
        simp
      · have e0 : n + 1 - min (k - mc) (n + 1) = (init ++ [last]).length := by
          simp; omega
        simp only [hk, if_false]
        rw [e0, List.take_length, List.drop_length]
        simp

/-- Closed form of the list part of `layout_reorganize`. -/
theorem layout_reorganize_lists_eq {α : Type} (k : Nat) (masters slaves : List α) :
    layout_reorganize_lists k masters slaves =
      if masters.length > k then (masters.take k, slaves ++ (masters.drop k).reverse)
      else (masters ++ (slaves.drop (slaves.length - min (k - masters.length) slaves.length)).reverse,
            slaves.take (slaves.length - min (k - masters.length) slaves.length)) := by
  unfold layout_reorganize_lists
  by_cases h : masters.length > k
  · simp only [h, if_true]
    exact layout_reorganize_shrink_eq k _ masters slaves rfl
  · simp only [h, if_false]
    by_cases h2 : masters.length < k ∧ slaves.length > 0
    · simp only [h2, and_self, if_true]
      exact layout_reorganize_grow_eq k _ _ masters slaves rfl
    · simp only [h2, if_false]
      have : min (k - masters.length) slaves.length = 0 := by omega
      simp [this]

/-- C5: for a workspace with m masters and s slaves and any target count k,
after `layout_reorganize` the master list has min(k, m+s) windows and the
two lists together still have m+s windows. -/
theorem layout_reorganize_counts (k : Nat) (w : mwc_workspace) :
    (layout_reorganize k w).masters.length = min k (w.masters.length + w.slaves.length)
    ∧ (layout_reorganize k w).masters.length + (layout_reorganize k w).slaves.length
        = w.masters.length + w.slaves.length := by
  simp only [layout_reorganize, layout_reorganize_lists_eq]
  by_cases h : w.masters.length > k
  · simp only [h, if_true, List.length_take, List.length_append, List.length_reverse,
      List.length_drop]
    omega
  · simp only [h, if_false, List.length_take, List.length_append, List.length_reverse,
      List.length_drop]
    omega

/-- C6, as stated, fails: with masters [t1, t2, t3], slaves [t4] and target 1
the claim asks for slaves [t2, t3, t4] (moved masters in their original
order in front of the old slaves); the code leaves [t4, t3, t2]. -/
theorem layout_reorganize_shrink_head_refuted :
    ¬ ((layout_reorganize 1 ⟨0, 0, [], [⟨1, none, none⟩, ⟨2, none, none⟩, ⟨3, none, none⟩],
          [⟨4, none, none⟩]⟩).masters = [⟨1, none, none⟩]
       ∧ (layout_reorganize 1 ⟨0, 0, [], [⟨1, none, none⟩, ⟨2, none, none⟩, ⟨3, none, none⟩],
          [⟨4, none, none⟩]⟩).slaves
        = [⟨2, none, none⟩, ⟨3, none, none⟩] ++ [⟨4, none, none⟩]) := by
  decide

/-- C6, amended: when the master count m exceeds the target k,
`layout_reorganize` repeatedly moves the tail master to the tail of the
slave list: afterwards the masters are the first k original masters in
order, and the slave list is the original slaves followed by the remaining
m-k original masters in reverse order. -/
theorem layout_reorganize_shrink_spec (k : Nat) (w : mwc_workspace)
    (h : w.masters.length > k) :
    (layout_reorganize k w).masters = w.masters.take k
    ∧ (layout_reorganize k w).slaves = w.slaves ++ (w.masters.drop k).reverse := by
  simp [layout_reorganize, layout_reorganize_lists_eq, h]

/-- Witness for C6 amended: three masters, one slave, target 1. -/
theorem layout_reorganize_shrink_spec_witness :
    (layout_reorganize 1 ⟨0, 0, [], [⟨1, none, none⟩, ⟨2, none, none⟩, ⟨3, none, none⟩],
        [⟨4, none, none⟩]⟩).masters = [⟨1, none, none⟩]
    ∧ (layout_reorganize 1 ⟨0, 0, [], [⟨1, none, none⟩, ⟨2, none, none⟩, ⟨3, none, none⟩],
        [⟨4, none, none⟩]⟩).slaves
      = [⟨4, none, none⟩, ⟨3, none, none⟩, ⟨2, none, none⟩] :=
  layout_reorganize_shrink_spec 1
    ⟨0, 0, [], [⟨1, none, none⟩, ⟨2, none, none⟩, ⟨3, none, none⟩], [⟨4, none, none⟩]⟩
    (by decide)

/-- C7: with m masters, s >= 1 slaves and target k > m, `layout_reorganize`
moves j = min(k-m, s) windows from the tail of the slave list to the tail
of the master list, one at a time: afterwards the masters are the original
masters followed by the last j original slaves in reverse order and the
slaves are the first s-j original slaves; and with k >= m, when there is no
slave or m = k both lists are unchanged. -/
theorem layout_reorganize_grow_spec (k : Nat) (w : mwc_workspace) :
    (w.masters.length < k → 1 ≤ w.slaves.length →
      (layout_reorganize k w).masters
        = w.masters ++ (w.slaves.drop
            (w.slaves.length - min (k - w.masters.length) w.slaves.length)).reverse
      ∧ (layout_reorganize k w).slaves
        = w.slaves.take (w.slaves.length - min (k - w.masters.length) w.slaves.length)
      ∧ ((w.slaves.drop
            (w.slaves.length - min (k - w.masters.length) w.slaves.length)).length
          = min (k - w.masters.length) w.slaves.length))
    ∧ (w.masters.length ≤ k → w.slaves.length = 0 → layout_reorganize k w = w)
    ∧ (w.masters.length = k → layout_reorganize k w = w) := by
  refine ⟨?_, ?_, ?_⟩
  · intro h1 _
    have h : ¬ w.masters.length > k := by omega
    simp only [layout_reorganize, layout_reorganize_lists_eq, h, if_false, List.length_drop,
      true_and]
    omega
  · intro h1 h2
    have h : ¬ w.masters.length > k := by omega
    obtain ⟨addr, index, floating, masters, slaves⟩ := w
    have hs : slaves = [] := List.length_eq_zero.mp h2
    subst hs
    simp [layout_reorganize, layout_reorganize_lists_eq, h]
  · intro h1
    have h : ¬ w.masters.length > k := by omega
    obtain ⟨addr, index, floating, masters, slaves⟩ := w
    simp only at h1
    simp [layout_reorganize, layout_reorganize_lists_eq, h1]

/-- Witness for C7: one master, three slaves, target 3 moves the last two
slaves. -/
theorem layout_reorganize_grow_spec_witness :
    (layout_reorganize 3 ⟨0, 0, [], [⟨1, none, none⟩],
        [⟨2, none, none⟩, ⟨3, none, none⟩, ⟨4, none, none⟩]⟩).masters
      = [⟨1, none, none⟩, ⟨4, none, none⟩, ⟨3, none, none⟩]
    ∧ (layout_reorganize 3 ⟨0, 0, [], [⟨1, none, none⟩],
        [⟨2, none, none⟩, ⟨3, none, none⟩, ⟨4, none, none⟩]⟩).slaves = [⟨2, none, none⟩] :=
  have h := (layout_reorganize_grow_spec 3 ⟨0, 0, [], [⟨1, none, none⟩],
    [⟨2, none, none⟩, ⟨3, none, none⟩, ⟨4, none, none⟩]⟩).1 (by decide) (by decide)
  ⟨h.1, h.2.1⟩

theorem sublist_pair_of_append {α : Type} {a b : α} {l1 l2 : List α}
    (h : List.Sublist [a, b] (l1 ++ l2)) (ha : a ∉ l2) (hb : b ∉ l2) :
    List.Sublist [a, b] l1 := by
  rcases List.sublist_append_iff.mp h with ⟨m1, m2, hm, h1, h2⟩
  match m1, hm, h1 with
  | [], hm, _ =>
    simp only [List.nil_append] at hm
    subst hm
    exact absurd (h2.subset (List.mem_cons_self a [b])) ha
  | [x], hm, _ =>
    simp only [List.singleton_append, List.cons.injEq] at hm
    obtain ⟨_, hm2⟩ := hm
    subst hm2
    exact absurd (h2.subset (List.mem_cons_self b [])) hb
  | x :: y :: rest, hm, h1 =>
    simp only [List.cons_append, List.cons.injEq] at hm
    obtain ⟨hx, hy, hr⟩ := hm
    have hrest : rest = [] := by
      have := congrArg List.length hr
      simp at this
      exact List.length_eq_zero.mp (by omega)
    subst hx hy hrest
    exact h1

theorem sublist_pair_of_take {α : Type} {a b : α} (n : Nat) {l : List α} (hnd : l.Nodup)
    (ha : a ∈ l.take n) (hb : b ∈ l.take n) (h : List.Sublist [a, b] l) :
    List.Sublist [a, b] (l.take n) := by
  have hsplit : l.take n ++ l.drop n = l := List.take_append_drop n l
  have hnd2 : (l.take n ++ l.drop n).Nodup := by rw [hsplit]; exact hnd
  have hdisj := (List.nodup_append.mp hnd2).2.2
  rw [← hsplit] at h
  exact sublist_pair_of_append h (fun hx => hdisj ha hx) (fun hx => hdisj hb hx)

/-- C8: `layout_reorganize` preserves relative order within each list: in a
workspace whose windows are distinct, two windows that are in the master
list both before and after the call stand in the same order in both, and
likewise two windows that are in the slave list both before and after. -/
theorem layout_reorganize_order (k : Nat) (w : mwc_workspace)
    (hnd : (w.masters ++ w.slaves).Nodup) (a b : mwc_toplevel) :
    (a ∈ w.masters → b ∈ w.masters →
      a ∈ (layout_reorganize k w).masters → b ∈ (layout_reorganize k w).masters →
      (appears_before a b w.masters ↔ appears_before a b (layout_reorganize k w).masters))
    ∧ (a ∈ w.slaves → b ∈ w.slaves →
      a ∈ (layout_reorganize k w).slaves → b ∈ (layout_reorganize k w).slaves →
      (appears_before a b w.slaves ↔ appears_before a b (layout_reorganize k w).slaves)) := by
  have hm : w.masters.Nodup := (List.nodup_append.mp hnd).1
  have hs : w.slaves.Nodup := (List.nodup_append.mp hnd).2.1
  have hdisj := (List.nodup_append.mp hnd).2.2
  simp only [layout_reorganize, layout_reorganize_lists_eq, appears_before]
  by_cases h : w.masters.length > k
  · simp only [h, if_true]
    refine ⟨?_, ?_⟩
    · intro _ _ ha' hb'
      exact ⟨fun hab => sublist_pair_of_take k hm ha' hb' hab,
             fun hab => hab.trans (List.take_sublist k w.masters)⟩
    · intro ha hb _ _
      refine ⟨fun hab => hab.trans (List.sublist_append_left _ _), fun hab => ?_⟩
      refine sublist_pair_of_append hab ?_ ?_
      · intro hx
        exact hdisj (List.mem_of_mem_drop (List.mem_reverse.mp hx)) ha
      · intro hx
        exact hdisj (List.mem_of_mem_drop (List.mem_reverse.mp hx)) hb
  · simp only [h, if_false]
    refine ⟨?_, ?_⟩
    · intro ha hb _ _
      refine ⟨fun hab => hab.trans (List.sublist_append_left _ _), fun hab => ?_⟩
      refine sublist_pair_of_append hab ?_ ?_
      · intro hx
        exact hdisj ha (List.mem_of_mem_drop (List.mem_reverse.mp hx))
      · intro hx
        exact hdisj hb (List.mem_of_mem_drop (List.mem_reverse.mp hx))
    · intro _ _ ha' hb'
      exact ⟨fun hab => sublist_pair_of_take _ hs ha' hb' hab,
             fun hab => hab.trans (List.take_sublist _ w.slaves)⟩

/-- Witness for C8: masters [t1, t2, t3], slaves [t4], target 2; t1 stands
before t2 in the master list before and after the call. -/
theorem layout_reorganize_order_witness :
    appears_before (⟨1, none, none⟩ : mwc_toplevel) ⟨2, none, none⟩
      [⟨1, none, none⟩, ⟨2, none, none⟩, ⟨3, none, none⟩]
    ↔ appears_before (⟨1, none, none⟩ : mwc_toplevel) ⟨2, none, none⟩
      (layout_reorganize 2 ⟨0, 0, [], [⟨1, none, none⟩, ⟨2, none, none⟩, ⟨3, none, none⟩],
        [⟨4, none, none⟩]⟩).masters :=
  (layout_reorganize_order 2
    ⟨0, 0, [], [⟨1, none, none⟩, ⟨2, none, none⟩, ⟨3, none, none⟩], [⟨4, none, none⟩]⟩
    (by decide) ⟨1, none, none⟩ ⟨2, none, none⟩).1 (by decide) (by decide) (by decide) (by decide)

/-! ## Best-effort parsing -/

theorem config_handle_value_unknown (E : Ext) (c : mwc_config) (g : process_state)
    (keyword : String) (args : List String) (h : keyword ∉ directive_names) :
    config_handle_value E c g keyword args = some ⟨false, c, g⟩ := by
  simp only [directive_names, List.mem_cons, List.mem_singleton, not_or, List.not_mem_nil,
    or_false] at h
  simp [config_handle_value, h]

theorem config_handle_value_few_args (E : Ext) (c : mwc_config) (g : process_state)
    (keyword : String) (args : List String) (h1 : keyword ∈ directive_names)
    (h2 : args.length < required_args keyword) (r : handled)
    (hr : config_handle_value E c g keyword args = some r) : r.c = c ∧ r.g = g := by
  simp only [directive_names, List.mem_cons, List.mem_singleton, List.not_mem_nil,
    or_false] at h1
  rcases h1 with rfl | rfl | rfl | rfl | rfl | rfl | rfl | rfl | rfl | rfl | rfl | rfl | rfl
    | rfl | rfl | rfl | rfl | rfl | rfl | rfl | rfl | rfl | rfl | rfl | rfl | rfl | rfl | rfl
    | rfl | rfl | rfl | rfl | rfl | rfl | rfl | rfl | rfl | rfl | rfl | rfl | rfl | rfl | rfl
    | rfl | rfl | rfl | rfl | rfl | rfl | rfl | rfl | rfl
  all_goals
    simp [required_args] at h2
    first
      | (simp [config_handle_value, h2] at hr; subst hr; exact ⟨rfl, rfl⟩)
      | (subst h2; simp [config_handle_value, parse_color_rgba_or_hex] at hr)

theorem compile_condition_invalid (E : Ext) (regex : String) (h : regex_invalid E regex) :
    compile_condition E regex = none := by
  simp [compile_condition, h.1, h.2]

theorem config_add_layer_rule_invalid (E : Ext) (c : mwc_config) (regex predicate : String)
    (args : List String) (h : regex_invalid E regex ∨ predicate ≠ "blur") :
    config_add_layer_rule E c regex predicate args = (false, c) := by
  unfold config_add_layer_rule
  rcases h with h | h
  · simp [compile_condition_invalid E regex h]
  · cases compile_condition E regex <;> simp [h]

theorem config_add_window_rule_invalid (E : Ext) (c : mwc_config)
    (app_id title predicate : String) (rest : List String)
    (h : window_rule_invalid E (app_id :: title :: predicate :: rest)) :
    config_add_window_rule E c app_id title predicate rest = some (false, c) := by
  unfold config_add_window_rule
  simp only [window_rule_invalid] at h
  cases h1 : compile_condition E app_id with
  | none => rfl
  | some a =>
    cases h2 : compile_condition E title with
    | none => rfl
    | some t =>
      rcases h with h | h | h | h | h
      · rw [compile_condition_invalid E app_id h] at h1; cases h1
      · rw [compile_condition_invalid E title h] at h2; cases h2
      · simp only [List.mem_cons, List.mem_singleton, not_or, List.not_mem_nil, or_false] at h
        simp [h]
      · simp [h.1, h.2]
      · simp [h.1, h.2]

theorem resolve_key_unresolvable (E : Ext) (key : String) (h : key_unresolvable E key) :
    resolve_key E key = none := by
  obtain ⟨h1, h2, h3, h4⟩ := h
  simp only [named_keys, List.mem_cons, List.mem_singleton, not_or, List.not_mem_nil,
    or_false] at h3
  simp [resolve_key, h1, h2, h3, h4]

theorem keybind_action_invalid (k : keybind) (action : String) (rest : List String)
    (h : action ∉ action_names
      ∨ (action ∈ ["run", "move_focus", "swap", "workspace", "move_to_workspace"] ∧ rest = [])
      ∨ (action ∈ ["move_focus", "swap"]
          ∧ ∃ a ∈ rest.head?, a ∉ ["up", "left", "down", "right"])) :
    keybind_action k action rest = some none := by
  rcases h with h | ⟨h, rfl⟩ | ⟨h, a, ha, hd⟩
  · simp only [action_names, List.mem_cons, List.mem_singleton, not_or, List.not_mem_nil,
      or_false] at h
    simp [keybind_action, h]
  · simp only [List.mem_cons, List.mem_singleton, List.not_mem_nil, or_false] at h
    rcases h with rfl | rfl | rfl | rfl | rfl <;> simp [keybind_action]
  · simp only [List.mem_cons, List.mem_singleton, List.not_mem_nil, or_false, not_or] at h hd
    cases rest with
    | nil => simp at ha
    | cons b rest =>
      simp only [List.head?_cons, Option.mem_def, Option.some.injEq] at ha
      subst ha
      rcases h with rfl | rfl <;> simp [keybind_action, parse_direction, hd]

theorem config_add_keybind_invalid (E : Ext) (c : mwc_config) (modifiers key action : String)
    (rest : List String) (h : keybind_invalid E (modifiers :: key :: action :: rest))
    (r : Bool × mwc_config)
    (hr : config_add_keybind E c modifiers key action rest = some r) : r = (false, c) := by
  unfold config_add_keybind at hr
  simp only [keybind_invalid] at h
  generalize parse_modifiers modifiers.data.length modifiers.data 0 = pm at hr
  cases pm with
  | none => simp at hr
  | some flag =>
    simp only [Option.bind_eq_bind, Option.some_bind] at hr
    rcases h with h | h
    · rw [resolve_key_unresolvable E key h] at hr
      simpa using hr.symm
    · cases hk : resolve_key E key with
      | none => rw [hk] at hr; simpa using hr.symm
      | some pk =>
        obtain ⟨pointer, key_sym⟩ := pk
        rw [hk] at hr
        simp only [keybind_action_invalid _ action rest h, Option.some_bind] at hr
        simpa using hr.symm

theorem config_add_keybind_invalid_defined (E : Ext) (c : mwc_config)
    (modifiers key action : String) (rest : List String)
    (h : keybind_invalid E (modifiers :: key :: action :: rest))
    (hm : (parse_modifiers modifiers.data.length modifiers.data 0).isSome) :
    config_add_keybind E c modifiers key action rest = some (false, c) := by
  unfold config_add_keybind
  simp only [keybind_invalid] at h
  obtain ⟨flag, hflag⟩ := Option.isSome_iff_exists.mp hm
  simp only [hflag, Option.bind_eq_bind, Option.some_bind]
  rcases h with h | h
  · rw [resolve_key_unresolvable E key h]
  · cases hk : resolve_key E key with
    | none => rfl
    | some pk =>
      obtain ⟨pointer, key_sym⟩ := pk
      simp only [keybind_action_invalid _ action rest h, Option.some_bind]

theorem parse_color_invalid (args : List String) (h : color_invalid args) :
    parse_color_rgba_or_hex args = some none := by
  cases args with
  | nil => simp [color_invalid] at h
  | cons a0 rest =>
    simp only [color_invalid, List.length_cons] at h
    obtain ⟨h1, h2⟩ := h
    have h3 : ¬ rest.length = 3 := by omega
    have h4 : ¬ a0.length = 8 := h2
    simp [parse_color_rgba_or_hex, h3, h2, h4]

theorem frame_of_ite (c : mwc_config) (g : process_state) (r : handled) (P : Prop)
    [Decidable P]
    (h : (if P then (some ⟨false, c, g⟩ : Option handled) else some ⟨true, c, g⟩) = some r) :
    r.c = c ∧ r.g = g := by
  split_ifs at h <;> (cases h; exact ⟨rfl, rfl⟩)

/-- On an invalid directive `config_handle_value`, when its execution is
defined, leaves the snapshot and the process state as they were. -/
theorem config_handle_value_invalid_frame (E : Ext) (c : mwc_config) (g : process_state)
    (keyword : String) (args : List String) (h : directive_invalid E keyword args)
    (r : handled) (hr : config_handle_value E c g keyword args = some r) :
    r.c = c ∧ r.g = g := by
  by_cases hk : keyword ∈ directive_names
  swap
  · rw [config_handle_value_unknown E c g keyword args hk] at hr
    cases hr
    exact ⟨rfl, rfl⟩
  by_cases hn : args.length < required_args keyword
  · exact config_handle_value_few_args E c g keyword args hk hn r hr
  rcases h with h | h | ⟨rfl, h⟩ | ⟨rfl, h⟩ | ⟨rfl, h⟩ | ⟨hc, h⟩ | ⟨rfl, a, ha, hs⟩
  · exact absurd hk h
  · exact absurd h hn
  · match args, h with
    | app_id :: title :: predicate :: rest, h =>
      simp [config_handle_value, config_add_window_rule_invalid E c app_id title predicate rest h]
        at hr
      exact frame_of_ite c g r _ hr
  · match args, h with
    | regex :: predicate :: rest, h =>
      simp only [layer_rule_invalid] at h
      simp [config_handle_value, config_add_layer_rule_invalid E c regex predicate rest h] at hr
      exact frame_of_ite c g r _ hr
  · match args, h with
    | modifiers :: key :: action :: rest, h =>
      cases hadd : config_add_keybind E c modifiers key action rest with
      | none =>
        simp [config_handle_value, hadd] at hr
        omega
      | some p =>
        have hp := config_add_keybind_invalid E c modifiers key action rest h p hadd
        subst hp
        simp [config_handle_value, hadd] at hr
        exact frame_of_ite c g r _ hr
  · simp only [List.mem_cons, List.mem_singleton, List.not_mem_nil, or_false] at hc
    rcases hc with rfl | rfl | rfl <;>
    · simp [config_handle_value, parse_color_invalid args h] at hr
      subst hr
      exact ⟨rfl, rfl⟩
  · cases args with
    | nil => simp at ha
    | cons b rest =>
      simp only [List.head?_cons, Option.mem_def, Option.some.injEq] at ha
      subst ha
      simp only [List.mem_cons, List.mem_singleton, List.not_mem_nil, or_false, not_or] at hs
      simp [config_handle_value, hs] at hr
      subst hr
      exact ⟨rfl, rfl⟩

theorem config_handle_value_few_args_defined (E : Ext) (c : mwc_config) (g : process_state)
    (keyword : String) (args : List String) (h1 : keyword ∈ directive_names)
    (h2 : args.length < required_args keyword) (hne : args ≠ []) :
    config_handle_value E c g keyword args = some ⟨false, c, g⟩ := by
  simp only [directive_names, List.mem_cons, List.mem_singleton, List.not_mem_nil,
    or_false] at h1
  rcases h1 with rfl | rfl | rfl | rfl | rfl | rfl | rfl | rfl | rfl | rfl | rfl | rfl | rfl
    | rfl | rfl | rfl | rfl | rfl | rfl | rfl | rfl | rfl | rfl | rfl | rfl | rfl | rfl | rfl
    | rfl | rfl | rfl | rfl | rfl | rfl | rfl | rfl | rfl | rfl | rfl | rfl | rfl | rfl | rfl
    | rfl | rfl | rfl | rfl | rfl | rfl | rfl | rfl | rfl
  all_goals
    simp [required_args] at h2
    first
      | exact absurd h2 hne
      | simp [config_handle_value, h2]

/-- On an invalid directive with at least one argument the execution of
`config_handle_value` is defined, unless the directive is a keybind whose
modifier string overruns the 64-byte token buffer. -/
theorem config_handle_value_invalid_defined (E : Ext) (c : mwc_config) (g : process_state)
    (keyword : String) (args : List String) (h : directive_invalid E keyword args)
    (hne : args ≠ [])
    (hm : keyword = "keybind" →
      ∀ m ∈ args.head?, (parse_modifiers m.data.length m.data 0).isSome) :
    ∃ ok, config_handle_value E c g keyword args = some ⟨ok, c, g⟩ := by
  by_cases hk : keyword ∈ directive_names
  swap
  · exact ⟨false, config_handle_value_unknown E c g keyword args hk⟩
  by_cases hn : args.length < required_args keyword
  · exact ⟨false, config_handle_value_few_args_defined E c g keyword args hk hn hne⟩
  rcases h with h | h | ⟨rfl, h⟩ | ⟨rfl, h⟩ | ⟨rfl, h⟩ | ⟨hc, h⟩ | ⟨rfl, a, ha, hs⟩
  · exact absurd hk h
  · exact absurd h hn
  · match args, h with
    | app_id :: title :: predicate :: rest, h =>
      refine ⟨true, ?_⟩
      simp [config_handle_value, config_add_window_rule_invalid E c app_id title predicate rest h]
  · match args, h with
    | regex :: predicate :: rest, h =>
      simp only [layer_rule_invalid] at h
      refine ⟨true, ?_⟩
      simp [config_handle_value, config_add_layer_rule_invalid E c regex predicate rest h]
  · match args, h, hm with
    | modifiers :: key :: action :: rest, h, hm =>
      have hadd := config_add_keybind_invalid_defined E c modifiers key action rest h
        (hm rfl modifiers rfl)
      refine ⟨true, ?_⟩
      simp [config_handle_value, hadd]
  · simp only [List.mem_cons, List.mem_singleton, List.not_mem_nil, or_false] at hc
    refine ⟨false, ?_⟩
    rcases hc with rfl | rfl | rfl <;>
      simp [config_handle_value, parse_color_invalid args h]
  · cases args with
    | nil => simp at ha
    | cons b rest =>
      simp only [List.head?_cons, Option.mem_def, Option.some.injEq] at ha
      subst ha
      simp only [List.mem_cons, List.mem_singleton, List.not_mem_nil, or_false, not_or] at hs
      refine ⟨false, ?_⟩
      simp [config_handle_value, hs]

theorem config_load_lines_filter (E : Ext) :
    ∀ (lines : List (List Char)) (c : mwc_config) (g : process_state)
      (r : mwc_config × process_state),
      config_load_lines E c g lines = some r →
      config_load_lines E c g (lines.filter (fun line => !line_invalid E line)) = some r := by
  intro lines
  induction lines with
  | nil => intro c g r h; simpa [config_load_lines] using h
  | cons line rest ih =>
    intro c g r h
    unfold config_load_lines at h
    cases hl : config_handle_line E.STRING_INITIAL_LENGTH line with
    | undefined => simp [hl] at h
    | skip =>
      simp only [hl] at h
      have hi : line_invalid E line = false := by simp [line_invalid, hl]
      simp only [List.filter, hi, Bool.not_false]
      unfold config_load_lines
      simp only [hl]
      exact ih c g r h
    | no_args =>
      simp only [hl] at h
      have hi : line_invalid E line = true := by simp [line_invalid, hl]
      simp only [List.filter, hi, Bool.not_true]
      exact ih c g r h
    | directive keyword args =>
      simp only [hl] at h
      cases hv : config_handle_value E c g keyword args with
      | none => simp [hv] at h
      | some r1 =>
        simp only [hv] at h
        by_cases hinv : directive_invalid E keyword args
        · have hi : line_invalid E line = true := by simp [line_invalid, hl, hinv]
          obtain ⟨e1, e2⟩ := config_handle_value_invalid_frame E c g keyword args hinv r1 hv
          simp only [List.filter, hi, Bool.not_true]
          rw [e1, e2] at h
          exact ih c g r h
        · have hi : line_invalid E line = false := by simp [line_invalid, hl, hinv]
          simp only [List.filter, hi, Bool.not_false]
          unfold config_load_lines
          simp only [hl, hv]
          exact ih r1.c r1.g r h

theorem config_open_remove_invalid (E : Ext) (fs : file_system) (g : process_state) :
    config_open (remove_invalid_lines E fs) g
      = (config_open fs g).map (Option.map (fun p =>
          (p.1, p.2.filter (fun line => !line_invalid E line)))) := by
  unfold config_open
  simp only [remove_invalid_lines]
  cases h1 : get_config_path g 1024 with
  | none =>
    cases h2 : get_default_config_path g 1024 with
    | none => simp
    | some path => cases h3 : fs path <;> simp [h3]
  | some path0 =>
    cases h4 : fs path0 with
    | some file => cases h5 : path_dir path0 <;> simp [h4, h5]
    | none =>
      cases h2 : get_default_config_path g 1024 with
      | none => simp [h4]
      | some path => cases h3 : fs path <;> simp [h3, h4]

theorem config_load_remove_invalid (E : Ext) (fs : file_system) (g : process_state)
    (l : loaded) (h : config_load E fs g = some l) :
    config_load E (remove_invalid_lines E fs) g = some l := by
  unfold config_load at h ⊢
  rw [config_open_remove_invalid]
  cases ho : config_open fs g with
  | none => simp [ho] at h
  | some o =>
    cases o with
    | none => simpa [ho] using h
    | some p =>
      obtain ⟨c, file⟩ := p
      simp only [ho] at h
      simp only [Option.map_some']
      cases hll : config_load_lines E c g file with
      | none => simp [hll] at h
      | some r =>
        simp only [config_load_lines_filter E file c g r hll]
        simpa [hll] using h

theorem read_modifier_eq :
    ∀ (p mod : List Char), read_modifier mod p =
      if (mod ++ p.takeWhile (fun ch => decide (ch ≠ '+'))).length ≥ 64 then none
      else some (mod ++ p.takeWhile (fun ch => decide (ch ≠ '+')),
                 p.dropWhile (fun ch => decide (ch ≠ '+'))) := by
  intro p
  induction p with
  | nil => intro mod; simp [read_modifier]
  | cons ch rest ih =>
    intro mod
    unfold read_modifier
    by_cases hc : ch = '+'
    · subst hc
      simp [List.takeWhile, List.dropWhile]
    · simp only [hc, if_false]
      rw [ih]
      simp [List.takeWhile, List.dropWhile, hc]

theorem takeWhile_not_plus (p : List Char) :
    '+' ∉ p.takeWhile (fun ch => decide (ch ≠ '+')) := by
  intro h
  have := List.mem_takeWhile_imp h
  simp at this

theorem dropWhile_not_plus_cases (p : List Char) :
    p.dropWhile (fun ch => decide (ch ≠ '+')) = []
    ∨ ∃ r, p.dropWhile (fun ch => decide (ch ≠ '+')) = '+' :: r := by
  induction p with
  | nil => left; rfl
  | cons ch rest ih =>
    by_cases hc : ch = '+'
    · right; exact ⟨rest, by simp [List.dropWhile, hc]⟩
    · simpa [List.dropWhile, hc] using ih

/-- The modifier parser is defined on every string whose `+`-separated
tokens are shorter than 64 characters. -/
theorem parse_modifiers_defined :
    ∀ (fuel : Nat) (p : List Char) (flag : Nat), p.length ≤ fuel → modifier_tokens_fit p →
      (parse_modifiers fuel p flag).isSome = true := by
  intro fuel
  induction fuel with
  | zero =>
    intro p flag hlen _
    have : p = [] := List.length_eq_zero.mp (by omega)
    subst this
    rfl
  | succ fuel ih =>
    intro p flag hlen hfit
    cases p with
    | nil => rfl
    | cons ch rest =>
      unfold parse_modifiers
      have hsplit := List.takeWhile_append_dropWhile (fun ch => decide (ch ≠ '+')) (ch :: rest)
      have htok : ((ch :: rest).takeWhile (fun ch => decide (ch ≠ '+'))).length < 64 :=
        hfit [] _ ((ch :: rest).dropWhile (fun ch => decide (ch ≠ '+')))
          (by simp) (takeWhile_not_plus _)
      have hrm := read_modifier_eq (ch :: rest) []
      simp only [List.nil_append] at hrm
      rw [if_neg (by omega)] at hrm
      simp only [hrm]
      rcases dropWhile_not_plus_cases (ch :: rest) with hd | ⟨r, hd⟩
      · rw [hd]
        cases fuel <;> rfl
      · rw [hd]
        simp only
        apply ih
        · have := congrArg List.length hsplit
          rw [hd] at this
          simp only [List.length_append, List.length_cons] at this hlen
          omega
        · intro pre tok post hp hplus
          refine hfit ((ch :: rest).takeWhile (fun ch => decide (ch ≠ '+')) ++ '+' :: pre) tok
            post ?_ hplus
          have e := hsplit.symm
          rw [hd, hp] at e
          refine e.trans ?_
          simp

/-- C1, the failing input: the keybind line with an unknown action whose
modifier token has 70 characters is an invalid directive line, and on it
`config_handle_value` does not return with the snapshot as it was: the
modifier loop of `config_add_keybind` copies the token into `char mod[64]`
without a length check and writes past the buffer before the action is
looked at. -/
theorem best_effort_parsing_refuted :
    directive_invalid sample_ext "keybind" [String.mk (List.replicate 70 'a'), "x", "nosuch"]
    ∧ config_handle_value sample_ext config_calloc ⟨[], 0⟩ "keybind"
        [String.mk (List.replicate 70 'a'), "x", "nosuch"] = none := by
  decide

/-- Best-effort parsing where the modifier buffer is not overrun.  For every
snapshot and every invalid
directive line (unknown name, fewer arguments than required, a window or
layer rule with an invalid regex or unknown predicate, a keybind with an
unresolvable key or unknown action, a colour or scroll method the directive
rejects) in which, if it is a keybind line, every modifier token is shorter
than 64 characters, `config_handle_value` returns and leaves the snapshot
and the process state exactly as they were.  Consequently the snapshot the
loop of `config_load`, and `config_load` itself, build from a file is also
built from the same file with its invalid lines removed: the lines after an
invalid line are still applied. -/
theorem best_effort_parsing (E : Ext) :
    (∀ (c : mwc_config) (g : process_state) (keyword : String) (args : List String),
      directive_invalid E keyword args →
        (∀ r, config_handle_value E c g keyword args = some r → r.c = c ∧ r.g = g)
        ∧ (args ≠ [] →
            (keyword = "keybind" → ∀ m ∈ args.head?, modifier_tokens_fit m.data) →
            ∃ ok, config_handle_value E c g keyword args = some ⟨ok, c, g⟩))
    ∧ (∀ (c : mwc_config) (g : process_state) (lines : List (List Char))
        (r : mwc_config × process_state),
        config_load_lines E c g lines = some r →
        config_load_lines E c g (lines.filter (fun line => !line_invalid E line)) = some r)
    ∧ (∀ (fs : file_system) (g : process_state) (l : loaded),
        config_load E fs g = some l →
        config_load E (remove_invalid_lines E fs) g = some l) :=
  ⟨fun c g keyword args h =>
      ⟨fun r hr => config_handle_value_invalid_frame E c g keyword args h r hr,
       fun hne hm => config_handle_value_invalid_defined E c g keyword args h hne
        (fun hk m hmem => parse_modifiers_defined _ _ 0 (Nat.le_refl _) (hm hk m hmem))⟩,
   fun c g lines r h => config_load_lines_filter E lines c g r h,
   fun fs g l h => config_load_remove_invalid E fs g l h⟩

/-- Example: the unknown directive `nosuch 1` leaves the empty
snapshot alone, and the file made of that line followed by `border_width 3`
loads to the same snapshot as the file without it. -/
theorem best_effort_parsing_witness :
    (∃ ok, config_handle_value sample_ext config_calloc ⟨[], 0⟩ "nosuch" ["1"]
        = some ⟨ok, config_calloc, ⟨[], 0⟩⟩)
    ∧ config_load_lines sample_ext config_calloc ⟨[], 0⟩
        (["nosuch 1\n".data, "border_width 3\n".data].filter
          (fun line => !line_invalid sample_ext line))
      = some ({ config_calloc with border_width := 3 }, ⟨[], 0⟩) :=
  ⟨((best_effort_parsing sample_ext).1 config_calloc ⟨[], 0⟩ "nosuch" ["1"] (by decide)).2
      (by decide) (fun h => absurd h (by decide)),
   (best_effort_parsing sample_ext).2.1 config_calloc ⟨[], 0⟩
      ["nosuch 1\n".data, "border_width 3\n".data]
      ({ config_calloc with border_width := 3 }, ⟨[], 0⟩) (by decide)⟩

/-! ## Numeric bounds -/

theorem clamp_bounds (v lo hi : Int) (h : lo ≤ hi) : lo ≤ clamp v lo hi ∧ clamp v lo hi ≤ hi := by
  unfold clamp imax imin
  split_ifs <;> omega

theorem clamp_of_mem (v lo hi : Int) (h1 : lo ≤ v) (h2 : v ≤ hi) : clamp v lo hi = v := by
  unfold clamp imax imin
  split_ifs <;> omega

theorem CDouble.clamp_within (v : CDouble) (lo hi : ℚ) (h : lo ≤ hi) :
    CDouble.within lo hi (CDouble.clamp v (CDouble.fin lo) (CDouble.fin hi)) := by
  cases v with
  | nan => simp [CDouble.clamp, CDouble.max, CDouble.min, CDouble.lt, CDouble.within, h, not_lt.mpr h]
  | ninf => simp [CDouble.clamp, CDouble.max, CDouble.min, CDouble.lt, CDouble.within, h]
  | pinf => simp [CDouble.clamp, CDouble.max, CDouble.min, CDouble.lt, CDouble.within, h, not_lt.mpr h]
  | fin q =>
    simp only [CDouble.clamp, CDouble.max, CDouble.min, CDouble.lt]
    by_cases h1 : q < hi
    · by_cases h2 : q < lo
      · simp [h1, h2, CDouble.within, h]
      · simp [h1, h2, CDouble.within, le_of_lt h1, not_lt.mp h2]
    · simp [h1, CDouble.within, h, not_lt.mpr h]

theorem isdigit_not_isspace (ch : Char) (h : isdigit ch = true) : isspace ch = false := by
  simp only [isdigit, decide_eq_true_eq] at h
  simp only [isspace, Bool.or_eq_false_iff, decide_eq_false_iff_not]
  refine ⟨⟨⟨⟨⟨?_, ?_⟩, ?_⟩, ?_⟩, ?_⟩, ?_⟩ <;>
    (intro hc; subst hc; revert h; decide)

theorem takeWhile_eq_self_of_all {α : Type} (p : α → Bool) (l : List α)
    (h : l.all p = true) : l.takeWhile p = l := by
  induction l with
  | nil => rfl
  | cons a l ih =>
    simp only [List.all_cons, Bool.and_eq_true] at h
    simp [List.takeWhile, h.1, ih h.2]

theorem atoi_literal (s : String) (n : Nat) (h : literal_value s = some n)
    (hn : (n : Int) ≤ INT_MAX) : atoi s = n := by
  unfold literal_value at h
  split_ifs at h with hs
  obtain ⟨hne, hall⟩ := hs
  simp only [Option.some.injEq] at h
  unfold atoi strtol
  cases hd : s.data with
  | nil => exact absurd hd hne
  | cons ch rest =>
    rw [hd] at hall h
    have hch : isdigit ch = true := by
      simp only [List.all_cons, Bool.and_eq_true] at hall
      exact hall.1
    have hsp : isspace ch = false := isdigit_not_isspace ch hch
    have hdrop : (ch :: rest).dropWhile isspace = ch :: rest := by
      simp [List.dropWhile, hsp]
    have hminus : ch ≠ '-' := by
      intro hc; subst hc; revert hch; decide
    have hplus : ch ≠ '+' := by
      intro hc; subst hc; revert hch; decide
    simp only [hdrop]
    have htake : (ch :: rest).takeWhile isdigit = ch :: rest :=
      takeWhile_eq_self_of_all isdigit _ hall
    split
    · rename_i heq; simp only [List.cons.injEq] at heq; exact absurd heq.1.symm (Ne.symm hminus)
    · rename_i heq; simp only [List.cons.injEq] at heq; exact absurd heq.1.symm (Ne.symm hplus)
    · rw [htake, h]
      unfold INT_MAX at hn
      unfold imin LONG_MAX to_int32
      split_ifs <;> omega

/-- C4: for every argument string `a` (any literal, negative or outside the
`int` range, or no number at all) each size directive stores a value in
[0, INT_MAX], equal to the literal when the literal lies in that range;
`pointer_sensitivity` and the sensitivity argument of `pointer` store a
value in [-1, 1]; `master_ratio`, `active_opacity` and `inactive_opacity`
store a value in [0, 1]. -/
theorem numeric_directive_bounds (E : Ext) (c : mwc_config) (g : process_state) (a : String)
    (rest : List String) :
    (∀ keyword ∈ size_directives, ∃ c1,
        config_handle_value E c g keyword (a :: rest) = some ⟨true, c1, g⟩
        ∧ 0 ≤ stored_size keyword c1 ∧ stored_size keyword c1 ≤ INT_MAX
        ∧ (∀ n : Nat, literal_value a = some n → (n : Int) ≤ INT_MAX →
            stored_size keyword c1 = n))
    ∧ (∃ c1, config_handle_value E c g "pointer_sensitivity" (a :: rest) = some ⟨true, c1, g⟩
        ∧ CDouble.within (-1) 1 c1.pointer_sensitivity)
    ∧ (∀ name accel : String, ∃ p,
        config_handle_value E c g "pointer" (name :: accel :: a :: rest)
          = some ⟨true, { c with pointers := p :: c.pointers }, g⟩
        ∧ CDouble.within (-1) 1 p.sensitivity)
    ∧ (∀ keyword ∈ ratio_directives, ∃ c1,
        config_handle_value E c g keyword (a :: rest) = some ⟨true, c1, g⟩
        ∧ CDouble.within 0 1 (stored_ratio keyword c1)) := by
  have hb := clamp_bounds (atoi a) 0 INT_MAX (by decide)
  have hl : ∀ n : Nat, literal_value a = some n → (n : Int) ≤ INT_MAX →
      clamp (atoi a) 0 INT_MAX = n := by
    intro n h1 h2
    rw [atoi_literal a n h1 h2]
    exact clamp_of_mem _ _ _ (by omega) h2
  have hs := CDouble.clamp_within (E.atof a) (-1) 1 (by norm_num)
  have hr := CDouble.clamp_within (E.atof a) 0 1 (by norm_num)
  refine ⟨?_, ?_, ?_, ?_⟩
  · intro keyword hk
    simp only [size_directives, List.mem_cons, List.mem_singleton, List.not_mem_nil,
      or_false] at hk
    rcases hk with rfl | rfl | rfl | rfl | rfl | rfl | rfl | rfl | rfl <;>
      exact ⟨_, by simp [config_handle_value]; rfl, by simpa [stored_size] using hb.1,
        by simpa [stored_size] using hb.2, by simpa [stored_size] using hl⟩
  · exact ⟨_, by simp [config_handle_value]; rfl, hs⟩
  · intro name accel
    exact ⟨_, by simp [config_handle_value]; rfl, hs⟩
  · intro keyword hk
    simp only [ratio_directives, List.mem_cons, List.mem_singleton, List.not_mem_nil,
      or_false] at hk
    rcases hk with rfl | rfl | rfl
    · refine ⟨_, by simp [config_handle_value]; rfl, ?_⟩
      simpa [stored_ratio, CDouble.ofInt] using hr
    · exact ⟨_, by simp [config_handle_value]; rfl, by simpa [stored_ratio] using hr⟩
    · exact ⟨_, by simp [config_handle_value]; rfl, by simpa [stored_ratio] using hr⟩

/-! ## The tokenizer outside its defined behaviour -/

theorem read_keyword_replicate (cap : Nat) (rest : List Char) :
    ∀ (n : Nat) (kw : List Char), kw.length + n = cap →
      read_keyword cap kw (List.replicate n 'a' ++ ' ' :: rest) = none := by
  intro n
  induction n with
  | zero =>
    intro kw h
    simp only [List.replicate, List.nil_append, read_keyword]
    have : kw.length ≥ cap := by omega
    simp [this]
  | succ n ih =>
    intro kw h
    simp only [List.replicate, List.cons_append, read_keyword]
    have h1 : ¬ kw.length ≥ cap := by omega
    have h2 : ('a' ≠ ' ' ∧ 'a' ≠ '\t' ∧ 'a' ≠ '\n') := by decide
    simp only [h2, and_self, if_true, h1, if_false]
    exact ih (kw ++ ['a']) (by simp; omega)

/-- C2, the failing input: whatever the value `cap` of `STRING_INITIAL_LENGTH`,
on the newline-terminated line made of a directive name of `cap` characters
and one argument, `config_handle_line` calls `realloc` on its output
parameter and writes past the keyword buffer instead of returning the name. -/
theorem config_handle_line_long_name (cap : Nat) :
    config_handle_line cap (List.replicate cap 'a' ++ " x\n".data) = line_result.undefined := by
  cases cap with
  | zero => decide
  | succ n =>
    have hk := read_keyword_replicate (n + 1) ("x\n".data ++ ['\x00']) (n + 1) [] (by simp)
    have hmem : (List.replicate (n + 1) 'a' ++ " x\n".data) ++ ['\x00']
        = List.replicate (n + 1) 'a' ++ ' ' :: ("x\n".data ++ ['\x00']) := by
      simp
    unfold config_handle_line
    rw [hmem]
    have hs : skip_whitespace (List.replicate (n + 1) 'a' ++ ' ' :: ("x\n".data ++ ['\x00']))
        = List.replicate (n + 1) 'a' ++ ' ' :: ("x\n".data ++ ['\x00']) := by
      simp [List.replicate, skip_whitespace]
    rw [hs]
    simp only [List.replicate, List.cons_append] at hk ⊢
    have h2 : ¬ ('a' = '\n' ∨ 'a' = '#') := by decide
    simp only [h2, if_false, hk]

/-- C3, the failing input: whatever the value `cap` of `STRING_INITIAL_LENGTH`,
on the newline-terminated line `a "b` (a directive name followed by an
argument whose quote is not closed) `config_handle_line` steps over the
newline and reads on past the end of the line instead of producing a
directive. -/
theorem config_handle_line_unclosed_quote (cap : Nat) :
    config_handle_line cap "a \"b\n".data = line_result.undefined := by
  match cap with
  | 0 => decide
  | 1 => decide
  | n + 2 =>
    simp [config_handle_line, skip_whitespace, read_keyword, read_args, read_token]

theorem read_args_length :
    ∀ (fuel : Nat) (p : List Char) (ars res : List (List Char)),
      read_args fuel p ars = some res →
      ars.length ≤ res.length ∧ (p.head? ≠ some '\n' → ars.length < res.length) := by
  intro fuel
  induction fuel with
  | zero =>
    intro p ars res h
    cases p <;> simp [read_args] at h
  | succ fuel ih =>
    intro p ars res h
    cases p with
    | nil => simp [read_args] at h
    | cons ch rest =>
      unfold read_args at h
      by_cases hc : ch = '\n'
      · simp only [hc, if_true, Option.some.injEq] at h
        subst h
        simp [hc]
      · simp only [hc, if_false] at h
        split at h
        · cases h
        · have := (ih _ _ _ h).1
          simp only [List.length_append, List.length_singleton] at this
          exact ⟨by omega, fun _ => by omega⟩

/-- Whatever the line and the buffer size, a directive produced by
`config_handle_line` has at least one argument, and a line that is blank or
starts with `#` after its leading blanks is skipped. -/
theorem config_handle_line_directive_args (cap : Nat) (line : List Char) :
    (∀ keyword args, config_handle_line cap line = line_result.directive keyword args →
      1 ≤ args.length)
    ∧ (∀ ch rest, skip_whitespace (line ++ ['\x00']) = ch :: rest → (ch = '\n' ∨ ch = '#') →
      config_handle_line cap line = line_result.skip) := by
  refine ⟨?_, ?_⟩
  · intro keyword args h
    unfold config_handle_line at h
    split at h
    · cases h
    · split_ifs at h
      split at h
      · cases h
      · split at h
        · cases h
        · split_ifs at h with hnl
          split at h
          · cases h
          · rename_i ch2 rest2 _ ars hra
            simp only [line_result.directive.injEq] at h
            have := (read_args_length _ _ _ _ hra).2 (by simpa using hnl)
            rw [← h.2]
            simp only [List.length_map]
            simp only [List.length_nil] at this
            omega
  · intro ch rest h hc
    unfold config_handle_line
    rw [h]
    simp [hc]

/-! ## The tokenizer inside its defined behaviour -/

theorem read_keyword_name (cap : Nat) (rest : List Char) :
    ∀ (n kw : List Char), (∀ ch ∈ n, ch ≠ ' ' ∧ ch ≠ '\t' ∧ ch ≠ '\n') →
      (kw ++ n).length < cap →
      read_keyword cap kw (n ++ ' ' :: rest) = some (kw ++ n, ' ' :: rest) := by
  intro n
  induction n with
  | nil =>
    intro kw _ hlen
    simp only [List.append_nil] at hlen
    simp [read_keyword, Nat.not_le.mpr hlen]
  | cons x n ih =>
    intro kw hn hlen
    have hx := hn x (List.mem_cons_self x n)
    have hlen1 : ¬ kw.length ≥ cap := by
      simp only [List.length_append, List.length_cons] at hlen; omega
    simp only [List.cons_append, read_keyword, hx, ne_eq, not_false_eq_true, and_self, if_true,
      hlen1, if_false, List.append_eq]
    rw [ih (kw ++ [x]) (fun ch hch => hn ch (List.mem_cons_of_mem x hch)) (by simpa using hlen)]
    simp

theorem read_token_bare (ch : Char) (rest : List Char) (hch : ch = ' ' ∨ ch = '\n') :
    ∀ (a tok : List Char), (∀ x ∈ a, x ≠ ' ' ∧ x ≠ '\t' ∧ x ≠ '\n') →
      read_token false tok (a ++ ch :: rest) = some (tok ++ a, ch :: rest) := by
  intro a
  induction a with
  | nil =>
    intro tok _
    cases rest with
    | nil => rcases hch with rfl | rfl <;> simp [read_token]
    | cons r rs => rcases hch with rfl | rfl <;> simp [read_token]
  | cons x a ih =>
    intro tok ha
    have hx := ha x (List.mem_cons_self x a)
    obtain ⟨y, ys, hy⟩ : ∃ y ys, a ++ ch :: rest = y :: ys := by
      cases a with
      | nil => exact ⟨ch, rest, rfl⟩
      | cons a0 a1 => exact ⟨a0, a1 ++ ch :: rest, rfl⟩
    have ih1 := ih (tok ++ [x]) (fun z hz => ha z (List.mem_cons_of_mem x hz))
    rw [hy] at ih1
    simp only [List.cons_append, hy, read_token]
    simp only [Bool.false_eq_true, false_and, not_false_eq_true, true_and, false_or, hx, ne_eq,
      and_self, if_true, if_false]
    rw [ih1]
    simp

theorem read_token_quoted (rest : List Char) :
    ∀ (a tok : List Char), '\n' ∉ a →
      read_token true tok (escape_arg a ++ '"' :: rest) = some (tok ++ a, '"' :: rest) := by
  intro a
  induction a with
  | nil =>
    intro tok _
    cases rest <;> simp [escape_arg, read_token]
  | cons x a ih =>
    intro tok ha
    have hx : x ≠ '\n' := fun h => ha (by simp [h])
    have ha1 : '\n' ∉ a := fun h => ha (List.mem_cons_of_mem x h)
    have ih1 := ih (tok ++ [x]) ha1
    obtain ⟨y, ys, hy⟩ : ∃ y ys, escape_arg a ++ '"' :: rest = y :: ys := by
      cases h : escape_arg a with
      | nil => exact ⟨'"', rest, rfl⟩
      | cons a0 a1 => exact ⟨a0, a1 ++ '"' :: rest, rfl⟩
    by_cases hq : x = '"'
    · subst hq
      simp only [escape_arg, if_true, List.cons_append, read_token, List.append_eq]
      simp only [ih1]
      simp
    · by_cases hb : x = '\\'
      · subst hb
        simp only [escape_arg, hq, if_false, if_true, List.cons_append, read_token,
          List.append_eq]
        simp only [ih1]
        simp
      · simp only [escape_arg, hq, hb, if_false, List.cons_append, hy, read_token]
        rw [hy] at ih1
        simp only [true_and, hq, hx, ne_eq, not_false_eq_true, and_self, true_or, if_true, hb,
          false_and, if_false]
        rw [ih1]
        simp

theorem written_head (a : arg_form) (h : a.well_formed) :
    ∃ x xs, a.written = x :: xs ∧ x ≠ ' ' ∧ x ≠ '\t' ∧ x ≠ '\n' := by
  cases a with
  | bare a =>
    obtain ⟨h1, _, h3⟩ := h
    cases a with
    | nil => exact absurd rfl h1
    | cons x xs => exact ⟨x, xs, rfl, h3 x (List.mem_cons_self x xs)⟩
  | quoted a => exact ⟨'"', escape_arg a ++ ['"'], rfl, by decide, by decide, by decide⟩

theorem args_memory_head (args : List arg_form) :
    ∃ ch r, args_memory args = ch :: r ∧ (ch = ' ' ∨ ch = '\n') := by
  cases args with
  | nil => exact ⟨'\n', ['\x00'], rfl, Or.inr rfl⟩
  | cons a rest =>
    exact ⟨' ', a.written ++ args_memory rest, by simp [args_memory], Or.inl rfl⟩

theorem skip_args_memory (args : List arg_form) (h : ∀ a ∈ args, a.well_formed) :
    skip_whitespace (args_memory args) = loop_memory args := by
  cases args with
  | nil => simp [args_memory, loop_memory, skip_whitespace]
  | cons a rest =>
    obtain ⟨x, xs, hw, h1, h2, _⟩ := written_head a (h a (List.mem_cons_self a rest))
    simp [args_memory, loop_memory, skip_whitespace, hw, h1, h2, List.flatMap]

theorem read_args_loop :
    ∀ (args : List arg_form) (fuel : Nat) (ars : List (List Char)),
      args.length < fuel → (∀ a ∈ args, a.well_formed) →
      read_args fuel (loop_memory args) ars = some (ars ++ args.map arg_form.value) := by
  intro args
  induction args with
  | nil =>
    intro fuel ars hf _
    cases fuel with
    | zero => simp at hf
    | succ f => simp [loop_memory, read_args]
  | cons a rest ih =>
    intro fuel ars hf hwf
    cases fuel with
    | zero => simp at hf
    | succ f =>
      have hrest : ∀ b ∈ rest, b.well_formed := fun b hb => hwf b (List.mem_cons_of_mem a hb)
      have hf1 : rest.length < f := by simp only [List.length_cons] at hf; omega
      have ih1 := ih f (ars ++ [a.value]) hf1 hrest
      obtain ⟨ch, r, hm, hch⟩ := args_memory_head rest
      have hskip := skip_args_memory rest hrest
      cases a with
      | bare a =>
        obtain ⟨h1, h2, h3⟩ := hwf (arg_form.bare a) (List.mem_cons_self _ _)
        cases a with
        | nil => exact absurd rfl h1
        | cons x xs =>
          have hx := h3 x (List.mem_cons_self x xs)
          have hq : x ≠ '"' := fun e => h2 (by simp [e])
          have ht := read_token_bare ch r hch (x :: xs) [] h3
          rw [← hm] at ht
          simp only [loop_memory, arg_form.written, List.cons_append, read_args, hx.2.2, if_false,
            hq, decide_False, Bool.false_eq_true, List.append_eq]
          simp only [List.cons_append] at ht
          simp only [ht, hskip, List.nil_append]
          simpa [arg_form.value] using ih1
      | quoted a =>
        have hn : '\n' ∉ a := hwf (arg_form.quoted a) (List.mem_cons_self _ _)
        have ht := read_token_quoted (args_memory rest) a [] hn
        have hnl : ¬ ('"' = '\n') := by decide
        simp only [loop_memory, arg_form.written, List.cons_append, read_args, hnl, if_false,
          decide_True, if_true, List.append_eq, List.append_assoc, List.singleton_append]
        simp only [ht, List.drop_succ_cons, List.drop_zero, hskip, List.nil_append]
        simpa [arg_form.value] using ih1

theorem args_memory_length (args : List arg_form) :
    args.length + 2 ≤ (args_memory args).length := by
  induction args with
  | nil => simp [args_memory]
  | cons a rest ih =>
    simp only [args_memory, List.flatMap_cons, List.length_append, List.length_cons,
      List.length_nil] at ih ⊢
    omega

/-- Inside its defined behaviour the tokenizer does what the grammar says:
for a directive name shorter than the buffer capacity, made of characters
other than space, tab and newline and not starting with `#`, and for at
least one argument, each written bare or between double quotes with its
quotes and backslashes escaped, `config_handle_line` on the line that holds
them separated by single spaces returns the name and the arguments, in
order and unchanged. -/
theorem config_handle_line_write_line (cap : Nat) (name : List Char) (args : List arg_form)
    (hn1 : name ≠ []) (hn2 : ∀ ch ∈ name, ch ≠ ' ' ∧ ch ≠ '\t' ∧ ch ≠ '\n')
    (hn3 : name.head? ≠ some '#') (hn4 : name.length < cap)
    (ha1 : args ≠ []) (ha2 : ∀ a ∈ args, a.well_formed) :
    config_handle_line cap (write_line name args)
      = line_result.directive (c_string name) (args.map (fun a => c_string a.value)) := by
  have hmem : write_line name args ++ ['\x00'] = name ++ args_memory args := by
    simp [write_line, args_memory]
  cases name with
  | nil => exact absurd rfl hn1
  | cons x n =>
    have hx := hn2 x (List.mem_cons_self x n)
    have hx3 : x ≠ '#' := fun e => hn3 (by simp [e])
    cases args with
    | nil => exact absurd rfl ha1
    | cons a rest =>
      have hkw := read_keyword_name cap (a.written ++ args_memory rest) (x :: n) [] hn2
        (by simpa using hn4)
      have hargs : args_memory (a :: rest) = ' ' :: (a.written ++ args_memory rest) := by
        simp [args_memory]
      have hskip := skip_args_memory (a :: rest) ha2
      obtain ⟨y, ys, hw, hy1, hy2, hy3⟩ := written_head a (ha2 a (List.mem_cons_self a rest))
      have hloop : loop_memory (a :: rest) = y :: (ys ++ args_memory rest) := by
        simp [loop_memory, hw]
      have hlen : (a :: rest).length < (y :: (ys ++ args_memory rest)).length := by
        have := args_memory_length rest
        simp only [List.length_cons, List.length_append]
        omega
      have hra := read_args_loop (a :: rest) _ [] hlen ha2
      rw [hloop] at hra hskip
      unfold config_handle_line
      rw [hmem, hargs]
      rw [hargs] at hskip
      simp only [List.cons_append, skip_whitespace, hx.1, hx.2.1, or_self, if_false, hx.2.2, hx3,
        List.append_eq]
      rw [List.nil_append] at hkw hra
      rw [List.cons_append] at hkw
      rw [hkw]
      simp only [hskip, hy3, if_false, hra, List.map_map]
      rfl

/-! ## Hot reload -/

theorem config_load_null_proc (E : Ext) (fs : file_system) (g0 g : process_state)
    (h : config_load E fs g0 = some ⟨none, g⟩) : g = g0 := by
  unfold config_load at h
  cases ho : config_open fs g0 with
  | none => simp [ho] at h
  | some o =>
    cases o with
    | none =>
      simp only [ho, Option.some.injEq, loaded.mk.injEq, true_and] at h
      exact h.symm
    | some p =>
      obtain ⟨c, file⟩ := p
      simp only [ho] at h
      cases hll : config_load_lines E c g0 file with
      | none => simp [hll] at h
      | some r => simp [hll] at h

theorem reload_workspaces_config (old_config : mwc_config) :
    ∀ (ws : List mwc_workspace) (config : mwc_config),
      (reload_workspaces old_config config ws).1
        = { config with keybinds := rewire_all ws config.keybinds } := by
  intro ws
  induction ws with
  | nil => intro config; rfl
  | cons w rest ih =>
    intro config
    simp only [reload_workspaces, rewire_all, List.foldl_cons]
    rw [ih]
    simp [reload_workspace, rewire_all]

theorem rewire_all_append (ws1 ws2 : List mwc_workspace) (ks : List keybind) :
    rewire_all ws2 (rewire_all ws1 ks) = rewire_all (ws1 ++ ws2) ks := by
  simp [rewire_all, List.foldl_append]

/-- The snapshots reachable from the published snapshot `c1` by keybind
rewiring only. -/
theorem reload_output_config (E : Ext) (old_config c1 : mwc_config) (s : mwc_server) (i : Nat)
    (h : ∃ ws, s.config = { c1 with keybinds := rewire_all ws c1.keybinds }) :
    ∃ ws, (reload_output E old_config s i).config
      = { c1 with keybinds := rewire_all ws c1.keybinds } := by
  obtain ⟨ws, hws⟩ := h
  unfold reload_output
  cases hi : s.outputs[i]? with
  | none => exact ⟨ws, hws⟩
  | some out =>
    refine ⟨ws ++ out.workspaces, ?_⟩
    simp only [reload_workspaces_config, hws, rewire_all_append]

theorem scanl_invariant {α β : Type} (f : α → β → α) (P : α → Prop)
    (hf : ∀ a b, P a → P (f a b)) :
    ∀ (l : List β) (a : α), P a → ∀ x ∈ List.scanl f a l, P x := by
  intro l
  induction l with
  | nil => intro a ha x hx; simp at hx; subst hx; exact ha
  | cons b l ih =>
    intro a ha x hx
    change x ∈ a :: List.scanl f (f a b) l at hx
    simp only [List.mem_cons] at hx
    rcases hx with rfl | hx
    · exact ha
    · exact ih (f a b) (hf a b ha) x hx

theorem foldl_invariant {α β : Type} (f : α → β → α) (P : α → Prop)
    (hf : ∀ a b, P a → P (f a b)) :
    ∀ (l : List β) (a : α), P a → P (List.foldl f a l) := by
  intro l
  induction l with
  | nil => intro a ha; exact ha
  | cons b l ih => intro a ha; exact ih (f a b) (hf a b ha)

theorem reload_blur_config (old_config : mwc_config) (s s3 : mwc_server)
    (h : reload_blur old_config s = some s3) : s3.config = s.config := by
  unfold reload_blur at h
  split_ifs at h <;> (cases h; rfl)

/-- The states of a reload after a successful load, in closed form: two
states with the old snapshot, then the published snapshot and its
successors, which differ from it by keybind rewiring only. -/
theorem config_reload_states_spec (E : Ext) (c : mwc_config) (g : process_state)
    (s : mwc_server) (t : List mwc_server) (h : config_reload_states E c g s = some t) :
    ∃ post, t = { s with proc := g } :: post ∧ post ≠ []
      ∧ (post.head?.map (fun x => x.config) = some
          { c with workspaces := s.config.workspaces, workspaces_head := list_head.copied })
      ∧ (∀ x ∈ post, ∃ ws, x.config
          = { c with workspaces := s.config.workspaces, workspaces_head := list_head.copied,
                     keybinds := rewire_all ws c.keybinds }) := by
  cases hb : reload_blur s.config
      (reload_output_modes (reload_publish c { s with proc := g })) with
  | none => simp [config_reload_states, hb] at h
  | some s3 =>
  have ht : [{ s with proc := g }, reload_publish c { s with proc := g },
        reload_output_modes (reload_publish c { s with proc := g }), s3]
      ++ List.scanl (reload_output E s.config) (reload_inputs s3)
          (List.range (reload_inputs s3).outputs.length)
      ++ [reload_finish s.config (List.foldl (reload_output E s.config) (reload_inputs s3)
          (List.range (reload_inputs s3).outputs.length))] = t := by
    simpa [config_reload_states, hb] using h
  have h1 : (reload_publish c { s with proc := g }).config
      = { c with workspaces := s.config.workspaces, workspaces_head := list_head.copied } := rfl
  have h3 : s3.config =
      { c with workspaces := s.config.workspaces, workspaces_head := list_head.copied } := by
    rw [reload_blur_config _ _ _ hb]; rfl
  have inv0 : ∃ ws, (reload_inputs s3).config
      = { c with workspaces := s.config.workspaces, workspaces_head := list_head.copied,
                 keybinds := rewire_all ws c.keybinds } :=
    ⟨[], by simp only [reload_inputs, h3]; rfl⟩
  have hstep : ∀ (a : mwc_server) (i : Nat),
      (∃ ws, a.config
        = { c with workspaces := s.config.workspaces, workspaces_head := list_head.copied,
                   keybinds := rewire_all ws c.keybinds }) →
      (∃ ws, (reload_output E s.config a i).config
        = { c with workspaces := s.config.workspaces, workspaces_head := list_head.copied,
                   keybinds := rewire_all ws c.keybinds }) :=
    fun a i ha => reload_output_config E s.config
      { c with workspaces := s.config.workspaces, workspaces_head := list_head.copied } a i ha
  refine ⟨[reload_publish c { s with proc := g },
        reload_output_modes (reload_publish c { s with proc := g }), s3]
      ++ List.scanl (reload_output E s.config) (reload_inputs s3)
          (List.range (reload_inputs s3).outputs.length)
      ++ [reload_finish s.config (List.foldl (reload_output E s.config) (reload_inputs s3)
          (List.range (reload_inputs s3).outputs.length))], ?_, by simp, by simp [h1], ?_⟩
  · rw [← ht]; rfl
  intro x hx
  simp only [List.cons_append, List.nil_append, List.mem_cons, List.mem_append,
    List.mem_singleton, List.not_mem_nil, or_false] at hx
  rcases hx with rfl | rfl | rfl | hx | rfl
  · exact ⟨[], rfl⟩
  · exact ⟨[], rfl⟩
  · exact ⟨[], h3⟩
  · exact scanl_invariant _ _ hstep _ _ inv0 x hx
  · have := foldl_invariant _ _ hstep (List.range (reload_inputs s3).outputs.length) _ inv0
    obtain ⟨ws, hws⟩ := this
    exact ⟨ws, hws⟩

theorem config_reload_last (E : Ext) (fs : file_system) (s : mwc_server) (c : mwc_config)
    (g : process_state) (hl : config_load E fs s.proc = some ⟨some c, g⟩) :
    (config_reload_states E c g s).map List.getLast? = (config_reload E fs s).map some := by
  unfold config_reload
  simp only [hl, Option.bind_eq_bind, Option.some_bind]
  cases hb : reload_blur s.config
      (reload_output_modes (reload_publish c { s with proc := g })) with
  | none => simp [config_reload_states, hb]
  | some s3 =>
    simp only [config_reload_states, hb, Option.bind_eq_bind, Option.some_bind, Option.map_some']
    rw [List.getLast?_append]
    rfl

/-- The reload at the level of snapshot values.  If `config_load` fails, the
session is left exactly as it was.  Otherwise the states the session goes
through are: the state on entry and the state after loading, both with the
old snapshot; then the state right after the publication, whose active
snapshot is the new one (parsed, defaults applied) with the entries of the
old workspace list under a head copied by value; then states whose active
snapshot differs from the published one by keybind rewiring only.  The
last state is the result of `config_reload`, and the trace is defined
exactly when `config_reload` is. -/
theorem config_reload_atomic (E : Ext) (fs : file_system) (s : mwc_server) :
    (∀ g, config_load E fs s.proc = some ⟨none, g⟩ →
        config_reload E fs s = some s ∧ config_reload_trace E fs s = some [s, s])
    ∧ (∀ c g, config_load E fs s.proc = some ⟨some c, g⟩ →
        ∀ t, config_reload_trace E fs s = some t →
          ∃ post, t = s :: { s with proc := g } :: post ∧ post ≠ []
            ∧ (∀ x ∈ [s, { s with proc := g }], x.config = s.config)
            ∧ post.head?.map (fun x => x.config)
                = some
                    { c with workspaces := s.config.workspaces, workspaces_head := list_head.copied }
            ∧ (∀ x ∈ post, ∃ ws, x.config
                = { c with workspaces := s.config.workspaces, workspaces_head := list_head.copied,
                           keybinds := rewire_all ws c.keybinds })
            ∧ config_reload E fs s = t.getLast?)
    ∧ (config_reload_trace E fs s).isSome = (config_reload E fs s).isSome := by
  refine ⟨?_, ?_, ?_⟩
  · intro g hl
    have hg := config_load_null_proc E fs s.proc g hl
    subst hg
    simp [config_reload, config_reload_trace, hl]
  · intro c g hl t ht
    have hlast := config_reload_last E fs s c g hl
    simp only [config_reload_trace, hl, Option.bind_eq_bind, Option.some_bind,
      Option.map_eq_some'] at ht
    obtain ⟨t1, hst, rfl⟩ := ht
    obtain ⟨post, rfl, hne, hhead, hinv⟩ := config_reload_states_spec E c g s t1 hst
    refine ⟨post, rfl, hne, ?_, hhead, hinv, ?_⟩
    · intro x hx
      simp only [List.mem_cons, List.mem_singleton, List.not_mem_nil, or_false] at hx
      rcases hx with rfl | rfl <;> rfl
    · rw [hst] at hlast
      simp only [Option.map_some'] at hlast
      cases hr : config_reload E fs s with
      | none => simp [hr] at hlast
      | some r =>
        simp only [hr, Option.map_some', Option.some.injEq] at hlast
        rw [List.getLast?_cons_cons, hlast]
  · cases hl : config_load E fs s.proc with
    | none => simp [config_reload, config_reload_trace, hl]
    | some l =>
      obtain ⟨lc, g⟩ := l
      cases lc with
      | none => simp [config_reload, config_reload_trace, hl]
      | some c =>
        have hlast := config_reload_last E fs s c g hl
        simp only [config_reload_trace, hl, Option.bind_eq_bind, Option.some_bind,
          Option.isSome_map']
        cases hs : config_reload_states E c g s <;> cases hr : config_reload E fs s <;>
          simp [hs, hr] at hlast ⊢

theorem reload_output_effects (E : Ext) (old_config : mwc_config) (s : mwc_server) (i : Nat)
    (e : effect) (h : e ∈ s.effects) : e ∈ (reload_output E old_config s i).effects := by
  unfold reload_output
  cases s.outputs[i]? with
  | none => exact h
  | some out => simp [h]

/-- After every successful `config_reload` (the load returned a snapshot and
the reload ran to its end) the head of the workspace list of the active
snapshot points at the entries the old snapshot had before the reload,
whatever `workspace` directives the file holds, and the workspace entries
parsed from the file have been released; but the head is a by-value copy,
so the ring of these entries closes through the head inside the old
snapshot, which has been released, and a traversal of the list through the
active snapshot is not defined. -/
theorem config_reload_workspaces (E : Ext) (fs : file_system) (s s1 : mwc_server)
    (l : loaded) (c : mwc_config) (hl : config_load E fs s.proc = some l) (hc : l.c = some c)
    (hr : config_reload E fs s = some s1) :
    s1.config.workspaces = s.config.workspaces
    ∧ effect.released (c.workspaces.flatMap (fun wc =>
        [resource.string wc.output, resource.workspace_node wc])) ∈ s1.effects
    ∧ s1.config.workspaces_head = list_head.copied
    ∧ workspace_entries s1.config = none
    ∧ effect.released (config_destroy s.config) ∈ s1.effects := by
  obtain ⟨lc, g⟩ := l
  simp only at hc
  subst hc
  unfold config_reload at hr
  simp only [hl, Option.bind_eq_bind, Option.some_bind] at hr
  cases hb : reload_blur s.config
      (reload_output_modes (reload_publish c { s with proc := g })) with
  | none => simp [hb] at hr
  | some s3 =>
    simp only [hb, Option.some_bind, Option.some.injEq] at hr
    subst hr
    have h3 : s3.config
        = { c with workspaces := s.config.workspaces, workspaces_head := list_head.copied } := by
      rw [reload_blur_config _ _ _ hb]; rfl
    have e3 : effect.released (c.workspaces.flatMap (fun wc =>
        [resource.string wc.output, resource.workspace_node wc])) ∈ s3.effects := by
      unfold reload_blur at hb
      split_ifs at hb <;> (cases hb; simp [reload_output_modes, reload_publish])
    have inv : ∃ ws, (List.foldl (reload_output E s.config) (reload_inputs s3)
        (List.range (reload_inputs s3).outputs.length)).config
        = { c with workspaces := s.config.workspaces, workspaces_head := list_head.copied,
                   keybinds := rewire_all ws c.keybinds } :=
      foldl_invariant _ (fun x => ∃ ws, x.config
          = { c with workspaces := s.config.workspaces, workspaces_head := list_head.copied,
                     keybinds := rewire_all ws c.keybinds })
        (fun a i ha => reload_output_config E s.config
          { c with workspaces := s.config.workspaces, workspaces_head := list_head.copied }
          a i ha) _ _
        ⟨[], by simp only [reload_inputs, h3]; rfl⟩
    obtain ⟨ws, hws⟩ := inv
    refine ⟨?_, ?_, ?_, ?_, ?_⟩
    · simp only [reload_finish, hws]
    · have e5 := foldl_invariant (reload_output E s.config)
        (fun x => effect.released (c.workspaces.flatMap (fun wc =>
          [resource.string wc.output, resource.workspace_node wc])) ∈ x.effects)
        (fun a i ha => reload_output_effects E s.config a i _ ha)
        (List.range (reload_inputs s3).outputs.length) (reload_inputs s3)
        (by simp [reload_inputs, e3])
      simp only [reload_finish, List.mem_append]
      exact Or.inl e5
    · simp only [reload_finish, hws]
    · simp only [reload_finish, hws, workspace_entries]
    · simp [reload_finish]

/-- Example: reloading the sample session from the sample file, which
declares workspace 5, leaves the entries of the old snapshot under the head
of the new one. -/
theorem config_reload_workspaces_witness :
    ∃ s1, config_reload sample_ext sample_fs sample_server = some s1
      ∧ s1.config.workspaces = [⟨1, "eDP-1"⟩] := by
  obtain ⟨s1, hr⟩ := Option.isSome_iff_exists.mp
    (by decide : (config_reload sample_ext sample_fs sample_server).isSome = true)
  obtain ⟨c, hc⟩ := Option.isSome_iff_exists.mp
    (by decide :
      ((config_load sample_ext sample_fs sample_server.proc).bind loaded.c).isSome = true)
  obtain ⟨l, hl, hlc⟩ := Option.bind_eq_some.mp hc
  exact ⟨s1, hr,
    (config_reload_workspaces sample_ext sample_fs sample_server s1 l c hl hlc hr).1⟩

/-- Example: the reload of the sample session is defined and its trace ends
in the state `config_reload` returns. -/
theorem config_reload_atomic_witness :
    (config_reload_trace sample_ext sample_fs sample_server).isSome = true :=
  ((config_reload_atomic sample_ext sample_fs sample_server).2.2).trans (by decide)

/-- C9, the failing input: the reload of the sample session from the sample
file, whose load succeeds.  In the two states before the publication the
active snapshot is the old one and its workspace list is traversed through
its own head.  From the publication on, in every state of the reload, the
active snapshot is the new one, but the head of its workspace list is a
by-value copy of the old head: a traversal of the list through the active
snapshot leaves the new snapshot by way of the head inside the old one, so
the lookup is not answered by the new snapshot alone, and after
`config_destroy(old_config)`, the last step, it reads released memory. -/
theorem config_reload_lookup_old_head :
    (config_reload_trace sample_ext sample_fs sample_server).map
        (fun t => t.map (fun x => (decide (x.config = sample_server.config),
          x.config.workspaces_head,
          workspace_entries x.config)))
      = some [(true, list_head.own, some [⟨1, "eDP-1"⟩]),
              (true, list_head.own, some [⟨1, "eDP-1"⟩]),
              (false, list_head.copied, none), (false, list_head.copied, none),
              (false, list_head.copied, none), (false, list_head.copied, none),
              (false, list_head.copied, none), (false, list_head.copied, none)]
    ∧ (config_reload_trace sample_ext sample_fs sample_server).map
        (fun t => t.getLast?.map (fun x => x.effects.getLast?))
      = some (some (some (effect.released (config_destroy sample_server.config))))
    ∧ resource.config_struct ∈ config_destroy sample_server.config := by
  decide

/-- C10, the failing input: the reload of the sample session from the sample
file.  Before the reload the workspace list of the active snapshot is the
entry of workspace 1.  After it the head of the new snapshot points at that
entry, but the head is a by-value copy: the entry still points at the head
inside the old snapshot, which `config_destroy(old_config)` has released, so
the workspace list of the active snapshot is no list with that entry but a
ring that runs through released memory. -/
theorem config_reload_workspaces_ring :
    workspace_entries sample_server.config = some [⟨1, "eDP-1"⟩]
    ∧ (config_reload sample_ext sample_fs sample_server).map
        (fun s1 => (s1.config.workspaces, s1.config.workspaces_head, workspace_entries s1.config,
          s1.effects.getLast?))
      = some ([⟨1, "eDP-1"⟩], list_head.copied, none,
          some (effect.released (config_destroy sample_server.config)))
    ∧ resource.config_struct ∈ config_destroy sample_server.config := by
  decide

/-! ## Modifier strings -/

theorem modifier_tokens_eq (p : List Char) :
    modifier_tokens p = p.takeWhile (fun ch => decide (ch ≠ '+')) ::
      (match p.dropWhile (fun ch => decide (ch ≠ '+')) with
       | [] => []
       | _ :: r => modifier_tokens r) := by
  induction p with
  | nil => rfl
  | cons ch rest ih =>
    by_cases hc : ch = '+'
    · subst hc
      simp [modifier_tokens, List.takeWhile, List.dropWhile]
    · rw [modifier_tokens, if_neg hc, ih]
      simp [List.takeWhile, List.dropWhile, hc]

theorem modifier_union_cons (t : List Char) (ts : List (List Char)) :
    modifier_flag t ||| modifier_union ts = modifier_union (t :: ts) := by
  unfold modifier_union modifier_flag
  simp only [List.mem_cons]
  by_cases e1 : t = "alt".data
  · subst e1
    by_cases h1 : "alt".data ∈ ts <;> by_cases h2 : "super".data ∈ ts
      <;> by_cases h3 : "ctrl".data ∈ ts <;> by_cases h4 : "shift".data ∈ ts
      <;> simp [h1, h2, h3, h4] <;> decide
  · by_cases e2 : t = "super".data
    · subst e2
      by_cases h1 : "alt".data ∈ ts <;> by_cases h2 : "super".data ∈ ts
        <;> by_cases h3 : "ctrl".data ∈ ts <;> by_cases h4 : "shift".data ∈ ts
        <;> simp [h1, h2, h3, h4] <;> decide
    · by_cases e3 : t = "ctrl".data
      · subst e3
        by_cases h1 : "alt".data ∈ ts <;> by_cases h2 : "super".data ∈ ts
          <;> by_cases h3 : "ctrl".data ∈ ts <;> by_cases h4 : "shift".data ∈ ts
          <;> simp [h1, h2, h3, h4] <;> decide
      · by_cases e4 : t = "shift".data
        · subst e4
          by_cases h1 : "alt".data ∈ ts <;> by_cases h2 : "super".data ∈ ts
            <;> by_cases h3 : "ctrl".data ∈ ts <;> by_cases h4 : "shift".data ∈ ts
            <;> simp [h1, h2, h3, h4] <;> decide
        · have e1' : ¬ "alt".data = t := fun h => e1 h.symm
          have e2' : ¬ "super".data = t := fun h => e2 h.symm
          have e3' : ¬ "ctrl".data = t := fun h => e3 h.symm
          have e4' : ¬ "shift".data = t := fun h => e4 h.symm
          simp [e1, e2, e3, e4, e1', e2', e3', e4']

theorem modifier_fold_union (toks : List (List Char)) (flag : Nat) :
    toks.foldl (fun a tok => a ||| modifier_flag tok) flag = flag ||| modifier_union toks := by
  induction toks generalizing flag with
  | nil => simp [modifier_union]
  | cons t ts ih =>
    rw [List.foldl_cons, ih, Nat.or_assoc, modifier_union_cons]

theorem parse_modifiers_tokens :
    ∀ (fuel : Nat) (p : List Char) (flag : Nat), p.length ≤ fuel →
      (∀ tok ∈ modifier_tokens p, tok.length < 64) →
      parse_modifiers fuel p flag
        = some ((modifier_tokens p).foldl (fun a tok => a ||| modifier_flag tok) flag) := by
  intro fuel
  induction fuel with
  | zero =>
    intro p flag hlen _
    have : p = [] := List.length_eq_zero.mp (by omega)
    subst this
    simp [parse_modifiers, modifier_tokens, modifier_flag]
  | succ fuel ih =>
    intro p flag hlen hfit
    cases p with
    | nil => simp [parse_modifiers, modifier_tokens, modifier_flag]
    | cons ch rest =>
      unfold parse_modifiers
      have hsplit := List.takeWhile_append_dropWhile (fun ch => decide (ch ≠ '+')) (ch :: rest)
      have htoks := modifier_tokens_eq (ch :: rest)
      have htok : ((ch :: rest).takeWhile (fun ch => decide (ch ≠ '+'))).length < 64 :=
        hfit _ (by rw [htoks]; exact List.mem_cons_self _ _)
      have hrm := read_modifier_eq (ch :: rest) []
      simp only [List.nil_append] at hrm
      rw [if_neg (by omega)] at hrm
      simp only [hrm]
      rcases dropWhile_not_plus_cases (ch :: rest) with hd | ⟨r, hd⟩
      · rw [hd] at htoks ⊢
        rw [htoks]
        cases fuel <;> simp [parse_modifiers]
      · rw [hd] at htoks ⊢
        simp only at htoks ⊢
        rw [htoks, List.foldl_cons]
        apply ih
        · have := congrArg List.length hsplit
          rw [hd] at this
          simp only [List.length_append, List.length_cons] at this hlen
          omega
        · intro tok htokm
          exact hfit tok (by rw [htoks]; exact List.mem_cons_of_mem _ htokm)

/-! ## Keybinds -/

theorem resolve_key_resolvable (E : Ext) (key : String) (h : ¬ key_unresolvable E key) :
    ∃ key_sym, resolve_key E key = some (pointer_class key, key_sym) := by
  by_cases h1 : key.data.take 6 = "mouse_".data
  · exact ⟨pointer_key_sym (String.mk (key.data.drop 6)), by simp [resolve_key, pointer_class, h1]⟩
  · by_cases h2 : key.data.take 8 = "pointer_".data
    · exact ⟨pointer_key_sym (String.mk (key.data.drop 8)),
        by simp [resolve_key, pointer_class, h1, h2]⟩
    · by_cases h3 : key ∈ named_keys
      · simp only [named_keys, List.mem_cons, List.mem_singleton, List.not_mem_nil,
          or_false] at h3
        rcases h3 with rfl | rfl | rfl | rfl | rfl | rfl | rfl | rfl | rfl | rfl
        · exact ⟨XKB_KEY_Return, by simp [resolve_key, pointer_class]⟩
        · exact ⟨XKB_KEY_Return, by simp [resolve_key, pointer_class]⟩
        · exact ⟨XKB_KEY_BackSpace, by simp [resolve_key, pointer_class]⟩
        · exact ⟨XKB_KEY_Delete, by simp [resolve_key, pointer_class]⟩
        · exact ⟨XKB_KEY_Escape, by simp [resolve_key, pointer_class]⟩
        · exact ⟨XKB_KEY_Tab, by simp [resolve_key, pointer_class]⟩
        · exact ⟨XKB_KEY_Up, by simp [resolve_key, pointer_class]⟩
        · exact ⟨XKB_KEY_Down, by simp [resolve_key, pointer_class]⟩
        · exact ⟨XKB_KEY_Left, by simp [resolve_key, pointer_class]⟩
        · exact ⟨XKB_KEY_Right, by simp [resolve_key, pointer_class]⟩
      · have h4 : E.xkb_keysym_from_name key ≠ 0 := fun h4 => h ⟨h1, h2, h3, h4⟩
        simp only [named_keys, List.mem_cons, List.mem_singleton, List.not_mem_nil,
          or_false, not_or] at h3
        exact ⟨E.xkb_keysym_from_name key, by simp [resolve_key, pointer_class, h1, h2, h3, h4]⟩

/-- A keybind line the action chain accepts: the completed keybind keeps the
modifiers and the key, holds the named direction for `move_focus` and
`swap`, and holds the raw index, not yet resolved, for `workspace` and
`move_to_workspace`. -/
theorem keybind_action_valid (k : keybind) (action : String) (args : List String)
    (h1 : action ∈ action_names)
    (h2 : ¬ (action ∈ ["run", "move_focus", "swap", "workspace", "move_to_workspace"]
              ∧ args = []))
    (h3 : ¬ (action ∈ ["move_focus", "swap"]
              ∧ ∃ a ∈ args.head?, a ∉ ["up", "left", "down", "right"])) :
    ∃ k1, keybind_action k action args = some (some k1)
      ∧ k1.modifiers = k.modifiers ∧ k1.key = k.key
      ∧ (action = "move_focus" ∨ action = "swap" →
          ∀ a d, args.head? = some a → (a, d) ∈ direction_names →
            k1.args = keybind_args.direction d)
      ∧ (action = "workspace" ∨ action = "move_to_workspace" →
          ∀ a, args.head? = some a →
            k1 = { k with
              action := if action = "workspace" then keybind_fn.keybind_change_workspace
                        else keybind_fn.keybind_move_focused_toplevel_to_workspace,
              args := keybind_args.number (atoi a), initialized := false }) := by
  simp only [action_names, List.mem_cons, List.mem_singleton, List.not_mem_nil, or_false] at h1
  cases args with
  | nil =>
    simp only [List.mem_cons, List.mem_singleton, List.not_mem_nil, or_false, and_true] at h2
    rcases h1 with rfl | rfl | rfl | rfl | rfl | rfl | rfl | rfl | rfl | rfl | rfl | rfl | rfl
      | rfl | rfl
    all_goals first
      | (exfalso; exact h2 (by decide))
      | simp [keybind_action]
  | cons a rest =>
    simp only [List.mem_cons, List.mem_singleton, List.not_mem_nil, or_false, List.head?_cons,
      Option.mem_def, Option.some.injEq, exists_eq_left', not_and, not_not] at h3
    rcases h1 with rfl | rfl | rfl | rfl | rfl | rfl | rfl | rfl | rfl | rfl | rfl | rfl | rfl
      | rfl | rfl
    all_goals first
      | (have hd := h3 (by decide)
         rcases hd with rfl | rfl | rfl | rfl <;>
           simp [keybind_action, parse_direction, direction_names] <;>
           (intro a d ha hd; subst ha; simpa [eq_comm] using hd))
      | simp [keybind_action]

theorem keybind_action_frame (k k1 : keybind) (action : String) (args : List String)
    (h : keybind_action k action args = some (some k1)) :
    k1.modifiers = k.modifiers ∧ k1.key = k.key := by
  by_cases hv : action ∉ action_names
      ∨ (action ∈ ["run", "move_focus", "swap", "workspace", "move_to_workspace"] ∧ args = [])
      ∨ (action ∈ ["move_focus", "swap"]
          ∧ ∃ a ∈ args.head?, a ∉ ["up", "left", "down", "right"])
  · rw [keybind_action_invalid k action args hv] at h
    simp at h
  · simp only [not_or] at hv
    obtain ⟨k2, hk2, hm, hkey, -⟩ := keybind_action_valid k action args (not_not.mp hv.1)
      hv.2.1 hv.2.2
    rw [h] at hk2
    simp only [Option.some.injEq] at hk2
    subst hk2
    exact ⟨hm, hkey⟩

/-- A keybind line that is not invalid and whose modifier tokens fit the
token buffer: `config_add_keybind` returns true, and the snapshot afterwards
has the completed keybind at the front of the pointer registry when the key
is of the pointer class and at the front of the keyboard registry
otherwise. -/
theorem config_add_keybind_valid (E : Ext) (c : mwc_config) (modifiers key action : String)
    (args : List String)
    (hfit : ∀ tok ∈ modifier_tokens modifiers.data, tok.length < 64)
    (h : ¬ keybind_invalid E (modifiers :: key :: action :: args)) :
    ∃ key_sym k1, resolve_key E key = some (pointer_class key, key_sym)
      ∧ keybind_action ⟨modifier_union (modifier_tokens modifiers.data), key_sym,
          keybind_fn.keybind_stop_server, none, keybind_args.null, true⟩ action args
          = some (some k1)
      ∧ config_add_keybind E c modifiers key action args
          = some (true,
              if pointer_class key then { c with pointer_keybinds := k1 :: c.pointer_keybinds }
              else { c with keybinds := k1 :: c.keybinds }) := by
  simp only [keybind_invalid, not_or] at h
  obtain ⟨hk, ha, hn, hd⟩ := h
  obtain ⟨key_sym, hkey⟩ := resolve_key_resolvable E key hk
  obtain ⟨k1, hk1, -⟩ := keybind_action_valid
    ⟨modifier_union (modifier_tokens modifiers.data), key_sym,
      keybind_fn.keybind_stop_server, none, keybind_args.null, true⟩ action args
    (not_not.mp ha) hn hd
  refine ⟨key_sym, k1, hkey, hk1, ?_⟩
  have hp := parse_modifiers_tokens modifiers.data.length modifiers.data 0 (le_refl _) hfit
  rw [modifier_fold_union, Nat.zero_or] at hp
  unfold config_add_keybind
  simp only [hp, Option.bind_eq_bind, Option.some_bind, hkey, hk1]
  cases pointer_class key <;> rfl

/-- C13, the failing input: the keybind line with key `x`, action `exit` and
a modifier token of 70 characters is in none of the listed cases, and
`config_add_keybind` neither returns true nor adds a binding: the modifier
loop copies the token into `char mod[64]` without a length check and writes
past the buffer. -/
theorem config_add_keybind_drops_refuted :
    ¬ keybind_invalid sample_ext [String.mk (List.replicate 70 'a'), "x", "exit"]
    ∧ config_add_keybind sample_ext config_calloc (String.mk (List.replicate 70 'a')) "x" "exit" []
        = none := by
  decide

/-- When the modifier buffer is not overrun, that is for every keybind line
whose `+`-separated modifier tokens are each shorter than 64 characters, `config_add_keybind` drops the
binding (returns false with the snapshot, hence both registries, unchanged)
exactly when the key is unresolvable (no `mouse_`/`pointer_` prefix, not a
named key, keysym lookup fails), the action is unknown, a required argument
is missing, or the direction of `move_focus`/`swap` is none of up, left,
down, right; in every other case it returns true and adds exactly one
binding, at the front of the registry of its class, whose payload for
`move_focus`/`swap` is the named direction. -/
theorem config_add_keybind_drops (E : Ext) (c : mwc_config) (modifiers key action : String)
    (args : List String)
    (hfit : ∀ tok ∈ modifier_tokens modifiers.data, tok.length < 64) :
    (keybind_invalid E (modifiers :: key :: action :: args) →
      config_add_keybind E c modifiers key action args = some (false, c))
    ∧ (¬ keybind_invalid E (modifiers :: key :: action :: args) →
      ∃ k, config_add_keybind E c modifiers key action args
          = some (true,
              if pointer_class key then { c with pointer_keybinds := k :: c.pointer_keybinds }
              else { c with keybinds := k :: c.keybinds })
        ∧ (action = "move_focus" ∨ action = "swap" →
            ∀ a d, args.head? = some a → (a, d) ∈ direction_names →
              k.args = keybind_args.direction d)) := by
  have hp := parse_modifiers_tokens modifiers.data.length modifiers.data 0 (le_refl _) hfit
  constructor
  · intro h
    exact config_add_keybind_invalid_defined E c modifiers key action args h (by rw [hp]; rfl)
  · intro h
    obtain ⟨key_sym, k1, -, hk1, hr⟩ := config_add_keybind_valid E c modifiers key action args hfit h
    refine ⟨k1, hr, ?_⟩
    simp only [keybind_invalid, not_or] at h
    obtain ⟨-, ha, hn, hd⟩ := h
    obtain ⟨k2, hk2, -, -, hdir, -⟩ := keybind_action_valid
      ⟨modifier_union (modifier_tokens modifiers.data), key_sym,
        keybind_fn.keybind_stop_server, none, keybind_args.null, true⟩ action args
      (not_not.mp ha) hn hd
    rw [hk1] at hk2
    simp only [Option.some.injEq] at hk2
    subst hk2
    exact hdir

/-- Example: the line `keybind super x move_focus sideways`, whose
modifier token fits, names no direction and is dropped. -/
theorem config_add_keybind_drops_witness :
    (keybind_invalid sample_ext ["super", "x", "move_focus", "sideways"] →
      config_add_keybind sample_ext config_calloc "super" "x" "move_focus" ["sideways"]
        = some (false, config_calloc))
    ∧ keybind_invalid sample_ext ["super", "x", "move_focus", "sideways"] :=
  ⟨(config_add_keybind_drops sample_ext config_calloc "super" "x" "move_focus" ["sideways"]
      (by decide)).1, by decide⟩

/-- C14: for every modifier string whose `+`-separated tokens are each
shorter than 64 characters, the modifier loop of `config_add_keybind`
computes exactly the union of the flags of the tokens equal to `alt`,
`super`, `ctrl` or `shift`, and that is the bitset of the binding added; any
other token, the empty one included, adds no bit and does not change whether
the binding is accepted (the call returns the same flag as with an empty
modifier string); and two such strings with the same set of tokens, in any
order and with any repetition, give the same bitset. -/
theorem modifier_bitset (E : Ext) (c : mwc_config) (modifiers key action : String)
    (args : List String)
    (hfit : ∀ tok ∈ modifier_tokens modifiers.data, tok.length < 64) :
    parse_modifiers modifiers.data.length modifiers.data 0
      = some (modifier_union (modifier_tokens modifiers.data))
    ∧ (∀ r, config_add_keybind E c modifiers key action args = some r → r.1 = true →
        ∃ k, (r.2.keybinds = k :: c.keybinds ∨ r.2.pointer_keybinds = k :: c.pointer_keybinds)
          ∧ k.modifiers = modifier_union (modifier_tokens modifiers.data))
    ∧ (config_add_keybind E c modifiers key action args).map Prod.fst
        = (config_add_keybind E c "" key action args).map Prod.fst
    ∧ (∀ m2 : String, (∀ tok ∈ modifier_tokens m2.data, tok.length < 64) →
        (∀ tok, tok ∈ modifier_tokens modifiers.data ↔ tok ∈ modifier_tokens m2.data) →
        parse_modifiers m2.data.length m2.data 0
          = parse_modifiers modifiers.data.length modifiers.data 0) := by
  have hp := parse_modifiers_tokens modifiers.data.length modifiers.data 0 (le_refl _) hfit
  rw [modifier_fold_union, Nat.zero_or] at hp
  have hfit0 : ∀ tok ∈ modifier_tokens ("" : String).data, tok.length < 64 := by decide
  refine ⟨hp, ?_, ?_, ?_⟩
  · intro r hr hok
    by_cases h : keybind_invalid E (modifiers :: key :: action :: args)
    · rw [config_add_keybind_invalid_defined E c modifiers key action args h
        (by rw [hp]; rfl)] at hr
      simp only [Option.some.injEq] at hr
      subst hr
      simp at hok
    · obtain ⟨key_sym, k1, -, hk1, hr1⟩ :=
        config_add_keybind_valid E c modifiers key action args hfit h
      rw [hr1] at hr
      simp only [Option.some.injEq] at hr
      subst hr
      refine ⟨k1, ?_, (keybind_action_frame _ k1 action args hk1).1⟩
      cases pointer_class key
      · left; rfl
      · right; rfl
  · by_cases h : keybind_invalid E (modifiers :: key :: action :: args)
    · have h0 : keybind_invalid E ("" :: key :: action :: args) := h
      rw [config_add_keybind_invalid_defined E c modifiers key action args h (by rw [hp]; rfl),
        config_add_keybind_invalid_defined E c "" key action args h0 (by rfl)]
    · have h0 : ¬ keybind_invalid E ("" :: key :: action :: args) := h
      obtain ⟨_, _, -, -, hr1⟩ := config_add_keybind_valid E c modifiers key action args hfit h
      obtain ⟨_, _, -, -, hr0⟩ := config_add_keybind_valid E c "" key action args hfit0 h0
      rw [hr1, hr0]
      rfl
  · intro m2 hfit2 hsame
    have hp2 := parse_modifiers_tokens m2.data.length m2.data 0 (le_refl _) hfit2
    rw [modifier_fold_union, Nat.zero_or] at hp2
    rw [hp, hp2]
    simp [modifier_union, hsame]

/-- Witness for C14: `super+shift+nosuch++super` gives the bitset of super
and shift. -/
theorem modifier_bitset_witness :
    parse_modifiers 25 "super+shift+nosuch++super".data 0 = some 65 :=
  ((modifier_bitset sample_ext config_calloc "super+shift+nosuch++super" "x" "exit" []
    (by decide)).1).trans (by decide)

/-! ## Workspace keybinds -/

theorem rewire_passes_cons (w : mwc_workspace) (ws : List mwc_workspace) (k : keybind) :
    rewire_passes (w :: ws) k = rewire_passes ws (rewire_keybind w k) := rfl

theorem rewire_all_eq_map (ws : List mwc_workspace) (ks : List keybind) :
    rewire_all ws ks = ks.map (rewire_passes ws) := by
  induction ws generalizing ks with
  | nil =>
    have : rewire_passes [] = id := rfl
    simp [rewire_all, this]
  | cons w ws ih =>
    have : rewire_all (w :: ws) ks = rewire_all ws (ks.map (rewire_keybind w)) := rfl
    rw [this, ih, List.map_map]
    rfl

theorem rewire_keybind_cases (w : mwc_workspace) (k : keybind) :
    rewire_keybind w k = k
    ∨ (rewire_keybind w k = { k with args := keybind_args.workspace w.addr, initialized := true }
        ∧ (k.action = keybind_fn.keybind_change_workspace
            ∨ k.action = keybind_fn.keybind_move_focused_toplevel_to_workspace)
        ∧ k.args.as_uint64 = some w.index) := by
  unfold rewire_keybind
  split_ifs with h1 h2
  · exact Or.inr ⟨rfl, Or.inl h1.1, h1.2⟩
  · exact Or.inr ⟨rfl, Or.inr h2.1, h2.2⟩
  · exact Or.inl rfl

theorem rewire_keybind_no_match (w : mwc_workspace) (k : keybind)
    (h : k.args.as_uint64 ≠ some w.index) : rewire_keybind w k = k := by
  simp [rewire_keybind, h]

theorem rewire_passes_stable (l : List mwc_workspace) (k : keybind)
    (h : ∀ w ∈ l, rewire_keybind w k = k) : rewire_passes l k = k := by
  induction l with
  | nil => rfl
  | cons w l ih =>
    rw [rewire_passes_cons, h w (List.mem_cons_self _ _)]
    exact ih (fun w1 hw1 => h w1 (List.mem_cons_of_mem _ hw1))

/-- A keybind that holds the address of a live workspace is left alone by
every rewiring pass over the live workspaces. -/
theorem rewire_keybind_resolved (ws : List mwc_workspace) (hws : live_workspaces ws)
    (k : keybind) (w : mwc_workspace) (hw : w ∈ ws)
    (hk : k.args = keybind_args.workspace w.addr) :
    ∀ w1 ∈ ws, rewire_keybind w1 k = k := by
  intro w1 hw1
  apply rewire_keybind_no_match
  rw [hk]
  simp only [keybind_args.as_uint64, ne_eq, Option.some.injEq]
  exact (hws w hw).2 w1 hw1

/-- The rewiring passes over a part `l` of the live workspaces either leave
the keybind as it was, no workspace of `l` matching it, or resolve it to the
first workspace of `l` that matches. -/
theorem rewire_passes_cases (ws : List mwc_workspace) (hws : live_workspaces ws) :
    ∀ (l : List mwc_workspace), (∀ w ∈ l, w ∈ ws) → ∀ k : keybind,
      (rewire_passes l k = k ∧ ∀ w ∈ l, rewire_keybind w k = k)
      ∨ ∃ w ∈ l, k.args.as_uint64 = some w.index
          ∧ (k.action = keybind_fn.keybind_change_workspace
              ∨ k.action = keybind_fn.keybind_move_focused_toplevel_to_workspace)
          ∧ rewire_passes l k
              = { k with args := keybind_args.workspace w.addr, initialized := true } := by
  intro l
  induction l with
  | nil => intro _ k; left; exact ⟨rfl, fun w hw => by simp at hw⟩
  | cons w l ih =>
    intro hl k
    rw [rewire_passes_cons]
    rcases rewire_keybind_cases w k with h | ⟨h, ha, hi⟩
    · rw [h]
      rcases ih (fun w1 hw1 => hl w1 (List.mem_cons_of_mem _ hw1)) k with ⟨h1, h2⟩ | ⟨w1, hw1, h1⟩
      · left
        refine ⟨h1, ?_⟩
        intro w2 hw2
        rcases List.mem_cons.mp hw2 with rfl | hw2
        · exact h
        · exact h2 w2 hw2
      · right
        exact ⟨w1, List.mem_cons_of_mem _ hw1, h1⟩
    · right
      refine ⟨w, List.mem_cons_self _ _, hi, ha, ?_⟩
      rw [h]
      apply rewire_passes_stable
      intro w1 hw1
      exact rewire_keybind_resolved ws hws _ w (hl w (List.mem_cons_self _ _)) rfl w1
        (hl w1 (List.mem_cons_of_mem _ hw1))

theorem rewire_passes_idempotent (ws : List mwc_workspace) (hws : live_workspaces ws)
    (k : keybind) : rewire_passes ws (rewire_passes ws k) = rewire_passes ws k := by
  rcases rewire_passes_cases ws hws ws (fun _ h => h) k with ⟨h1, h2⟩ | ⟨w, hw, -, -, h⟩
  · rw [h1, h1]
  · apply rewire_passes_stable
    rw [h]
    exact rewire_keybind_resolved ws hws _ w hw rfl

theorem atoi_range (s : String) : -2147483648 ≤ atoi s ∧ atoi s < 2147483648 := by
  unfold atoi to_int32
  constructor <;> omega

/-- The raw index a parsed workspace keybind holds equals the index of a
live workspace exactly when the comparison of the rewiring loop succeeds. -/
theorem as_uint64_number (n : Int) (hn : -2147483648 ≤ n ∧ n < 2147483648) (w : mwc_workspace)
    (hw : w.index < 4294967296) :
    (keybind_args.number n).as_uint64 = some w.index ↔ (w.index : Int) = n := by
  simp only [keybind_args.as_uint64, Option.some.injEq]
  omega

/-- C11: the life cycle of a workspace keybind.  A keybind line with action
`workspace N` or `move_to_workspace N`, a resolvable key and modifier tokens
that fit is stored at the front of its registry unresolved
(`initialized = false`) with the raw index `atoi N` as its payload.  For
every well-formed live workspace set: if a workspace has that index, the
rewiring passes replace the payload by the address of such a workspace and
mark the binding resolved; if no workspace has it, the binding stays as it
was; and on every keybind list a second run of the passes changes
nothing. -/
theorem workspace_keybind_life_cycle (E : Ext) (c : mwc_config)
    (modifiers key action n : String) (rest : List String)
    (ha : action = "workspace" ∨ action = "move_to_workspace")
    (hfit : ∀ tok ∈ modifier_tokens modifiers.data, tok.length < 64)
    (hkey : ¬ key_unresolvable E key) :
    ∃ k : keybind,
      config_add_keybind E c modifiers key action (n :: rest)
        = some (true,
            if pointer_class key then { c with pointer_keybinds := k :: c.pointer_keybinds }
            else { c with keybinds := k :: c.keybinds })
      ∧ k.initialized = false ∧ k.args = keybind_args.number (atoi n)
      ∧ k.action = (if action = "workspace" then keybind_fn.keybind_change_workspace
                    else keybind_fn.keybind_move_focused_toplevel_to_workspace)
      ∧ ∀ ws : List mwc_workspace, live_workspaces ws →
          ((∃ w ∈ ws, (w.index : Int) = atoi n) →
            ∃ w ∈ ws, (w.index : Int) = atoi n ∧ ∀ ks,
              rewire_all ws (k :: ks)
                = { k with args := keybind_args.workspace w.addr, initialized := true }
                    :: rewire_all ws ks)
          ∧ ((∀ w ∈ ws, (w.index : Int) ≠ atoi n) →
              ∀ ks, rewire_all ws (k :: ks) = k :: rewire_all ws ks)
          ∧ ∀ ks, rewire_all ws (rewire_all ws ks) = rewire_all ws ks := by
  have hvalid : ¬ keybind_invalid E (modifiers :: key :: action :: n :: rest) := by
    simp only [keybind_invalid, not_or]
    refine ⟨hkey, ?_, ?_, ?_⟩
    · rcases ha with rfl | rfl <;> simp [action_names]
    · simp
    · rcases ha with rfl | rfl <;> simp
  obtain ⟨key_sym, k1, -, hk1, hr⟩ :=
    config_add_keybind_valid E c modifiers key action (n :: rest) hfit hvalid
  simp only [keybind_invalid, not_or] at hvalid
  obtain ⟨-, hact, hn, hd⟩ := hvalid
  obtain ⟨k2, hk2, -, -, -, hws⟩ := keybind_action_valid
    ⟨modifier_union (modifier_tokens modifiers.data), key_sym,
      keybind_fn.keybind_stop_server, none, keybind_args.null, true⟩ action (n :: rest)
    (not_not.mp hact) hn hd
  rw [hk1] at hk2
  simp only [Option.some.injEq] at hk2
  subst hk2
  have hk := hws ha n rfl
  have hkact : k1.action = keybind_fn.keybind_change_workspace
      ∨ k1.action = keybind_fn.keybind_move_focused_toplevel_to_workspace := by
    rw [hk]
    rcases ha with rfl | rfl
    · left; simp
    · right; simp
  have hkargs : k1.args = keybind_args.number (atoi n) := by rw [hk]
  refine ⟨k1, hr, by rw [hk], hkargs, by rw [hk], ?_⟩
  intro ws hlive
  refine ⟨?_, ?_, ?_⟩
  · rintro ⟨w0, hw0, hi0⟩
    rcases rewire_passes_cases ws hlive ws (fun _ h => h) k1 with ⟨-, h2⟩ | ⟨w, hw, hi, -, h⟩
    · exfalso
      have hs := h2 w0 hw0
      have hm : k1.args.as_uint64 = some w0.index := by
        rw [hkargs]
        exact (as_uint64_number _ (atoi_range n) w0 (hlive w0 hw0).1).mpr hi0
      rcases hkact with ha1 | ha1
      · have : rewire_keybind w0 k1
            = { k1 with args := keybind_args.workspace w0.addr, initialized := true } := by
          simp [rewire_keybind, ha1, hm]
        rw [this] at hs
        have := congrArg keybind.args hs
        rw [hkargs] at this
        simp at this
      · have : rewire_keybind w0 k1
            = { k1 with args := keybind_args.workspace w0.addr, initialized := true } := by
          simp [rewire_keybind, ha1, hm]
        rw [this] at hs
        have := congrArg keybind.args hs
        rw [hkargs] at this
        simp at this
    · refine ⟨w, hw, ?_, ?_⟩
      · rw [hkargs] at hi
        exact (as_uint64_number _ (atoi_range n) w (hlive w hw).1).mp hi
      · intro ks
        rw [rewire_all_eq_map, rewire_all_eq_map, List.map_cons, h]
  · intro hno ks
    rw [rewire_all_eq_map, rewire_all_eq_map, List.map_cons]
    congr 1
    apply rewire_passes_stable
    intro w hw
    apply rewire_keybind_no_match
    rw [hkargs]
    intro hm
    exact hno w hw ((as_uint64_number _ (atoi_range n) w (hlive w hw).1).mp hm)
  · intro ks
    rw [rewire_all_eq_map, rewire_all_eq_map, List.map_map]
    apply List.map_congr_left
    intro k _
    exact rewire_passes_idempotent ws hlive k

/-- Witness for C11: the line `keybind super 1 workspace 1` is stored
unresolved at the front of the keyboard registry, and a pass over the live
workspace of index 1 at address 4096 resolves it to that workspace. -/
theorem workspace_keybind_life_cycle_witness :
    ∃ k : keybind,
      config_add_keybind sample_ext config_calloc "super" "1" "workspace" ["1"]
        = some (true, { config_calloc with keybinds := [k] })
      ∧ k.initialized = false ∧ k.args = keybind_args.number 1
      ∧ rewire_all [⟨4096, 1, [], [], []⟩] [k]
          = [{ k with args := keybind_args.workspace 4096, initialized := true }] := by
  obtain ⟨k, h1, h2, h3, -, h5⟩ := workspace_keybind_life_cycle sample_ext config_calloc
    "super" "1" "workspace" "1" [] (Or.inl rfl) (by decide) (by decide)
  have hlive : live_workspaces [⟨4096, 1, [], [], []⟩] := by
    unfold live_workspaces
    decide
  obtain ⟨w, hw, -, hres⟩ := (h5 [⟨4096, 1, [], [], []⟩] hlive).1
    ⟨⟨4096, 1, [], [], []⟩, List.mem_singleton.mpr rfl, by decide⟩
  have hw0 : w = ⟨4096, 1, [], [], []⟩ := List.mem_singleton.mp hw
  subst hw0
  exact ⟨k, h1, h2, h3, hres []⟩

/-- C12 fails for pointer-class bindings.  The configuration file binds the
workspace of index 1 to the key `1` and to the left mouse button, and the
session has a live workspace of index 1 (at address 4096).  After the
successful reload the keyboard binding holds the address of that workspace
and is resolved, while the pointer binding still holds the raw index 1 and
`initialized = false`: the rewiring loop of `config_reload` walks
`server.config->keybinds` only. -/
theorem config_reload_pointer_keybind_unresolved :
    (config_reload sample_ext sample_pointer_fs sample_server).map (fun s1 =>
        (s1.outputs.map (fun out => out.workspaces.map (fun w => (w.addr, w.index))),
         s1.config.keybinds, s1.config.pointer_keybinds))
      = some ([[(4096, 1)]],
          [⟨WLR_MODIFIER_LOGO, 49, keybind_fn.keybind_change_workspace, none,
            keybind_args.workspace 4096, true⟩],
          [⟨WLR_MODIFIER_LOGO, 272, keybind_fn.keybind_change_workspace, none,
            keybind_args.number 1, false⟩]) := by
  decide

/-! ## List directives and window rules -/

theorem compile_condition_valid (E : Ext) (regex : String) (h : ¬ regex_invalid E regex) :
    compile_condition E regex = some (regex_condition regex) := by
  unfold compile_condition regex_condition
  by_cases h1 : regex = "_"
  · simp [h1]
  · have h2 : E.regcomp_ok regex = true := by
      by_contra h2
      exact h ⟨h1, by simpa using h2⟩
    simp [h1, h2]

theorem config_add_window_rule_float (E : Ext) (c : mwc_config) (app_id title : String)
    (args : List String) (ha : ¬ regex_invalid E app_id) (ht : ¬ regex_invalid E title) :
    config_add_window_rule E c app_id title "float" args
      = some (true, { c with window_rules := { c.window_rules with
          floating := ⟨⟨regex_condition app_id, regex_condition title⟩⟩
            :: c.window_rules.floating } }) := by
  simp [config_add_window_rule, compile_condition_valid E _ ha, compile_condition_valid E _ ht]

theorem config_add_window_rule_size (E : Ext) (c : mwc_config) (app_id title a0 a1 : String)
    (rest : List String) (ha : ¬ regex_invalid E app_id) (ht : ¬ regex_invalid E title) :
    config_add_window_rule E c app_id title "size" (a0 :: a1 :: rest)
      = (size_argument a0).bind (fun w => (size_argument a1).bind (fun h =>
          some (true, { c with window_rules := { c.window_rules with
            size := { condition := ⟨regex_condition app_id, regex_condition title⟩,
                      relative_width := w.1, width := clamp (atoi w.2) 0 INT_MAX,
                      relative_height := h.1, height := clamp (atoi h.2) 0 INT_MAX }
              :: c.window_rules.size } }))) := by
  simp [config_add_window_rule, compile_condition_valid E _ ha, compile_condition_valid E _ ht]

theorem config_add_window_rule_opacity (E : Ext) (c : mwc_config) (app_id title a : String)
    (rest : List String) (ha : ¬ regex_invalid E app_id) (ht : ¬ regex_invalid E title) :
    config_add_window_rule E c app_id title "opacity" (a :: rest)
      = some (true, { c with window_rules := { c.window_rules with
          opacity := { condition := ⟨regex_condition app_id, regex_condition title⟩,
                       active_value := CDouble.clamp (E.atof a) (CDouble.fin 0) (CDouble.fin 1),
                       inactive_value :=
                         match rest.head? with
                         | some b => CDouble.clamp (E.atof b) (CDouble.fin 0) (CDouble.fin 1)
                         | none => CDouble.clamp (E.atof a) (CDouble.fin 0) (CDouble.fin 1) }
            :: c.window_rules.opacity } }) := by
  cases rest with
  | nil =>
    simp [config_add_window_rule, compile_condition_valid E _ ha, compile_condition_valid E _ ht]
  | cons b rest =>
    simp [config_add_window_rule, compile_condition_valid E _ ha, compile_condition_valid E _ ht]

/-- A keybind line that is not invalid and on which the modifier loop is
defined adds its binding at the front of the registry of its class. -/
theorem config_add_keybind_front (E : Ext) (c : mwc_config) (modifiers key action : String)
    (args : List String) (r : Bool × mwc_config)
    (h : ¬ keybind_invalid E (modifiers :: key :: action :: args))
    (hr : config_add_keybind E c modifiers key action args = some r) :
    ∃ k, r = (true,
      if pointer_class key then { c with pointer_keybinds := k :: c.pointer_keybinds }
      else { c with keybinds := k :: c.keybinds }) := by
  unfold config_add_keybind at hr
  generalize parse_modifiers modifiers.data.length modifiers.data 0 = pm at hr
  cases pm with
  | none => simp at hr
  | some flag =>
    simp only [keybind_invalid, not_or] at h
    obtain ⟨hk, ha, hn, hd⟩ := h
    obtain ⟨key_sym, hkey⟩ := resolve_key_resolvable E key hk
    obtain ⟨k1, hk1, -⟩ := keybind_action_valid
      ⟨flag, key_sym, keybind_fn.keybind_stop_server, none, keybind_args.null, true⟩
      action args (not_not.mp ha) hn hd
    simp only [Option.bind_eq_bind, Option.some_bind, hkey, hk1] at hr
    refine ⟨k1, ?_⟩
    cases hpc : pointer_class key <;> simp [hpc] at hr ⊢ <;> exact hr.symm

/-- The shape of the snapshot after a list directive that is not invalid
and on which `config_handle_value` returns. -/
theorem list_directive_shape (E : Ext) (c : mwc_config) (g : process_state) (keyword : String)
    (args : List String) (r : handled)
    (hv : ¬ directive_invalid E keyword args)
    (hr : config_handle_value E c g keyword args = some r) :
    (keyword = "output" → ∃ m, r = ⟨true, { c with outputs := m :: c.outputs }, g⟩)
    ∧ (keyword = "workspace" → ∃ w, r = ⟨true, { c with workspaces := w :: c.workspaces }, g⟩)
    ∧ (keyword = "pointer" → ∃ p, r = ⟨true, { c with pointers := p :: c.pointers }, g⟩)
    ∧ (keyword = "layer_rule" → ∃ n,
        r = ⟨true, { c with layer_rules := { blur := n :: c.layer_rules.blur } }, g⟩)
    ∧ (keyword = "window_rule" → ∃ app_id title predicate rest,
        args = app_id :: title :: predicate :: rest
        ∧ predicate ∈ ["float", "size", "opacity"]
        ∧ (predicate = "float" → ∃ n, r = ⟨true, { c with window_rules :=
            { c.window_rules with floating := n :: c.window_rules.floating } }, g⟩)
        ∧ (predicate = "size" → ∃ n, r = ⟨true, { c with window_rules :=
            { c.window_rules with size := n :: c.window_rules.size } }, g⟩)
        ∧ (predicate = "opacity" → ∃ n, r = ⟨true, { c with window_rules :=
            { c.window_rules with opacity := n :: c.window_rules.opacity } }, g⟩))
    ∧ (keyword = "keybind" → ∃ modifiers key rest k,
        args = modifiers :: key :: rest
        ∧ r = ⟨true,
            if pointer_class key then { c with pointer_keybinds := k :: c.pointer_keybinds }
            else { c with keybinds := k :: c.keybinds }, g⟩) := by
  simp only [directive_invalid, not_or, not_lt] at hv
  obtain ⟨-, hlen, hwr, hlr, hkb, -, -⟩ := hv
  refine ⟨?_, ?_, ?_, ?_, ?_, ?_⟩
  · rintro rfl
    simp only [required_args, if_true] at hlen
    rcases args with _ | ⟨a0, _ | ⟨a1, _ | ⟨a2, _ | ⟨a3, _ | ⟨a4, _ | ⟨a5, rest⟩⟩⟩⟩⟩⟩
    any_goals (simp at hlen)
    cases rest with
    | nil =>
      simp [config_handle_value] at hr
      exact ⟨_, hr.symm⟩
    | cons a6 rest =>
      have hlt : ¬ (rest.length + 1 + 1 + 1 + 1 + 1 + 1 + 1 < 6) := by omega
      simp [config_handle_value, hlt] at hr
      exact ⟨_, hr.symm⟩
  · rintro rfl
    simp [required_args] at hlen
    rcases args with _ | ⟨a0, _ | ⟨a1, rest⟩⟩
    any_goals (simp at hlen)
    have hlt : ¬ (rest.length + 1 + 1 < 2) := by omega
    simp [config_handle_value, hlt] at hr
    exact ⟨_, hr.symm⟩
  · rintro rfl
    simp [required_args] at hlen
    rcases args with _ | ⟨a0, _ | ⟨a1, _ | ⟨a2, rest⟩⟩⟩
    any_goals (simp at hlen)
    have hlt : ¬ (rest.length + 1 + 1 + 1 < 3) := by omega
    simp [config_handle_value, hlt] at hr
    exact ⟨_, hr.symm⟩
  · rintro rfl
    simp [required_args] at hlen
    rcases args with _ | ⟨a0, _ | ⟨a1, rest⟩⟩
    any_goals (simp at hlen)
    simp only [true_and, layer_rule_invalid, not_or, not_not] at hlr
    obtain ⟨hre, rfl⟩ := hlr
    have hlt : ¬ (rest.length + 1 + 1 < 2) := by omega
    simp [config_handle_value, config_add_layer_rule, compile_condition_valid E _ hre, hlt] at hr
    exact ⟨_, hr.symm⟩
  · rintro rfl
    simp [required_args] at hlen
    rcases args with _ | ⟨a0, _ | ⟨a1, _ | ⟨a2, rest⟩⟩⟩
    any_goals (simp at hlen)
    simp only [true_and, window_rule_invalid, not_or, not_not, not_and, not_lt] at hwr
    obtain ⟨ha, ht, hp, hs, ho⟩ := hwr
    have hlt : ¬ (rest.length + 1 + 1 + 1 < 3) := by omega
    refine ⟨a0, a1, a2, rest, rfl, hp, ?_, ?_, ?_⟩
    · rintro rfl
      simp [config_handle_value, config_add_window_rule_float E c a0 a1 rest ha ht, hlt] at hr
      exact ⟨_, hr.symm⟩
    · rintro rfl
      have hs2 := hs rfl
      rcases rest with _ | ⟨b0, _ | ⟨b1, rest⟩⟩
      any_goals (simp at hs2)
      have hlt2 : ¬ (rest.length + 1 + 1 + 1 + 1 + 1 < 3) := by omega
      cases h0 : size_argument b0 with
      | none =>
        simp [config_handle_value, config_add_window_rule_size E c a0 a1 b0 b1 rest ha ht,
          hlt2, h0] at hr
      | some w =>
        cases h1 : size_argument b1 with
        | none =>
          simp [config_handle_value, config_add_window_rule_size E c a0 a1 b0 b1 rest ha ht,
            hlt2, h0, h1] at hr
        | some h =>
          simp [config_handle_value, config_add_window_rule_size E c a0 a1 b0 b1 rest ha ht,
            hlt2, h0, h1] at hr
          exact ⟨_, hr.symm⟩
    · rintro rfl
      have ho2 := ho rfl
      rcases rest with _ | ⟨b0, rest⟩
      any_goals (simp at ho2)
      have hlt2 : ¬ (rest.length + 1 + 1 + 1 + 1 < 3) := by omega
      simp [config_handle_value, config_add_window_rule_opacity E c a0 a1 b0 rest ha ht,
        hlt2] at hr
      exact ⟨_, hr.symm⟩
  · rintro rfl
    simp [required_args] at hlen
    rcases args with _ | ⟨a0, _ | ⟨a1, _ | ⟨a2, rest⟩⟩⟩
    any_goals (simp at hlen)
    simp only [true_and] at hkb
    have hlt : ¬ (rest.length + 1 + 1 + 1 < 3) := by omega
    cases hadd : config_add_keybind E c a0 a1 a2 rest with
    | none => simp [config_handle_value, hlt, hadd] at hr
    | some p =>
      simp [config_handle_value, hlt, hadd] at hr
      obtain ⟨k, hk⟩ := config_add_keybind_front E c a0 a1 a2 rest p hkb hadd
      refine ⟨a0, a1, a2 :: rest, k, rfl, ?_⟩
      rw [← hr, hk]

theorem size_argument_nonempty (a : String) (h : a.data ≠ []) :
    ∃ w, size_argument a = some w := by
  unfold size_argument
  cases hl : a.data.getLast? with
  | none => exact absurd (List.getLast?_eq_none_iff.mp hl) h
  | some last =>
    by_cases hp : last = '%'
    · exact ⟨(true, String.mk a.data.dropLast), by simp [hp]⟩
    · exact ⟨(false, a), by simp [hp]⟩

/-- A list directive that is not invalid makes `config_handle_value` return,
provided the modifier tokens of a keybind fit the token buffer and the two
arguments of a `size` rule are not empty. -/
theorem list_directive_defined (E : Ext) (c : mwc_config) (g : process_state) (keyword : String)
    (args : List String) (hk : keyword ∈ list_directives)
    (hv : ¬ directive_invalid E keyword args)
    (hfit : keyword = "keybind" →
      ∀ m ∈ args.head?, ∀ tok ∈ modifier_tokens m.data, tok.length < 64)
    (hsize : keyword = "window_rule" → args[2]? = some "size" →
      ∀ a ∈ (args.drop 3).take 2, a.data ≠ []) :
    (config_handle_value E c g keyword args).isSome = true := by
  simp only [directive_invalid, not_or, not_lt] at hv
  obtain ⟨-, hlen, hwr, hlr, hkb, -, -⟩ := hv
  simp only [list_directives, List.mem_cons, List.mem_singleton, List.not_mem_nil, or_false] at hk
  rcases hk with rfl | rfl | rfl | rfl | rfl | rfl
  · simp only [required_args, if_true] at hlen
    rcases args with _ | ⟨a0, _ | ⟨a1, _ | ⟨a2, _ | ⟨a3, _ | ⟨a4, _ | ⟨a5, rest⟩⟩⟩⟩⟩⟩
    any_goals (simp at hlen)
    cases rest with
    | nil => simp [config_handle_value]
    | cons a6 rest =>
      have hlt : ¬ (rest.length + 1 + 1 + 1 + 1 + 1 + 1 + 1 < 6) := by omega
      simp [config_handle_value, hlt]
  · simp [required_args] at hlen
    rcases args with _ | ⟨a0, _ | ⟨a1, rest⟩⟩
    any_goals (simp at hlen)
    have hlt : ¬ (rest.length + 1 + 1 < 2) := by omega
    simp [config_handle_value, hlt]
  · simp [required_args] at hlen
    rcases args with _ | ⟨a0, _ | ⟨a1, _ | ⟨a2, rest⟩⟩⟩
    any_goals (simp at hlen)
    have hlt : ¬ (rest.length + 1 + 1 + 1 < 3) := by omega
    simp [config_handle_value, hlt]
  · simp [required_args] at hlen
    rcases args with _ | ⟨a0, _ | ⟨a1, _ | ⟨a2, rest⟩⟩⟩
    any_goals (simp at hlen)
    simp only [true_and, window_rule_invalid, not_or, not_not, not_and, not_lt] at hwr
    obtain ⟨ha, ht, hp, hs, ho⟩ := hwr
    have hlt : ¬ (rest.length + 1 + 1 + 1 < 3) := by omega
    simp only [List.mem_cons, List.mem_singleton, List.not_mem_nil, or_false] at hp
    rcases hp with rfl | rfl | rfl
    · simp [config_handle_value, config_add_window_rule_float E c a0 a1 rest ha ht, hlt]
    · have hs2 := hs rfl
      rcases rest with _ | ⟨b0, _ | ⟨b1, rest⟩⟩
      any_goals (simp at hs2)
      have hlt2 : ¬ (rest.length + 1 + 1 + 1 + 1 + 1 < 3) := by omega
      have hne := hsize rfl rfl
      obtain ⟨w, hw⟩ := size_argument_nonempty b0 (hne b0 (by simp))
      obtain ⟨h, hh⟩ := size_argument_nonempty b1 (hne b1 (by simp))
      simp [config_handle_value, config_add_window_rule_size E c a0 a1 b0 b1 rest ha ht,
        hlt2, hw, hh]
    · have ho2 := ho rfl
      rcases rest with _ | ⟨b0, rest⟩
      any_goals (simp at ho2)
      have hlt2 : ¬ (rest.length + 1 + 1 + 1 + 1 < 3) := by omega
      simp [config_handle_value, config_add_window_rule_opacity E c a0 a1 b0 rest ha ht, hlt2]
  · simp [required_args] at hlen
    rcases args with _ | ⟨a0, _ | ⟨a1, rest⟩⟩
    any_goals (simp at hlen)
    have hlt : ¬ (rest.length + 1 + 1 < 2) := by omega
    simp [config_handle_value, hlt]
  · simp [required_args] at hlen
    rcases args with _ | ⟨a0, _ | ⟨a1, _ | ⟨a2, rest⟩⟩⟩
    any_goals (simp at hlen)
    simp only [true_and] at hkb
    have hlt : ¬ (rest.length + 1 + 1 + 1 < 3) := by omega
    obtain ⟨_, _, -, -, hr⟩ := config_add_keybind_valid E c a0 a1 a2 rest
      (hfit rfl a0 (by simp)) hkb
    simp [config_handle_value, hlt, hr]

/-- C15: every accepted list directive, that is every `output`, `workspace`,
`pointer`, `window_rule`, `layer_rule` or `keybind` line that is not invalid
and on which `config_handle_value` returns, leaves the snapshot with exactly
one new node in front of the previous contents of its own list and with
everything else, every other list included, as it was: `output`,
`workspace` and `pointer` use the list of their name, `layer_rule` the blur
rules, `window_rule` the list of its predicate (float, size or opacity), and
`keybind` the pointer registry when the key token starts with `mouse_` or
`pointer_` and the keyboard registry otherwise.  The call does return on
every such line in which the modifier tokens of a keybind are shorter than
64 characters and the two arguments of a `size` rule are not empty. -/
theorem list_directive_front (E : Ext) (c : mwc_config) (g : process_state) (keyword : String)
    (args : List String) (hk : keyword ∈ list_directives)
    (hv : ¬ directive_invalid E keyword args) :
    ((keyword = "keybind" →
        ∀ m ∈ args.head?, ∀ tok ∈ modifier_tokens m.data, tok.length < 64) →
      (keyword = "window_rule" → args[2]? = some "size" →
        ∀ a ∈ (args.drop 3).take 2, a.data ≠ []) →
      (config_handle_value E c g keyword args).isSome = true)
    ∧ ∀ r : handled, config_handle_value E c g keyword args = some r →
      (keyword = "output" → ∃ m, r = ⟨true, { c with outputs := m :: c.outputs }, g⟩)
      ∧ (keyword = "workspace" →
          ∃ w, r = ⟨true, { c with workspaces := w :: c.workspaces }, g⟩)
      ∧ (keyword = "pointer" → ∃ p, r = ⟨true, { c with pointers := p :: c.pointers }, g⟩)
      ∧ (keyword = "layer_rule" → ∃ n,
          r = ⟨true, { c with layer_rules := { blur := n :: c.layer_rules.blur } }, g⟩)
      ∧ (keyword = "window_rule" → ∃ app_id title predicate rest,
          args = app_id :: title :: predicate :: rest
          ∧ predicate ∈ ["float", "size", "opacity"]
          ∧ (predicate = "float" → ∃ n, r = ⟨true, { c with window_rules :=
              { c.window_rules with floating := n :: c.window_rules.floating } }, g⟩)
          ∧ (predicate = "size" → ∃ n, r = ⟨true, { c with window_rules :=
              { c.window_rules with size := n :: c.window_rules.size } }, g⟩)
          ∧ (predicate = "opacity" → ∃ n, r = ⟨true, { c with window_rules :=
              { c.window_rules with opacity := n :: c.window_rules.opacity } }, g⟩))
      ∧ (keyword = "keybind" → ∃ modifiers key rest k,
          args = modifiers :: key :: rest
          ∧ r = ⟨true,
              if pointer_class key then { c with pointer_keybinds := k :: c.pointer_keybinds }
              else { c with keybinds := k :: c.keybinds }, g⟩) :=
  ⟨list_directive_defined E c g keyword args hk hv,
   fun r hr => list_directive_shape E c g keyword args r hv hr⟩

/-- Witness for C15: the line `keybind super mouse_left_click exit` puts one
binding at the front of the pointer registry. -/
theorem list_directive_front_witness :
    ∃ k, config_handle_value sample_ext config_calloc ⟨[], 0⟩ "keybind"
        ["super", "mouse_left_click", "exit"]
      = some ⟨true, { config_calloc with pointer_keybinds := [k] }, ⟨[], 0⟩⟩ := by
  have h := list_directive_front sample_ext config_calloc ⟨[], 0⟩ "keybind"
    ["super", "mouse_left_click", "exit"] (by decide) (by decide)
  obtain ⟨r, hr⟩ := Option.isSome_iff_exists.mp (h.1 (by decide) (by decide))
  obtain ⟨m, key, rest, k, hargs, hk⟩ := (h.2 r hr).2.2.2.2.2 rfl
  simp only [List.cons.injEq] at hargs
  obtain ⟨rfl, rfl, rfl⟩ := hargs
  exact ⟨k, by rw [hr, hk]; rfl⟩

theorem CDouble.clamp_of_within (q lo hi : ℚ) (h1 : lo ≤ q) (h2 : q ≤ hi) :
    CDouble.clamp (CDouble.fin q) (CDouble.fin lo) (CDouble.fin hi) = CDouble.fin q := by
  simp only [CDouble.clamp, CDouble.max, CDouble.min, CDouble.lt]
  by_cases h3 : q < hi
  · simp [h3, not_lt.mpr h1]
  · have : q = hi := le_antisymm h2 (not_lt.mp h3)
    subst this
    simp [not_lt.mpr h1]

/-- C16: for every `window_rule <app_id> <title> opacity a [b]` line whose two
regex arguments are the sentinel `_` or compile, `config_add_window_rule`
returns true and puts one opacity rule in front of the opacity rules; its
active value is `clamp(atof(a), 0, 1)`, its inactive value is
`clamp(atof(b), 0, 1)` when `b` is given and the active value when only `a`
is given, a value `atof` reads inside `[0, 1]` is stored as it is, and the
app-id (title) field is unconstrained exactly when the argument is `_`.  In
particular, where `atof` reads `0.8` and `0.5` as such and `^kitty$`
compiles, `window_rule _ "^kitty$" opacity 0.8 0.5` adds the rule with
unconstrained app-id, title pattern `^kitty$`, active 0.8 and inactive 0.5. -/
theorem window_rule_opacity_values (E : Ext) (c : mwc_config) (app_id title a : String)
    (rest : List String) (ha : ¬ regex_invalid E app_id) (ht : ¬ regex_invalid E title) :
    (∃ rule : window_rule_opacity,
      config_add_window_rule E c app_id title "opacity" (a :: rest)
        = some (true, { c with window_rules := { c.window_rules with
            opacity := rule :: c.window_rules.opacity } })
      ∧ rule.active_value = CDouble.clamp (E.atof a) (CDouble.fin 0) (CDouble.fin 1)
      ∧ (∀ b, rest.head? = some b →
          rule.inactive_value = CDouble.clamp (E.atof b) (CDouble.fin 0) (CDouble.fin 1))
      ∧ (rest = [] → rule.inactive_value = rule.active_value)
      ∧ (∀ q : ℚ, E.atof a = CDouble.fin q → 0 ≤ q → q ≤ 1 →
          rule.active_value = CDouble.fin q)
      ∧ (∀ b (q : ℚ), rest.head? = some b → E.atof b = CDouble.fin q → 0 ≤ q → q ≤ 1 →
          rule.inactive_value = CDouble.fin q)
      ∧ (rule.condition.app_id_regex = none ↔ app_id = "_")
      ∧ (rule.condition.title_regex = none ↔ title = "_"))
    ∧ (E.regcomp_ok "^kitty$" = true → E.atof "0.8" = CDouble.fin (4 / 5) →
        E.atof "0.5" = CDouble.fin (1 / 2) →
        config_add_window_rule E c "_" "^kitty$" "opacity" ["0.8", "0.5"]
          = some (true, { c with window_rules := { c.window_rules with
              opacity := ⟨⟨none, some "^kitty$"⟩, CDouble.fin (4 / 5), CDouble.fin (1 / 2)⟩
                :: c.window_rules.opacity } })) := by
  constructor
  · refine ⟨_, config_add_window_rule_opacity E c app_id title a rest ha ht, rfl, ?_, ?_, ?_, ?_,
      ?_, ?_⟩
    · intro b hb
      simp [hb]
    · intro hr
      simp [hr]
    · intro q hq h0 h1
      simp only [hq]
      exact CDouble.clamp_of_within q 0 1 h0 h1
    · intro b q hb hq h0 h1
      simp only [hb, hq]
      exact CDouble.clamp_of_within q 0 1 h0 h1
    · simp [regex_condition]
    · simp [regex_condition]
  · intro hk h8 h5
    have hk1 : ¬ regex_invalid E "^kitty$" := by simp [regex_invalid, hk]
    have hu : ¬ regex_invalid E "_" := by simp [regex_invalid]
    rw [config_add_window_rule_opacity E c "_" "^kitty$" "0.8" ["0.5"] hu hk1]
    simp only [List.head?_cons, h8, h5]
    rw [CDouble.clamp_of_within (4 / 5) 0 1 (by norm_num) (by norm_num),
      CDouble.clamp_of_within (1 / 2) 0 1 (by norm_num) (by norm_num)]
    rfl

theorem sample_atof_values :
    sample_ext.atof "0.8" = CDouble.fin (4 / 5) ∧ sample_ext.atof "0.5" = CDouble.fin (1 / 2) := by
  have e8 : sample_ext.atof "0.8"
      = CDouble.fin (((0 : ℕ) : ℚ) + ((8 : ℕ) : ℚ) / (10 ^ 1 : ℚ)) := by rfl
  have e5 : sample_ext.atof "0.5"
      = CDouble.fin (((0 : ℕ) : ℚ) + ((5 : ℕ) : ℚ) / (10 ^ 1 : ℚ)) := by rfl
  rw [e8, e5]
  constructor <;> norm_num

/-- Witness for C16: with the sample environment, whose `atof` reads decimal
literals exactly, the line `window_rule _ "^kitty$" opacity 0.8 0.5` adds the
rule with unconstrained app-id, active 0.8 and inactive 0.5. -/
theorem window_rule_opacity_values_witness :
    config_add_window_rule sample_ext config_calloc "_" "^kitty$" "opacity" ["0.8", "0.5"]
      = some (true, { config_calloc with window_rules := { config_calloc.window_rules with
          opacity := [⟨⟨none, some "^kitty$"⟩, CDouble.fin (4 / 5), CDouble.fin (1 / 2)⟩] } }) :=
  (window_rule_opacity_values sample_ext config_calloc "_" "^kitty$" "0.8" ["0.5"]
    (by decide) (by decide)).2 (by decide) sample_atof_values.1 sample_atof_values.2

/-- Where both `size` arguments are non-empty, `config_add_window_rule`
handles each axis by its last character: `%` sets the relative flag and the
number before it is stored, any other character leaves the flag clear and
the number of the whole argument is stored; both values are clamped to
`[0, INT_MAX]`. -/
theorem window_rule_size_nonempty (E : Ext) (c : mwc_config) (app_id title W H : String)
    (rest : List String) (ha : ¬ regex_invalid E app_id) (ht : ¬ regex_invalid E title)
    (hW : W.data ≠ []) (hH : H.data ≠ []) :
    ∃ rule : window_rule_size,
      config_add_window_rule E c app_id title "size" (W :: H :: rest)
        = some (true, { c with window_rules := { c.window_rules with
            size := rule :: c.window_rules.size } })
      ∧ (rule.relative_width = true ↔ W.data.getLast? = some '%')
      ∧ (rule.relative_height = true ↔ H.data.getLast? = some '%')
      ∧ rule.width = clamp (atoi (if W.data.getLast? = some '%' then String.mk W.data.dropLast
                                  else W)) 0 INT_MAX
      ∧ rule.height = clamp (atoi (if H.data.getLast? = some '%' then String.mk H.data.dropLast
                                   else H)) 0 INT_MAX
      ∧ 0 ≤ rule.width ∧ rule.width ≤ INT_MAX ∧ 0 ≤ rule.height ∧ rule.height ≤ INT_MAX := by
  rw [config_add_window_rule_size E c app_id title W H rest ha ht]
  obtain ⟨lw, hlw⟩ : ∃ l, W.data.getLast? = some l := by
    cases h : W.data.getLast? with
    | none => exact absurd (List.getLast?_eq_none_iff.mp h) hW
    | some l => exact ⟨l, rfl⟩
  obtain ⟨lh, hlh⟩ : ∃ l, H.data.getLast? = some l := by
    cases h : H.data.getLast? with
    | none => exact absurd (List.getLast?_eq_none_iff.mp h) hH
    | some l => exact ⟨l, rfl⟩
  have hb := fun v => clamp_bounds v 0 INT_MAX (by decide)
  by_cases h1 : lw = '%' <;> by_cases h2 : lh = '%' <;>
    simp [size_argument, hlw, hlh, h1, h2, hb]

/-- C17 fails for an empty argument.  The line `window_rule _ _ size "" 300`
tokenizes to the arguments `_`, `_`, `size`, the empty string and `300`, and
on them `config_add_window_rule`, and with it `config_handle_value`, leaves
defined behaviour: `args[0][strlen(args[0]) - 1]` is the character before
the start of the empty argument. -/
theorem window_rule_size_empty_argument :
    config_handle_line sample_ext.STRING_INITIAL_LENGTH "window_rule _ _ size \"\" 300\n".data
      = line_result.directive "window_rule" ["_", "_", "size", "", "300"]
    ∧ config_add_window_rule sample_ext config_calloc "_" "_" "size" ["", "300"] = none
    ∧ config_handle_value sample_ext config_calloc ⟨[], 0⟩ "window_rule"
        ["_", "_", "size", "", "300"] = none := by
  decide

/-! ## Colours -/

theorem hex_to_unsigned_decimal_eq (hex : List Char) (len : Nat) :
    hex_to_unsigned_decimal hex len = (hex.take len).foldl hex_step 0 := rfl

theorem hex_digit_class :
    ∀ p ∈ hex_digits, p.2 < 16 ∧
      (('0'.toNat ≤ p.1.toNat ∧ p.1.toNat ≤ '9'.toNat ∧ p.2 = p.1.toNat - '0'.toNat)
      ∨ ('a'.toNat ≤ p.1.toNat ∧ p.1.toNat ≤ 'f'.toNat ∧ p.2 = p.1.toNat - 'a'.toNat + 10)
      ∨ ('A'.toNat ≤ p.1.toNat ∧ p.1.toNat ≤ 'F'.toNat ∧ p.2 = p.1.toNat - 'A'.toNat + 10)) := by
  decide

theorem hex_step_digit (d : Char) (v : Nat) (h : (d, v) ∈ hex_digits) (acc : Nat)
    (hacc : acc < 65536) : hex_step acc d = acc * 16 + v ∧ v < 16 := by
  obtain ⟨hv, hclass⟩ := hex_digit_class (d, v) h
  refine ⟨?_, hv⟩
  have e0 : '0'.toNat = 48 := rfl
  have e9 : '9'.toNat = 57 := rfl
  have ea : 'a'.toNat = 97 := rfl
  have ef : 'f'.toNat = 102 := rfl
  have eA : 'A'.toNat = 65 := rfl
  have eF : 'F'.toNat = 70 := rfl
  simp only [e0, e9, ea, ef, eA, eF] at hclass
  simp only [hex_step, e0, e9, ea, ef, eA, eF]
  split_ifs <;> omega

/-- Two hexadecimal digits are read as the byte they denote. -/
theorem hex_to_unsigned_decimal_byte (d0 d1 : Char) (v0 v1 : Nat) (h0 : (d0, v0) ∈ hex_digits)
    (h1 : (d1, v1) ∈ hex_digits) (rest : List Char) :
    hex_to_unsigned_decimal (d0 :: d1 :: rest) 2 = 16 * v0 + v1 ∧ 16 * v0 + v1 ≤ 255 := by
  have e0 := hex_step_digit d0 v0 h0 0 (by decide)
  have e1 := hex_step_digit d1 v1 h1 (hex_step 0 d0) (by omega)
  rw [hex_to_unsigned_decimal_eq]
  simp only [List.take, List.foldl_cons, List.foldl_nil]
  omega

set_option maxRecDepth 100000 in
/-- The table of the 256 stored channel values, checked entry by entry: the
stored value is at most 1, `round(255 * value)` is the byte, the value lies
within `2^-25` of `b / 255`, and converting the `double` quotient to `float`
gives the `float` nearest to `b / 255`. -/
theorem float_byte_table :
    ∀ b, b < 256 →
      (float_byte b).1 ≤ 2 ^ (float_byte b).2
      ∧ (510 * (float_byte b).1 + 2 ^ (float_byte b).2) / 2 ^ ((float_byte b).2 + 1) = b
      ∧ 2 ^ 25 * (255 * (float_byte b).1 - b * 2 ^ (float_byte b).2)
          ≤ 255 * 2 ^ (float_byte b).2
      ∧ 2 ^ 25 * (b * 2 ^ (float_byte b).2 - 255 * (float_byte b).1)
          ≤ 255 * 2 ^ (float_byte b).2
      ∧ float_byte b = round_nearest_even 24 b 255 := by
  decide

theorem color_channel_byte (b : Nat) (hb : b ≤ 255) :
    color_channel (b : Int)
      = CDouble.fin (((float_byte b).1 : ℚ) / (2 ^ (float_byte b).2 : ℚ)) := by
  unfold color_channel
  rw [clamp_of_mem _ _ _ (by omega) (by omega)]
  simp

theorem color_channel_within (v : Int) : CDouble.within 0 1 (color_channel v) := by
  unfold color_channel
  have hb := clamp_bounds v 0 255 (by decide)
  have hlt : (clamp v 0 255).toNat < 256 := by omega
  have ht := (float_byte_table _ hlt).1
  simp only [CDouble.within]
  have hpos : (0 : ℚ) < (2 ^ (float_byte (clamp v 0 255).toNat).2 : ℚ) := by positivity
  constructor
  · positivity
  · rw [div_le_one hpos]
    exact_mod_cast ht

/-- The stored channel of a byte is re-encoded to the byte. -/
theorem reencode_channel_byte (b : Nat) (hb : b < 256) :
    reencode_channel (CDouble.fin (((float_byte b).1 : ℚ) / (2 ^ (float_byte b).2 : ℚ)))
      = some (b : Int) := by
  have ht := (float_byte_table b hb).2.1
  simp only [reencode_channel, Option.some.injEq]
  have hpos : (2 ^ (float_byte b).2 : ℚ) ≠ 0 := by positivity
  have e : (255 : ℚ) * (((float_byte b).1 : ℚ) / (2 ^ (float_byte b).2 : ℚ)) + 1 / 2
      = (((510 * (float_byte b).1 + 2 ^ (float_byte b).2 : ℕ) : ℤ) : ℚ)
        / ((2 ^ ((float_byte b).2 + 1) : ℕ) : ℚ) := by
    push_cast
    field_simp
    ring
  rw [e, Rat.floor_intCast_div_natCast]
  exact_mod_cast ht

/-- The stored channel of a byte lies within `2^-25` of `b / 255`. -/
theorem color_channel_error (b : Nat) (hb : b < 256) :
    |((float_byte b).1 : ℚ) / (2 ^ (float_byte b).2 : ℚ) - (b : ℚ) / 255| ≤ 1 / 2 ^ 25 := by
  obtain ⟨-, -, h1, h2, -⟩ := float_byte_table b hb
  have hpos : (0 : ℚ) < (2 ^ (float_byte b).2 : ℚ) := by positivity
  have e : ((float_byte b).1 : ℚ) / (2 ^ (float_byte b).2 : ℚ) - (b : ℚ) / 255
      = (255 * ((float_byte b).1 : ℚ) - (b : ℚ) * 2 ^ (float_byte b).2)
        / (255 * 2 ^ (float_byte b).2) := by
    field_simp
    ring
  rw [e, abs_le]
  have hd : (0 : ℚ) < 255 * 2 ^ (float_byte b).2 := by positivity
  rcases le_total (b * 2 ^ (float_byte b).2) (255 * (float_byte b).1) with hle | hle
  · have h1q : ((2 ^ 25 * (255 * (float_byte b).1 - b * 2 ^ (float_byte b).2) : ℕ) : ℚ)
        ≤ ((255 * 2 ^ (float_byte b).2 : ℕ) : ℚ) := by exact_mod_cast h1
    rw [Nat.cast_mul, Nat.cast_sub hle] at h1q
    push_cast at h1q
    have hle' : ((b : ℚ) * 2 ^ (float_byte b).2) ≤ 255 * ((float_byte b).1 : ℚ) := by
      exact_mod_cast hle
    constructor
    · rw [le_div_iff₀ hd]
      nlinarith
    · rw [div_le_iff₀ hd]
      nlinarith
  · have h2q : ((2 ^ 25 * (b * 2 ^ (float_byte b).2 - 255 * (float_byte b).1) : ℕ) : ℚ)
        ≤ ((255 * 2 ^ (float_byte b).2 : ℕ) : ℚ) := by exact_mod_cast h2
    rw [Nat.cast_mul, Nat.cast_sub hle] at h2q
    push_cast at h2q
    have hle' : 255 * ((float_byte b).1 : ℚ) ≤ ((b : ℚ) * 2 ^ (float_byte b).2) := by
      exact_mod_cast hle
    constructor
    · rw [le_div_iff₀ hd]
      nlinarith
    · rw [div_le_iff₀ hd]
      nlinarith

/-- C19, as stated, fails: the channels are stored through `float *dest`, so
the value stored for the byte `0x80` of `80808080` is the `float`
`8421505 / 2^24`, not `128 / 255`. -/
theorem hex_color_round_trip_refuted :
    parse_color_rgba_or_hex ["80808080"]
      = some (some ⟨CDouble.fin (8421505 / 16777216), CDouble.fin (8421505 / 16777216),
                    CDouble.fin (8421505 / 16777216), CDouble.fin (8421505 / 16777216)⟩)
    ∧ hex_to_unsigned_decimal "80".data 2 = 128
    ∧ (8421505 / 16777216 : ℚ) ≠ 128 / 255 := by
  have hb : hex_to_unsigned_decimal ['8', '0', '8', '0', '8', '0', '8', '0'] 2 = 128
      ∧ hex_to_unsigned_decimal ['8', '0', '8', '0', '8', '0'] 2 = 128
      ∧ hex_to_unsigned_decimal ['8', '0', '8', '0'] 2 = 128
      ∧ hex_to_unsigned_decimal ['8', '0'] 2 = 128 := by decide
  have hf : float_byte 128 = (8421505, 24) := by decide
  have hc : color_channel ((128 : ℕ) : Int) = CDouble.fin (8421505 / 16777216) := by
    rw [color_channel_byte 128 (by decide), hf]
    norm_num
  refine ⟨?_, by decide, by norm_num⟩
  have hd : "80808080".data = ['8', '0', '8', '0', '8', '0', '8', '0'] := rfl
  simp only [parse_color_rgba_or_hex, List.length_singleton, OfNat.one_ne_ofNat, if_false,
    List.getElem?_cons_zero, Option.bind_eq_bind, Option.some_bind, hd, List.length_cons,
    List.length_nil, List.drop, if_true, hb.1, hb.2.1, hb.2.2.1, hb.2.2.2, hc]
  simp

/-- C19, amended: for every string of eight hexadecimal digits, upper or
lower case, given as the single argument, `parse_color_rgba_or_hex` returns
true and stores for each channel `i` the `float` value of `b_i / 255.0`, where
`b_i`, at most 255, is the byte denoted by the digits `2i` and `2i + 1`: the
single-precision value nearest to `b_i / 255`, within `2^-25` of it; and
re-encoding each stored channel as `round(255 * channel)` gives `b_i`
back. -/
theorem hex_color_round_trip (d0 d1 d2 d3 d4 d5 d6 d7 : Char)
    (v0 v1 v2 v3 v4 v5 v6 v7 : Nat)
    (h : ∀ p ∈ [(d0, v0), (d1, v1), (d2, v2), (d3, v3), (d4, v4), (d5, v5), (d6, v6), (d7, v7)],
      p ∈ hex_digits) :
    parse_color_rgba_or_hex [String.mk [d0, d1, d2, d3, d4, d5, d6, d7]]
      = some (some ⟨color_channel ((16 * v0 + v1 : ℕ) : Int),
                    color_channel ((16 * v2 + v3 : ℕ) : Int),
                    color_channel ((16 * v4 + v5 : ℕ) : Int),
                    color_channel ((16 * v6 + v7 : ℕ) : Int)⟩)
    ∧ (16 * v0 + v1 ≤ 255 ∧ 16 * v2 + v3 ≤ 255 ∧ 16 * v4 + v5 ≤ 255 ∧ 16 * v6 + v7 ≤ 255)
    ∧ ∀ b ∈ [16 * v0 + v1, 16 * v2 + v3, 16 * v4 + v5, 16 * v6 + v7],
        ∃ q : ℚ, color_channel (b : Int) = CDouble.fin q
          ∧ q = ((round_nearest_even 24 b 255).1 : ℚ) / (2 ^ (round_nearest_even 24 b 255).2 : ℚ)
          ∧ |q - (b : ℚ) / 255| ≤ 1 / 2 ^ 25
          ∧ reencode_channel (CDouble.fin q) = some (b : Int) := by
  have b0 := hex_to_unsigned_decimal_byte d0 d1 v0 v1 (h _ (by simp)) (h _ (by simp))
    [d2, d3, d4, d5, d6, d7]
  have b1 := hex_to_unsigned_decimal_byte d2 d3 v2 v3 (h _ (by simp)) (h _ (by simp))
    [d4, d5, d6, d7]
  have b2 := hex_to_unsigned_decimal_byte d4 d5 v4 v5 (h _ (by simp)) (h _ (by simp)) [d6, d7]
  have b3 := hex_to_unsigned_decimal_byte d6 d7 v6 v7 (h _ (by simp)) (h _ (by simp)) []
  refine ⟨?_, ⟨b0.2, b1.2, b2.2, b3.2⟩, ?_⟩
  · simp only [parse_color_rgba_or_hex, List.length_singleton, OfNat.one_ne_ofNat, if_false,
      List.getElem?_cons_zero, Option.bind_eq_bind, Option.some_bind, List.length_cons,
      List.length_nil, List.drop, if_true, b0.1, b1.1, b2.1, b3.1]
    simp
  · intro b hb
    have hlt : b < 256 := by
      simp only [List.mem_cons, List.mem_singleton, List.not_mem_nil, or_false] at hb
      have := b0.2
      have := b1.2
      have := b2.2
      have := b3.2
      rcases hb with rfl | rfl | rfl | rfl <;> omega
    refine ⟨_, color_channel_byte b (by omega), ?_, color_channel_error b hlt,
      reencode_channel_byte b hlt⟩
    rw [(float_byte_table b hlt).2.2.2.2]

/-- Witness for C19: `ff8000FF` is read as the bytes 255, 128, 0 and 255. -/
theorem hex_color_round_trip_witness :
    parse_color_rgba_or_hex ["ff8000FF"]
      = some (some ⟨color_channel ((16 * 15 + 15 : ℕ) : Int),
                    color_channel ((16 * 8 + 0 : ℕ) : Int),
                    color_channel ((16 * 0 + 0 : ℕ) : Int),
                    color_channel ((16 * 15 + 15 : ℕ) : Int)⟩) :=
  (hex_color_round_trip 'f' 'f' '8' '0' '0' '0' 'F' 'F' 15 15 8 0 0 0 15 15 (by decide)).1

theorem parse_color_valid (args : List String) (hargs : args ≠ [])
    (h : ¬ color_invalid args) :
    ∃ v0 v1 v2 v3 : Int, parse_color_rgba_or_hex args
      = some (some ⟨color_channel v0, color_channel v1, color_channel v2, color_channel v3⟩) := by
  cases args with
  | nil => exact absurd rfl hargs
  | cons a0 rest =>
    simp only [color_invalid, not_and_or, not_not] at h
    by_cases h4 : (a0 :: rest).length = 4
    · rcases rest with _ | ⟨a1, _ | ⟨a2, _ | ⟨a3, _ | ⟨a4, rest⟩⟩⟩⟩
      any_goals (simp at h4)
      exact ⟨atoi a0, atoi a1, atoi a2, atoi a3, by simp [parse_color_rgba_or_hex]⟩
    · have h8 : a0.data.length = 8 := by
        rcases h with h | h
        · exact absurd h h4
        · exact h
      refine ⟨hex_to_unsigned_decimal (a0.data.drop 0) 2, hex_to_unsigned_decimal (a0.data.drop 2) 2,
        hex_to_unsigned_decimal (a0.data.drop 4) 2, hex_to_unsigned_decimal (a0.data.drop 6) 2, ?_⟩
      unfold parse_color_rgba_or_hex
      rw [if_neg h4]
      simp only [List.getElem?_cons_zero, Option.bind_eq_bind, Option.some_bind, h8, if_true]

/-- C20, as stated, fails in the direction from accepted to listed: a colour
directive is accepted with one argument of eight characters that are no
hexadecimal digits, with an eight-character first argument followed by
another argument, and with four arguments that are no integers; the
channels of a character that is no digit count as zero. -/
theorem color_directive_accepts_refuted :
    ¬ color_arguments_listed ["zzzzzzzz"]
    ∧ ¬ color_arguments_listed ["ff8000ff", "x"]
    ∧ ¬ color_arguments_listed ["a", "b", "c", "d"]
    ∧ (config_handle_value sample_ext config_calloc ⟨[], 0⟩ "active_border_color"
        ["zzzzzzzz"]).map handled.ok = some true
    ∧ (config_handle_value sample_ext config_calloc ⟨[], 0⟩ "active_border_color"
        ["ff8000ff", "x"]).map handled.ok = some true
    ∧ (config_handle_value sample_ext config_calloc ⟨[], 0⟩ "active_border_color"
        ["a", "b", "c", "d"]).map handled.ok = some true := by
  decide

/-- C20, amended: a colour directive (`active_border_color`,
`inactive_border_color`, `shadows_color`) with at least one argument is
accepted if and only if it has exactly four arguments or its first argument
has exactly eight characters, which holds in particular for four integer
channel arguments and for one string of eight hexadecimal digits; for every
other argument list it is rejected with the snapshot, hence the stored
colour, unchanged; whenever it is accepted every stored channel lies in
`[0, 1]`. -/
theorem color_directive_accepts (E : Ext) (c : mwc_config) (g : process_state)
    (keyword : String) (args : List String) (hk : keyword ∈ color_directives)
    (hargs : args ≠ []) :
    (color_invalid args ↔ ¬ (args.length = 4 ∨ ∃ a0 ∈ args.head?, a0.data.length = 8))
    ∧ (color_arguments_listed args → ¬ color_invalid args)
    ∧ (color_invalid args → config_handle_value E c g keyword args = some ⟨false, c, g⟩)
    ∧ (¬ color_invalid args →
        ∃ c1, config_handle_value E c g keyword args = some ⟨true, c1, g⟩
          ∧ CDouble.within 0 1 (stored_color keyword c1).c0
          ∧ CDouble.within 0 1 (stored_color keyword c1).c1
          ∧ CDouble.within 0 1 (stored_color keyword c1).c2
          ∧ CDouble.within 0 1 (stored_color keyword c1).c3) := by
  refine ⟨?_, ?_, ?_, ?_⟩
  · cases args with
    | nil => exact absurd rfl hargs
    | cons a0 rest => simp [color_invalid]
  · intro hl
    rcases args with _ | ⟨a0, _ | ⟨a1, _ | ⟨a2, _ | ⟨a3, _ | ⟨a4, rest⟩⟩⟩⟩⟩
    all_goals simp [color_arguments_listed, color_invalid] at hl ⊢
    exact hl.1
  · intro hi
    have hp := parse_color_invalid args hi
    simp only [color_directives, List.mem_cons, List.mem_singleton, List.not_mem_nil,
      or_false] at hk
    rcases hk with rfl | rfl | rfl <;> simp [config_handle_value, hp]
  · intro hv
    obtain ⟨v0, v1, v2, v3, hp⟩ := parse_color_valid args hargs hv
    simp only [color_directives, List.mem_cons, List.mem_singleton, List.not_mem_nil,
      or_false] at hk
    rcases hk with rfl | rfl | rfl
    · exact ⟨_, by simp [config_handle_value, hp]; rfl,
        by simpa [stored_color] using color_channel_within v0,
        by simpa [stored_color] using color_channel_within v1,
        by simpa [stored_color] using color_channel_within v2,
        by simpa [stored_color] using color_channel_within v3⟩
    · exact ⟨_, by simp [config_handle_value, hp]; rfl,
        by simpa [stored_color] using color_channel_within v0,
        by simpa [stored_color] using color_channel_within v1,
        by simpa [stored_color] using color_channel_within v2,
        by simpa [stored_color] using color_channel_within v3⟩
    · exact ⟨_, by simp [config_handle_value, hp]; rfl,
        by simpa [stored_color] using color_channel_within v0,
        by simpa [stored_color] using color_channel_within v1,
        by simpa [stored_color] using color_channel_within v2,
        by simpa [stored_color] using color_channel_within v3⟩

/-- Witness for C20: `shadows_color 0 0 0 128` is accepted, and
`shadows_color red` is rejected. -/
theorem color_directive_accepts_witness :
    ¬ color_invalid ["0", "0", "0", "128"] ∧ color_invalid ["red"]
    ∧ config_handle_value sample_ext config_calloc ⟨[], 0⟩ "shadows_color" ["red"]
        = some ⟨false, config_calloc, ⟨[], 0⟩⟩ :=
  ⟨by decide, by decide,
    (color_directive_accepts sample_ext config_calloc ⟨[], 0⟩ "shadows_color" ["red"]
      (by decide) (by decide)).2.2.1 (by decide)⟩

/-! ## The output loop of the reload -/

theorem set_length_append {α : Type} (done : List α) (x y : α) (rest : List α) :
    (done ++ x :: rest).set done.length y = done ++ y :: rest := by
  induction done with
  | nil => rfl
  | cons d done ih => simp [ih]

theorem reload_output_at (E : Ext) (old_config : mwc_config) (s : mwc_server)
    (done : List mwc_output) (out : mwc_output) (rest : List mwc_output)
    (hs : s.outputs = done ++ out :: rest) :
    reload_output E old_config s done.length
      = { s with
          config := (reload_workspaces old_config s.config out.workspaces).1,
          outputs := done ++ { out with
            workspaces := (reload_workspaces old_config s.config out.workspaces).2.1,
            layers := (out.layers.take 4).map (fun l => l.map (reload_layer E
              (reload_workspaces old_config s.config out.workspaces).1)) ++ out.layers.drop 4 }
            :: rest,
          effects := s.effects ++ (reload_workspaces old_config s.config out.workspaces).2.2 } := by
  have hget : s.outputs[done.length]? = some out := by
    rw [hs, List.getElem?_append_right (le_refl _)]
    simp
  unfold reload_output
  rw [hget]
  simp only
  rw [hs, set_length_append]

/-- The index loop over the outputs agrees with the loop over the list of
outputs. -/
theorem reload_outputs_fold (E : Ext) (old_config : mwc_config) :
    ∀ (todo done : List mwc_output) (s : mwc_server), s.outputs = done ++ todo →
      List.foldl (reload_output E old_config) s (List.range' done.length todo.length)
        = { s with
            config := (reload_outputs_list E old_config s.config todo).1,
            outputs := done ++ (reload_outputs_list E old_config s.config todo).2.1,
            effects := s.effects ++ (reload_outputs_list E old_config s.config todo).2.2 } := by
  intro todo
  induction todo with
  | nil =>
    intro done s hs
    simp only [List.append_nil] at hs
    simp [reload_outputs_list, ← hs]
  | cons out rest ih =>
    intro done s hs
    rw [List.length_cons, List.range'_succ, List.foldl_cons, reload_output_at E old_config s done
      out rest hs]
    have := ih (done ++ [{ out with
        workspaces := (reload_workspaces old_config s.config out.workspaces).2.1,
        layers := (out.layers.take 4).map (fun l => l.map (reload_layer E
          (reload_workspaces old_config s.config out.workspaces).1)) ++ out.layers.drop 4 }])
      { s with
        config := (reload_workspaces old_config s.config out.workspaces).1,
        outputs := done ++ { out with
          workspaces := (reload_workspaces old_config s.config out.workspaces).2.1,
          layers := (out.layers.take 4).map (fun l => l.map (reload_layer E
            (reload_workspaces old_config s.config out.workspaces).1)) ++ out.layers.drop 4 }
          :: rest,
        effects := s.effects ++ (reload_workspaces old_config s.config out.workspaces).2.2 }
      (by simp)
    simp only [List.length_append, List.length_singleton] at this
    rw [this]
    simp [reload_outputs_list]

theorem reload_layer_congr (E : Ext) (c1 c2 : mwc_config) (h : c1.layer_rules = c2.layer_rules) :
    reload_layer E c1 = reload_layer E c2 := by
  funext layer
  simp [reload_layer, h]

/-- The list loop rewires the keyboard registry over all workspaces of the
outputs, leaves the rest of the snapshot alone, and sets the blur of every
surface in the first four layer lists of every output. -/
theorem reload_outputs_list_spec (E : Ext) (old_config : mwc_config) :
    ∀ (outs : List mwc_output) (config : mwc_config),
      (reload_outputs_list E old_config config outs).1
        = { config with keybinds :=
              rewire_all (outs.flatMap (fun o => o.workspaces)) config.keybinds }
      ∧ (reload_outputs_list E old_config config outs).2.1.map (fun o => o.layers)
        = outs.map (fun o => (o.layers.take 4).map (fun l => l.map (reload_layer E config))
            ++ o.layers.drop 4) := by
  intro outs
  induction outs with
  | nil => intro config; exact ⟨rfl, rfl⟩
  | cons out rest ih =>
    intro config
    have hw := reload_workspaces_config old_config out.workspaces config
    obtain ⟨h1, h2⟩ := ih (reload_workspaces old_config config out.workspaces).1
    have hl : reload_layer E (reload_workspaces old_config config out.workspaces).1
        = reload_layer E config := reload_layer_congr E _ _ (by rw [hw])
    constructor
    · show (reload_outputs_list E old_config
        (reload_workspaces old_config config out.workspaces).1 rest).1 = _
      rw [h1, hw]
      simp [rewire_all_append]
    · show _ :: (reload_outputs_list E old_config
        (reload_workspaces old_config config out.workspaces).1 rest).2.1.map (fun o => o.layers)
          = _
      rw [h2, hl]
      rfl

theorem reload_blur_layers (old_config : mwc_config) (s s3 : mwc_server)
    (h : reload_blur old_config s = some s3) :
    s3.outputs.map (fun o => o.layers) = s.outputs.map (fun o => o.layers)
    ∧ s3.outputs.map (fun o => o.workspaces) = s.outputs.map (fun o => o.workspaces) := by
  unfold reload_blur at h
  split_ifs at h <;> (cases h; simp [Function.comp_def])

theorem reload_layer_blur_iff (E : Ext) (config : mwc_config) (layer : mwc_layer_surface) :
    (reload_layer E config layer).surface_namespace = layer.surface_namespace
    ∧ ((reload_layer E config layer).blur = true ↔
        ∃ b ∈ config.layer_rules.blur, b.condition.regex = none
          ∨ ∃ r, b.condition.regex = some r ∧ E.regexec_ok r layer.surface_namespace = true) := by
  refine ⟨rfl, ?_⟩
  simp only [reload_layer, List.any_eq_true]
  constructor
  · rintro ⟨b, hb, hm⟩
    refine ⟨b, hb, ?_⟩
    cases hre : b.condition.regex with
    | none => left; rfl
    | some r => right; exact ⟨r, rfl, by simpa [hre] using hm⟩
  · rintro ⟨b, hb, hm⟩
    refine ⟨b, hb, ?_⟩
    rcases hm with hm | ⟨r, hr, hm⟩
    · simp [hm]
    · simp [hr, hm]

/-- The session after a successful reload, in terms of the session before
and the loaded snapshot `c`: the active snapshot is `c` with the workspace
list of the old snapshot and with the keyboard registry rewired over all
live workspaces, and the layer lists are those of before with the blur of
every surface in the first four lists of every output set by the rules of
the new snapshot. -/
theorem config_reload_spec (E : Ext) (fs : file_system) (s s1 : mwc_server)
    (l : loaded) (c : mwc_config) (hl : config_load E fs s.proc = some l) (hc : l.c = some c)
    (hr : config_reload E fs s = some s1) :
    s1.config = { c with
        workspaces := s.config.workspaces, workspaces_head := list_head.copied,
        keybinds := rewire_all (s.outputs.flatMap (fun o => o.workspaces)) c.keybinds }
    ∧ s1.outputs.map (fun o => o.layers)
        = s.outputs.map (fun o =>
            (o.layers.take 4).map (fun ll => ll.map (reload_layer E s1.config))
              ++ o.layers.drop 4) := by
  obtain ⟨lc, g⟩ := l
  simp only at hc
  subst hc
  unfold config_reload at hr
  simp only [hl, Option.bind_eq_bind, Option.some_bind] at hr
  cases hb : reload_blur s.config
      (reload_output_modes (reload_publish c { s with proc := g })) with
  | none => simp [hb] at hr
  | some s3 =>
    simp only [hb, Option.some_bind, Option.some.injEq] at hr
    have hcfg3 : s3.config
        = { c with workspaces := s.config.workspaces, workspaces_head := list_head.copied } := by
      rw [reload_blur_config _ _ _ hb]
      rfl
    obtain ⟨hlay3, hws3⟩ := reload_blur_layers _ _ _ hb
    have hfold := reload_outputs_fold E s.config (reload_inputs s3).outputs [] (reload_inputs s3)
      rfl
    simp only [List.length_nil, List.nil_append, ← List.range_eq_range'] at hfold
    obtain ⟨hk, hlay⟩ := reload_outputs_list_spec E s.config (reload_inputs s3).outputs
      (reload_inputs s3).config
    have hflat : (reload_inputs s3).outputs.flatMap (fun o => o.workspaces)
        = s.outputs.flatMap (fun o => o.workspaces) := by
      have : (reload_inputs s3).outputs = s3.outputs := rfl
      rw [this, List.flatMap_def, List.flatMap_def, hws3]
      rfl
    have hin : (reload_inputs s3).config = s3.config := rfl
    have hcfg : (List.foldl (reload_output E s.config) (reload_inputs s3)
        (List.range (reload_inputs s3).outputs.length)).config = { c with
        workspaces := s.config.workspaces, workspaces_head := list_head.copied,
        keybinds := rewire_all (s.outputs.flatMap (fun o => o.workspaces)) c.keybinds } := by
      rw [hfold]
      simp only [hk, hflat]
      rw [hin, hcfg3]
    have hout : (List.foldl (reload_output E s.config) (reload_inputs s3)
        (List.range (reload_inputs s3).outputs.length)).outputs.map (fun o => o.layers)
        = (reload_inputs s3).outputs.map (fun o =>
            (o.layers.take 4).map (fun l => l.map (reload_layer E (reload_inputs s3).config))
              ++ o.layers.drop 4) := by
      rw [hfold]
      exact hlay
    have hrl : reload_layer E (List.foldl (reload_output E s.config) (reload_inputs s3)
        (List.range (reload_inputs s3).outputs.length)).config
        = reload_layer E (reload_inputs s3).config := by
      apply reload_layer_congr
      rw [hcfg, hin, hcfg3]
    have hmap : ∀ (f : List (List mwc_layer_surface) → List (List mwc_layer_surface))
        (os1 os2 : List mwc_output), os1.map (fun o => o.layers) = os2.map (fun o => o.layers) →
        os1.map (fun o => f o.layers) = os2.map (fun o => f o.layers) := by
      intro f os1 os2 h
      have := congrArg (List.map f) h
      simpa [List.map_map, Function.comp_def] using this
    subst hr
    refine ⟨hcfg, ?_⟩
    show (List.foldl (reload_output E s.config) (reload_inputs s3)
        (List.range (reload_inputs s3).outputs.length)).outputs.map (fun o => o.layers)
      = s.outputs.map (fun o => (o.layers.take 4).map (fun ll => ll.map
          (reload_layer E (List.foldl (reload_output E s.config) (reload_inputs s3)
            (List.range (reload_inputs s3).outputs.length)).config)) ++ o.layers.drop 4)
    rw [hout, hrl]
    exact hmap (fun ls => (ls.take 4).map (fun ll => ll.map
      (reload_layer E (reload_inputs s3).config)) ++ ls.drop 4) _ _ hlay3

/-- After a successful reload the pointer registry is the parsed one,
untouched: the workspace bindings in it are as `config_add_keybind` left
them, unresolved. -/
theorem config_reload_pointer_keybinds (E : Ext) (fs : file_system) (s s1 : mwc_server)
    (l : loaded) (c : mwc_config) (hl : config_load E fs s.proc = some l) (hc : l.c = some c)
    (hr : config_reload E fs s = some s1) :
    s1.config.pointer_keybinds = c.pointer_keybinds
    ∧ s1.config.keybinds
        = rewire_all (s.outputs.flatMap (fun o => o.workspaces)) c.keybinds := by
  rw [(config_reload_spec E fs s s1 l c hl hc hr).1]
  exact ⟨rfl, rfl⟩

/-- C18: after a successful `config_reload` the rules of the active
snapshot are the blur layer rules of the loaded snapshot, and the layer
lists of every output are those of before in which every surface of the
four layer lists has blur enabled if and only if some blur rule of the new
snapshot is unconstrained or has a regex that matches the namespace of the
surface, and disabled otherwise.  A rule declared with the sentinel `_` is
unconstrained, so with such a rule every surface gets blur. -/
theorem config_reload_layer_blur (E : Ext) (fs : file_system) (s s1 : mwc_server)
    (l : loaded) (c : mwc_config) (hl : config_load E fs s.proc = some l) (hc : l.c = some c)
    (hr : config_reload E fs s = some s1) :
    s1.config.layer_rules = c.layer_rules
    ∧ s1.outputs.map (fun o => o.layers)
        = s.outputs.map (fun o =>
            (o.layers.take 4).map (fun ll => ll.map (reload_layer E s1.config))
              ++ o.layers.drop 4)
    ∧ (∀ layer : mwc_layer_surface,
        (reload_layer E s1.config layer).surface_namespace = layer.surface_namespace
        ∧ ((reload_layer E s1.config layer).blur = true ↔
            ∃ b ∈ c.layer_rules.blur, b.condition.regex = none
              ∨ ∃ r, b.condition.regex = some r
                  ∧ E.regexec_ok r layer.surface_namespace = true))
    ∧ (∀ (c0 : mwc_config) (args : List String),
        config_add_layer_rule E c0 "_" "blur" args
          = (true, { c0 with layer_rules := { blur := ⟨⟨none⟩⟩ :: c0.layer_rules.blur } }))
    ∧ ((⟨⟨none⟩⟩ : layer_rule_blur) ∈ c.layer_rules.blur →
        ∀ layer : mwc_layer_surface, (reload_layer E s1.config layer).blur = true) := by
  obtain ⟨hcfg, hlay⟩ := config_reload_spec E fs s s1 l c hl hc hr
  have hrules : s1.config.layer_rules = c.layer_rules := by rw [hcfg]
  refine ⟨hrules, hlay, ?_, ?_, ?_⟩
  · intro layer
    have := reload_layer_blur_iff E s1.config layer
    rw [hrules] at this
    exact this
  · intro c0 args
    simp [config_add_layer_rule, compile_condition]
  · intro hmem layer
    rw [(reload_layer_blur_iff E s1.config layer).2, hrules]
    exact ⟨_, hmem, Or.inl rfl⟩

/-- Witness for C18: reloading the sample session, whose output has one
layer surface of namespace `bar` without blur, from the file with the line
`layer_rule bar blur` enables blur on that surface. -/
theorem config_reload_layer_blur_witness :
    (∃ s1, config_reload sample_ext sample_layer_fs sample_server = some s1
      ∧ s1.outputs.map (fun o => o.layers)
        = sample_server.outputs.map (fun o =>
            (o.layers.take 4).map (fun ll => ll.map (reload_layer sample_ext s1.config))
              ++ o.layers.drop 4))
    ∧ (config_reload sample_ext sample_layer_fs sample_server).map
        (fun s1 => s1.outputs.map (fun o => o.layers))
      = some [[[], [], [⟨"bar", true⟩], []]] := by
  refine ⟨?_, by decide⟩
  obtain ⟨s1, hr⟩ := Option.isSome_iff_exists.mp
    (by decide : (config_reload sample_ext sample_layer_fs sample_server).isSome = true)
  obtain ⟨c, hc⟩ := Option.isSome_iff_exists.mp
    (by decide :
      ((config_load sample_ext sample_layer_fs sample_server.proc).bind loaded.c).isSome = true)
  obtain ⟨l, hl, hlc⟩ := Option.bind_eq_some.mp hc
  exact ⟨s1, hr,
    (config_reload_layer_blur sample_ext sample_layer_fs sample_server s1 l c hl hlc hr).2.1⟩

/-! ## Corner locations -/

theorem corner_bit_lookup (a : String) : corner_bit a = (corner_names.lookup a).getD 0 := by
  by_cases h1 : a = "top"
  · subst h1; decide
  by_cases h2 : a = "bottom"
  · subst h2; decide
  by_cases h3 : a = "left"
  · subst h3; decide
  by_cases h4 : a = "right"
  · subst h4; decide
  by_cases h5 : a = "top_left"
  · subst h5; decide
  by_cases h6 : a = "top_right"
  · subst h6; decide
  by_cases h7 : a = "bottom_left"
  · subst h7; decide
  by_cases h8 : a = "bottom_right"
  · subst h8; decide
  have b := fun (x : String) (hx : ¬ a = x) => beq_eq_false_iff_ne.mpr hx
  simp [corner_bit, corner_names, List.lookup, h1, h2, h3, h4, h5, h6, h7, h8, b _ h1, b _ h2,
    b _ h3, b _ h4, b _ h5, b _ h6, b _ h7, b _ h8]

theorem corner_fold (args : List String) (init : Nat) :
    args.foldl (fun loc a => loc ||| corner_bit a) init = init ||| corner_union args := by
  unfold corner_union
  induction args generalizing init with
  | nil => simp
  | cons a rest ih =>
    rw [List.foldl_cons, ih, corner_bit_lookup]
    cases hl : corner_names.lookup a with
    | none => simp [List.filterMap_cons, hl]
    | some v =>
      simp only [List.filterMap_cons, hl, Option.getD_some, List.foldl_cons, Nat.zero_or]
      have hf : ∀ (l : List Nat) (x : Nat),
          l.foldl (fun x y => x ||| y) x = x ||| l.foldl (fun x y => x ||| y) 0 := by
        intro l
        induction l with
        | nil => intro x; simp
        | cons y l ihl =>
          intro x
          rw [List.foldl_cons, ihl, List.foldl_cons, ihl (0 ||| y), Nat.zero_or, Nat.or_assoc]
      rw [hf _ v, Nat.or_assoc]

/-- C21: for every argument list whose first token is not `all`,
`border_radius_location` stores the previous bitset joined with the union of
the corner bits of the recognised tokens (top, bottom, left, right,
top_left, top_right, bottom_left, bottom_right), a token that is none of
them adding nothing; so on a snapshot with no earlier
`border_radius_location` directive, where the field is zero, the stored
bitset is that union, and for `top left` it is `TOP | LEFT`. -/
theorem border_radius_location_union (E : Ext) (c : mwc_config) (g : process_state)
    (a0 : String) (rest : List String) (h : a0 ≠ "all") :
    config_handle_value E c g "border_radius_location" (a0 :: rest)
      = some ⟨true, { c with border_radius_location :=
          c.border_radius_location ||| corner_union (a0 :: rest) }, g⟩
    ∧ (c.border_radius_location = 0 →
        config_handle_value E c g "border_radius_location" (a0 :: rest)
          = some ⟨true, { c with border_radius_location := corner_union (a0 :: rest) }, g⟩)
    ∧ corner_union ["top", "left"] = CORNER_LOCATION_TOP ||| CORNER_LOCATION_LEFT
    ∧ (∀ (a : String) (l1 l2 : List String), a ∉ corner_names.map Prod.fst →
        corner_union (l1 ++ a :: l2) = corner_union (l1 ++ l2)) := by
  have hv : config_handle_value E c g "border_radius_location" (a0 :: rest)
      = some ⟨true, { c with border_radius_location :=
          c.border_radius_location ||| corner_union (a0 :: rest) }, g⟩ := by
    simp [config_handle_value, h, ← corner_fold]
  refine ⟨hv, ?_, by decide, ?_⟩
  · intro h0
    rw [hv, h0, Nat.zero_or]
  · intro a l1 l2 ha
    have hl : corner_names.lookup a = none := by
      simp only [corner_names, List.map_cons, List.map_nil, List.mem_cons, List.mem_singleton,
        List.not_mem_nil, or_false, not_or] at ha
      obtain ⟨h1, h2, h3, h4, h5, h6, h7, h8⟩ := ha
      have b := fun (x : String) (hx : ¬ a = x) => beq_eq_false_iff_ne.mpr hx
      simp [corner_names, List.lookup, b _ h1, b _ h2, b _ h3, b _ h4, b _ h5, b _ h6, b _ h7,
        b _ h8]
    simp [corner_union, List.filterMap_append, List.filterMap_cons, hl]

/-- Witness for C21: on the zeroed snapshot `border_radius_location top left`
stores `TOP | LEFT`. -/
theorem border_radius_location_union_witness :
    config_handle_value sample_ext config_calloc ⟨[], 0⟩ "border_radius_location" ["top", "left"]
      = some ⟨true, { config_calloc with border_radius_location :=
          CORNER_LOCATION_TOP ||| CORNER_LOCATION_LEFT }, ⟨[], 0⟩⟩ :=
  ((border_radius_location_union sample_ext config_calloc ⟨[], 0⟩ "top" ["left"]
    (by decide)).2.1 rfl).trans (by decide)

/-- C22, as stated, fails: with `all` in second place, `border_radius_location
top all` on the zeroed snapshot stores `TOP`, not `ALL`; only the first
token is compared with `all`. -/
theorem border_radius_location_all_refuted :
    config_handle_value sample_ext config_calloc ⟨[], 0⟩ "border_radius_location" ["top", "all"]
      = some ⟨true, { config_calloc with border_radius_location := CORNER_LOCATION_TOP },
          ⟨[], 0⟩⟩
    ∧ CORNER_LOCATION_TOP ≠ CORNER_LOCATION_ALL := by
  decide

/-- C22, amended: a `border_radius_location` directive whose first token is
`all` stores `CORNER_LOCATION_ALL`, whatever tokens follow and whatever the
value before. -/
theorem border_radius_location_all (E : Ext) (c : mwc_config) (g : process_state)
    (rest : List String) :
    config_handle_value E c g "border_radius_location" ("all" :: rest)
      = some ⟨true, { c with border_radius_location := CORNER_LOCATION_ALL }, g⟩ := by
  simp [config_handle_value]

/-! ## The easing curve -/

theorem CDouble.fin_mul (a b : ℚ) : CDouble.fin a * CDouble.fin b = CDouble.fin (a * b) := rfl

theorem CDouble.fin_add (a b : ℚ) : CDouble.fin a + CDouble.fin b = CDouble.fin (a + b) := rfl

theorem CDouble.fin_sub (a b : ℚ) : CDouble.fin a - CDouble.fin b = CDouble.fin (a - b) := by
  show CDouble.sub (CDouble.fin a) (CDouble.fin b) = _
  simp [CDouble.sub, CDouble.neg, CDouble.add, sub_eq_add_neg]

theorem CDouble.fin_div (a b : ℚ) (hb : b ≠ 0) :
    CDouble.fin a / CDouble.fin b = CDouble.fin (a / b) := by
  show CDouble.div (CDouble.fin a) (CDouble.fin b) = _
  simp [CDouble.div, hb]

/-- With finite control scalars the curve function is the cubic bezier
polynomial with end values 0 and 1 in both coordinates. -/
theorem calculate_animation_curve_at_fin (c : mwc_config) (x1 y1 x2 y2 t : ℚ)
    (hc : c.animation_curve = ⟨CDouble.fin x1, CDouble.fin y1, CDouble.fin x2, CDouble.fin y2⟩) :
    calculate_animation_curve_at c (CDouble.fin t)
      = ⟨CDouble.fin (cubic_bezier 0 x1 x2 1 t), CDouble.fin (cubic_bezier 0 y1 y2 1 t)⟩ := by
  simp only [calculate_animation_curve_at, hc, CDouble.fin_mul, CDouble.fin_add, CDouble.fin_sub,
    cubic_bezier, vec2.mk.injEq, CDouble.fin.injEq]
  constructor <;> ring

/-- The sample parameter of index `i` is the rational `i / (n - 1)`. -/
theorem bake_parameter (n i : Nat) (hn : 2 ≤ n) :
    CDouble.ofInt (i : Int) / CDouble.ofInt ((n : Int) - 1)
      = CDouble.fin ((i : ℚ) / ((n : ℚ) - 1)) := by
  have h1 : ((((n : Int) - 1 : Int)) : ℚ) = (n : ℚ) - 1 := by push_cast; ring
  have h2 : (n : ℚ) - 1 ≠ 0 := by
    have : (2 : ℚ) ≤ n := by exact_mod_cast hn
    linarith
  simp only [CDouble.ofInt, h1, Int.cast_natCast]
  exact CDouble.fin_div _ _ h2

theorem coe_nat_list (l : List Nat) :
    (do let a ← l; pure (a : Int) : List Int) = List.map (fun (a : Nat) => (a : Int)) l := by
  induction l with
  | nil => rfl
  | cons a l ih => simp [List.map_eq_flatMap]

/-- The table `bake_bezier_curve_points` leaves for finite control scalars. -/
theorem bake_bezier_curve_points_table (E : Ext) (c : mwc_config) (x1 y1 x2 y2 : ℚ)
    (hc : c.animation_curve = ⟨CDouble.fin x1, CDouble.fin y1, CDouble.fin x2, CDouble.fin y2⟩)
    (hn : 2 ≤ E.BAKED_POINTS_COUNT) :
    (bake_bezier_curve_points E c).baked_points
      = some ((List.range E.BAKED_POINTS_COUNT).map (fun (i : Nat) =>
          (⟨CDouble.fin (cubic_bezier 0 x1 x2 1 ((i : ℚ) / ((E.BAKED_POINTS_COUNT : ℚ) - 1))),
            CDouble.fin (cubic_bezier 0 y1 y2 1 ((i : ℚ) / ((E.BAKED_POINTS_COUNT : ℚ) - 1)))⟩
            : vec2))) := by
  simp only [bake_bezier_curve_points, Option.some.injEq]
  rw [coe_nat_list, List.map_map]
  apply List.map_congr_left
  intro i _
  simp only [Function.comp_apply]
  rw [bake_parameter _ i hn, calculate_animation_curve_at_fin c x1 y1 x2 y2 _ hc]

theorem range_map_head_last {α : Type} (f : Nat → α) (n : Nat) (hn : 2 ≤ n) :
    ((List.range n).map f).head? = some (f 0)
    ∧ ((List.range n).map f).getLast? = some (f (n - 1)) := by
  obtain ⟨m, rfl⟩ : ∃ m, n = m + 1 := ⟨n - 1, by omega⟩
  constructor
  · rw [List.range_succ_eq_map]
    rfl
  · rw [List.range_succ, List.map_append, List.map_singleton, List.getLast?_append]
    rfl

/-- C23, amended: for every four finite control scalars `(x1, y1, x2, y2)`
and a table size `BAKED_POINTS_COUNT` of at least 2, `bake_bezier_curve_points`
leaves a table with `BAKED_POINTS_COUNT` samples, sample `i` being the cubic
bezier with end points `(0, 0)` and `(1, 1)` and control points `(x1, y1)`,
`(x2, y2)` at `t = i / (BAKED_POINTS_COUNT - 1)`; its first sample is
`(0, 0)` and its last sample is `(1, 1)`; and `animation_curve a0 a1 a2 a3`
stores the four values `atof` reads and bakes that table.  Values are exact
rationals. -/
theorem bake_bezier_curve_points_samples (E : Ext) (c : mwc_config) (x1 y1 x2 y2 : ℚ)
    (hn : 2 ≤ E.BAKED_POINTS_COUNT) :
    (∃ table,
      (bake_bezier_curve_points E { c with animation_curve :=
          ⟨CDouble.fin x1, CDouble.fin y1, CDouble.fin x2, CDouble.fin y2⟩ }).baked_points
        = some table
      ∧ table.length = E.BAKED_POINTS_COUNT
      ∧ (∀ i < E.BAKED_POINTS_COUNT, table[i]? = some
          ⟨CDouble.fin (cubic_bezier 0 x1 x2 1 ((i : ℚ) / ((E.BAKED_POINTS_COUNT : ℚ) - 1))),
           CDouble.fin (cubic_bezier 0 y1 y2 1 ((i : ℚ) / ((E.BAKED_POINTS_COUNT : ℚ) - 1)))⟩)
      ∧ table.head? = some ⟨CDouble.fin 0, CDouble.fin 0⟩
      ∧ table.getLast? = some ⟨CDouble.fin 1, CDouble.fin 1⟩)
    ∧ (∀ (g : process_state) (a0 a1 a2 a3 : String) (rest : List String),
        E.atof a0 = CDouble.fin x1 → E.atof a1 = CDouble.fin y1 →
        E.atof a2 = CDouble.fin x2 → E.atof a3 = CDouble.fin y2 →
        config_handle_value E c g "animation_curve" (a0 :: a1 :: a2 :: a3 :: rest)
          = some ⟨true, bake_bezier_curve_points E { c with animation_curve :=
              ⟨CDouble.fin x1, CDouble.fin y1, CDouble.fin x2, CDouble.fin y2⟩ }, g⟩) := by
  constructor
  · refine ⟨_, bake_bezier_curve_points_table E _ x1 y1 x2 y2 rfl hn, by simp, ?_, ?_, ?_⟩
    · intro i hi
      simp [List.getElem?_map, List.getElem?_range hi]
    · rw [(range_map_head_last _ _ hn).1]
      simp [cubic_bezier]
    · rw [(range_map_head_last _ _ hn).2]
      have h1 : ((E.BAKED_POINTS_COUNT - 1 : ℕ) : ℚ) = (E.BAKED_POINTS_COUNT : ℚ) - 1 := by
        rw [Nat.cast_sub (by omega)]
        simp
      have h2 : (E.BAKED_POINTS_COUNT : ℚ) - 1 ≠ 0 := by
        have : (2 : ℚ) ≤ E.BAKED_POINTS_COUNT := by exact_mod_cast hn
        linarith
      simp [cubic_bezier, h1, div_self h2]
  · intro g a0 a1 a2 a3 rest h0 h1 h2 h3
    have hlt : ¬ (rest.length + 1 + 1 + 1 + 1 < 4) := by omega
    simp [config_handle_value, hlt, h0, h1, h2, h3]

theorem sample_atof_curve_values :
    sample_ext.atof "0.25" = CDouble.fin (1 / 4) ∧ sample_ext.atof "0.1" = CDouble.fin (1 / 10)
    ∧ sample_ext.atof "1.0" = CDouble.fin 1 := by
  have e1 : sample_ext.atof "0.25"
      = CDouble.fin (((0 : ℕ) : ℚ) + ((25 : ℕ) : ℚ) / (10 ^ 2 : ℚ)) := by rfl
  have e2 : sample_ext.atof "0.1"
      = CDouble.fin (((0 : ℕ) : ℚ) + ((1 : ℕ) : ℚ) / (10 ^ 1 : ℚ)) := by rfl
  have e3 : sample_ext.atof "1.0"
      = CDouble.fin (((1 : ℕ) : ℚ) + ((0 : ℕ) : ℚ) / (10 ^ 1 : ℚ)) := by rfl
  rw [e1, e2, e3]
  refine ⟨?_, ?_, ?_⟩ <;> norm_num

/-- Witness for C23: with the sample environment (256 samples, decimal
`atof`) the line `animation_curve 0.25 0.1 0.25 1.0` on the zeroed snapshot
bakes a table whose first sample is `(0, 0)` and whose last is `(1, 1)`. -/
theorem bake_bezier_curve_points_samples_witness :
    config_handle_value sample_ext config_calloc ⟨[], 0⟩ "animation_curve"
        ["0.25", "0.1", "0.25", "1.0"]
      = some ⟨true, bake_bezier_curve_points sample_ext { config_calloc with animation_curve :=
          ⟨CDouble.fin (1 / 4), CDouble.fin (1 / 10), CDouble.fin (1 / 4), CDouble.fin 1⟩ },
          ⟨[], 0⟩⟩
    ∧ ∃ table,
        (bake_bezier_curve_points sample_ext { config_calloc with animation_curve :=
          ⟨CDouble.fin (1 / 4), CDouble.fin (1 / 10), CDouble.fin (1 / 4), CDouble.fin 1⟩
          }).baked_points = some table
        ∧ table.length = 256
        ∧ table.head? = some ⟨CDouble.fin 0, CDouble.fin 0⟩
        ∧ table.getLast? = some ⟨CDouble.fin 1, CDouble.fin 1⟩ := by
  have h := bake_bezier_curve_points_samples sample_ext config_calloc (1 / 4) (1 / 10) (1 / 4) 1
    (by decide)
  refine ⟨h.2 ⟨[], 0⟩ "0.25" "0.1" "0.25" "1.0" [] sample_atof_curve_values.1
    sample_atof_curve_values.2.1 sample_atof_curve_values.1 sample_atof_curve_values.2.2, ?_⟩
  obtain ⟨table, h1, h2, -, h4, h5⟩ := h.1
  exact ⟨table, h1, h2, h4, h5⟩

/-- With a NaN as first control scalar the first sample of the baked table
has a NaN as `x`: at `t = 0` the term `3 * t * (1 - t) * (1 - t) * x1` is
`0 * NaN`. -/
theorem bake_first_sample_nan (E : Ext) (c : mwc_config) (hn : 2 ≤ E.BAKED_POINTS_COUNT)
    (hc : c.animation_curve.c0 = CDouble.nan) :
    ∃ table p, (bake_bezier_curve_points E c).baked_points = some table
      ∧ table.head? = some p ∧ p.x = CDouble.nan := by
  simp only [bake_bezier_curve_points]
  rw [coe_nat_list, List.map_map]
  refine ⟨_, _, rfl, (range_map_head_last _ _ hn).1, ?_⟩
  have ht := bake_parameter E.BAKED_POINTS_COUNT 0 hn
  have hadd : ∀ y : CDouble, CDouble.nan + y = CDouble.nan := by
    intro y
    cases y <;> rfl
  have hmul : ∀ q : ℚ, CDouble.fin q * CDouble.nan = CDouble.nan := fun _ => rfl
  simp only [Function.comp_apply, calculate_animation_curve_at, hc]
  rw [ht]
  simp only [CDouble.fin_mul, CDouble.fin_sub, hmul, hadd]

/-- C23, as stated, fails for control scalars that are not finite.  With an
`atof` that reads `nan` as a NaN, the line `animation_curve nan 0.1 0.25 1.0`
is accepted and bakes a table of 256 samples whose first sample has the `x`
coordinate NaN instead of 0. -/
theorem bake_bezier_curve_points_samples_refuted :
    (config_handle_value sample_nan_ext config_calloc ⟨[], 0⟩ "animation_curve"
        ["nan", "0.1", "0.25", "1.0"]).map
      (fun r => (r.ok, r.c.animation_curve.c0, (r.c.baked_points.bind List.head?).map vec2.x))
      = some (true, CDouble.nan, some CDouble.nan) := by
  decide

theorem bake_table_congr (E : Ext) (c1 c2 : mwc_config)
    (h : c1.animation_curve = c2.animation_curve) :
    (bake_bezier_curve_points E c1).baked_points = (bake_bezier_curve_points E c2).baked_points := by
  simp [bake_bezier_curve_points, calculate_animation_curve_at, h]

/-- With animations enabled and the four control scalars zero,
`config_set_default_needed_params` bakes the table of the zero curve. -/
theorem config_set_default_needed_params_bakes (E : Ext) (c : mwc_config)
    (ha : c.animations ≠ 0) (hc : c.animation_curve = rgba_zero) :
    (config_set_default_needed_params E c).baked_points
      = (bake_bezier_curve_points E c).baked_points := by
  unfold config_set_default_needed_params
  lift_lets
  extract_lets c1 c2 c3 c4 c5 c6 c7 c8 c9 c10 c11
  have p1 : c1.animations = c.animations ∧ c1.animation_curve = c.animation_curve := by
    simp only [c1]; split_ifs <;> exact ⟨rfl, rfl⟩
  have p2 : c2.animations = c1.animations ∧ c2.animation_curve = c1.animation_curve := by
    simp only [c2]; split_ifs <;> exact ⟨rfl, rfl⟩
  have p3 : c3.animations = c2.animations ∧ c3.animation_curve = c2.animation_curve := by
    simp only [c3]; split_ifs <;> exact ⟨rfl, rfl⟩
  have p4 : c4.animations = c3.animations ∧ c4.animation_curve = c3.animation_curve := by
    simp only [c4]; split_ifs <;> exact ⟨rfl, rfl⟩
  have p5 : c5.animations = c4.animations ∧ c5.animation_curve = c4.animation_curve := by
    simp only [c5]; split_ifs <;> exact ⟨rfl, rfl⟩
  have p6 : c6.animations = c5.animations ∧ c6.animation_curve = c5.animation_curve := by
    simp only [c6]; split_ifs <;> exact ⟨rfl, rfl⟩
  have p7 : c7.animations = c6.animations ∧ c7.animation_curve = c6.animation_curve := by
    simp only [c7]; split_ifs <;> exact ⟨rfl, rfl⟩
  have ha7 : c7.animations ≠ 0 := by
    rw [p7.1, p6.1, p5.1, p4.1, p3.1, p2.1, p1.1]; exact ha
  have hc7 : c7.animation_curve = rgba_zero := by
    rw [p7.2, p6.2, p5.2, p4.2, p3.2, p2.2, p1.2]; exact hc
  have p8 : c8 = bake_bezier_curve_points E c7 := by
    simp only [c8]
    rw [if_pos]
    refine ⟨ha7, ?_, ?_, ?_, ?_⟩ <;> simp [hc7, rgba_zero, CDouble.eq]
  have p9 : c9.baked_points = c8.baked_points := by
    simp only [c9]; split_ifs <;> rfl
  have p10 : c10.baked_points = c9.baked_points := by
    simp only [c10]; split_ifs <;> rfl
  have p11 : c11.baked_points = c10.baked_points := by
    simp only [c11]; split_ifs <;> rfl
  rw [p11, p10, p9, p8]
  apply bake_table_congr
  rw [hc7, hc]

/-- Every directive other than `animation_curve` leaves the four control
scalars of the easing curve as they were. -/
theorem config_handle_value_curve_frame (E : Ext) (c : mwc_config) (g : process_state)
    (keyword : String) (args : List String) (r : handled) (hk : keyword ≠ "animation_curve")
    (hr : config_handle_value E c g keyword args = some r) :
    r.c.animation_curve = c.animation_curve := by
  by_cases hin : keyword ∈ directive_names
  swap
  · rw [config_handle_value_unknown E c g keyword args hin] at hr
    cases hr
    rfl
  by_cases hinv : directive_invalid E keyword args
  · rw [(config_handle_value_invalid_frame E c g keyword args hinv r hr).1]
  by_cases hlist : keyword ∈ list_directives
  · obtain ⟨h1, h2, h3, h4, h5, h6⟩ := list_directive_shape E c g keyword args r hinv hr
    simp only [list_directives, List.mem_cons, List.mem_singleton, List.not_mem_nil,
      or_false] at hlist
    rcases hlist with rfl | rfl | rfl | rfl | rfl | rfl
    · obtain ⟨m, rfl⟩ := h1 rfl; rfl
    · obtain ⟨m, rfl⟩ := h2 rfl; rfl
    · obtain ⟨m, rfl⟩ := h3 rfl; rfl
    · obtain ⟨a, t, p, rest, -, hp, hf, hs, ho⟩ := h5 rfl
      simp only [List.mem_cons, List.mem_singleton, List.not_mem_nil, or_false] at hp
      rcases hp with hp | hp | hp
      · obtain ⟨n, rfl⟩ := hf hp; rfl
      · obtain ⟨n, rfl⟩ := hs hp; rfl
      · obtain ⟨n, rfl⟩ := ho hp; rfl
    · obtain ⟨m, rfl⟩ := h4 rfl; rfl
    · obtain ⟨m, key, rest, k, -, rfl⟩ := h6 rfl
      cases pointer_class key <;> rfl
  by_cases hcol : keyword ∈ color_directives
  · have hne : args ≠ [] := by
      intro h0
      apply hinv
      right; left
      subst h0
      simp only [color_directives, List.mem_cons, List.mem_singleton, List.not_mem_nil,
        or_false] at hcol
      rcases hcol with rfl | rfl | rfl <;> simp [required_args]
    have hci : ¬ color_invalid args := by
      intro h0
      apply hinv
      simp only [directive_invalid]
      right; right; right; right; right; left
      exact ⟨hcol, h0⟩
    obtain ⟨v0, v1, v2, v3, hp⟩ := parse_color_valid args hne hci
    simp only [color_directives, List.mem_cons, List.mem_singleton, List.not_mem_nil,
      or_false] at hcol
    rcases hcol with rfl | rfl | rfl <;>
      (simp [config_handle_value, hp] at hr; subst hr; rfl)
  have hfew : ¬ args.length < required_args keyword := by
    intro h0
    exact hinv (Or.inr (Or.inl h0))
  simp only [list_directives, List.mem_cons, List.mem_singleton, List.not_mem_nil, or_false,
    not_or] at hlist
  simp only [color_directives, List.mem_cons, List.mem_singleton, List.not_mem_nil, or_false,
    not_or] at hcol
  simp only [directive_names, List.mem_cons, List.mem_singleton, List.not_mem_nil,
    or_false] at hin
  rcases hin with rfl | rfl | rfl | rfl | rfl | rfl | rfl | rfl | rfl | rfl | rfl | rfl | rfl
    | rfl | rfl | rfl | rfl | rfl | rfl | rfl | rfl | rfl | rfl | rfl | rfl | rfl | rfl | rfl
    | rfl | rfl | rfl | rfl | rfl | rfl | rfl | rfl | rfl | rfl | rfl | rfl | rfl | rfl | rfl
    | rfl | rfl | rfl | rfl | rfl | rfl | rfl | rfl | rfl
  all_goals first
    | (exfalso; revert hlist; decide)
    | (exfalso; revert hcol; decide)
    | (exfalso; exact hk rfl)
    | (rcases args with _ | ⟨a0, _ | ⟨a1, rest⟩⟩
       all_goals first
         | (exfalso; revert hfew; simp [required_args]; done)
         | (simp [config_handle_value] at hr
            first
              | (subst hr; rfl)
              | (split_ifs at hr <;> first
                  | (cases hr; rfl)
                  | (cases hr
                     simp only [config_add_keymap]
                     cases c.keymap_layouts <;> rfl))))

theorem config_load_lines_curve (E : Ext) :
    ∀ (lines : List (List Char)) (c : mwc_config) (g : process_state)
      (r : mwc_config × process_state),
      config_load_lines E c g lines = some r →
      (∀ line ∈ lines, ∀ args,
        config_handle_line E.STRING_INITIAL_LENGTH line
          ≠ line_result.directive "animation_curve" args) →
      r.1.animation_curve = c.animation_curve := by
  intro lines
  induction lines with
  | nil =>
    intro c g r h _
    simp only [config_load_lines, Option.some.injEq] at h
    subst h
    rfl
  | cons line rest ih =>
    intro c g r h hno
    have hrest : ∀ l ∈ rest, ∀ args, config_handle_line E.STRING_INITIAL_LENGTH l
        ≠ line_result.directive "animation_curve" args :=
      fun l hl => hno l (List.mem_cons_of_mem _ hl)
    unfold config_load_lines at h
    cases hl : config_handle_line E.STRING_INITIAL_LENGTH line with
    | undefined => simp [hl] at h
    | skip =>
      simp only [hl] at h
      exact ih c g r h hrest
    | no_args =>
      simp only [hl] at h
      exact ih c g r h hrest
    | directive keyword args =>
      simp only [hl] at h
      have hk : keyword ≠ "animation_curve" := by
        intro e
        subst e
        exact hno line (List.mem_cons_self _ _) args hl
      cases hv : config_handle_value E c g keyword args with
      | none => simp [hv] at h
      | some r1 =>
        simp only [hv] at h
        rw [ih r1.c r1.g r h hrest]
        exact config_handle_value_curve_frame E c g keyword args r1 hk hv

theorem config_open_curve (fs : file_system) (g : process_state) (c0 : mwc_config)
    (file : List (List Char)) (h : config_open fs g = some (some (c0, file))) :
    c0.animation_curve = rgba_zero := by
  unfold config_open at h
  cases h1 : get_config_path g 1024 with
  | none =>
    simp only [h1] at h
    cases h2 : get_default_config_path g 1024 with
    | none => simp [h2] at h
    | some path =>
      cases h3 : fs path with
      | none => simp [h2, h3] at h
      | some f =>
        simp [h2, h3] at h
        rw [← h.1]
        rfl
  | some path0 =>
    simp only [h1] at h
    cases h4 : fs path0 with
    | some f =>
      cases h5 : path_dir path0 with
      | none => simp [h4, h5] at h
      | some d =>
        simp [h4, h5] at h
        rw [← h.1]
        rfl
    | none =>
      cases h2 : get_default_config_path g 1024 with
      | none => simp [h4, h2] at h
      | some path =>
        cases h3 : fs path with
        | none => simp [h4, h2, h3] at h
        | some f =>
          simp [h4, h2, h3] at h
          rw [← h.1]
          rfl

theorem config_set_default_needed_params_animations (E : Ext) (c : mwc_config) :
    (config_set_default_needed_params E c).animations = c.animations := by
  unfold config_set_default_needed_params
  lift_lets
  extract_lets c1 c2 c3 c4 c5 c6 c7 c8 c9 c10 c11
  have p1 : c1.animations = c.animations := by simp only [c1]; split_ifs <;> rfl
  have p2 : c2.animations = c1.animations := by simp only [c2]; split_ifs <;> rfl
  have p3 : c3.animations = c2.animations := by simp only [c3]; split_ifs <;> rfl
  have p4 : c4.animations = c3.animations := by simp only [c4]; split_ifs <;> rfl
  have p5 : c5.animations = c4.animations := by simp only [c5]; split_ifs <;> rfl
  have p6 : c6.animations = c5.animations := by simp only [c6]; split_ifs <;> rfl
  have p7 : c7.animations = c6.animations := by simp only [c7]; split_ifs <;> rfl
  have p8 : c8.animations = c7.animations := by simp only [c8]; split_ifs <;> rfl
  have p9 : c9.animations = c8.animations := by simp only [c9]; split_ifs <;> rfl
  have p10 : c10.animations = c9.animations := by simp only [c10]; split_ifs <;> rfl
  have p11 : c11.animations = c10.animations := by simp only [c11]; split_ifs <;> rfl
  rw [p11, p10, p9, p8, p7, p6, p5, p4, p3, p2, p1]

/-- C24: with a table size of at least 2, whenever animations are enabled
and the four control scalars are zero, as they are when the file holds no
`animation_curve` directive, `config_set_default_needed_params` bakes the
easing table, and the baked curve is linear: sample `i` is `(s, s)` with
`s = (i / (BAKED_POINTS_COUNT - 1))^3`, so every sample satisfies `y = x`,
the first sample is `(0, 0)` and the last is `(1, 1)`.  Accordingly every
snapshot `config_load` returns with animations enabled from a file without
an `animation_curve` directive holds that table. -/
theorem default_curve_linear (E : Ext) (hn : 2 ≤ E.BAKED_POINTS_COUNT) :
    (∀ c : mwc_config, c.animations ≠ 0 → c.animation_curve = rgba_zero →
      ∃ table, (config_set_default_needed_params E c).baked_points = some table
        ∧ table.length = E.BAKED_POINTS_COUNT
        ∧ (∀ i < E.BAKED_POINTS_COUNT, table[i]? = some
            ⟨CDouble.fin (((i : ℚ) / ((E.BAKED_POINTS_COUNT : ℚ) - 1)) ^ 3),
             CDouble.fin (((i : ℚ) / ((E.BAKED_POINTS_COUNT : ℚ) - 1)) ^ 3)⟩)
        ∧ (∀ p ∈ table, p.y = p.x)
        ∧ table.head? = some ⟨CDouble.fin 0, CDouble.fin 0⟩
        ∧ table.getLast? = some ⟨CDouble.fin 1, CDouble.fin 1⟩)
    ∧ (∀ (fs : file_system) (g : process_state) (l : loaded) (c : mwc_config),
        config_load E fs g = some l → l.c = some c → c.animations ≠ 0 →
        (∀ c0 file, config_open fs g = some (some (c0, file)) →
          ∀ line ∈ file, ∀ args, config_handle_line E.STRING_INITIAL_LENGTH line
            ≠ line_result.directive "animation_curve" args) →
        ∃ table, c.baked_points = some table
          ∧ table.length = E.BAKED_POINTS_COUNT
          ∧ (∀ p ∈ table, p.y = p.x)
          ∧ table.head? = some ⟨CDouble.fin 0, CDouble.fin 0⟩
          ∧ table.getLast? = some ⟨CDouble.fin 1, CDouble.fin 1⟩) := by
  have part1 : ∀ c : mwc_config, c.animations ≠ 0 → c.animation_curve = rgba_zero →
      ∃ table, (config_set_default_needed_params E c).baked_points = some table
        ∧ table.length = E.BAKED_POINTS_COUNT
        ∧ (∀ i < E.BAKED_POINTS_COUNT, table[i]? = some
            ⟨CDouble.fin (((i : ℚ) / ((E.BAKED_POINTS_COUNT : ℚ) - 1)) ^ 3),
             CDouble.fin (((i : ℚ) / ((E.BAKED_POINTS_COUNT : ℚ) - 1)) ^ 3)⟩)
        ∧ (∀ p ∈ table, p.y = p.x)
        ∧ table.head? = some ⟨CDouble.fin 0, CDouble.fin 0⟩
        ∧ table.getLast? = some ⟨CDouble.fin 1, CDouble.fin 1⟩ := by
    intro c ha hc
    have hb := config_set_default_needed_params_bakes E c ha hc
    have ht := bake_bezier_curve_points_table E c 0 0 0 0 hc hn
    have hz : ∀ t : ℚ, cubic_bezier 0 0 0 1 t = t ^ 3 := by
      intro t; simp [cubic_bezier]
    simp only [hz] at ht
    rw [← hb] at ht
    refine ⟨_, ht, by simp, ?_, ?_, ?_, ?_⟩
    · intro i hi
      simp [List.getElem?_map, List.getElem?_range hi]
    · intro p hp
      simp only [List.mem_map, List.mem_range] at hp
      obtain ⟨i, -, rfl⟩ := hp
      rfl
    · rw [(range_map_head_last _ _ hn).1]
      simp
    · rw [(range_map_head_last _ _ hn).2]
      have h1 : ((E.BAKED_POINTS_COUNT - 1 : ℕ) : ℚ) = (E.BAKED_POINTS_COUNT : ℚ) - 1 := by
        rw [Nat.cast_sub (by omega)]
        simp
      have h2 : (E.BAKED_POINTS_COUNT : ℚ) - 1 ≠ 0 := by
        have : (2 : ℚ) ≤ E.BAKED_POINTS_COUNT := by exact_mod_cast hn
        linarith
      simp [h1, div_self h2]
  refine ⟨part1, ?_⟩
  intro fs g l c hl hlc ha hno
  unfold config_load at hl
  cases ho : config_open fs g with
  | none => simp [ho] at hl
  | some o =>
    cases o with
    | none =>
      simp only [ho, Option.some.injEq] at hl
      subst hl
      simp at hlc
    | some p =>
      obtain ⟨c0, file⟩ := p
      simp only [ho] at hl
      cases hll : config_load_lines E c0 g file with
      | none => simp [hll] at hl
      | some r =>
        simp only [hll, Option.some.injEq] at hl
        subst hl
        simp only [Option.some.injEq] at hlc
        subst hlc
        have hcurve : r.1.animation_curve = rgba_zero := by
          rw [config_load_lines_curve E file c0 g r hll (hno c0 file ho)]
          exact config_open_curve fs g c0 file ho
        rw [config_set_default_needed_params_animations] at ha
        obtain ⟨table, h1, h2, -, h4, h5, h6⟩ := part1 r.1 ha hcurve
        exact ⟨table, h1, h2, h4, h5, h6⟩

/-- Witness for C24: with the sample environment the zeroed snapshot with
animations enabled gets a table of 256 samples from `(0, 0)` to `(1, 1)`. -/
theorem default_curve_linear_witness :
    ∃ table, (config_set_default_needed_params sample_ext
        { config_calloc with animations := 1 }).baked_points = some table
      ∧ table.length = 256
      ∧ (∀ p ∈ table, p.y = p.x)
      ∧ table.head? = some ⟨CDouble.fin 0, CDouble.fin 0⟩
      ∧ table.getLast? = some ⟨CDouble.fin 1, CDouble.fin 1⟩ := by
  obtain ⟨table, h1, h2, -, h4, h5, h6⟩ :=
    (default_curve_linear sample_ext (by decide)).1 { config_calloc with animations := 1 }
      (by decide) rfl
  exact ⟨table, h1, h2, h4, h5, h6⟩

/-! ## Path resolution -/

theorem take_fits (p : List Char) (h : p.length < 1024) : p.take (1024 - 1) = p :=
  List.take_of_length_le (by omega)

theorem get_default_config_path_fits (g : process_state)
    (h : (default_config_path g).data.length < 1024) :
    get_default_config_path g 1024 = some (default_config_path g) := by
  unfold get_default_config_path
  simp only [default_config_path] at h
  simp only [default_config_path]
  rw [if_neg (by omega)]

/-- C25, the failing input: with `MWC_CONFIG_PATH=mwc.conf` and both that
file and the default file openable, `config_load` does not return a
snapshot: the file is opened, the resolved path has no `/`, and the code
fails its own `assert(last_slash != NULL)`. -/
theorem config_path_precedence_refuted :
    get_config_path ⟨[("MWC_CONFIG_PATH", "mwc.conf")], 0⟩ 1024 = some "mwc.conf"
    ∧ (sample_relative_fs "mwc.conf").isSome = true
    ∧ (sample_relative_fs (default_config_path ⟨[("MWC_CONFIG_PATH", "mwc.conf")], 0⟩)).isSome
        = true
    ∧ config_load sample_ext sample_relative_fs ⟨[("MWC_CONFIG_PATH", "mwc.conf")], 0⟩ = none := by
  decide

/-- Path resolution apart from the failing assertion: it follows a fixed
precedence over the environment, for paths that fit the buffer of 1024 bytes.
`get_config_path` returns the value of `MWC_CONFIG_PATH` whenever it is set,
otherwise `$XDG_CONFIG_HOME/mwc/mwc.conf` when that variable is set,
otherwise `$HOME/.config/mwc/mwc.conf` when `HOME` is set, and otherwise it
fails.  When the file at the resolved path can be opened, `config_load`
reads it if the path contains a `/` and fails its assertion if it does not;
when the resolution fails or the file cannot be opened, `config_load` falls
back to the default path, the value of `MWC_DEFAULT_CONFIG_PATH` if set and
`/usr/share/mwc/default.conf` otherwise; and it returns `NULL` exactly when
the default file cannot be opened either. -/
theorem config_path_precedence (E : Ext) (fs : file_system) (g : process_state)
    (hd : (default_config_path g).data.length < 1024) :
    (∀ p, getenv g "MWC_CONFIG_PATH" = some p → p.data.length < 1024 →
      get_config_path g 1024 = some p)
    ∧ (getenv g "MWC_CONFIG_PATH" = none → ∀ h, getenv g "XDG_CONFIG_HOME" = some h →
        (h.data ++ "/mwc/mwc.conf".data).length < 1024 →
        get_config_path g 1024 = some (String.mk (h.data ++ "/mwc/mwc.conf".data)))
    ∧ (getenv g "MWC_CONFIG_PATH" = none → getenv g "XDG_CONFIG_HOME" = none →
        ∀ h, getenv g "HOME" = some h →
        (h.data ++ "/.config/mwc/mwc.conf".data).length < 1024 →
        get_config_path g 1024 = some (String.mk (h.data ++ "/.config/mwc/mwc.conf".data)))
    ∧ (getenv g "MWC_CONFIG_PATH" = none → getenv g "XDG_CONFIG_HOME" = none →
        getenv g "HOME" = none → get_config_path g 1024 = none)
    ∧ (getenv g "MWC_DEFAULT_CONFIG_PATH" = none →
        default_config_path g = "/usr/share/mwc/default.conf")
    ∧ (∀ d, getenv g "MWC_DEFAULT_CONFIG_PATH" = some d → default_config_path g = d)
    ∧ (∀ p file, get_config_path g 1024 = some p → fs p = some file →
        ('/' ∈ p.data →
          ∃ dir, path_dir p = some dir
            ∧ config_open fs g = some (some ({ config_calloc with dir := some dir }, file)))
        ∧ ('/' ∉ p.data → config_load E fs g = none))
    ∧ (config_path_unusable fs g →
        config_open fs g
          = some ((fs (default_config_path g)).map (fun f => (config_calloc, f))))
    ∧ (∀ l, config_load E fs g = some l →
        (l.c = none ↔ config_path_unusable fs g ∧ fs (default_config_path g) = none)) := by
  have hdef := get_default_config_path_fits g hd
  have hfall : config_path_unusable fs g →
      config_open fs g = some ((fs (default_config_path g)).map (fun f => (config_calloc, f))) := by
    intro hu
    unfold config_open
    rcases hu with hu | ⟨p, hp, hf⟩
    · simp [hu, hdef]
    · simp [hp, hf, hdef]
  have hprim : ∀ p file, get_config_path g 1024 = some p → fs p = some file →
      config_open fs g = (path_dir p).map (fun dir =>
        some ({ config_calloc with dir := some dir }, file)) := by
    intro p file hp hf
    unfold config_open
    simp [hp, hf]
  refine ⟨?_, ?_, ?_, ?_, ?_, ?_, ?_, hfall, ?_⟩
  · intro p hp hfit
    simp only [get_config_path, hp]
    rw [take_fits _ hfit]
  · intro h0 h h1 hfit
    simp only [get_config_path, h0, h1]
    rw [take_fits _ hfit]
  · intro h0 h1 h h2 hfit
    simp only [get_config_path, h0, h1, h2]
    rw [take_fits _ hfit]
  · intro h0 h1 h2
    simp only [get_config_path, h0, h1, h2]
  · intro h0
    simp [default_config_path, h0]
  · intro d h0
    simp [default_config_path, h0]
  · intro p file hp hf
    constructor
    · intro hs
      have hpd : path_dir p = some (String.mk
          ((p.data.reverse.dropWhile (fun ch => ch ≠ '/')).drop 1).reverse) := by
        simp only [path_dir, hs, if_true]
      refine ⟨_, hpd, ?_⟩
      rw [hprim p file hp hf, hpd]
      rfl
    · intro hs
      unfold config_load
      rw [hprim p file hp hf]
      simp only [path_dir, hs, if_false, Option.map_none']
  · intro l hl
    unfold config_load at hl
    by_cases hu : config_path_unusable fs g
    · rw [hfall hu] at hl
      cases hf : fs (default_config_path g) with
      | none =>
        simp only [hf, Option.map_none', Option.some.injEq] at hl
        subst hl
        simp [hu]
      | some f =>
        simp only [hf, Option.map_some'] at hl
        cases hll : config_load_lines E config_calloc g f with
        | none => simp [hll] at hl
        | some r =>
          simp only [hll, Option.some.injEq] at hl
          subst hl
          simp
    · have hp : ∃ p file, get_config_path g 1024 = some p ∧ fs p = some file := by
        unfold config_path_unusable at hu
        simp only [not_or, not_exists, not_and] at hu
        obtain ⟨hu1, hu2⟩ := hu
        cases hg : get_config_path g 1024 with
        | none => exact absurd hg hu1
        | some p =>
          cases hf : fs p with
          | none => exact absurd hf (hu2 p hg)
          | some file => exact ⟨p, file, rfl, hf⟩
      obtain ⟨p, file, hp, hf⟩ := hp
      rw [hprim p file hp hf] at hl
      cases hdir : path_dir p with
      | none => simp [hdir] at hl
      | some dir =>
        simp only [hdir, Option.map_some'] at hl
        cases hll : config_load_lines E { config_calloc with dir := some dir } g file with
        | none => simp [hll] at hl
        | some r =>
          simp only [hll, Option.some.injEq] at hl
          subst hl
          simp [hu]

/-- Example: in the sample session `HOME` is the only variable set,
so the path is `$HOME/.config/mwc/mwc.conf`. -/
theorem config_path_precedence_witness :
    get_config_path sample_server.proc 1024 = some "/home/u/.config/mwc/mwc.conf" :=
  ((config_path_precedence sample_ext sample_fs sample_server.proc (by decide)).2.2.1
    (by decide) (by decide) "/home/u" (by decide) (by decide)).trans (by decide)

/-! ## Ownership -/

/-- The regex trace of `config_add_window_rule` agrees with the function:
the flags are the same, and a failed construction adds no node. -/
theorem config_add_window_rule_trace_ok (E : Ext) (c : mwc_config)
    (app_id title predicate : String) (args : List String) (r : Bool × mwc_config)
    (h : config_add_window_rule E c app_id title predicate args = some r) :
    r.1 = (config_add_window_rule_trace E app_id title predicate args).ok
    ∧ (r.1 = false → r.2 = c) := by
  unfold config_add_window_rule at h
  unfold config_add_window_rule_trace
  cases h1 : compile_condition E app_id with
  | none =>
    simp only [h1, Option.some.injEq] at h
    subst h
    exact ⟨rfl, fun _ => rfl⟩
  | some a =>
    cases h2 : compile_condition E title with
    | none =>
      simp only [h1, h2, Option.some.injEq] at h
      subst h
      exact ⟨rfl, fun _ => rfl⟩
    | some t =>
      simp only [h1, h2] at h
      simp only
      by_cases hf : predicate = "float"
      · simp only [hf, if_true, Option.some.injEq] at h
        subst h
        simp [hf]
      by_cases hs : predicate = "size"
      · subst hs
        by_cases hl : args.length < 2
        · simp [hl] at h
          subst h
          simp [hl]
        · rcases args with _ | ⟨b0, _ | ⟨b1, rest⟩⟩
          · simp at hl
          · simp at hl
          · have hl2 : ¬ (rest.length + 1 + 1 < 2) := by omega
            cases hw : size_argument b0 with
            | none => simp [hw, hl2] at h
            | some w =>
              cases hh : size_argument b1 with
              | none => simp [hw, hh, hl2] at h
              | some hv =>
                simp [hw, hh, hl2] at h
                subst h
                simp [hl2]
      by_cases ho : predicate = "opacity"
      · subst ho
        rcases args with _ | ⟨b0, _ | ⟨b1, rest⟩⟩
        · simp at h
          subst h
          simp
        · simp at h
          subst h
          simp
        · simp at h
          subst h
          simp
      · simp only [hf, hs, ho, if_false, Option.some.injEq] at h
        subst h
        simp [hf, hs, ho]

theorem config_add_layer_rule_trace_ok (E : Ext) (c : mwc_config) (regex predicate : String)
    (args : List String) :
    (config_add_layer_rule E c regex predicate args).1
      = (config_add_layer_rule_trace E regex predicate).ok
    ∧ ((config_add_layer_rule E c regex predicate args).1 = false →
        (config_add_layer_rule E c regex predicate args).2 = c) := by
  unfold config_add_layer_rule config_add_layer_rule_trace
  cases compile_condition E regex with
  | none => exact ⟨rfl, fun _ => rfl⟩
  | some cond => by_cases hp : predicate = "blur" <;> simp [hp]

/-- On every failure path of the two rule constructors other than a title
regex that fails to compile, the compiled regexes are exactly the released
ones, in order: an invalid first regex (nothing compiled), an unknown
predicate and too few predicate arguments. -/
theorem rule_construction_releases (E : Ext) (app_id title predicate : String)
    (args : List String) :
    ((config_add_window_rule_trace E app_id title predicate args).ok = false →
      ¬ regex_invalid E title →
      (config_add_window_rule_trace E app_id title predicate args).released
        = (config_add_window_rule_trace E app_id title predicate args).compiled)
    ∧ ((config_add_layer_rule_trace E app_id predicate).ok = false →
      (config_add_layer_rule_trace E app_id predicate).released
        = (config_add_layer_rule_trace E app_id predicate).compiled) := by
  constructor
  · intro hok ht
    unfold config_add_window_rule_trace at hok ⊢
    rw [compile_condition_valid E title ht] at hok ⊢
    cases h1 : compile_condition E app_id with
    | none => rfl
    | some a =>
      simp only [h1] at hok ⊢
      split_ifs at hok ⊢ <;> rfl
  · intro hok
    unfold config_add_layer_rule_trace at hok ⊢
    cases h1 : compile_condition E app_id with
    | none => rfl
    | some a =>
      simp only [h1] at hok ⊢
      split_ifs at hok ⊢
      rfl

/-- C26 fails when the second regex is the invalid one.  The line
`window_rule kitty ( float` tokenizes to the arguments `kitty`, `(`, `float`;
`kitty` compiles and `(` does not, so the construction fails and adds no
node, and the compiled regex of `kitty` is not released: the `return false`
after the failed `regcomp` of the title does not pass through the clean-up
at the label `invalid`. -/
theorem window_rule_title_regex_leak :
    config_handle_line sample_ext.STRING_INITIAL_LENGTH "window_rule kitty ( float\n".data
      = line_result.directive "window_rule" ["kitty", "(", "float"]
    ∧ config_add_window_rule sample_ext config_calloc "kitty" "(" "float" []
      = some (false, config_calloc)
    ∧ config_add_window_rule_trace sample_ext "kitty" "(" "float" [] = ⟨false, ["kitty"], []⟩ := by
  decide

theorem config_destroy_eq_owned (c : mwc_config)
    (h : ∀ k ∈ c.pointer_keybinds, k.action ≠ keybind_fn.keybind_run) :
    config_destroy c = owned_resources c := by
  have hk : c.keybinds.flatMap (fun k =>
      (match k.action, k.args with
        | keybind_fn.keybind_run, keybind_args.str s => [resource.string s]
        | _, _ => [])
      ++ [resource.keybind_node k]) = c.keybinds.flatMap keybind_resources := rfl
  have hp : c.pointer_keybinds.map resource.keybind_node
      = c.pointer_keybinds.flatMap keybind_resources := by
    rw [List.map_eq_flatMap]
    apply List.flatMap_congr
    intro k hkm
    have hne := h k hkm
    unfold keybind_resources
    split
    · rename_i h1 _
      exact absurd h1 hne
    · rfl
  unfold config_destroy owned_resources
  rw [hk, hp]

/-- No workspace entry is released by `config_destroy`. -/
theorem config_destroy_no_workspace (c : mwc_config) (w : workspace_config) :
    resource.workspace_node w ∉ config_destroy c := by
  have hopt : ∀ o : Option String,
      resource.workspace_node w ∉
        (match o with | some s => [resource.string s] | none => []) := by
    intro o; cases o <;> simp
  have hreg : ∀ o : Option regex_t,
      resource.workspace_node w ∉
        (match o with | some r => [resource.regex r] | none => []) := by
    intro o; cases o <;> simp
  have hcond : ∀ cond : window_rule_regex,
      resource.workspace_node w ∉ condition_resources cond := by
    intro cond
    simp only [condition_resources, List.mem_append, not_or]
    exact ⟨hreg _, hreg _⟩
  have hkey : ∀ k : keybind,
      resource.workspace_node w ∉
        (match k.action, k.args with
          | keybind_fn.keybind_run, keybind_args.str s => [resource.string s]
          | _, _ => []) := by
    intro k; split <;> simp
  have hbaked : resource.workspace_node w ∉
      (match c.baked_points with | some t => [resource.baked_points t] | none => []) := by
    cases c.baked_points <;> simp
  simp only [config_destroy, List.mem_append, List.mem_flatMap, List.mem_map, List.mem_cons,
    List.mem_singleton, List.not_mem_nil, not_or, not_exists, not_and, or_false]
  simp [hopt, hreg, hcond, hkey, hbaked]

/-- C27 fails for the pointer registry.  The line `keybind super
mouse_left_click run foot` leaves a snapshot that owns the duplicated string
`foot`, and `config_destroy` releases the node of that keybind and the
snapshot but not the string; for the same binding on the key `x` the
string is released.  The loop over `pointer_keybinds` frees the nodes
only. -/
theorem config_destroy_pointer_run_string :
    (config_add_keybind sample_ext config_calloc "super" "mouse_left_click" "run" ["foot"]).map
        (fun r => (config_destroy r.2, owned_resources r.2))
      = some ([resource.keybind_node ⟨WLR_MODIFIER_LOGO, 272, keybind_fn.keybind_run, none,
                keybind_args.str "foot", true⟩, resource.config_struct],
              [resource.string "foot",
               resource.keybind_node ⟨WLR_MODIFIER_LOGO, 272, keybind_fn.keybind_run, none,
                keybind_args.str "foot", true⟩, resource.config_struct])
    ∧ (config_add_keybind sample_ext config_calloc "super" "x" "run" ["foot"]).map
        (fun r => config_destroy r.2)
      = some [resource.string "foot",
              resource.keybind_node ⟨WLR_MODIFIER_LOGO, 120, keybind_fn.keybind_run, none,
                keybind_args.str "foot", true⟩, resource.config_struct] := by
  decide

/-! ## Tokenizer: the ends of a line -/

/-- C28 fails for a quote that is not closed.  Whatever the value `cap` of
`STRING_INITIAL_LENGTH`, on the newline-terminated line `a "b\"` (an opening
quote, `b`, and a backslash-quote right before the newline)
`config_handle_line` stops the argument at the newline, steps over it with
`if(word) p++` and goes on reading after the end of the line. -/
theorem config_handle_line_backslash_quote (cap : Nat) :
    config_handle_line cap "a \"b\\\"\n".data = line_result.undefined := by
  match cap with
  | 0 => decide
  | 1 => decide
  | n + 2 =>
    simp [config_handle_line, skip_whitespace, read_keyword, read_args, read_token]

/-! ## Tokenizer round trip -/

theorem c_string_of_no_nul (l : List Char) (h : '\x00' ∉ l) : c_string l = String.mk l := by
  unfold c_string
  congr 1
  rw [List.takeWhile_eq_self_iff]
  intro ch hch
  have hne : ch ≠ '\x00' := fun e => h (e ▸ hch)
  simpa using hne

/-- Inside the keyword buffer the round trip holds: for a non-empty
directive name shorter than the buffer capacity, without space, tab, newline
or NUL and not starting with `#`, and a non-empty list of argument strings
without newline or NUL, `config_handle_line` on the line that holds the name
and the quoted-and-escaped arguments returns the name and the arguments. -/
theorem tokenizer_round_trip_short_name (cap : Nat) (name : List Char) (args : List (List Char))
    (hn1 : name ≠ []) (hn2 : ∀ ch ∈ name, ch ≠ ' ' ∧ ch ≠ '\t' ∧ ch ≠ '\n')
    (hn3 : name.head? ≠ some '#') (hn4 : name.length < cap) (hn5 : '\x00' ∉ name)
    (ha1 : args ≠ []) (ha2 : ∀ a ∈ args, '\n' ∉ a ∧ '\x00' ∉ a) :
    config_handle_line cap (write_line name (args.map arg_form.quoted))
      = line_result.directive (String.mk name) (args.map String.mk) := by
  have h := config_handle_line_write_line cap name (args.map arg_form.quoted) hn1 hn2 hn3 hn4
    (by simpa using ha1)
    (by
      intro a ha
      obtain ⟨b, hb, rfl⟩ := List.mem_map.mp ha
      exact (ha2 b hb).1)
  rw [h, c_string_of_no_nul name hn5, List.map_map]
  congr 1
  apply List.map_congr_left
  intro a ha
  exact c_string_of_no_nul a (ha2 a ha).2

/-- C30, the failing input: whatever the value `cap` of
`STRING_INITIAL_LENGTH`, for the directive name made of `cap` letters `a`
(no whitespace) and the one argument `x` (no newline), written between
double quotes after the name and a space and followed by a newline,
`config_handle_line` calls `realloc` on its output parameter and writes past
the keyword buffer: it does not return the name and the argument. -/
theorem tokenizer_round_trip_long_name (cap : Nat) :
    write_line (List.replicate cap 'a') [arg_form.quoted "x".data]
        = List.replicate cap 'a' ++ " \"x\"\n".data
      ∧ config_handle_line cap (write_line (List.replicate cap 'a') [arg_form.quoted "x".data])
        = line_result.undefined
      ∧ config_handle_line cap (write_line (List.replicate cap 'a') [arg_form.quoted "x".data])
        ≠ line_result.directive (String.mk (List.replicate cap 'a')) ["x"] := by
  have hw : write_line (List.replicate cap 'a') [arg_form.quoted "x".data]
      = List.replicate cap 'a' ++ " \"x\"\n".data := by
    simp [write_line, arg_form.written, escape_arg]
  have hu : config_handle_line cap (List.replicate cap 'a' ++ " \"x\"\n".data)
      = line_result.undefined := by
    cases cap with
    | zero => decide
    | succ n =>
      have hk := read_keyword_replicate (n + 1) ("\"x\"\n".data ++ ['\x00']) (n + 1) [] (by simp)
      have hmem : (List.replicate (n + 1) 'a' ++ " \"x\"\n".data) ++ ['\x00']
          = List.replicate (n + 1) 'a' ++ ' ' :: ("\"x\"\n".data ++ ['\x00']) := by
        simp
      unfold config_handle_line
      rw [hmem]
      have hs : skip_whitespace
            (List.replicate (n + 1) 'a' ++ ' ' :: ("\"x\"\n".data ++ ['\x00']))
          = List.replicate (n + 1) 'a' ++ ' ' :: ("\"x\"\n".data ++ ['\x00']) := by
        simp [List.replicate, skip_whitespace]
      rw [hs]
      simp only [List.replicate, List.cons_append] at hk ⊢
      have h2 : ¬ ('a' = '\n' ∨ 'a' = '#') := by decide
      simp only [h2, if_false, hk]
  refine ⟨hw, ?_, ?_⟩
  · rw [hw, hu]
  · rw [hw, hu]
    exact fun h => line_result.noConfusion h

/-! ## Argument reads -/

theorem keybind_action_defined (k : keybind) (action : String) (args : List String) :
    keybind_action k action args ≠ none := by
  by_cases h1 : action ∈ action_names
  swap
  · rw [keybind_action_invalid k action args (Or.inl h1)]
    exact fun h => Option.noConfusion h
  by_cases h2 : action ∈ ["run", "move_focus", "swap", "workspace", "move_to_workspace"]
      ∧ args = []
  · rw [keybind_action_invalid k action args (Or.inr (Or.inl h2))]
    exact fun h => Option.noConfusion h
  by_cases h3 : action ∈ ["move_focus", "swap"]
      ∧ ∃ a ∈ args.head?, a ∉ ["up", "left", "down", "right"]
  · rw [keybind_action_invalid k action args (Or.inr (Or.inr h3))]
    exact fun h => Option.noConfusion h
  obtain ⟨k1, hk1, -⟩ := keybind_action_valid k action args h1 h2 h3
  rw [hk1]
  exact fun h => Option.noConfusion h

theorem config_add_keybind_defined (E : Ext) (c : mwc_config) (modifiers key action : String)
    (rest : List String) (h : config_add_keybind E c modifiers key action rest = none) :
    parse_modifiers modifiers.data.length modifiers.data 0 = none := by
  unfold config_add_keybind at h
  generalize parse_modifiers modifiers.data.length modifiers.data 0 = pm at h
  cases pm with
  | none => rfl
  | some flag =>
    exfalso
    simp only [Option.bind_eq_bind, Option.some_bind] at h
    cases hk : resolve_key E key with
    | none => simp [hk] at h
    | some pk =>
      obtain ⟨pointer, key_sym⟩ := pk
      rw [hk] at h
      simp only at h
      generalize hka : keybind_action _ action rest = ka at h
      cases ka with
      | none => exact keybind_action_defined _ action rest hka
      | some r =>
        cases r with
        | none => simp at h
        | some k1 =>
          simp only [Option.some_bind] at h
          split_ifs at h

theorem config_add_window_rule_defined (E : Ext) (c : mwc_config)
    (app_id_regex title_regex predicate : String) (args : List String)
    (h : config_add_window_rule E c app_id_regex title_regex predicate args = none) :
    predicate = "size" ∧ 2 ≤ args.length ∧ ∃ a ∈ args.take 2, a.data = [] := by
  unfold config_add_window_rule at h
  cases ha : compile_condition E app_id_regex with
  | none => simp [ha] at h
  | some app_id =>
    cases ht : compile_condition E title_regex with
    | none => simp [ha, ht] at h
    | some title =>
      simp only [ha, ht] at h
      by_cases hf : predicate = "float"
      · simp [hf] at h
      by_cases hs : predicate = "size"
      · rcases args with _ | ⟨a0, _ | ⟨a1, rest⟩⟩
        · simp [hs] at h
        · simp [hs] at h
        · refine ⟨hs, by simp, ?_⟩
          by_cases h0 : a0.data = []
          · exact ⟨a0, by simp, h0⟩
          by_cases h1 : a1.data = []
          · exact ⟨a1, by simp, h1⟩
          exfalso
          obtain ⟨w, hw⟩ := size_argument_nonempty a0 h0
          obtain ⟨x, hx⟩ := size_argument_nonempty a1 h1
          have hl2 : ¬ (rest.length + 1 + 1 < 2) := by omega
          simp [hs, hl2, hw, hx] at h
      by_cases ho : predicate = "opacity"
      · rcases args with _ | ⟨a0, _ | ⟨a1, rest⟩⟩
        · simp [ho] at h
        · simp [ho] at h
        · simp [ho] at h
      simp [hf, hs, ho] at h

theorem parse_color_defined (args : List String) (hne : args ≠ []) :
    parse_color_rgba_or_hex args ≠ none := by
  by_cases h : color_invalid args
  · rw [parse_color_invalid args h]
    exact fun h0 => Option.noConfusion h0
  · obtain ⟨v0, v1, v2, v3, hp⟩ := parse_color_valid args hne h
    rw [hp]
    exact fun h0 => Option.noConfusion h0

theorem config_handle_value_undefined_cases (E : Ext) (c : mwc_config) (g : process_state)
    (keyword : String) (args : List String) (hne : args ≠ [])
    (h : config_handle_value E c g keyword args = none) :
    (keyword = "keybind"
        ∧ ∃ m ∈ args.head?, parse_modifiers m.data.length m.data 0 = none)
      ∨ (keyword = "window_rule" ∧ args[2]? = some "size"
          ∧ ∃ a ∈ (args.drop 3).take 2, a.data = []) := by
  by_cases hin : keyword ∈ directive_names
  swap
  · rw [config_handle_value_unknown E c g keyword args hin] at h
    exact Option.noConfusion h
  by_cases hfew : args.length < required_args keyword
  · rw [config_handle_value_few_args_defined E c g keyword args hin hfew hne] at h
    exact Option.noConfusion h
  by_cases hkb : keyword = "keybind"
  · subst hkb
    left
    rcases args with _ | ⟨a0, _ | ⟨a1, _ | ⟨a2, rest⟩⟩⟩
    any_goals (simp [required_args] at hfew)
    have hlt : ¬ (rest.length + 1 + 1 + 1 < 3) := by omega
    cases hr : config_add_keybind E c a0 a1 a2 rest with
    | none => exact ⟨rfl, a0, by simp, config_add_keybind_defined E c a0 a1 a2 rest hr⟩
    | some r => simp [config_handle_value, hlt, hr] at h
  by_cases hwr : keyword = "window_rule"
  · subst hwr
    right
    rcases args with _ | ⟨a0, _ | ⟨a1, _ | ⟨a2, rest⟩⟩⟩
    any_goals (simp [required_args] at hfew)
    have hlt : ¬ (rest.length + 1 + 1 + 1 < 3) := by omega
    cases hr : config_add_window_rule E c a0 a1 a2 rest with
    | none =>
      obtain ⟨hp, -, a, ha, hd⟩ := config_add_window_rule_defined E c a0 a1 a2 rest hr
      exact ⟨rfl, by simp [hp], a, by simpa using ha, hd⟩
    | some r => simp [config_handle_value, hlt, hr] at h
  exfalso
  by_cases hlist : keyword ∈ list_directives
  · have hsome : (config_handle_value E c g keyword args).isSome = true := by
      by_cases hinv : directive_invalid E keyword args
      · obtain ⟨ok, hok⟩ := config_handle_value_invalid_defined E c g keyword args hinv hne
          (fun e => absurd e hkb)
        rw [hok]
        rfl
      · exact list_directive_defined E c g keyword args hlist hinv (fun e => absurd e hkb)
          (fun e => absurd e hwr)
    rw [h] at hsome
    exact Bool.noConfusion hsome
  by_cases hcol : keyword ∈ color_directives
  · have hp := parse_color_defined args hne
    cases hpc : parse_color_rgba_or_hex args with
    | none => exact hp hpc
    | some r =>
      simp only [color_directives, List.mem_cons, List.mem_singleton, List.not_mem_nil,
        or_false] at hcol
      rcases hcol with rfl | rfl | rfl <;> cases r <;> simp [config_handle_value, hpc] at h
  by_cases hac : keyword = "animation_curve"
  · subst hac
    rcases args with _ | ⟨a0, _ | ⟨a1, _ | ⟨a2, _ | ⟨a3, rest⟩⟩⟩⟩
    any_goals (simp [required_args] at hfew)
    have hlt : ¬ (rest.length + 1 + 1 + 1 + 1 < 4) := by omega
    simp [config_handle_value, hlt] at h
  simp only [list_directives, List.mem_cons, List.mem_singleton, List.not_mem_nil, or_false,
    not_or] at hlist
  simp only [color_directives, List.mem_cons, List.mem_singleton, List.not_mem_nil, or_false,
    not_or] at hcol
  simp only [directive_names, List.mem_cons, List.mem_singleton, List.not_mem_nil,
    or_false] at hin
  rcases hin with rfl | rfl | rfl | rfl | rfl | rfl | rfl | rfl | rfl | rfl | rfl | rfl | rfl
    | rfl | rfl | rfl | rfl | rfl | rfl | rfl | rfl | rfl | rfl | rfl | rfl | rfl | rfl | rfl
    | rfl | rfl | rfl | rfl | rfl | rfl | rfl | rfl | rfl | rfl | rfl | rfl | rfl | rfl | rfl
    | rfl | rfl | rfl | rfl | rfl | rfl | rfl | rfl | rfl
  all_goals first
    | (revert hlist; decide)
    | (revert hcol; decide)
    | exact hkb rfl
    | exact hwr rfl
    | exact hac rfl
    | (rcases args with _ | ⟨a0, _ | ⟨a1, rest⟩⟩
       all_goals first
         | exact hne rfl
         | (revert hfew; simp [required_args]; done)
         | (simp [config_handle_value] at h; done)
         | (simp [config_handle_value] at h
            split_ifs at h))

/-- C29: with at least one argument no argument is read at an index greater
than or equal to the argument count.  In the embedding every read of the
argument array is a lookup `args[i]?` whose failure makes the result `none`,
and `none` stands for every execution that leaves defined behaviour.  For
every directive name and every non-empty argument list, either
`config_handle_value` returns, or the execution leaves defined behaviour
inside an argument that is in range: in the modifier loop of a `keybind`
(the first argument overruns the 64-byte token buffer) or in the `%` test of
a `window_rule` with predicate `size` on an empty fourth or fifth argument.
The handlers that take the argument array behave the same way:
`parse_color_rgba_or_hex` on a non-empty array always returns,
`config_add_keybind` fails to return only in the modifier loop, and
`config_add_window_rule` only for predicate `size` with at least two
arguments of which one is empty, whatever the number of remaining
arguments; `config_add_layer_rule` and `config_add_keymap` read no element
of the array. -/
theorem argument_reads_in_range (E : Ext) (c : mwc_config) (g : process_state)
    (keyword : String) (args : List String) (hne : args ≠ []) :
    ((config_handle_value E c g keyword args).isSome = true
        ∨ (keyword = "keybind"
            ∧ ∃ m ∈ args.head?, parse_modifiers m.data.length m.data 0 = none)
        ∨ (keyword = "window_rule" ∧ args[2]? = some "size"
            ∧ ∃ a ∈ (args.drop 3).take 2, a.data = []))
      ∧ parse_color_rgba_or_hex args ≠ none
      ∧ (∀ modifiers key action : String, ∀ rest : List String,
          config_add_keybind E c modifiers key action rest = none →
            parse_modifiers modifiers.data.length modifiers.data 0 = none)
      ∧ (∀ app_id_regex title_regex predicate : String, ∀ rest : List String,
          config_add_window_rule E c app_id_regex title_regex predicate rest = none →
            predicate = "size" ∧ 2 ≤ rest.length ∧ ∃ a ∈ rest.take 2, a.data = []) := by
  refine ⟨?_, parse_color_defined args hne, ?_, ?_⟩
  · cases hr : config_handle_value E c g keyword args with
    | some r => exact Or.inl rfl
    | none => exact Or.inr (config_handle_value_undefined_cases E c g keyword args hne hr)
  · exact fun modifiers key action rest =>
      config_add_keybind_defined E c modifiers key action rest
  · exact fun app_id_regex title_regex predicate rest =>
      config_add_window_rule_defined E c app_id_regex title_regex predicate rest

theorem argument_reads_in_range_witness :
    ["1"] ≠ ([] : List String)
      ∧ ((config_handle_value sample_ext config_calloc sample_server.proc "pointer"
              ["1"]).isSome = true
        ∨ (("pointer" : String) = "keybind"
            ∧ ∃ m ∈ (["1"] : List String).head?,
                parse_modifiers m.data.length m.data 0 = none)
        ∨ (("pointer" : String) = "window_rule" ∧ (["1"] : List String)[2]? = some "size"
            ∧ ∃ a ∈ ((["1"] : List String).drop 3).take 2, a.data = []))
      ∧ parse_color_rgba_or_hex ["1"] ≠ none
      ∧ (∀ modifiers key action : String, ∀ rest : List String,
          config_add_keybind sample_ext config_calloc modifiers key action rest = none →
            parse_modifiers modifiers.data.length modifiers.data 0 = none)
      ∧ (∀ app_id_regex title_regex predicate : String, ∀ rest : List String,
          config_add_window_rule sample_ext config_calloc app_id_regex title_regex predicate
              rest = none →
            predicate = "size" ∧ 2 ≤ rest.length ∧ ∃ a ∈ rest.take 2, a.data = []) :=
  ⟨by decide,
    argument_reads_in_range sample_ext config_calloc sample_server.proc "pointer" ["1"]
      (by decide)⟩

/-! ## Corner locations: accumulation -/

/-- C32: a `border_radius_location` directive whose first token is not `all`
never clears a bit.  The stored bitset afterwards is the previous bitset
united with the bits of the recognised tokens, so every bit set before is
set afterwards; two such directives one after the other leave the previous
bitset united with the bits of both, the second adding to the first; and a
directive whose first token is `all` assigns `CORNER_LOCATION_ALL`, whatever
was stored before. -/
theorem border_radius_location_accumulates (E : Ext) (c : mwc_config) (g : process_state)
    (a0 : String) (rest : List String) (h : a0 ≠ "all") :
    (∃ r, config_handle_value E c g "border_radius_location" (a0 :: rest) = some r
        ∧ r.ok = true
        ∧ r.c.border_radius_location = c.border_radius_location ||| corner_union (a0 :: rest)
        ∧ (∀ i, c.border_radius_location.testBit i = true →
            r.c.border_radius_location.testBit i = true)
        ∧ (∀ (b0 : String) (rest2 : List String), b0 ≠ "all" →
            ∃ r2, config_handle_value E r.c r.g "border_radius_location" (b0 :: rest2) = some r2
              ∧ r2.c.border_radius_location
                = c.border_radius_location ||| corner_union (a0 :: rest)
                    ||| corner_union (b0 :: rest2))
        ∧ (∀ rest2 : List String,
            ∃ r2, config_handle_value E r.c r.g "border_radius_location" ("all" :: rest2)
                = some r2
              ∧ r2.c.border_radius_location = CORNER_LOCATION_ALL))
    ∧ (∀ (c2 : mwc_config) (rest2 : List String),
        ∃ r2, config_handle_value E c2 g "border_radius_location" ("all" :: rest2) = some r2
          ∧ r2.c.border_radius_location = CORNER_LOCATION_ALL) := by
  have hv : ∀ (c1 : mwc_config) (g1 : process_state) (b0 : String) (l : List String),
      b0 ≠ "all" →
      config_handle_value E c1 g1 "border_radius_location" (b0 :: l)
        = some ⟨true, { c1 with border_radius_location :=
            c1.border_radius_location ||| corner_union (b0 :: l) }, g1⟩ := by
    intro c1 g1 b0 l hb
    simp [config_handle_value, hb, ← corner_fold]
  have hall : ∀ (c1 : mwc_config) (g1 : process_state) (l : List String),
      config_handle_value E c1 g1 "border_radius_location" ("all" :: l)
        = some ⟨true, { c1 with border_radius_location := CORNER_LOCATION_ALL }, g1⟩ := by
    intro c1 g1 l
    simp [config_handle_value]
  refine ⟨⟨_, hv c g a0 rest h, rfl, rfl, ?_, ?_, ?_⟩, ?_⟩
  · intro i hi
    show (c.border_radius_location ||| corner_union (a0 :: rest)).testBit i = true
    rw [Nat.testBit_or, hi]
    rfl
  · intro b0 rest2 hb
    exact ⟨_, hv _ _ b0 rest2 hb, rfl⟩
  · intro rest2
    exact ⟨_, hall _ _ rest2, rfl⟩
  · intro c2 rest2
    exact ⟨_, hall c2 g rest2, rfl⟩

/-- Witness for C32: a file with the lines `border_radius_location top` and
`border_radius_location left` leaves `TOP | LEFT`, and the second directive
keeps the bits of the first. -/
theorem border_radius_location_accumulates_witness :
    config_load_lines sample_ext config_calloc ⟨[], 0⟩
        ["border_radius_location top\n".data, "border_radius_location left\n".data]
      = some ({ config_calloc with border_radius_location :=
          CORNER_LOCATION_TOP ||| CORNER_LOCATION_LEFT }, ⟨[], 0⟩)
    ∧ ∃ r, config_handle_value sample_ext
          { config_calloc with border_radius_location := CORNER_LOCATION_TOP } ⟨[], 0⟩
          "border_radius_location" ["left"] = some r
        ∧ ∀ i, CORNER_LOCATION_TOP.testBit i = true →
            r.c.border_radius_location.testBit i = true :=
  ⟨by decide,
    (border_radius_location_accumulates sample_ext
      { config_calloc with border_radius_location := CORNER_LOCATION_TOP } ⟨[], 0⟩ "left" []
      (by decide)).1.imp (fun _ hr => ⟨hr.1, hr.2.2.2.1⟩)⟩

/-! ## The directory of the configuration file -/

theorem path_dir_split (l : List Char) (h : '/' ∈ l) :
    ∃ last, l = ((l.reverse.dropWhile (fun ch => ch ≠ '/')).drop 1).reverse ++ '/' :: last
      ∧ '/' ∉ last := by
  have hsplit := List.takeWhile_append_dropWhile (fun ch => decide (ch ≠ '/')) l.reverse
  have hno : '/' ∉ l.reverse.takeWhile (fun ch => decide (ch ≠ '/')) := by
    intro hm
    have := List.mem_takeWhile_imp hm
    simp at this
  cases hd : l.reverse.dropWhile (fun ch => decide (ch ≠ '/')) with
  | nil =>
    exfalso
    rw [hd, List.append_nil] at hsplit
    rw [hsplit] at hno
    exact hno (List.mem_reverse.mpr h)
  | cons x rest =>
    have hx : x = '/' := by
      have := List.head_dropWhile_not (fun ch => decide (ch ≠ '/')) l.reverse
        (by rw [hd]; exact List.cons_ne_nil _ _)
      simp only [hd, List.head_cons] at this
      simpa using this
    subst hx
    refine ⟨(l.reverse.takeWhile (fun ch => decide (ch ≠ '/'))).reverse, ?_, ?_⟩
    · rw [hd] at hsplit
      have hl : l = (l.reverse.takeWhile (fun ch => decide (ch ≠ '/')) ++ '/' :: rest).reverse := by
        rw [hsplit, List.reverse_reverse]
      simp only [List.drop_succ_cons, List.drop_zero]
      rw [List.reverse_append, List.reverse_cons, List.append_assoc] at hl
      exact hl
    · intro hm
      exact hno (List.mem_reverse.mp hm)

theorem get_config_path_full (g : process_state)
    (hfit : ∀ p, full_config_path g = some p → p.data.length < 1024) :
    get_config_path g 1024 = full_config_path g := by
  unfold get_config_path
  unfold full_config_path at hfit ⊢
  cases h0 : getenv g "MWC_CONFIG_PATH" with
  | some p =>
    simp only [h0] at hfit ⊢
    rw [take_fits _ (hfit p rfl)]
  | none =>
    cases h1 : getenv g "XDG_CONFIG_HOME" with
    | some h =>
      simp only [h0, h1] at hfit ⊢
      rw [take_fits _ (hfit _ rfl)]
    | none =>
      cases h2 : getenv g "HOME" with
      | some h =>
        simp only [h0, h1, h2] at hfit ⊢
        rw [take_fits _ (hfit _ rfl)]
      | none => rfl

/-- A path that does not fit the buffer is cut, and the cut may remove every
`/`: with `XDG_CONFIG_HOME` set to 1023 characters without a `/` the path
`get_config_path` leaves in the buffer is that value alone. -/
theorem get_config_path_cut (home : List Char) (hlen : home.length = 1023)
    (hno : '/' ∉ home) :
    get_config_path ⟨[("XDG_CONFIG_HOME", String.mk home)], 0⟩ 1024 = some (String.mk home)
      ∧ path_dir (String.mk home) = none := by
  have h0 : getenv ⟨[("XDG_CONFIG_HOME", String.mk home)], 0⟩ "MWC_CONFIG_PATH" = none := by
    simp [getenv]
  have h1 : getenv ⟨[("XDG_CONFIG_HOME", String.mk home)], 0⟩ "XDG_CONFIG_HOME"
      = some (String.mk home) := by
    simp [getenv]
  have hcut : (home ++ "/mwc/mwc.conf".data).take (1024 - 1) = home :=
    List.take_left' hlen
  constructor
  · simp only [get_config_path, h0, h1, hcut]
  · simp only [path_dir]
    rw [if_neg hno]

/-- C33, the failing input: with `MWC_CONFIG_PATH=mwc.conf`, which takes
precedence over `HOME`, the primary path is `mwc.conf`, the file can be
opened, the path has no `/`, and the assertion `last_slash != NULL` of
`config_load` does not hold: no directory is recorded. -/
theorem config_load_last_slash_refuted :
    get_config_path ⟨[("HOME", "/home/u"), ("MWC_CONFIG_PATH", "mwc.conf")], 0⟩ 1024
        = some "mwc.conf"
      ∧ (sample_relative_fs "mwc.conf").isSome = true
      ∧ '/' ∉ "mwc.conf".data
      ∧ path_dir "mwc.conf" = none
      ∧ config_open sample_relative_fs
          ⟨[("HOME", "/home/u"), ("MWC_CONFIG_PATH", "mwc.conf")], 0⟩ = none := by
  decide

/-! ## Finalization -/

theorem CDouble.clamp_unit (v : CDouble) :
    CDouble.within 0 1 (CDouble.clamp v (CDouble.fin 0) (CDouble.fin 1))
    ∧ CDouble.within 0 1 (CDouble.clamp v (CDouble.ofInt 0) (CDouble.ofInt 1)) := by
  have h := CDouble.clamp_within v 0 1 (by norm_num)
  refine ⟨h, ?_⟩
  simpa [CDouble.ofInt] using h

/-- One call of the dispatcher keeps what it guarantees for the fields that
finalization completes, and it leaves the recorded directory alone. -/
theorem config_handle_value_bounds (E : Ext) (c : mwc_config) (g : process_state)
    (keyword : String) (args : List String) (r : handled)
    (hr : config_handle_value E c g keyword args = some r) (hb : dispatcher_bounds c) :
    dispatcher_bounds r.c ∧ r.c.dir = c.dir := by
  by_cases hin : keyword ∈ directive_names
  swap
  · rw [config_handle_value_unknown E c g keyword args hin] at hr
    cases hr
    exact ⟨hb, rfl⟩
  by_cases hinv : directive_invalid E keyword args
  · rw [(config_handle_value_invalid_frame E c g keyword args hinv r hr).1]
    exact ⟨hb, rfl⟩
  by_cases hlist : keyword ∈ list_directives
  · obtain ⟨h1, h2, h3, h4, h5, h6⟩ := list_directive_shape E c g keyword args r hinv hr
    simp only [list_directives, List.mem_cons, List.mem_singleton, List.not_mem_nil,
      or_false] at hlist
    rcases hlist with rfl | rfl | rfl | rfl | rfl | rfl
    · obtain ⟨m, rfl⟩ := h1 rfl; exact ⟨hb, rfl⟩
    · obtain ⟨m, rfl⟩ := h2 rfl; exact ⟨hb, rfl⟩
    · obtain ⟨m, rfl⟩ := h3 rfl; exact ⟨hb, rfl⟩
    · obtain ⟨a, t, p, rest, -, hp, hf, hs, ho⟩ := h5 rfl
      simp only [List.mem_cons, List.mem_singleton, List.not_mem_nil, or_false] at hp
      rcases hp with hp | hp | hp
      · obtain ⟨n, rfl⟩ := hf hp; exact ⟨hb, rfl⟩
      · obtain ⟨n, rfl⟩ := hs hp; exact ⟨hb, rfl⟩
      · obtain ⟨n, rfl⟩ := ho hp; exact ⟨hb, rfl⟩
    · obtain ⟨m, rfl⟩ := h4 rfl; exact ⟨hb, rfl⟩
    · obtain ⟨m, key, rest, k, -, rfl⟩ := h6 rfl
      cases pointer_class key <;> exact ⟨hb, rfl⟩
  by_cases hcol : keyword ∈ color_directives
  · have hne : args ≠ [] := by
      intro h0
      apply hinv
      right; left
      subst h0
      simp only [color_directives, List.mem_cons, List.mem_singleton, List.not_mem_nil,
        or_false] at hcol
      rcases hcol with rfl | rfl | rfl <;> simp [required_args]
    have hci : ¬ color_invalid args := by
      intro h0
      apply hinv
      simp only [directive_invalid]
      right; right; right; right; right; left
      exact ⟨hcol, h0⟩
    obtain ⟨v0, v1, v2, v3, hp⟩ := parse_color_valid args hne hci
    simp only [color_directives, List.mem_cons, List.mem_singleton, List.not_mem_nil,
      or_false] at hcol
    rcases hcol with rfl | rfl | rfl <;>
      (simp [config_handle_value, hp] at hr; subst hr; exact ⟨hb, rfl⟩)
  have hfew : ¬ args.length < required_args keyword := by
    intro h0
    exact hinv (Or.inr (Or.inl h0))
  obtain ⟨b1, b2, b3, b4, b5, b6, b7, b8⟩ := hb
  by_cases hs1 : keyword = "keyboard_rate"
  · subst hs1
    rcases args with _ | ⟨a0, rest⟩
    · exact absurd (by simp [required_args]) hfew
    · have e : config_handle_value E c g "keyboard_rate" (a0 :: rest)
          = some ⟨true, { c with keyboard_rate := clamp (atoi a0) 0 INT_MAX }, g⟩ := by
        simp [config_handle_value]
      rw [e] at hr
      cases hr
      exact ⟨⟨(clamp_bounds _ 0 INT_MAX (by decide)).1, b2, b3, b4, b5, b6, b7, b8⟩, rfl⟩
  by_cases hs2 : keyword = "keyboard_delay"
  · subst hs2
    rcases args with _ | ⟨a0, rest⟩
    · exact absurd (by simp [required_args]) hfew
    · have e : config_handle_value E c g "keyboard_delay" (a0 :: rest)
          = some ⟨true, { c with keyboard_delay := clamp (atoi a0) 0 INT_MAX }, g⟩ := by
        simp [config_handle_value]
      rw [e] at hr
      cases hr
      exact ⟨⟨b1, (clamp_bounds _ 0 INT_MAX (by decide)).1, b3, b4, b5, b6, b7, b8⟩, rfl⟩
  by_cases hs3 : keyword = "cursor_size"
  · subst hs3
    rcases args with _ | ⟨a0, rest⟩
    · exact absurd (by simp [required_args]) hfew
    · have e : config_handle_value E c g "cursor_size" (a0 :: rest)
          = some ⟨true, { c with cursor_size := clamp (atoi a0) 0 INT_MAX }, g⟩ := by
        simp [config_handle_value]
      rw [e] at hr
      cases hr
      exact ⟨⟨b1, b2, (clamp_bounds _ 0 INT_MAX (by decide)).1, b4, b5, b6, b7, b8⟩, rfl⟩
  by_cases hs4 : keyword = "min_toplevel_size"
  · subst hs4
    rcases args with _ | ⟨a0, rest⟩
    · exact absurd (by simp [required_args]) hfew
    · have e : config_handle_value E c g "min_toplevel_size" (a0 :: rest)
          = some ⟨true, { c with min_toplevel_size := clamp (atoi a0) 0 INT_MAX }, g⟩ := by
        simp [config_handle_value]
      rw [e] at hr
      cases hr
      exact ⟨⟨b1, b2, b3, (clamp_bounds _ 0 INT_MAX (by decide)).1, b5, b6, b7, b8⟩, rfl⟩
  by_cases hs5 : keyword = "master_count"
  · subst hs5
    rcases args with _ | ⟨a0, rest⟩
    · exact absurd (by simp [required_args]) hfew
    · have e : config_handle_value E c g "master_count" (a0 :: rest)
          = some ⟨true, { c with master_count := clamp (atoi a0) 1 INT_MAX }, g⟩ := by
        simp [config_handle_value]
      rw [e] at hr
      cases hr
      exact ⟨⟨b1, b2, b3, b4, le_trans (by decide) (clamp_bounds _ 1 INT_MAX (by decide)).1, b6, b7, b8⟩, rfl⟩
  by_cases hs6 : keyword = "master_ratio"
  · subst hs6
    rcases args with _ | ⟨a0, rest⟩
    · exact absurd (by simp [required_args]) hfew
    · have e : config_handle_value E c g "master_ratio" (a0 :: rest)
          = some ⟨true, { c with master_ratio := CDouble.clamp (E.atof a0) (CDouble.ofInt 0) (CDouble.ofInt 1) }, g⟩ := by
        simp [config_handle_value]
      rw [e] at hr
      cases hr
      exact ⟨⟨b1, b2, b3, b4, b5, (CDouble.clamp_unit _).2, b7, b8⟩, rfl⟩
  by_cases hs7 : keyword = "inactive_opacity"
  · subst hs7
    rcases args with _ | ⟨a0, rest⟩
    · exact absurd (by simp [required_args]) hfew
    · have e : config_handle_value E c g "inactive_opacity" (a0 :: rest)
          = some ⟨true, { c with inactive_opacity := CDouble.clamp (E.atof a0) (CDouble.fin 0) (CDouble.fin 1) }, g⟩ := by
        simp [config_handle_value]
      rw [e] at hr
      cases hr
      exact ⟨⟨b1, b2, b3, b4, b5, b6, (CDouble.clamp_unit _).1, b8⟩, rfl⟩
  by_cases hs8 : keyword = "active_opacity"
  · subst hs8
    rcases args with _ | ⟨a0, rest⟩
    · exact absurd (by simp [required_args]) hfew
    · have e : config_handle_value E c g "active_opacity" (a0 :: rest)
          = some ⟨true, { c with active_opacity := CDouble.clamp (E.atof a0) (CDouble.fin 0) (CDouble.fin 1) }, g⟩ := by
        simp [config_handle_value]
      rw [e] at hr
      cases hr
      exact ⟨⟨b1, b2, b3, b4, b5, b6, b7, (CDouble.clamp_unit _).1⟩, rfl⟩
  have hb : dispatcher_bounds c := ⟨b1, b2, b3, b4, b5, b6, b7, b8⟩
  by_cases hac : keyword = "animation_curve"
  · subst hac
    rcases args with _ | ⟨a0, _ | ⟨a1, _ | ⟨a2, _ | ⟨a3, rest⟩⟩⟩⟩
    any_goals (simp [required_args] at hfew)
    have hlt : ¬ (rest.length + 1 + 1 + 1 + 1 < 4) := by omega
    simp [config_handle_value, hlt] at hr
    subst hr
    exact ⟨hb, rfl⟩
  simp only [list_directives, List.mem_cons, List.mem_singleton, List.not_mem_nil, or_false,
    not_or] at hlist
  simp only [color_directives, List.mem_cons, List.mem_singleton, List.not_mem_nil, or_false,
    not_or] at hcol
  simp only [directive_names, List.mem_cons, List.mem_singleton, List.not_mem_nil,
    or_false] at hin
  rcases hin with rfl | rfl | rfl | rfl | rfl | rfl | rfl | rfl | rfl | rfl | rfl | rfl | rfl
    | rfl | rfl | rfl | rfl | rfl | rfl | rfl | rfl | rfl | rfl | rfl | rfl | rfl | rfl | rfl
    | rfl | rfl | rfl | rfl | rfl | rfl | rfl | rfl | rfl | rfl | rfl | rfl | rfl | rfl | rfl
    | rfl | rfl | rfl | rfl | rfl | rfl | rfl | rfl | rfl
  all_goals first
    | (exfalso; revert hlist; decide)
    | (exfalso; revert hcol; decide)
    | (exfalso; exact hs1 rfl)
    | (exfalso; exact hs2 rfl)
    | (exfalso; exact hs3 rfl)
    | (exfalso; exact hs4 rfl)
    | (exfalso; exact hs5 rfl)
    | (exfalso; exact hs6 rfl)
    | (exfalso; exact hs7 rfl)
    | (exfalso; exact hs8 rfl)
    | (exfalso; exact hac rfl)
    | (rcases args with _ | ⟨a0, _ | ⟨a1, rest⟩⟩
       all_goals first
         | (exfalso; revert hfew; simp [required_args]; done)
         | (simp [config_handle_value] at hr
            first
              | (subst hr; exact ⟨hb, rfl⟩)
              | (split_ifs at hr <;> first
                  | (cases hr; exact ⟨hb, rfl⟩)
                  | (cases hr
                     simp only [config_add_keymap]
                     cases c.keymap_layouts <;> exact ⟨hb, rfl⟩))))

/-- The closed form of `config_set_default_needed_params` on the fields it
completes: each is replaced by its default when it compares equal to zero
and kept otherwise, the default of `master_ratio` being computed from the
completed `master_count`; the recorded directory is kept. -/
theorem config_set_default_needed_params_fields (E : Ext) (c f : mwc_config)
    (hf : f = config_set_default_needed_params E c) :
    f.dir = c.dir
    ∧ f.keyboard_rate = (if c.keyboard_rate = 0 then 150 else c.keyboard_rate)
    ∧ f.keyboard_delay = (if c.keyboard_delay = 0 then 50 else c.keyboard_delay)
    ∧ f.cursor_size = (if c.cursor_size = 0 then 24 else c.cursor_size)
    ∧ f.min_toplevel_size = (if c.min_toplevel_size = 0 then 10 else c.min_toplevel_size)
    ∧ f.master_count = (if c.master_count = 0 then 1 else c.master_count)
    ∧ f.master_ratio = (if CDouble.eq c.master_ratio (CDouble.fin 0) = true then
        CDouble.ofInt f.master_count / CDouble.ofInt (f.master_count + 1)
      else c.master_ratio)
    ∧ f.inactive_opacity = (if CDouble.eq c.inactive_opacity (CDouble.fin 0) = true then
        CDouble.fin 1 else c.inactive_opacity)
    ∧ f.active_opacity = (if CDouble.eq c.active_opacity (CDouble.fin 0) = true then
        CDouble.fin 1 else c.active_opacity)
    ∧ f.border_radius_location = (if c.border_radius_location = 0 then CORNER_LOCATION_ALL
      else c.border_radius_location) := by
  unfold config_set_default_needed_params at hf
  lift_lets at hf
  extract_lets c1 c2 c3 c4 c5 c6 c7 c8 c9 c10 c11 at hf
  subst hf
  have p1 : c1.dir = c.dir
      ∧ c1.keyboard_rate = (if c.keyboard_rate = 0 then 150 else c.keyboard_rate)
      ∧ c1.keyboard_delay = c.keyboard_delay
      ∧ c1.cursor_size = c.cursor_size
      ∧ c1.min_toplevel_size = c.min_toplevel_size
      ∧ c1.master_count = c.master_count
      ∧ c1.master_ratio = c.master_ratio
      ∧ c1.inactive_opacity = c.inactive_opacity
      ∧ c1.active_opacity = c.active_opacity
      ∧ c1.border_radius_location = c.border_radius_location := by
    simp only [c1]
    split_ifs <;> exact ⟨rfl, rfl, rfl, rfl, rfl, rfl, rfl, rfl, rfl, rfl⟩
  obtain ⟨p1_0, p1_1, p1_2, p1_3, p1_4, p1_5, p1_6, p1_7, p1_8, p1_9⟩ := p1
  have p2 : c2.dir = c1.dir
      ∧ c2.keyboard_rate = c1.keyboard_rate
      ∧ c2.keyboard_delay = (if c1.keyboard_delay = 0 then 50 else c1.keyboard_delay)
      ∧ c2.cursor_size = c1.cursor_size
      ∧ c2.min_toplevel_size = c1.min_toplevel_size
      ∧ c2.master_count = c1.master_count
      ∧ c2.master_ratio = c1.master_ratio
      ∧ c2.inactive_opacity = c1.inactive_opacity
      ∧ c2.active_opacity = c1.active_opacity
      ∧ c2.border_radius_location = c1.border_radius_location := by
    simp only [c2]
    split_ifs <;> exact ⟨rfl, rfl, rfl, rfl, rfl, rfl, rfl, rfl, rfl, rfl⟩
  obtain ⟨p2_0, p2_1, p2_2, p2_3, p2_4, p2_5, p2_6, p2_7, p2_8, p2_9⟩ := p2
  have p3 : c3.dir = c2.dir
      ∧ c3.keyboard_rate = c2.keyboard_rate
      ∧ c3.keyboard_delay = c2.keyboard_delay
      ∧ c3.cursor_size = (if c2.cursor_size = 0 then 24 else c2.cursor_size)
      ∧ c3.min_toplevel_size = c2.min_toplevel_size
      ∧ c3.master_count = c2.master_count
      ∧ c3.master_ratio = c2.master_ratio
      ∧ c3.inactive_opacity = c2.inactive_opacity
      ∧ c3.active_opacity = c2.active_opacity
      ∧ c3.border_radius_location = c2.border_radius_location := by
    simp only [c3]
    split_ifs <;> exact ⟨rfl, rfl, rfl, rfl, rfl, rfl, rfl, rfl, rfl, rfl⟩
  obtain ⟨p3_0, p3_1, p3_2, p3_3, p3_4, p3_5, p3_6, p3_7, p3_8, p3_9⟩ := p3
  have p4 : c4.dir = c3.dir
      ∧ c4.keyboard_rate = c3.keyboard_rate
      ∧ c4.keyboard_delay = c3.keyboard_delay
      ∧ c4.cursor_size = c3.cursor_size
      ∧ c4.min_toplevel_size = (if c3.min_toplevel_size = 0 then 10 else c3.min_toplevel_size)
      ∧ c4.master_count = c3.master_count
      ∧ c4.master_ratio = c3.master_ratio
      ∧ c4.inactive_opacity = c3.inactive_opacity
      ∧ c4.active_opacity = c3.active_opacity
      ∧ c4.border_radius_location = c3.border_radius_location := by
    simp only [c4]
    split_ifs <;> exact ⟨rfl, rfl, rfl, rfl, rfl, rfl, rfl, rfl, rfl, rfl⟩
  obtain ⟨p4_0, p4_1, p4_2, p4_3, p4_4, p4_5, p4_6, p4_7, p4_8, p4_9⟩ := p4
  have p5 : c5.dir = c4.dir
      ∧ c5.keyboard_rate = c4.keyboard_rate
      ∧ c5.keyboard_delay = c4.keyboard_delay
      ∧ c5.cursor_size = c4.cursor_size
      ∧ c5.min_toplevel_size = c4.min_toplevel_size
      ∧ c5.master_count = (if c4.master_count = 0 then 1 else c4.master_count)
      ∧ c5.master_ratio = c4.master_ratio
      ∧ c5.inactive_opacity = c4.inactive_opacity
      ∧ c5.active_opacity = c4.active_opacity
      ∧ c5.border_radius_location = c4.border_radius_location := by
    simp only [c5]
    split_ifs <;> exact ⟨rfl, rfl, rfl, rfl, rfl, rfl, rfl, rfl, rfl, rfl⟩
  obtain ⟨p5_0, p5_1, p5_2, p5_3, p5_4, p5_5, p5_6, p5_7, p5_8, p5_9⟩ := p5
  have p6 : c6.dir = c5.dir
      ∧ c6.keyboard_rate = c5.keyboard_rate
      ∧ c6.keyboard_delay = c5.keyboard_delay
      ∧ c6.cursor_size = c5.cursor_size
      ∧ c6.min_toplevel_size = c5.min_toplevel_size
      ∧ c6.master_count = c5.master_count
      ∧ c6.master_ratio = (if CDouble.eq c5.master_ratio (CDouble.fin 0) = true then CDouble.ofInt c5.master_count / CDouble.ofInt (c5.master_count + 1) else c5.master_ratio)
      ∧ c6.inactive_opacity = c5.inactive_opacity
      ∧ c6.active_opacity = c5.active_opacity
      ∧ c6.border_radius_location = c5.border_radius_location := by
    simp only [c6]
    split_ifs <;> exact ⟨rfl, rfl, rfl, rfl, rfl, rfl, rfl, rfl, rfl, rfl⟩
  obtain ⟨p6_0, p6_1, p6_2, p6_3, p6_4, p6_5, p6_6, p6_7, p6_8, p6_9⟩ := p6
  have p7 : c7.dir = c6.dir
      ∧ c7.keyboard_rate = c6.keyboard_rate
      ∧ c7.keyboard_delay = c6.keyboard_delay
      ∧ c7.cursor_size = c6.cursor_size
      ∧ c7.min_toplevel_size = c6.min_toplevel_size
      ∧ c7.master_count = c6.master_count
      ∧ c7.master_ratio = c6.master_ratio
      ∧ c7.inactive_opacity = c6.inactive_opacity
      ∧ c7.active_opacity = c6.active_opacity
      ∧ c7.border_radius_location = c6.border_radius_location := by
    simp only [c7]
    split_ifs <;> exact ⟨rfl, rfl, rfl, rfl, rfl, rfl, rfl, rfl, rfl, rfl⟩
  obtain ⟨p7_0, p7_1, p7_2, p7_3, p7_4, p7_5, p7_6, p7_7, p7_8, p7_9⟩ := p7
  have p8 : c8.dir = c7.dir
      ∧ c8.keyboard_rate = c7.keyboard_rate
      ∧ c8.keyboard_delay = c7.keyboard_delay
      ∧ c8.cursor_size = c7.cursor_size
      ∧ c8.min_toplevel_size = c7.min_toplevel_size
      ∧ c8.master_count = c7.master_count
      ∧ c8.master_ratio = c7.master_ratio
      ∧ c8.inactive_opacity = c7.inactive_opacity
      ∧ c8.active_opacity = c7.active_opacity
      ∧ c8.border_radius_location = c7.border_radius_location := by
    simp only [c8]
    split_ifs <;> exact ⟨rfl, rfl, rfl, rfl, rfl, rfl, rfl, rfl, rfl, rfl⟩
  obtain ⟨p8_0, p8_1, p8_2, p8_3, p8_4, p8_5, p8_6, p8_7, p8_8, p8_9⟩ := p8
  have p9 : c9.dir = c8.dir
      ∧ c9.keyboard_rate = c8.keyboard_rate
      ∧ c9.keyboard_delay = c8.keyboard_delay
      ∧ c9.cursor_size = c8.cursor_size
      ∧ c9.min_toplevel_size = c8.min_toplevel_size
      ∧ c9.master_count = c8.master_count
      ∧ c9.master_ratio = c8.master_ratio
      ∧ c9.inactive_opacity = (if CDouble.eq c8.inactive_opacity (CDouble.fin 0) = true then CDouble.fin 1 else c8.inactive_opacity)
      ∧ c9.active_opacity = c8.active_opacity
      ∧ c9.border_radius_location = c8.border_radius_location := by
    simp only [c9]
    split_ifs <;> exact ⟨rfl, rfl, rfl, rfl, rfl, rfl, rfl, rfl, rfl, rfl⟩
  obtain ⟨p9_0, p9_1, p9_2, p9_3, p9_4, p9_5, p9_6, p9_7, p9_8, p9_9⟩ := p9
  have p10 : c10.dir = c9.dir
      ∧ c10.keyboard_rate = c9.keyboard_rate
      ∧ c10.keyboard_delay = c9.keyboard_delay
      ∧ c10.cursor_size = c9.cursor_size
      ∧ c10.min_toplevel_size = c9.min_toplevel_size
      ∧ c10.master_count = c9.master_count
      ∧ c10.master_ratio = c9.master_ratio
      ∧ c10.inactive_opacity = c9.inactive_opacity
      ∧ c10.active_opacity = (if CDouble.eq c9.active_opacity (CDouble.fin 0) = true then CDouble.fin 1 else c9.active_opacity)
      ∧ c10.border_radius_location = c9.border_radius_location := by
    simp only [c10]
    split_ifs <;> exact ⟨rfl, rfl, rfl, rfl, rfl, rfl, rfl, rfl, rfl, rfl⟩
  obtain ⟨p10_0, p10_1, p10_2, p10_3, p10_4, p10_5, p10_6, p10_7, p10_8, p10_9⟩ := p10
  have p11 : c11.dir = c10.dir
      ∧ c11.keyboard_rate = c10.keyboard_rate
      ∧ c11.keyboard_delay = c10.keyboard_delay
      ∧ c11.cursor_size = c10.cursor_size
      ∧ c11.min_toplevel_size = c10.min_toplevel_size
      ∧ c11.master_count = c10.master_count
      ∧ c11.master_ratio = c10.master_ratio
      ∧ c11.inactive_opacity = c10.inactive_opacity
      ∧ c11.active_opacity = c10.active_opacity
      ∧ c11.border_radius_location = (if c10.border_radius_location = 0 then CORNER_LOCATION_ALL else c10.border_radius_location) := by
    simp only [c11]
    split_ifs <;> exact ⟨rfl, rfl, rfl, rfl, rfl, rfl, rfl, rfl, rfl, rfl⟩
  obtain ⟨p11_0, p11_1, p11_2, p11_3, p11_4, p11_5, p11_6, p11_7, p11_8, p11_9⟩ := p11
  refine ⟨?_, ?_, ?_, ?_, ?_, ?_, ?_, ?_, ?_, ?_⟩
  · rw [p11_0, p10_0, p9_0, p8_0, p7_0, p6_0, p5_0, p4_0, p3_0, p2_0, p1_0]
  · rw [p11_1, p10_1, p9_1, p8_1, p7_1, p6_1, p5_1, p4_1, p3_1, p2_1, p1_1]
  · rw [p11_2, p10_2, p9_2, p8_2, p7_2, p6_2, p5_2, p4_2, p3_2, p2_2, p1_2]
  · rw [p11_3, p10_3, p9_3, p8_3, p7_3, p6_3, p5_3, p4_3, p3_3, p2_3, p1_3]
  · rw [p11_4, p10_4, p9_4, p8_4, p7_4, p6_4, p5_4, p4_4, p3_4, p2_4, p1_4]
  · rw [p11_5, p10_5, p9_5, p8_5, p7_5, p6_5, p5_5, p4_5, p3_5, p2_5, p1_5]
  · rw [p11_5, p10_5, p9_5, p8_5, p7_5, p6_5]
    rw [p11_6, p10_6, p9_6, p8_6, p7_6, p6_6, p5_6, p4_6, p3_6, p2_6, p1_6]
  · rw [p11_7, p10_7, p9_7, p8_7, p7_7, p6_7, p5_7, p4_7, p3_7, p2_7, p1_7]
  · rw [p11_8, p10_8, p9_8, p8_8, p7_8, p6_8, p5_8, p4_8, p3_8, p2_8, p1_8]
  · rw [p11_9, p10_9, p9_9, p8_9, p7_9, p6_9, p5_9, p4_9, p3_9, p2_9, p1_9]

theorem CDouble.eq_zero_iff (x : CDouble) :
    CDouble.eq x (CDouble.fin 0) = true ↔ x = CDouble.fin 0 := by
  cases x <;> simp [CDouble.eq]

theorem CDouble.in_unit_of_within (x : CDouble) (h : CDouble.within 0 1 x)
    (h0 : x ≠ CDouble.fin 0) : CDouble.in_unit x := by
  cases x with
  | fin q =>
    simp only [CDouble.within] at h
    have hq : q ≠ 0 := fun e => h0 (by rw [e])
    exact ⟨lt_of_le_of_ne h.1 (Ne.symm hq), h.2⟩
  | nan => exact h.elim
  | ninf => exact h.elim
  | pinf => exact h.elim

theorem dispatcher_bounds_calloc (dir : Option String) :
    dispatcher_bounds { config_calloc with dir := dir } := by
  refine ⟨le_refl _, le_refl _, le_refl _, le_refl _, le_refl _, ?_, ?_, ?_⟩ <;>
    exact ⟨le_refl _, zero_le_one⟩

/-- A run of the dispatcher keeps the bounds and the recorded directory. -/
theorem dispatch_bounds (E : Ext) (ds : List (String × List String)) :
    ∀ (c : mwc_config) (g : process_state) (r : mwc_config × process_state),
      dispatch E c g ds = some r → dispatcher_bounds c →
      dispatcher_bounds r.1 ∧ r.1.dir = c.dir := by
  induction ds with
  | nil =>
    intro c g r h hb
    simp only [dispatch, Option.some.injEq] at h
    subst h
    exact ⟨hb, rfl⟩
  | cons d rest ih =>
    intro c g r h hb
    obtain ⟨keyword, args⟩ := d
    simp only [dispatch] at h
    cases hv : config_handle_value E c g keyword args with
    | none => simp [hv] at h
    | some r1 =>
      simp only [hv] at h
      obtain ⟨hb1, hd1⟩ := config_handle_value_bounds E c g keyword args r1 hv hb
      obtain ⟨hb2, hd2⟩ := ih r1.c r1.g r h hb1
      exact ⟨hb2, hd2.trans hd1⟩

/-- The loop of `config_load` is a run of the dispatcher on the directives
of the lines. -/
theorem config_load_lines_dispatch (E : Ext) (lines : List (List Char)) :
    ∀ (c : mwc_config) (g : process_state) (r : mwc_config × process_state),
      config_load_lines E c g lines = some r →
      dispatch E c g (line_directives E.STRING_INITIAL_LENGTH lines) = some r := by
  induction lines with
  | nil =>
    intro c g r h
    simpa [config_load_lines, line_directives, dispatch] using h
  | cons line rest ih =>
    intro c g r h
    simp only [config_load_lines] at h
    cases hl : config_handle_line E.STRING_INITIAL_LENGTH line with
    | undefined => simp [hl] at h
    | skip =>
      simp only [hl] at h
      have := ih c g r h
      simpa [line_directives, hl] using this
    | no_args =>
      simp only [hl] at h
      have := ih c g r h
      simpa [line_directives, hl] using this
    | directive keyword args =>
      simp only [hl] at h
      cases hv : config_handle_value E c g keyword args with
      | none => simp [hv] at h
      | some r1 =>
        simp only [hv] at h
        have := ih r1.c r1.g r h
        simpa [line_directives, hl, dispatch, hv] using this

/-- Every snapshot `config_load` returns is the finalization of a snapshot
the dispatcher built from a zero-initialised one, in which at most the
directory is set. -/
theorem config_load_dispatch (E : Ext) (fs : file_system) (g : process_state)
    (c1 : mwc_config) (g1 : process_state)
    (h : config_load E fs g = some ⟨some c1, g1⟩) :
    ∃ dir ds c, dispatch E { config_calloc with dir := dir } g ds = some (c, g1)
      ∧ c1 = config_set_default_needed_params E c := by
  unfold config_load at h
  cases ho : config_open fs g with
  | none => simp [ho] at h
  | some o =>
    cases o with
    | none => simp [ho] at h
    | some cf =>
      obtain ⟨c0, file⟩ := cf
      simp only [ho] at h
      cases hl : config_load_lines E c0 g file with
      | none => simp [hl] at h
      | some r =>
        simp only [hl, Option.some.injEq, loaded.mk.injEq] at h
        obtain ⟨hc, hg⟩ := h
        have hd := config_load_lines_dispatch E file c0 g r hl
        have hc0 : ∃ dir, c0 = { config_calloc with dir := dir } := by
          unfold config_open at ho
          cases hp : get_config_path g 1024 with
          | none =>
            simp only [hp] at ho
            cases hdp : get_default_config_path g 1024 with
            | none => simp [hdp] at ho
            | some p =>
              cases hfp : fs p with
              | none => simp [hdp, hfp] at ho
              | some f0 =>
                simp only [hdp, hfp, Option.map_some', Option.some.injEq, Prod.mk.injEq] at ho
                exact ⟨none, ho.1.symm⟩
          | some path =>
            simp only [hp] at ho
            cases hfp : fs path with
            | none =>
              simp only [hfp] at ho
              cases hdp : get_default_config_path g 1024 with
              | none => simp [hdp] at ho
              | some p =>
                cases hfp2 : fs p with
                | none => simp [hdp, hfp2] at ho
                | some f0 =>
                  simp only [hdp, hfp2, Option.map_some', Option.some.injEq,
                    Prod.mk.injEq] at ho
                  exact ⟨none, ho.1.symm⟩
            | some f0 =>
              simp only [hfp] at ho
              cases hpd : path_dir path with
              | none => simp [hpd] at ho
              | some d =>
                simp only [hpd, Option.map_some', Option.some.injEq, Prod.mk.injEq] at ho
                exact ⟨some d, ho.1.symm⟩
        obtain ⟨dir, rfl⟩ := hc0
        refine ⟨dir, line_directives E.STRING_INITIAL_LENGTH file, r.1, ?_, hc.symm⟩
        rw [hd, ← hg]

/-- The directives that configure a field as `0`: the four sizes store 0,
`master_count 0` stores 1, and the ratio and the opacities store 0 when
`atof` returns 0. -/
theorem zero_directive_stored (E : Ext) (c : mwc_config) (g : process_state) (a : String)
    (rest : List String) :
    config_handle_value E c g "keyboard_rate" ("0" :: rest)
        = some ⟨true, { c with keyboard_rate := 0 }, g⟩
    ∧ config_handle_value E c g "keyboard_delay" ("0" :: rest)
        = some ⟨true, { c with keyboard_delay := 0 }, g⟩
    ∧ config_handle_value E c g "cursor_size" ("0" :: rest)
        = some ⟨true, { c with cursor_size := 0 }, g⟩
    ∧ config_handle_value E c g "min_toplevel_size" ("0" :: rest)
        = some ⟨true, { c with min_toplevel_size := 0 }, g⟩
    ∧ config_handle_value E c g "master_count" ("0" :: rest)
        = some ⟨true, { c with master_count := 1 }, g⟩
    ∧ (E.atof a = CDouble.fin 0 →
        config_handle_value E c g "master_ratio" (a :: rest)
          = some ⟨true, { c with master_ratio := CDouble.fin 0 }, g⟩
        ∧ config_handle_value E c g "inactive_opacity" (a :: rest)
          = some ⟨true, { c with inactive_opacity := CDouble.fin 0 }, g⟩
        ∧ config_handle_value E c g "active_opacity" (a :: rest)
          = some ⟨true, { c with active_opacity := CDouble.fin 0 }, g⟩) := by
  have h0 : clamp (atoi "0") 0 INT_MAX = 0 := by decide
  have h1 : clamp (atoi "0") 1 INT_MAX = 1 := by decide
  refine ⟨?_, ?_, ?_, ?_, ?_, ?_⟩
  · simp [config_handle_value, h0]
  · simp [config_handle_value, h0]
  · simp [config_handle_value, h0]
  · simp [config_handle_value, h0]
  · simp [config_handle_value, h1]
  · intro ha
    have hc : CDouble.clamp (CDouble.fin 0) (CDouble.fin 0) (CDouble.fin 1) = CDouble.fin 0 := by
      simp [CDouble.clamp, CDouble.max, CDouble.min, CDouble.lt]
    have hc2 : CDouble.clamp (CDouble.fin 0) (CDouble.ofInt 0) (CDouble.ofInt 1)
        = CDouble.fin 0 := by
      simp [CDouble.clamp, CDouble.max, CDouble.min, CDouble.lt, CDouble.ofInt]
    refine ⟨?_, ?_, ?_⟩
    · simp [config_handle_value, ha, hc2]
    · simp [config_handle_value, ha, hc]
    · simp [config_handle_value, ha, hc]

/-- C31: for every snapshot `c` built by the dispatcher from a
zero-initialised snapshot (in which `config_load` has set at most the
directory), the finalized snapshot `f = config_set_default_needed_params c`
has `keyboard_rate`, `keyboard_delay`, `cursor_size`, `min_toplevel_size`
and `master_count` at least 1, has `master_ratio`, `active_opacity` and
`inactive_opacity` finite and in `(0, 1]`, and has a non-zero
`border_radius_location`; a field that was non-zero before finalization is
unchanged; and a field that was 0, as after a directive that configures it
as 0, holds its default: 150, 50, 24, 10, 1, `master_count / (master_count
+ 1)` computed from the completed `master_count`, 1.0, 1.0 and
`CORNER_LOCATION_ALL`. -/
theorem finalization_bounds (E : Ext) (dir : Option String) (g : process_state)
    (ds : List (String × List String)) (c : mwc_config) (g1 : process_state) (f : mwc_config)
    (h : dispatch E { config_calloc with dir := dir } g ds = some (c, g1))
    (hf : f = config_set_default_needed_params E c) :
    (1 ≤ f.keyboard_rate ∧ 1 ≤ f.keyboard_delay ∧ 1 ≤ f.cursor_size
      ∧ 1 ≤ f.min_toplevel_size ∧ 1 ≤ f.master_count)
    ∧ (CDouble.in_unit f.master_ratio ∧ CDouble.in_unit f.active_opacity
      ∧ CDouble.in_unit f.inactive_opacity)
    ∧ f.border_radius_location ≠ 0
    ∧ ((c.keyboard_rate ≠ 0 → f.keyboard_rate = c.keyboard_rate)
      ∧ (c.keyboard_delay ≠ 0 → f.keyboard_delay = c.keyboard_delay)
      ∧ (c.cursor_size ≠ 0 → f.cursor_size = c.cursor_size)
      ∧ (c.min_toplevel_size ≠ 0 → f.min_toplevel_size = c.min_toplevel_size)
      ∧ (c.master_count ≠ 0 → f.master_count = c.master_count)
      ∧ (c.master_ratio ≠ CDouble.fin 0 → f.master_ratio = c.master_ratio)
      ∧ (c.active_opacity ≠ CDouble.fin 0 → f.active_opacity = c.active_opacity)
      ∧ (c.inactive_opacity ≠ CDouble.fin 0 → f.inactive_opacity = c.inactive_opacity)
      ∧ (c.border_radius_location ≠ 0 →
          f.border_radius_location = c.border_radius_location))
    ∧ ((c.keyboard_rate = 0 → f.keyboard_rate = 150)
      ∧ (c.keyboard_delay = 0 → f.keyboard_delay = 50)
      ∧ (c.cursor_size = 0 → f.cursor_size = 24)
      ∧ (c.min_toplevel_size = 0 → f.min_toplevel_size = 10)
      ∧ (c.master_count = 0 → f.master_count = 1)
      ∧ (c.master_ratio = CDouble.fin 0 →
          f.master_ratio = CDouble.ofInt f.master_count / CDouble.ofInt (f.master_count + 1)
          ∧ f.master_ratio
            = CDouble.fin ((f.master_count : ℚ) / ((f.master_count : ℚ) + 1)))
      ∧ (c.active_opacity = CDouble.fin 0 → f.active_opacity = CDouble.fin 1)
      ∧ (c.inactive_opacity = CDouble.fin 0 → f.inactive_opacity = CDouble.fin 1)
      ∧ (c.border_radius_location = 0 → f.border_radius_location = CORNER_LOCATION_ALL)) := by
  obtain ⟨⟨b1, b2, b3, b4, b5, b6, b7, b8⟩, -⟩ :=
    dispatch_bounds E ds _ g (c, g1) h (dispatcher_bounds_calloc dir)
  obtain ⟨-, f1, f2, f3, f4, f5, f6, f7, f8, f9⟩ :=
    config_set_default_needed_params_fields E c f hf
  simp only at b1 b2 b3 b4 b5 b6 b7 b8
  have hint : ∀ (x d : Int), 0 ≤ x → 1 ≤ d → 1 ≤ (if x = 0 then d else x) := by
    intro x d hx hd
    split_ifs with h0
    · exact hd
    · omega
  have hmc : 1 ≤ f.master_count := by
    rw [f5]; exact hint _ 1 b5 (le_refl _)
  have hdiv : CDouble.ofInt f.master_count / CDouble.ofInt (f.master_count + 1)
      = CDouble.fin ((f.master_count : ℚ) / ((f.master_count : ℚ) + 1)) := by
    have hne : ((f.master_count : ℚ) + 1) ≠ 0 := by
      have : (1 : ℚ) ≤ (f.master_count : ℚ) := by exact_mod_cast hmc
      linarith
    simp only [CDouble.ofInt, Int.cast_add, Int.cast_one]
    exact CDouble.fin_div _ _ hne
  have hratio : CDouble.in_unit
      (CDouble.fin ((f.master_count : ℚ) / ((f.master_count : ℚ) + 1))) := by
    have h1 : (1 : ℚ) ≤ (f.master_count : ℚ) := by exact_mod_cast hmc
    have hpos : (0 : ℚ) < (f.master_count : ℚ) + 1 := by linarith
    constructor
    · apply div_pos <;> linarith
    · rw [div_le_one hpos]; linarith
  have hdbl : ∀ (x d : CDouble), CDouble.within 0 1 x → CDouble.in_unit d →
      CDouble.in_unit (if CDouble.eq x (CDouble.fin 0) = true then d else x) := by
    intro x d hx hd
    split_ifs with h0
    · exact hd
    · exact CDouble.in_unit_of_within x hx (fun e => h0 ((CDouble.eq_zero_iff x).mpr e))
  have hone : CDouble.in_unit (CDouble.fin 1) := ⟨zero_lt_one, le_refl _⟩
  refine ⟨⟨?_, ?_, ?_, ?_, hmc⟩, ⟨?_, ?_, ?_⟩, ?_, ?_, ?_⟩
  · rw [f1]; exact hint _ _ b1 (by decide)
  · rw [f2]; exact hint _ _ b2 (by decide)
  · rw [f3]; exact hint _ _ b3 (by decide)
  · rw [f4]; exact hint _ _ b4 (by decide)
  · rw [f6, hdiv]; exact hdbl _ _ b6 hratio
  · rw [f8]; exact hdbl _ _ b8 hone
  · rw [f7]; exact hdbl _ _ b7 hone
  · rw [f9]
    split_ifs with h0
    · decide
    · exact h0
  · refine ⟨?_, ?_, ?_, ?_, ?_, ?_, ?_, ?_, ?_⟩
    · intro h0; rw [f1, if_neg h0]
    · intro h0; rw [f2, if_neg h0]
    · intro h0; rw [f3, if_neg h0]
    · intro h0; rw [f4, if_neg h0]
    · intro h0; rw [f5, if_neg h0]
    · intro h0; rw [f6, if_neg (fun e => h0 ((CDouble.eq_zero_iff _).mp e))]
    · intro h0; rw [f8, if_neg (fun e => h0 ((CDouble.eq_zero_iff _).mp e))]
    · intro h0; rw [f7, if_neg (fun e => h0 ((CDouble.eq_zero_iff _).mp e))]
    · intro h0; rw [f9, if_neg h0]
  · refine ⟨?_, ?_, ?_, ?_, ?_, ?_, ?_, ?_, ?_⟩
    · intro h0; rw [f1, if_pos h0]
    · intro h0; rw [f2, if_pos h0]
    · intro h0; rw [f3, if_pos h0]
    · intro h0; rw [f4, if_pos h0]
    · intro h0; rw [f5, if_pos h0]
    · intro h0
      have e : f.master_ratio
          = CDouble.ofInt f.master_count / CDouble.ofInt (f.master_count + 1) := by
        rw [f6, if_pos ((CDouble.eq_zero_iff _).mpr h0)]
      exact ⟨e, e.trans hdiv⟩
    · intro h0; rw [f8, if_pos ((CDouble.eq_zero_iff _).mpr h0)]
    · intro h0; rw [f7, if_pos ((CDouble.eq_zero_iff _).mpr h0)]
    · intro h0; rw [f9, if_pos h0]

/-- Witness for C31: after the directives `keyboard_rate 0`,
`keyboard_delay 7` and `master_count 3` the finalized snapshot has the
default rate 150, the configured delay 7 and every completed field in its
range. -/
theorem finalization_bounds_witness :
    dispatch sample_ext { config_calloc with dir := none } ⟨[], 0⟩
        [("keyboard_rate", ["0"]), ("keyboard_delay", ["7"]), ("master_count", ["3"])]
      = some ({ config_calloc with keyboard_delay := 7, master_count := 3 }, ⟨[], 0⟩)
    ∧ (config_set_default_needed_params sample_ext
        { config_calloc with keyboard_delay := 7, master_count := 3 }).keyboard_rate = 150
    ∧ (config_set_default_needed_params sample_ext
        { config_calloc with keyboard_delay := 7, master_count := 3 }).keyboard_delay = 7
    ∧ CDouble.in_unit (config_set_default_needed_params sample_ext
        { config_calloc with keyboard_delay := 7, master_count := 3 }).master_ratio :=
  have h := finalization_bounds sample_ext none ⟨[], 0⟩
    [("keyboard_rate", ["0"]), ("keyboard_delay", ["7"]), ("master_count", ["3"])]
    { config_calloc with keyboard_delay := 7, master_count := 3 } ⟨[], 0⟩ _ (by decide) rfl
  ⟨by decide, h.2.2.2.2.1 rfl, (h.2.2.2.1.2.1 (by decide)).trans rfl, h.2.1.1⟩

/-! ## The recorded directory -/

/-- The directory recorded when the file is opened is the directory of the
snapshot `config_load` returns: no directive and no default touches it. -/
theorem config_load_dir (E : Ext) (fs : file_system) (g : process_state)
    (dir : Option String) (file : List (List Char)) (l : loaded)
    (hopen : config_open fs g = some (some ({ config_calloc with dir := dir }, file)))
    (hload : config_load E fs g = some l) :
    ∃ c, l.c = some c ∧ c.dir = dir := by
  unfold config_load at hload
  simp only [hopen] at hload
  cases hl : config_load_lines E { config_calloc with dir := dir } g file with
  | none => simp [hl] at hload
  | some r =>
    simp only [hl, Option.some.injEq] at hload
    subst hload
    refine ⟨_, rfl, ?_⟩
    have hd := config_load_lines_dispatch E file _ g r hl
    have hb := (dispatch_bounds E _ _ g r hd (dispatcher_bounds_calloc dir)).2
    rw [(config_set_default_needed_params_fields E r.1 _ rfl).1, hb]

/-- Where the assertion does hold: for every environment in which the
primary configuration path fits the buffer of 1024 bytes, `MWC_CONFIG_PATH` is unset or holds a
value with a `/`, and the file at the path can be opened, the path contains
a `/`, so the assertion `last_slash != NULL` holds, and the directory
recorded in the snapshot is the path up to but excluding its last `/`; it
is still the directory of every snapshot `config_load` returns. -/
theorem config_load_last_slash (E : Ext) (fs : file_system) (g : process_state)
    (hfit : ∀ p, full_config_path g = some p → p.data.length < 1024)
    (henv : ∀ p, getenv g "MWC_CONFIG_PATH" = some p → '/' ∈ p.data)
    (p : String) (file : List (List Char))
    (hp : get_config_path g 1024 = some p) (hf : fs p = some file) :
    '/' ∈ p.data
    ∧ ∃ dir last, path_dir p = some dir
        ∧ p.data = dir.data ++ '/' :: last ∧ '/' ∉ last
        ∧ config_open fs g = some (some ({ config_calloc with dir := some dir }, file))
        ∧ (∀ l, config_load E fs g = some l → ∃ c, l.c = some c ∧ c.dir = some dir) := by
  have hs : '/' ∈ p.data := by
    rw [get_config_path_full g hfit] at hp
    unfold full_config_path at hp
    cases h0 : getenv g "MWC_CONFIG_PATH" with
    | some q =>
      simp only [h0, Option.some.injEq] at hp
      subst hp
      exact henv q h0
    | none =>
      cases h1 : getenv g "XDG_CONFIG_HOME" with
      | some h =>
        simp only [h0, h1, Option.some.injEq] at hp
        subst hp
        simp
      | none =>
        cases h2 : getenv g "HOME" with
        | some h =>
          simp only [h0, h1, h2, Option.some.injEq] at hp
          subst hp
          simp
        | none => simp [h0, h1, h2] at hp
  obtain ⟨last, hl, hlast⟩ := path_dir_split p.data hs
  have hpd : ∃ dir : String, path_dir p = some dir
      ∧ dir.data = ((p.data.reverse.dropWhile (fun ch => ch ≠ '/')).drop 1).reverse :=
    ⟨String.mk ((p.data.reverse.dropWhile (fun ch => ch ≠ '/')).drop 1).reverse,
      by simp only [path_dir, hs, if_true], rfl⟩
  obtain ⟨dir, hpd, hdd⟩ := hpd
  rw [← hdd] at hl
  have hopen : config_open fs g
      = some (some ({ config_calloc with dir := some dir }, file)) := by
    unfold config_open
    simp only [hp, hf, hpd, Option.map_some']
  refine ⟨hs, dir, last, hpd, hl, hlast, hopen, ?_⟩
  intro l hload
  exact config_load_dir E fs g _ file l hopen hload

/-- Example: in the sample session `HOME=/home/u` is the only
variable set, the path is `/home/u/.config/mwc/mwc.conf`, and the directory
recorded is `/home/u/.config/mwc`. -/
theorem config_load_last_slash_witness :
    '/' ∈ "/home/u/.config/mwc/mwc.conf".data
      ∧ path_dir "/home/u/.config/mwc/mwc.conf" = some "/home/u/.config/mwc" :=
  ⟨(config_load_last_slash sample_ext (fun _ => some []) sample_server.proc
      (by
        intro p hp
        have e : full_config_path sample_server.proc = some "/home/u/.config/mwc/mwc.conf" := by
          decide
        rw [e] at hp
        cases hp
        decide)
      (by
        intro p hp
        have e : getenv sample_server.proc "MWC_CONFIG_PATH" = none := by decide
        rw [e] at hp
        cases hp)
      "/home/u/.config/mwc/mwc.conf" [] (by decide) rfl).1,
    by decide⟩
end Zwm
